import Mathlib

/-!
# Heap-graph snapshot encoder (`src/snapshot/serializer.cc`)

A shallow embedding of `v8::internal::Serializer` and its nested
`ObjectSerializer`.  Member functions become state-passing functions on the
record `Serializer`; the mutually recursive graph walk carries a fuel argument.
Members are named as in the C++ source.

Conventions.
* C++ `int` counters are `Int` (signed overflow is undefined behaviour in the
  source, so no wrap-around is modelled).
* The byte sink is kept as the list of `Put` / `PutInt` / `PutRaw` calls made on
  it: the numeric opcode values and the variable-length integer encoding live in
  headers that are not part of the sources at hand.
* `DCHECK`s are debug-only and do not change behaviour; `CHECK` and
  `UNREACHABLE` abort the run (`Result.fatal`).
-/

namespace V8Snapshot

/-! ## Data model -/

/-- Identity of a heap object, stable for one run. -/
abbrev HeapObject := Nat

/-- Destination partition of a serialized object. -/
inductive SnapshotSpace
  | kReadOnlyHeap
  | kOld
  | kCode
  | kMap
  | kLargeObject
  deriving DecidableEq, Repr

/-- Key of `reference_map_` (a `void*` in the source): either the address of a
heap object or the address of an off-heap backing store. The two address ranges
never overlap, which the two constructors express. -/
inductive RefKey
  | object (obj : HeapObject)
  | backingStore (address : Nat)
  deriving DecidableEq, Repr

/-- Modelled from the spec: `SerializerReference` (declared in a header that is
absent), the Location of an allocated node: a partition and a partition-specific
position, an attached reference, or an off-heap backing-store index.  `invalid`
is what `LookupReference` returns for an unknown key. -/
inductive SerializerReference
  | invalid
  | backReference (space : SnapshotSpace) (chunk_index chunk_offset : Nat)
  | mapReference (map_index : Nat)
  | largeObjectReference (large_object_index : Nat)
  | attachedReference (attached_reference_index : Nat)
  | offHeapBackingStore (off_heap_backing_store_index : Nat)
  deriving DecidableEq, Repr

/-- The test `reference.is_valid()`. -/
def SerializerReference.is_valid : SerializerReference → Bool
  | .invalid => false
  | _ => true

/-- The test `reference.is_attached_reference()`. -/
def SerializerReference.is_attached_reference : SerializerReference → Bool
  | .attachedReference _ => true
  | _ => false

/-- The partition named by a back reference (`reference.space()`). -/
def SerializerReference.space : SerializerReference → SnapshotSpace
  | .backReference sp _ _ => sp
  | .mapReference _ => .kMap
  | .largeObjectReference _ => .kLargeObject
  | _ => .kOld

/-- Opcodes written with `sink_.Put`.  An opcode family `X::Encode(arg)` is a
constructor carrying `arg`. -/
inductive Bytecode
  | kNewObject (space : SnapshotSpace)
  | kBackref (space : SnapshotSpace)
  | kNewMetaMap
  | kRootArray
  | kRootArrayConstants (root_index : Nat)
  | kHotObject (index : Nat)
  | kAttachedReference
  | kAlignmentPrefix (alignment : Nat)
  | kNextChunk
  | kRegisterPendingForwardRef
  | kResolvePendingForwardRef
  | kSynchronize
  | kNop
  | kClearedWeakReference
  | kWeakPrefix
  | kFixedRepeat (repeat_count : Nat)
  | kVariableRepeat
  | kFixedRawData (size_in_tagged : Nat)
  | kVariableRawData
  | kVariableRawCode
  | kOffHeapBackingStore
  | kApiReference
  | kSandboxedApiReference
  | kExternalReference
  | kSandboxedExternalReference
  | kInternalReference
  | kOffHeapTarget
  deriving DecidableEq, Repr

/-- One call on the `SnapshotByteSink`. -/
inductive SinkEntry
  | Put (b : Bytecode)
  | PutByte (b : Nat)
  | PutInt (v : Int)
  | PutRaw (data : List Nat)
  deriving DecidableEq, Repr

/-- Modelled from the spec: `HotObjectsList` (declared in an absent header), the
bounded recency cache of recently emitted identities: a circular buffer of
`kHotObjectCount` cells. -/
structure HotObjectsList where
  circular_queue_ : List (Option HeapObject)
  index_ : Nat
  deriving DecidableEq, Repr

/-- Modelled from the spec: `SerializerAllocator` (its source file is absent),
issuing Locations: one bump offset per chunked partition, one running index for
the map table, the large-object table and the off-heap backing stores. -/
structure SerializerAllocator where
  offset_read_only : Nat
  offset_old : Nat
  offset_code : Nat
  num_maps_ : Nat
  seen_large_objects_index_ : Nat
  seen_backing_stores_index_ : Nat
  deriving DecidableEq, Repr

/-- The mutable members of `Serializer`. -/
structure Serializer where
  sink_ : List SinkEntry
  reference_map_ : List (RefKey × SerializerReference)
  forward_refs_per_pending_object_ : List (HeapObject × List Int)
  unresolved_forward_refs_ : Int
  next_forward_ref_id_ : Int
  deferred_objects_ : List HeapObject
  hot_objects_ : HotObjectsList
  recursion_depth_ : Nat
  allocator_ : SerializerAllocator
  deriving DecidableEq, Repr

/-! ## Sink and table primitives -/

/-- The call `sink_.Put(b, ...)`. -/
def Serializer.Put (s : Serializer) (b : Bytecode) : Serializer :=
  { s with sink_ := s.sink_ ++ [SinkEntry.Put b] }

/-- The call `sink_.Put(byte, ...)` with a literal data byte. -/
def Serializer.PutByte (s : Serializer) (b : Nat) : Serializer :=
  { s with sink_ := s.sink_ ++ [SinkEntry.PutByte b] }

/-- The call `sink_.PutInt(v, ...)`. -/
def Serializer.PutInt (s : Serializer) (v : Int) : Serializer :=
  { s with sink_ := s.sink_ ++ [SinkEntry.PutInt v] }

/-- The call `sink_.PutRaw(data, n, ...)`. -/
def Serializer.PutRaw (s : Serializer) (data : List Nat) : Serializer :=
  { s with sink_ := s.sink_ ++ [SinkEntry.PutRaw data] }

/-- The lookup `forward_refs_per_pending_object_.find(obj)`. -/
def Serializer.findPending (s : Serializer) (obj : HeapObject) : Option (List Int) :=
  s.forward_refs_per_pending_object_.lookup obj

/-- The keys of `forward_refs_per_pending_object_`. -/
def Serializer.pendingKeys (s : Serializer) : List HeapObject :=
  s.forward_refs_per_pending_object_.map Prod.fst

/-- The call `reference->second.push_back(id)` on the entry of `obj`. -/
def pushBackId (obj : HeapObject) (id : Int) :
    List (HeapObject × List Int) → List (HeapObject × List Int)
  | [] => []
  | (k, ids) :: rest =>
    if k = obj then (k, ids ++ [id]) :: rest else (k, ids) :: pushBackId obj id rest

/-- The call `forward_refs_per_pending_object_.erase(ref)` for the entry of `obj`. -/
def eraseEntry (obj : HeapObject) (t : List (HeapObject × List Int)) :
    List (HeapObject × List Int) :=
  t.filter (fun e => e.1 ≠ obj)

/-- The lookup `reference_map_.LookupReference(key)`. -/
def Serializer.LookupReference (s : Serializer) (key : RefKey) : SerializerReference :=
  (s.reference_map_.lookup key).getD SerializerReference.invalid

/-- The call `reference_map_.Add(key, reference)`: afterwards a lookup of `key`
finds `reference`. -/
def Serializer.AddReference (s : Serializer) (key : RefKey) (r : SerializerReference) :
    Serializer :=
  { s with reference_map_ := (key, r) :: s.reference_map_ }

/-- State of a freshly constructed `Serializer`. -/
def Serializer.initial (kHotObjectCount : Nat) : Serializer :=
  { sink_ := []
    reference_map_ := []
    forward_refs_per_pending_object_ := []
    unresolved_forward_refs_ := 0
    next_forward_ref_id_ := 0
    deferred_objects_ := []
    hot_objects_ := { circular_queue_ := List.replicate kHotObjectCount none, index_ := 0 }
    recursion_depth_ := 0
    allocator_ := { offset_read_only := 0, offset_old := 0, offset_code := 0,
                    num_maps_ := 0, seen_large_objects_index_ := 0,
                    seen_backing_stores_index_ := 0 } }

/-! ## Forward references (`serializer.cc` lines 278-320) -/

/-- `Serializer::PutPendingForwardReferenceTo`; the iterator argument is given by
the key of the entry it points to. -/
def PutPendingForwardReferenceTo (s : Serializer) (reference : HeapObject) : Serializer :=
  let s1 := s.Put Bytecode.kRegisterPendingForwardRef
  let forward_ref_id := s1.next_forward_ref_id_
  { s1 with
    unresolved_forward_refs_ := s1.unresolved_forward_refs_ + 1
    next_forward_ref_id_ := s1.next_forward_ref_id_ + 1
    forward_refs_per_pending_object_ :=
      pushBackId reference forward_ref_id s1.forward_refs_per_pending_object_ }

/-- `Serializer::ResolvePendingForwardReference`. -/
def ResolvePendingForwardReference (s : Serializer) (forward_reference_id : Int) :
    Serializer :=
  let s1 := (s.Put Bytecode.kResolvePendingForwardRef).PutInt forward_reference_id
  let s2 := { s1 with unresolved_forward_refs_ := s1.unresolved_forward_refs_ - 1 }
  if s2.unresolved_forward_refs_ = 0 then { s2 with next_forward_ref_id_ := 0 } else s2

/-- `Serializer::RegisterObjectIsPending`: `emplace` adds an empty entry only when
the key is absent. -/
def RegisterObjectIsPending (s : Serializer) (obj : HeapObject) : Serializer :=
  match s.findPending obj with
  | some _ => s
  | none =>
    { s with forward_refs_per_pending_object_ :=
        s.forward_refs_per_pending_object_ ++ [(obj, [])] }

/-- `Serializer::ResolvePendingObject`; the iterator argument is given by the key
of the entry it points to. -/
def ResolvePendingObject (s : Serializer) (ref : HeapObject) : Serializer :=
  let ids := (s.findPending ref).getD []
  let s1 := ids.foldl ResolvePendingForwardReference s
  { s1 with forward_refs_per_pending_object_ :=
      eraseEntry ref s1.forward_refs_per_pending_object_ }

/-- `Serializer::SerializePendingObject`. -/
def SerializePendingObject (s : Serializer) (obj : HeapObject) : Bool × Serializer :=
  match s.findPending obj with
  | none => (false, s)
  | some _ => (true, PutPendingForwardReferenceTo s obj)

/-- `Serializer::QueueDeferredObject` (declared in the absent header): the object is
pushed onto the back of `deferred_objects_`, from where `SerializeDeferredObjects`
pops. -/
def QueueDeferredObject (s : Serializer) (obj : HeapObject) : Serializer :=
  { s with deferred_objects_ := s.deferred_objects_ ++ [obj] }

/-! ## Constants, heap metadata and collaborators -/

/-- Compile-time constants and flags that the source takes from headers. -/
structure Config where
  kMaxRecursionDepth : Nat
  kTaggedSize : Nat
  kTaggedSizeLog2 : Nat
  kObjectAlignment : Nat
  kObjectAlignmentBits : Nat
  kFixedRawDataCount : Nat
  kLastEncodableFixedRepeatCount : Nat
  kFirstEncodableVariableRepeatCount : Nat
  kRootArrayConstantsCount : Nat
  kHotObjectCount : Nat
  kMaxRegularHeapObjectSize : Nat
  kAlignmentPrefix : Nat
  kHeapObjectHeaderSize : Nat
  kSeqStringHeaderSize : Nat
  kBytecodeAgeOffset : Nat
  kNoAgeBytecodeAge : Nat
  kRawNumberOfMarkedDescriptorsOffset : Nat
  kCodeDataStart : Nat
  kExternalPointerSize : Nat
  kSystemPointerSize : Nat
  kResourceOffset : Nat
  kBackingStoreOffset : Nat
  kExtensionOffset : Nat
  kNullRefSentinel : Nat
  V8_ENABLE_THIRD_PARTY_HEAP_BOOL : Bool
  V8_HEAP_SANDBOX_BOOL : Bool
  allow_unknown_external_references_for_testing : Bool

/-- Owner space of a memory chunk (`AllocationSpace`). -/
inductive AllocationSpace
  | RO_SPACE
  | NEW_SPACE
  | OLD_SPACE
  | CODE_SPACE
  | MAP_SPACE
  | LO_SPACE
  | CODE_LO_SPACE
  | NEW_LO_SPACE
  deriving DecidableEq, Repr

/-- A tagged slot value (`MaybeObject`). -/
inductive MaybeObject
  | Smi (value : Int)
  | Cleared
  | Strong (target : HeapObject)
  | Weak (target : HeapObject)
  deriving DecidableEq, Repr

/-- One callback that `IterateBody` makes on the `ObjectVisitor`. -/
inductive BodyVisit
  | VisitPointers (start_offset : Nat) (slots : List MaybeObject)
  | VisitEmbeddedPointer (target : HeapObject) (target_address_size : Nat)
  | VisitForeignExternalReference (foreign_address : Nat)
  | VisitCodeExternalReference (target : Nat) (target_address_size : Nat)
  | VisitInternalReference (target_offset : Nat)
  | VisitRuntimeEntry
  | VisitOffHeapTarget (addr : Nat) (target_address_size : Nat)
  | VisitCodeTarget (target : HeapObject) (target_address_size : Nat)
  deriving DecidableEq, Repr

/-- What `ExternalReferenceEncoder::TryEncode` yields for a known address. -/
structure ExternalReferenceValue where
  index : Nat
  is_from_api : Bool
  deriving DecidableEq, Repr

/-- Fields of an `ExternalString` that the serializer reads. -/
structure ExternalStringInfo where
  resource_as_address : Nat
  IsExternalOneByteString : Bool
  IsInternalizedString : Bool
  length : Nat
  resource_data : List Nat
  deriving DecidableEq, Repr

/-- Fields of a `JSTypedArray` that the serializer reads; `backing_store` is
`DataPtr() - byte_offset()`. -/
structure JSTypedArrayInfo where
  is_on_heap : Bool
  WasDetached : Bool
  buffer_byte_length : Nat
  backing_store : Nat
  deriving DecidableEq, Repr

/-- Fields of a `JSArrayBuffer` that the serializer reads; a `backing_store` of
`none` and an `extension` of 0 are `nullptr`. -/
structure JSArrayBufferInfo where
  backing_store : Option Nat
  byte_length : Nat
  extension : Nat
  deriving DecidableEq, Repr

/-- The instance-type tests that decide control flow in the serializer. -/
inductive InstanceKind
  | other
  | code
  | bytecodeArray
  | descriptorArray
  | externalString (info : ExternalStringInfo)
  | jsTypedArray (info : JSTypedArrayInfo)
  | jsArrayBuffer (info : JSArrayBufferInfo)
  deriving DecidableEq, Repr

/-- The quiescent object graph and the heap-metadata queries and collaborators the
serializer consults.  `body obj` is the callback sequence `IterateBody` makes
for `obj` at the time its content is visited (that is, after the preparatory
field writes of `Serialize` and inside `UnlinkWeakNextScope`); `byteAt obj i` is
the byte at offset `i` of `obj`.  The writes of the resource field of an
external string and of the backing-store and extension fields of an array
buffer, made around the encoding of the object and undone after it, are writes
to `byteAt` (`Heap.WriteField`). -/
structure Heap where
  map : HeapObject → HeapObject
  Size : HeapObject → Nat
  kind : HeapObject → InstanceKind
  IsMap : HeapObject → Bool
  body : HeapObject → List BodyVisit
  byteAt : HeapObject → Nat → Nat
  CanBeDeferred : HeapObject → Bool
  root_index_map : HeapObject → Option Nat
  IsImmortalImmovable : Nat → Bool
  InYoungGeneration : HeapObject → Bool
  ReadOnlyHeapContains : HeapObject → Bool
  InCodeSpace : HeapObject → Bool
  owner_identity : HeapObject → AllocationSpace
  RequiredAlignment : HeapObject → Nat
  GetMaximumFillToAlign : Nat → Nat
  TryEncode : Nat → Option ExternalReferenceValue
  offHeapByteAt : Nat → Nat
  IsIsolateIndependentBuiltin : Nat → Option Nat
  one_byte_internalized_string_map : HeapObject
  one_byte_string_map : HeapObject
  internalized_string_map : HeapObject
  string_map : HeapObject

/-- Outcome of a member function that may abort the run. `outOfFuel` is not a
behaviour of the source: it marks a walk cut short by the fuel bound. -/
inductive Result (α : Type)
  | ok (a : α)
  | fatal
  | outOfFuel
  deriving DecidableEq, Repr

/-- Sequencing of fallible steps. -/
def Result.bind {α β : Type} (x : Result α) (f : α → Result β) : Result β :=
  match x with
  | .ok a => f a
  | .fatal => .fatal
  | .outOfFuel => .outOfFuel

instance : Monad Result where
  pure := Result.ok
  bind := Result.bind

/-- The members of `Serializer::ObjectSerializer` that change while it runs. -/
structure ObjectSerializer where
  object_ : HeapObject
  bytes_processed_so_far_ : Int
  deriving DecidableEq, Repr

/-- The `byte_length` bytes that `PutRaw(static_cast<byte*>(backing_store),
byte_length)` reads: the off-heap memory `[backing_store, backing_store +
byte_length)`. -/
def Heap.backingStoreBytes (h : Heap) (backing_store byte_length : Nat) : List Nat :=
  (List.range byte_length).map (fun i => h.offHeapByteAt (backing_store + i))

/-- Raw bytes `[start, start + n)` of an object. -/
def Heap.ReadBytes (h : Heap) (obj : HeapObject) (start n : Nat) : List Nat :=
  (List.range n).map (fun i => h.byteAt obj (start + i))

/-! ## Hot objects and allocator -/

/-- Modelled from the spec: `HotObjectsList::Find`, the index of the first cell
holding `obj`, if any. -/
def HotObjectsList.Find (l : HotObjectsList) (obj : HeapObject) : Option Nat :=
  let i := l.circular_queue_.indexOf (some obj)
  if i < l.circular_queue_.length then some i else none

/-- Modelled from the spec: `HotObjectsList::Add`, overwriting the oldest cell. -/
def HotObjectsList.Add (l : HotObjectsList) (obj : HeapObject) : HotObjectsList :=
  { circular_queue_ := l.circular_queue_.set l.index_ (some obj)
    index_ := (l.index_ + 1) % l.circular_queue_.length }

/-- Modelled from the spec: `SerializerAllocator::Allocate(space, size)`, a bump
allocation inside the partition. -/
def SerializerAllocator.Allocate (a : SerializerAllocator) (space : SnapshotSpace)
    (size : Nat) : SerializerReference × SerializerAllocator :=
  match space with
  | .kReadOnlyHeap =>
    (.backReference space 0 a.offset_read_only,
      { a with offset_read_only := a.offset_read_only + size })
  | .kCode =>
    (.backReference space 0 a.offset_code, { a with offset_code := a.offset_code + size })
  | _ =>
    (.backReference space 0 a.offset_old, { a with offset_old := a.offset_old + size })

/-- Modelled from the spec: `SerializerAllocator::AllocateMap`. -/
def SerializerAllocator.AllocateMap (a : SerializerAllocator) :
    SerializerReference × SerializerAllocator :=
  (.mapReference a.num_maps_, { a with num_maps_ := a.num_maps_ + 1 })

/-- Modelled from the spec: `SerializerAllocator::AllocateLargeObject`. -/
def SerializerAllocator.AllocateLargeObject (a : SerializerAllocator) :
    SerializerReference × SerializerAllocator :=
  (.largeObjectReference a.seen_large_objects_index_,
    { a with seen_large_objects_index_ := a.seen_large_objects_index_ + 1 })

/-- Modelled from the spec: `SerializerAllocator::AllocateOffHeapBackingStore`;
index 0 is the null sentinel, so indices start at 1. -/
def SerializerAllocator.AllocateOffHeapBackingStore (a : SerializerAllocator) :
    SerializerReference × SerializerAllocator :=
  (.offHeapBackingStore (a.seen_backing_stores_index_ + 1),
    { a with seen_backing_stores_index_ := a.seen_backing_stores_index_ + 1 })

/-! ## Reference records (`serializer.cc` lines 115-276) -/

/-- `Serializer::PutAlignmentPrefix`; alignment 0 is `kWordAligned`. Returns the
fill and the new state. -/
def PutAlignmentPrefix (c : Config) (h : Heap) (s : Serializer) (object : HeapObject) :
    Nat × Serializer :=
  let alignment := h.RequiredAlignment (h.map object)
  if alignment ≠ 0 then
    (h.GetMaximumFillToAlign alignment, s.PutByte ((c.kAlignmentPrefix - 1) + alignment))
  else (0, s)

/-- `Serializer::PutRoot`. -/
def PutRoot (c : Config) (h : Heap) (s : Serializer) (root : Nat) (object : HeapObject) :
    Serializer :=
  if root < c.kRootArrayConstantsCount ∧
      (c.V8_ENABLE_THIRD_PARTY_HEAP_BOOL = true ∨ h.InYoungGeneration object = false) then
    s.Put (Bytecode.kRootArrayConstants root)
  else
    let s1 := (s.Put Bytecode.kRootArray).PutInt root
    { s1 with hot_objects_ := s1.hot_objects_.Add object }

/-- `Serializer::SerializeRoot`. -/
def SerializeRoot (c : Config) (h : Heap) (s : Serializer) (obj : HeapObject) :
    Bool × Serializer :=
  match h.root_index_map obj with
  | some root_index => (true, PutRoot c h s root_index obj)
  | none => (false, s)

/-- `Serializer::SerializeHotObject`. -/
def SerializeHotObject (s : Serializer) (obj : HeapObject) : Bool × Serializer :=
  match s.hot_objects_.Find obj with
  | none => (false, s)
  | some index => (true, s.Put (Bytecode.kHotObject index))

/-- `Serializer::PutBackReference`. -/
def PutBackReference (s : Serializer) (object : HeapObject)
    (reference : SerializerReference) : Serializer :=
  let s1 :=
    match reference with
    | .mapReference map_index => s.PutInt map_index
    | .largeObjectReference large_object_index => s.PutInt large_object_index
    | .backReference _ chunk_index chunk_offset =>
      (s.PutInt chunk_index).PutInt chunk_offset
    | _ => s
  { s1 with hot_objects_ := s1.hot_objects_.Add object }

/-- `Serializer::PutAttachedReference`. -/
def PutAttachedReference (s : Serializer) (reference : SerializerReference) : Serializer :=
  match reference with
  | .attachedReference attached_reference_index =>
    (s.Put Bytecode.kAttachedReference).PutInt attached_reference_index
  | _ => s.Put Bytecode.kAttachedReference

/-- `Serializer::SerializeBackReference`. -/
def SerializeBackReference (c : Config) (h : Heap) (s : Serializer) (obj : HeapObject) :
    Bool × Serializer :=
  let reference := s.LookupReference (RefKey.object obj)
  if reference.is_valid = false then (false, s)
  else if reference.is_attached_reference then (true, PutAttachedReference s reference)
  else
    let s1 := (PutAlignmentPrefix c h s obj).2
    let space := reference.space
    let s2 := s1.Put (Bytecode.kBackref space)
    (true, PutBackReference s2 obj reference)

/-- `Serializer::PutRepeat`. -/
def PutRepeat (c : Config) (s : Serializer) (repeat_count : Nat) : Serializer :=
  if repeat_count ≤ c.kLastEncodableFixedRepeatCount then
    s.Put (Bytecode.kFixedRepeat repeat_count)
  else
    (s.Put Bytecode.kVariableRepeat).PutInt
      ((repeat_count : Int) - c.kFirstEncodableVariableRepeatCount)

/-- `Serializer::MustBeDeferred` of the base class. -/
def MustBeDeferred (_object : HeapObject) : Bool := false

/-! ## Raw data and off-heap payloads -/

/-- `OutputRawWithCustomField` of the anonymous namespace: the three (or one)
`PutRaw` calls, on the bytes of `object_start`. -/
def OutputRawWithCustomField (h : Heap) (s : Serializer) (object_start : HeapObject)
    (written_so_far bytes_to_write field_offset : Int) (field_size : Nat)
    (field_value : List Nat) : Serializer :=
  let offset := field_offset - written_so_far
  if 0 ≤ offset ∧ offset < bytes_to_write then
    let s1 := s.PutRaw (h.ReadBytes object_start written_so_far.toNat offset.toNat)
    let s2 := s1.PutRaw (field_value.take field_size)
    let written_so_far1 := written_so_far + (offset + field_size)
    let bytes_to_write1 := bytes_to_write - (offset + field_size)
    s2.PutRaw (h.ReadBytes object_start written_so_far1.toNat bytes_to_write1.toNat)
  else
    s.PutRaw (h.ReadBytes object_start written_so_far.toNat bytes_to_write.toNat)

/-- `ObjectSerializer::OutputRawData`; `up_to_offset` is `up_to - object_start`. -/
def ObjectSerializer.OutputRawData (c : Config) (h : Heap) (os : ObjectSerializer)
    (s : Serializer) (up_to_offset : Int) : ObjectSerializer × Serializer :=
  let base := os.bytes_processed_so_far_
  let to_skip := up_to_offset - os.bytes_processed_so_far_
  let bytes_to_output := to_skip
  let os1 := { os with bytes_processed_so_far_ := os.bytes_processed_so_far_ + to_skip }
  if bytes_to_output ≠ 0 then
    let s1 :=
      if bytes_to_output % c.kObjectAlignment = 0 ∧
          bytes_to_output ≤ c.kFixedRawDataCount * c.kTaggedSize then
        s.Put (Bytecode.kFixedRawData (bytes_to_output.toNat >>> c.kTaggedSizeLog2))
      else
        (s.Put Bytecode.kVariableRawData).PutInt bytes_to_output
    match h.kind os.object_ with
    | .bytecodeArray =>
      (os1, OutputRawWithCustomField h s1 os.object_ base bytes_to_output
        c.kBytecodeAgeOffset 1 [c.kNoAgeBytecodeAge])
    | .descriptorArray =>
      (os1, OutputRawWithCustomField h s1 os.object_ base bytes_to_output
        c.kRawNumberOfMarkedDescriptorsOffset 2 [0, 0])
    | _ => (os1, s1.PutRaw (h.ReadBytes os.object_ base.toNat bytes_to_output.toNat))
  else (os1, s)

/-- `ObjectSerializer::SerializeBackingStore`. -/
def SerializeBackingStore (h : Heap) (s : Serializer) (backing_store : Nat)
    (byte_length : Nat) : Nat × Serializer :=
  let reference := s.LookupReference (RefKey.backingStore backing_store)
  if reference.is_valid = false then
    let s1 := ((s.Put Bytecode.kOffHeapBackingStore).PutInt byte_length).PutRaw
      (h.backingStoreBytes backing_store byte_length)
    let (r, a) := s1.allocator_.AllocateOffHeapBackingStore
    let s2 := { s1 with allocator_ := a }
    let s3 := s2.AddReference (RefKey.backingStore backing_store) r
    (match r with | .offHeapBackingStore i => i | _ => 0, s3)
  else
    (match reference with | .offHeapBackingStore i => i | _ => 0, s)

/-- `ObjectSerializer::OutputExternalReference`. When unknown references are not
allowed, `EncodeExternalReference` aborts on an unknown address. -/
def ObjectSerializer.OutputExternalReference (c : Config) (h : Heap) (os : ObjectSerializer)
    (s : Serializer) (target : Nat) (target_size : Nat) (sandboxify : Bool) :
    Result (ObjectSerializer × Serializer) :=
  let os1 := { os with bytes_processed_so_far_ := os.bytes_processed_so_far_ + target_size }
  match h.TryEncode target with
  | none =>
    if c.allow_unknown_external_references_for_testing = false then .fatal
    else if target_size % c.kObjectAlignment ≠ 0 then .fatal
    else if ¬ target_size ≤ c.kFixedRawDataCount * c.kTaggedSize then .fatal
    else
      let size_in_tagged := target_size >>> c.kTaggedSizeLog2
      let s1 := s.Put (Bytecode.kFixedRawData size_in_tagged)
      .ok (os1, s1.PutRaw ((List.range target_size).map (fun i => (target >>> (8 * i)) % 256)))
  | some encoded_reference =>
    if encoded_reference.is_from_api then
      let s1 := if c.V8_HEAP_SANDBOX_BOOL && sandboxify
        then s.Put Bytecode.kSandboxedApiReference else s.Put Bytecode.kApiReference
      .ok (os1, s1.PutInt encoded_reference.index)
    else
      let s1 := if c.V8_HEAP_SANDBOX_BOOL && sandboxify
        then s.Put Bytecode.kSandboxedExternalReference else s.Put Bytecode.kExternalReference
      .ok (os1, s1.PutInt encoded_reference.index)

/-- The cast `static_cast<SnapshotSpace>(heap_space)`; the two young spaces and
`CODE_LO_SPACE` have no counterpart. -/
def SnapshotSpace.ofAllocationSpace : AllocationSpace → Option SnapshotSpace
  | .RO_SPACE => some .kReadOnlyHeap
  | .OLD_SPACE => some .kOld
  | .CODE_SPACE => some .kCode
  | .MAP_SPACE => some .kMap
  | .LO_SPACE => some .kLargeObject
  | _ => none

/-- `GetSnapshotSpace` of the anonymous namespace; `none` when the owner space
cannot be expressed by `SnapshotSpace`. -/
def GetSnapshotSpace (c : Config) (h : Heap) (object : HeapObject) : Option SnapshotSpace :=
  if c.V8_ENABLE_THIRD_PARTY_HEAP_BOOL then
    if h.InCodeSpace object then some .kCode
    else if h.ReadOnlyHeapContains object then some .kReadOnlyHeap
    else if h.Size object > c.kMaxRegularHeapObjectSize then some .kLargeObject
    else if h.IsMap object then some .kMap
    else some .kOld
  else if h.ReadOnlyHeapContains object then some .kReadOnlyHeap
  else
    match h.owner_identity object with
    | .NEW_SPACE => some .kOld
    | .NEW_LO_SPACE => some .kLargeObject
    | heap_space => SnapshotSpace.ofAllocationSpace heap_space

/-! ## Field writes on live objects -/

/-- Modelled from the spec: a raw field write through the absent object headers
(`WriteField`): the bytes of `obj` from `offset` on become `bytes`; every other
byte and all heap metadata stay as they are. -/
def Heap.WriteField (h : Heap) (obj : HeapObject) (offset : Nat) (bytes : List Nat) : Heap :=
  { h with
    byteAt := fun o i =>
      if o = obj ∧ offset ≤ i ∧ i < offset + bytes.length then bytes.getD (i - offset) 0
      else h.byteAt o i }

/-- The little-endian bytes of a field of `size` bytes that holds `value`. -/
def fieldBytes (size value : Nat) : List Nat :=
  (List.range size).map (fun i => (value >>> (8 * i)) % 256)

/-- The value that the little-endian bytes of a field stand for. -/
def fieldValue (bytes : List Nat) : Nat :=
  bytes.foldr (fun b v => b + 256 * v) 0

/-- Modelled from the spec: `ExternalString::SetResourceRefForSerialization`
(absent header): the resource field of the string holds `ref`. -/
def SetResourceRefForSerialization (c : Config) (h : Heap) (string : HeapObject)
    (ref : Nat) : Heap :=
  h.WriteField string c.kResourceOffset (fieldBytes c.kExternalPointerSize ref)

/-- Modelled from the spec: `ExternalString::GetResourceRefForDeserialization`
(absent header): the value the resource field of the string holds. -/
def GetResourceRefForDeserialization (c : Config) (h : Heap) (string : HeapObject) : Nat :=
  fieldValue (h.ReadBytes string c.kResourceOffset c.kExternalPointerSize)

/-- Modelled from the spec: `ExternalString::set_address_as_resource` (absent
header): the resource field of the string holds the raw address. -/
def set_address_as_resource (c : Config) (h : Heap) (string : HeapObject)
    (resource : Nat) : Heap :=
  h.WriteField string c.kResourceOffset (fieldBytes c.kExternalPointerSize resource)

/-- Modelled from the spec: `JSArrayBuffer::SetBackingStoreRefForSerialization`
(absent header): the backing-store field of the buffer holds `ref`. -/
def SetBackingStoreRefForSerialization (c : Config) (h : Heap) (buffer : HeapObject)
    (ref : Nat) : Heap :=
  h.WriteField buffer c.kBackingStoreOffset (fieldBytes c.kExternalPointerSize ref)

/-- Modelled from the spec: `JSArrayBuffer::GetBackingStoreRefForDeserialization`
(absent header): the value the backing-store field of the buffer holds. -/
def GetBackingStoreRefForDeserialization (c : Config) (h : Heap) (buffer : HeapObject) :
    Nat :=
  fieldValue (h.ReadBytes buffer c.kBackingStoreOffset c.kExternalPointerSize)

/-- Modelled from the spec: `JSArrayBuffer::set_backing_store` (absent header):
the backing-store field of the buffer holds the raw pointer, 0 for `nullptr`. -/
def set_backing_store (c : Config) (h : Heap) (buffer : HeapObject)
    (backing_store : Option Nat) : Heap :=
  h.WriteField buffer c.kBackingStoreOffset
    (fieldBytes c.kExternalPointerSize (backing_store.getD 0))

/-- Modelled from the spec: `JSArrayBuffer::set_extension` (absent header): the
extension field of the buffer holds the pointer, 0 for `nullptr`. -/
def set_extension (c : Config) (h : Heap) (buffer : HeapObject) (extension : Nat) : Heap :=
  h.WriteField buffer c.kExtensionOffset (fieldBytes c.kSystemPointerSize extension)

/-- The live string after `SerializeExternalString` has encoded it: the resource
field, which held the reference index in `during`, is written back (the saved
table entry under `V8_HEAP_SANDBOX`, the raw address otherwise). -/
def restoredString (c : Config) (h during : Heap) (string : HeapObject)
    (info : ExternalStringInfo) : Heap :=
  if c.V8_HEAP_SANDBOX_BOOL
  then SetResourceRefForSerialization c during string
    (GetResourceRefForDeserialization c h string)
  else set_address_as_resource c during string info.resource_as_address

/-- The live buffer after `SerializeJSArrayBuffer` has encoded it: the
backing-store field and the extension field are written back. -/
def restoredBuffer (c : Config) (h during : Heap) (buffer : HeapObject)
    (info : JSArrayBufferInfo) : Heap :=
  set_extension c
    (if c.V8_HEAP_SANDBOX_BOOL
      then SetBackingStoreRefForSerialization c during buffer
        (GetBackingStoreRefForDeserialization c h buffer)
      else set_backing_store c during buffer info.backing_store)
    buffer info.extension

/-- The two heaps differ at most in the bytes of their objects. -/
def Heap.SameShape (h1 h : Heap) : Prop :=
  { h1 with byteAt := h.byteAt } = h

/-! ## The graph walk -/

/-- Modelled from the spec: `RecursionScope::ExceedsMaximum` (declared in the
absent header): the current recursion depth exceeds the configured maximum. -/
def ExceedsMaximum (c : Config) (s : Serializer) : Bool :=
  decide (c.kMaxRecursionDepth < s.recursion_depth_)

/-- Modelled from the spec: the constructor of `RecursionScope`, one level deeper. -/
def RecursionScope.enter (s : Serializer) : Serializer :=
  { s with recursion_depth_ := s.recursion_depth_ + 1 }

/-- Modelled from the spec: the destructor of `RecursionScope`, one level up. -/
def RecursionScope.leave (s : Serializer) : Serializer :=
  { s with recursion_depth_ := s.recursion_depth_ - 1 }

/-- The deferral branch of `ObjectSerializer::Serialize` (lines 616-627), inside
the recursion scope. -/
def ObjectSerializer.Defer (s : Serializer) (object_ : HeapObject) : Serializer :=
  let s1 := RegisterObjectIsPending s object_
  let s2 := PutPendingForwardReferenceTo s1 object_
  QueueDeferredObject s2 object_

/-- The condition of the deferral branch of `ObjectSerializer::Serialize`, read
inside the recursion scope. -/
def ObjectSerializer.ShouldDefer (c : Config) (h : Heap) (s : Serializer)
    (object_ : HeapObject) : Bool :=
  (ExceedsMaximum c s && h.CanBeDeferred object_) || MustBeDeferred object_

/-- Modelled from the spec: `SeqOneByteString::SizeFor` / `SeqTwoByteString::SizeFor`,
the header plus the content rounded up to object alignment. -/
def SeqStringSizeFor (c : Config) (content_size : Nat) : Nat :=
  ((c.kSeqStringHeaderSize + content_size + (c.kObjectAlignment - 1)) / c.kObjectAlignment)
    * c.kObjectAlignment

/-- The map of the imaginary sequential string that stands for an external string
(`SerializeExternalStringAsSequentialString`, lines 536-546). -/
def SequentialStringMap (h : Heap) (info : ExternalStringInfo) : HeapObject :=
  if info.IsExternalOneByteString then
    (if info.IsInternalizedString then h.one_byte_internalized_string_map
     else h.one_byte_string_map)
  else (if info.IsInternalizedString then h.internalized_string_map else h.string_map)

/-- The part of `SerializePrologue` after the map has been serialized (lines
390-405): allocation, then resolution of the pending entry. -/
def ObjectSerializer.AllocateAndResolve (c : Config) (h : Heap) (s : Serializer)
    (object_ : HeapObject) (space : SnapshotSpace) (size : Nat) :
    Result (SerializerReference × Serializer) :=
  match space with
  | .kLargeObject =>
    if h.kind object_ = InstanceKind.code then .fatal
    else
      let (r, a) := s.allocator_.AllocateLargeObject
      .ok (r, ResolvePendingObject { s with allocator_ := a } object_)
  | .kMap =>
    let (r, a) := s.allocator_.AllocateMap
    .ok (r, ResolvePendingObject { s with allocator_ := a } object_)
  | _ =>
    let (fill, s1) := PutAlignmentPrefix c h s object_
    let (r, a) := s1.allocator_.Allocate space (size + fill)
    .ok (r, ResolvePendingObject { s1 with allocator_ := a } object_)

/-- The raw payload written by `SerializeExternalStringAsSequentialString` after the
prologue (lines 557-579). -/
def ObjectSerializer.OutputSequentialString (c : Config) (h : Heap) (s : Serializer)
    (object_ : HeapObject) (allocation_size content_size : Nat) (resource : List Nat) :
    Serializer :=
  let bytes_to_output : Int := (allocation_size : Int) - c.kHeapObjectHeaderSize
  let s1 := (s.Put Bytecode.kVariableRawData).PutInt bytes_to_output
  let s2 := ((List.range (c.kSeqStringHeaderSize - c.kHeapObjectHeaderSize)).map
      (fun i => h.byteAt object_ (c.kHeapObjectHeaderSize + i))).foldl Serializer.PutByte s1
  let s3 := s2.PutRaw (resource.take content_size)
  let padding_size := allocation_size - c.kSeqStringHeaderSize - content_size
  (List.replicate padding_size 0).foldl Serializer.PutByte s3

/-- `ObjectSerializer::OutputCode`; the bytes read are those of the scrubbed
off-heap copy. `bytes_processed_so_far_` is left as it is. -/
def ObjectSerializer.OutputCode (c : Config) (h : Heap) (s : Serializer)
    (object_ : HeapObject) (size : Nat) : Serializer :=
  let bytes_to_output : Int := (size : Int) - c.kCodeDataStart
  ((s.Put Bytecode.kVariableRawCode).PutInt bytes_to_output).PutRaw
    (h.ReadBytes object_ c.kCodeDataStart bytes_to_output.toNat)

/-- The number of leading slots equal to `v`. -/
def countLeading (v : MaybeObject) : List MaybeObject → Nat
  | [] => 0
  | x :: rest => if x = v then countLeading v rest + 1 else 0

mutual

/-- Modelled from the spec: `Serializer::SerializeObject` is pure virtual in the
base class and implemented by subclasses that are absent; this is the dedupe and
dispatch order of the design: root check, hot-object check, back-reference check,
pending check, then `ObjectSerializer::Serialize`. -/
def SerializeObject (c : Config) (h : Heap) :
    Nat → Serializer → HeapObject → Result Serializer
  | 0, _, _ => .outOfFuel
  | fuel + 1, s, obj =>
    if (SerializeRoot c h s obj).1 then .ok (SerializeRoot c h s obj).2
    else if (SerializeHotObject s obj).1 then .ok (SerializeHotObject s obj).2
    else if (SerializeBackReference c h s obj).1 then .ok (SerializeBackReference c h s obj).2
    else if (SerializePendingObject s obj).1 then .ok (SerializePendingObject s obj).2
    else ObjectSerializer.Serialize c h fuel s obj
termination_by structural fuel _ _ => fuel

/-- `ObjectSerializer::Serialize`. The field writes that prepare an object
(`clear_padding`, `set_line_ends`) change no serializer state.
`SerializeExternalString` and `SerializeJSArrayBuffer` hand back the live heap
with the fields they borrowed restored; the walk goes on over `h`. -/
def ObjectSerializer.Serialize (c : Config) (h : Heap) :
    Nat → Serializer → HeapObject → Result Serializer
  | 0, _, _ => .outOfFuel
  | fuel + 1, s, object_ =>
    let s1 := RecursionScope.enter s
    if ObjectSerializer.ShouldDefer c h s1 object_ then
      .ok (RecursionScope.leave (ObjectSerializer.Defer s1 object_))
    else
      Result.bind
        (match h.kind object_ with
          | .externalString info =>
            Result.bind (ObjectSerializer.SerializeExternalString c h fuel s1 object_ info)
              (fun r => .ok r.2)
          | .jsTypedArray info => ObjectSerializer.SerializeJSTypedArray c h fuel s1 object_ info
          | .jsArrayBuffer info =>
            Result.bind (ObjectSerializer.SerializeJSArrayBuffer c h fuel s1 object_ info)
              (fun r => .ok r.2)
          | _ => ObjectSerializer.SerializeObject c h fuel s1 object_)
        (fun s2 => .ok (RecursionScope.leave s2))
termination_by structural fuel _ _ => fuel

/-- `ObjectSerializer::SerializeExternalString`. The result carries the live heap
as the function leaves it. With a resolvable resource the string is encoded
while its resource field holds the reference index; afterwards the field is
written back: the saved table entry under `V8_HEAP_SANDBOX`, the raw address
otherwise. -/
def ObjectSerializer.SerializeExternalString (c : Config) (h : Heap) :
    Nat → Serializer → HeapObject → ExternalStringInfo → Result (Heap × Serializer)
  | 0, _, _, _ => .outOfFuel
  | fuel + 1, s, object_, info =>
    let resource := info.resource_as_address
    match h.TryEncode resource with
    | some reference =>
      let external_pointer_entry := GetResourceRefForDeserialization c h object_
      let h1 := SetResourceRefForSerialization c h object_ reference.index
      Result.bind (ObjectSerializer.SerializeObject c h1 fuel s object_) (fun s1 =>
        .ok (if c.V8_HEAP_SANDBOX_BOOL
          then SetResourceRefForSerialization c h1 object_ external_pointer_entry
          else set_address_as_resource c h1 object_ resource, s1))
    | none =>
      Result.bind
        (ObjectSerializer.SerializeExternalStringAsSequentialString c h fuel s object_ info)
        (fun s1 => .ok (h, s1))
termination_by structural fuel _ _ _ => fuel

/-- `ObjectSerializer::SerializeExternalStringAsSequentialString`. -/
def ObjectSerializer.SerializeExternalStringAsSequentialString (c : Config) (h : Heap) :
    Nat → Serializer → HeapObject → ExternalStringInfo → Result Serializer
  | 0, _, _, _ => .outOfFuel
  | fuel + 1, s, object_, info =>
    let map := SequentialStringMap h info
    let content_size := if info.IsExternalOneByteString then info.length * 1 else info.length * 2
    let allocation_size := SeqStringSizeFor c content_size
    let space := if allocation_size > c.kMaxRegularHeapObjectSize
      then SnapshotSpace.kLargeObject else SnapshotSpace.kOld
    Result.bind (ObjectSerializer.SerializePrologue c h fuel s object_ space allocation_size map)
      (fun s1 => .ok (ObjectSerializer.OutputSequentialString c h s1 object_ allocation_size
        content_size info.resource_data))
termination_by structural fuel _ _ _ => fuel

/-- `ObjectSerializer::SerializeJSTypedArray`. -/
def ObjectSerializer.SerializeJSTypedArray (c : Config) (h : Heap) :
    Nat → Serializer → HeapObject → JSTypedArrayInfo → Result Serializer
  | 0, _, _, _ => .outOfFuel
  | fuel + 1, s, object_, info =>
    if info.is_on_heap then ObjectSerializer.SerializeObject c h fuel s object_
    else if info.WasDetached = false then
      if ¬ info.buffer_byte_length ≤ 2 ^ 31 - 1 then .fatal
      else
        ObjectSerializer.SerializeObject c h fuel
          (SerializeBackingStore h s info.backing_store info.buffer_byte_length).2 object_
    else ObjectSerializer.SerializeObject c h fuel s object_
termination_by structural fuel _ _ _ => fuel

/-- `ObjectSerializer::SerializeJSArrayBuffer`. The result carries the live heap
as the function leaves it. The buffer is encoded while its backing-store field
holds the backing-store reference (or `kNullRefSentinel`) and, for a buffer
with a backing store, its extension field holds `nullptr`; afterwards both
fields are written back. -/
def ObjectSerializer.SerializeJSArrayBuffer (c : Config) (h : Heap) :
    Nat → Serializer → HeapObject → JSArrayBufferInfo → Result (Heap × Serializer)
  | 0, _, _, _ => .outOfFuel
  | fuel + 1, s, object_, info =>
    let backing_store := info.backing_store
    if ¬ info.byte_length ≤ 2 ^ 31 - 1 then .fatal
    else
      let byte_length := info.byte_length
      let extension := info.extension
      let external_pointer_entry := GetBackingStoreRefForDeserialization c h object_
      let r :=
        match backing_store with
        | some backing_store =>
          let ref := SerializeBackingStore h s backing_store byte_length
          (set_extension c (SetBackingStoreRefForSerialization c h object_ ref.1) object_ 0,
            ref.2)
        | none => (SetBackingStoreRefForSerialization c h object_ c.kNullRefSentinel, s)
      Result.bind (ObjectSerializer.SerializeObject c r.1 fuel r.2 object_) (fun s2 =>
        let h2 :=
          if c.V8_HEAP_SANDBOX_BOOL
          then SetBackingStoreRefForSerialization c r.1 object_ external_pointer_entry
          else set_backing_store c r.1 object_ backing_store
        .ok (set_extension c h2 object_ extension, s2))
termination_by structural fuel _ _ _ => fuel

/-- `ObjectSerializer::SerializeObject`. `bytes_processed_so_far_` is 0 in a fresh
`ObjectSerializer`, so the `CHECK_EQ` passes. -/
def ObjectSerializer.SerializeObject (c : Config) (h : Heap) :
    Nat → Serializer → HeapObject → Result Serializer
  | 0, _, _ => .outOfFuel
  | fuel + 1, s, object_ =>
    let size := h.Size object_
    let map := h.map object_
    match GetSnapshotSpace c h object_ with
    | none => .fatal
    | some space =>
      Result.bind (ObjectSerializer.SerializePrologue c h fuel s object_ space size map)
        (fun s1 =>
          Result.bind
            (ObjectSerializer.SerializeContent c h fuel
              { object_ := object_, bytes_processed_so_far_ := c.kTaggedSize } s1 size)
            (fun r => .ok r.2))
termination_by structural fuel _ _ => fuel

/-- `ObjectSerializer::SerializePrologue`. -/
def ObjectSerializer.SerializePrologue (c : Config) (h : Heap) :
    Nat → Serializer → HeapObject → SnapshotSpace → Nat → HeapObject → Result Serializer
  | 0, _, _, _, _, _ => .outOfFuel
  | fuel + 1, s, object_, space, size, map =>
    if map = object_ then
      let s1 := s.Put Bytecode.kNewMetaMap
      let (back_reference, a) := s1.allocator_.Allocate space size
      .ok (({ s1 with allocator_ := a }).AddReference (RefKey.object object_) back_reference)
    else
      let s1 := (s.Put (Bytecode.kNewObject space)).PutInt (size >>> c.kObjectAlignmentBits)
      let s2 := RegisterObjectIsPending s1 object_
      Result.bind (SerializeObject c h fuel s2 map) (fun s3 =>
        Result.bind (ObjectSerializer.AllocateAndResolve c h s3 object_ space size) (fun r =>
          .ok (r.2.AddReference (RefKey.object object_) r.1)))
termination_by structural fuel _ _ _ _ _ => fuel

/-- `ObjectSerializer::SerializeContent`. -/
def ObjectSerializer.SerializeContent (c : Config) (h : Heap) :
    Nat → ObjectSerializer → Serializer → Nat → Result (ObjectSerializer × Serializer)
  | 0, _, _, _ => .outOfFuel
  | fuel + 1, os, s, size =>
    if h.kind os.object_ = InstanceKind.code then
      ObjectSerializer.IterateBody c h fuel os
        (ObjectSerializer.OutputCode c h s os.object_ size) (h.body os.object_)
    else
      Result.bind (ObjectSerializer.IterateBody c h fuel os s (h.body os.object_))
        (fun r => .ok (ObjectSerializer.OutputRawData c h r.1 r.2 size))
termination_by structural fuel _ _ _ => fuel

/-- The sequence of visitor callbacks that `object_.IterateBody(map, size, this)`
makes, each handled by the matching `Visit...` member. -/
def ObjectSerializer.IterateBody (c : Config) (h : Heap) :
    Nat → ObjectSerializer → Serializer → List BodyVisit →
      Result (ObjectSerializer × Serializer)
  | 0, _, _, _ => .outOfFuel
  | _ + 1, os, s, [] => .ok (os, s)
  | fuel + 1, os, s, v :: rest =>
    Result.bind
      (match v with
        | .VisitPointers start_offset slots =>
          ObjectSerializer.VisitPointers c h fuel os s start_offset slots
        | .VisitEmbeddedPointer target target_address_size =>
          Result.bind (SerializeObject c h fuel s target) (fun s1 =>
            .ok ({ os with bytes_processed_so_far_ :=
              os.bytes_processed_so_far_ + target_address_size }, s1))
        | .VisitForeignExternalReference foreign_address =>
          ObjectSerializer.OutputExternalReference c h os s foreign_address
            c.kExternalPointerSize true
        | .VisitCodeExternalReference target target_address_size =>
          ObjectSerializer.OutputExternalReference c h os s target target_address_size false
        | .VisitInternalReference target_offset =>
          .ok (os, (s.Put Bytecode.kInternalReference).PutInt target_offset)
        | .VisitRuntimeEntry => .fatal
        | .VisitOffHeapTarget addr target_address_size =>
          if addr = 0 then .fatal
          else
            match h.IsIsolateIndependentBuiltin addr with
            | none => .fatal
            | some builtin_index =>
              .ok ({ os with bytes_processed_so_far_ :=
                os.bytes_processed_so_far_ + target_address_size },
                (s.Put Bytecode.kOffHeapTarget).PutInt builtin_index)
        | .VisitCodeTarget target target_address_size =>
          Result.bind (SerializeObject c h fuel s target) (fun s1 =>
            .ok ({ os with bytes_processed_so_far_ :=
              os.bytes_processed_so_far_ + target_address_size }, s1)))
      (fun r => ObjectSerializer.IterateBody c h fuel r.1 r.2 rest)
termination_by structural fuel _ _ _ => fuel

/-- `ObjectSerializer::VisitPointers`, one turn of the outer `while`: Smis are
stepped over (first inner `while`); if slots remain, the raw data before `current`
is written and the cleared-weak run and the heap-object run follow. `offset` is
`current.address() - object_.address()`. -/
def ObjectSerializer.VisitPointers (c : Config) (h : Heap) :
    Nat → ObjectSerializer → Serializer → Nat → List MaybeObject →
      Result (ObjectSerializer × Serializer)
  | 0, _, _, _, _ => .outOfFuel
  | _ + 1, os, s, _, [] => .ok (os, s)
  | fuel + 1, os, s, offset, slot :: slots =>
    match slot with
    | .Smi _ => ObjectSerializer.VisitPointers c h fuel os s (offset + c.kTaggedSize) slots
    | _ =>
      let r := ObjectSerializer.OutputRawData c h os s offset
      ObjectSerializer.VisitPointers.cleared c h fuel r.1 r.2 offset (slot :: slots)
termination_by structural fuel _ _ _ _ => fuel

/-- The second inner `while` of `VisitPointers`: cleared weak references. -/
def ObjectSerializer.VisitPointers.cleared (c : Config) (h : Heap) :
    Nat → ObjectSerializer → Serializer → Nat → List MaybeObject →
      Result (ObjectSerializer × Serializer)
  | 0, _, _, _, _ => .outOfFuel
  | fuel + 1, os, s, offset, slots =>
    match slots with
    | .Cleared :: rest =>
      ObjectSerializer.VisitPointers.cleared c h fuel
        { os with bytes_processed_so_far_ := os.bytes_processed_so_far_ + c.kTaggedSize }
        (s.Put Bytecode.kClearedWeakReference) (offset + c.kTaggedSize) rest
    | _ => ObjectSerializer.VisitPointers.heapObjects c h fuel os s offset slots
termination_by structural fuel _ _ _ _ => fuel

/-- The third inner `while` of `VisitPointers`: live references; when it ends the
outer loop takes its next turn. -/
def ObjectSerializer.VisitPointers.heapObjects (c : Config) (h : Heap) :
    Nat → ObjectSerializer → Serializer → Nat → List MaybeObject →
      Result (ObjectSerializer × Serializer)
  | 0, _, _, _, _ => .outOfFuel
  | fuel + 1, os, s, offset, slots =>
    match slots with
    | [] => .ok (os, s)
    | .Smi v :: rest => ObjectSerializer.VisitPointers c h fuel os s offset (.Smi v :: rest)
    | .Cleared :: rest => ObjectSerializer.VisitPointers c h fuel os s offset (.Cleared :: rest)
    | .Strong current_contents :: rest =>
      ObjectSerializer.VisitPointers.reference c h fuel os s offset current_contents
        (.Strong current_contents) rest
    | .Weak current_contents :: rest =>
      ObjectSerializer.VisitPointers.reference c h fuel os (s.Put Bytecode.kWeakPrefix) offset
        current_contents (.Weak current_contents) rest
termination_by structural fuel _ _ _ _ => fuel

/-- The body of the third inner `while` of `VisitPointers` for the slot `current`
holding a reference to `current_contents`, after the weak prefix. -/
def ObjectSerializer.VisitPointers.reference (c : Config) (h : Heap) :
    Nat → ObjectSerializer → Serializer → Nat → HeapObject → MaybeObject →
      List MaybeObject → Result (ObjectSerializer × Serializer)
  | 0, _, _, _, _, _, _ => .outOfFuel
  | fuel + 1, os, s, offset, current_contents, current, rest =>
    if (SerializePendingObject s current_contents).1 then
      ObjectSerializer.VisitPointers.heapObjects c h fuel
        { os with bytes_processed_so_far_ := os.bytes_processed_so_far_ + c.kTaggedSize }
        (SerializePendingObject s current_contents).2 (offset + c.kTaggedSize) rest
    else if rest ≠ [] ∧
        (match h.root_index_map current_contents with
          | some root_index => h.IsImmortalImmovable root_index
          | none => false) = true ∧
        rest.head? = some current then
      let repeat_count := 1 + countLeading current rest
      Result.bind (SerializeObject c h fuel (PutRepeat c s repeat_count) current_contents)
        (fun s1 =>
          ObjectSerializer.VisitPointers.heapObjects c h fuel
            { os with bytes_processed_so_far_ :=
                os.bytes_processed_so_far_ + repeat_count * c.kTaggedSize }
            s1 (offset + repeat_count * c.kTaggedSize) (rest.drop (repeat_count - 1)))
    else
      Result.bind (SerializeObject c h fuel s current_contents) (fun s1 =>
        ObjectSerializer.VisitPointers.heapObjects c h fuel
          { os with bytes_processed_so_far_ := os.bytes_processed_so_far_ + c.kTaggedSize }
          s1 (offset + c.kTaggedSize) rest)

termination_by structural fuel _ _ _ _ _ _ => fuel
end

/-- `ObjectSerializer::SerializeDeferred`. -/
def ObjectSerializer.SerializeDeferred (c : Config) (h : Heap) (fuel : Nat) (s : Serializer)
    (object_ : HeapObject) : Result Serializer :=
  let back_reference := s.LookupReference (RefKey.object object_)
  if back_reference.is_valid then .ok s
  else ObjectSerializer.Serialize c h fuel s object_

/-- `Serializer::SerializeDeferredObjects`. -/
def SerializeDeferredObjects (c : Config) (h : Heap) : Nat → Serializer → Result Serializer
  | 0, _ => .outOfFuel
  | fuel + 1, s =>
    match s.deferred_objects_.getLast? with
    | none => .ok (s.Put Bytecode.kSynchronize)
    | some obj =>
      Result.bind
        (ObjectSerializer.SerializeDeferred c h fuel
          { s with deferred_objects_ := s.deferred_objects_.dropLast } obj)
        (fun s1 => SerializeDeferredObjects c h fuel s1)

/-- A root slot value (`Object` in a `FullObjectSlot`). -/
inductive Object
  | Smi (raw_value : Nat)
  | HeapObject (obj : HeapObject)
  deriving DecidableEq, Repr

/-- `Serializer::PutSmiRoot`: the full slot is written as one fixed raw-data record. -/
def PutSmiRoot (c : Config) (s : Serializer) (raw_value : Nat) : Serializer :=
  let bytes_to_output := c.kSystemPointerSize
  let size_in_tagged := bytes_to_output >>> c.kTaggedSizeLog2
  (s.Put (Bytecode.kFixedRawData size_in_tagged)).PutRaw
    ((List.range bytes_to_output).map (fun i => (raw_value >>> (8 * i)) % 256))

/-- `Serializer::SerializeRootObject`. -/
def SerializeRootObject (c : Config) (h : Heap) (fuel : Nat) (s : Serializer) (o : Object) :
    Result Serializer :=
  match o with
  | .Smi raw_value => .ok (PutSmiRoot c s raw_value)
  | .HeapObject obj => SerializeObject c h fuel s obj

/-- `Serializer::VisitRootPointers` over the slots `[start, end)`. -/
def VisitRootPointers (c : Config) (h : Heap) (fuel : Nat) :
    Serializer → List Object → Result Serializer
  | s, [] => .ok s
  | s, current :: rest =>
    Result.bind (SerializeRootObject c h fuel s current)
      (fun s1 => VisitRootPointers c h fuel s1 rest)

/-- A complete run: the root pass over the given root slots followed by
`SerializeDeferredObjects`, from the freshly constructed serializer. -/
def SerializeRun (c : Config) (h : Heap) (fuel : Nat) (roots : List Object) :
    Result Serializer :=
  Result.bind (VisitRootPointers c h fuel (Serializer.initial c.kHotObjectCount) roots)
    (fun s => SerializeDeferredObjects c h fuel s)

/-! ## Specification vocabulary for the forward-reference tables -/

/-- All ids stored in a pending table, entry by entry. -/
def idsOfTable (t : List (HeapObject × List Int)) : List Int :=
  (t.map Prod.snd).flatten

/-- The outstanding forward-reference ids: every id stored in
`forward_refs_per_pending_object_`. -/
def Serializer.outstandingIds (s : Serializer) : List Int :=
  idsOfTable s.forward_refs_per_pending_object_

/-- States of the forward-reference bookkeeping that the serializer can be in:
the freshly constructed serializer, closed under the three member functions
that touch `forward_refs_per_pending_object_`, `unresolved_forward_refs_` and
`next_forward_ref_id_` as they are called in the source
(`PutPendingForwardReferenceTo` always receives an iterator to an existing
entry; `ResolvePendingForwardReference` is called from `ResolvePendingObject`
only), and under every step that leaves these three members alone. -/
inductive ForwardRefReachable : Serializer → Prop
  | initial (n : Nat) : ForwardRefReachable (Serializer.initial n)
  | register (s : Serializer) (obj : HeapObject) :
      ForwardRefReachable s → ForwardRefReachable (RegisterObjectIsPending s obj)
  | put (s : Serializer) (obj : HeapObject) :
      ForwardRefReachable s → s.findPending obj ≠ none →
      ForwardRefReachable (PutPendingForwardReferenceTo s obj)
  | resolve (s : Serializer) (obj : HeapObject) :
      ForwardRefReachable s → ForwardRefReachable (ResolvePendingObject s obj)
  | frame (s s' : Serializer) :
      ForwardRefReachable s →
      s'.forward_refs_per_pending_object_ = s.forward_refs_per_pending_object_ →
      s'.unresolved_forward_refs_ = s.unresolved_forward_refs_ →
      s'.next_forward_ref_id_ = s.next_forward_ref_id_ →
      ForwardRefReachable s'

/-- The bookkeeping invariant of the forward-reference tables: one entry per
pending object, the counter of unresolved references counts the stored ids, the
stored ids are distinct and lie in `[0, next_forward_ref_id_)`, and the id counter
is 0 when nothing is outstanding. -/
structure ForwardRefInv (s : Serializer) : Prop where
  keys_nodup : s.pendingKeys.Nodup
  count : s.unresolved_forward_refs_ = s.outstandingIds.length
  ids_nodup : s.outstandingIds.Nodup
  ids_bound : ∀ id ∈ s.outstandingIds, 0 ≤ id ∧ id < s.next_forward_ref_id_
  next_nonneg : 0 ≤ s.next_forward_ref_id_
  reset : s.outstandingIds = [] → s.next_forward_ref_id_ = 0

/-- The ids form a gap-free range starting at 0: with `k` ids stored, each of
`0, ..., k-1` is among them. -/
def IsDenseFromZero (ids : List Int) : Prop :=
  ∀ k, k < ids.length → (k : Int) ∈ ids

instance (ids : List Int) : Decidable (IsDenseFromZero ids) := by
  unfold IsDenseFromZero
  infer_instance

/-! ## Concrete configurations and graphs used in examples -/

/-- A configuration with 8-byte tagged words and recursion bound `maxDepth`. -/
def exampleConfig (maxDepth : Nat) : Config :=
  { kMaxRecursionDepth := maxDepth, kTaggedSize := 8, kTaggedSizeLog2 := 3,
    kObjectAlignment := 8, kObjectAlignmentBits := 3, kFixedRawDataCount := 32,
    kLastEncodableFixedRepeatCount := 17, kFirstEncodableVariableRepeatCount := 18,
    kRootArrayConstantsCount := 32, kHotObjectCount := 8,
    kMaxRegularHeapObjectSize := 131072, kAlignmentPrefix := 21,
    kHeapObjectHeaderSize := 8, kSeqStringHeaderSize := 16, kBytecodeAgeOffset := 53,
    kNoAgeBytecodeAge := 0, kRawNumberOfMarkedDescriptorsOffset := 14, kCodeDataStart := 64,
    kExternalPointerSize := 8, kSystemPointerSize := 8,
    kResourceOffset := 16, kBackingStoreOffset := 32, kExtensionOffset := 40,
    kNullRefSentinel := 0,
    V8_ENABLE_THIRD_PARTY_HEAP_BOOL := true, V8_HEAP_SANDBOX_BOOL := false,
    allow_unknown_external_references_for_testing := false }

/-- A heap in which every object is a one-word deferrable plain object whose map
is object 0, and object 0 is the only root (root index 5). -/
def plainHeap : Heap :=
  { map := fun _ => 0, Size := fun _ => 8, kind := fun _ => .other, IsMap := fun o => o = 0,
    body := fun _ => [], byteAt := fun _ _ => 0, CanBeDeferred := fun _ => true,
    root_index_map := fun o => if o = 0 then some 5 else none,
    IsImmortalImmovable := fun _ => true,
    InYoungGeneration := fun _ => false, ReadOnlyHeapContains := fun _ => false,
    InCodeSpace := fun _ => false, owner_identity := fun _ => .OLD_SPACE,
    RequiredAlignment := fun _ => 0, GetMaximumFillToAlign := fun _ => 0,
    TryEncode := fun _ => none, offHeapByteAt := fun a => a % 256,
    IsIsolateIndependentBuiltin := fun _ => none,
    one_byte_internalized_string_map := 0, one_byte_string_map := 0,
    internalized_string_map := 0, string_map := 0 }

/-- Object 1 references objects 2 and 3; object 3 references object 2. -/
def gapHeap : Heap :=
  { plainHeap with
    Size := fun o => if o = 1 then 24 else if o = 3 then 16 else 8
    body := fun o =>
      if o = 1 then [.VisitPointers 8 [.Strong 2, .Strong 3]]
      else if o = 3 then [.VisitPointers 8 [.Strong 2]]
      else [] }

/-! ## Specification vocabulary for the graph walk -/

/-- A sink entry that opens a fresh encoding: a new-object or new-meta-map record. -/
def SinkEntry.IsFresh : SinkEntry → Bool
  | .Put (.kNewObject _) => true
  | .Put .kNewMetaMap => true
  | _ => false

/-- A sink entry that is neither the opcode of a forward-reference record nor the
synchronize marker. -/
def SinkEntry.IsQuiet : SinkEntry → Bool
  | .Put .kRegisterPendingForwardRef => false
  | .Put .kResolvePendingForwardRef => false
  | .Put .kSynchronize => false
  | _ => true

/-- The number of fresh encodings opened in a stream. -/
def freshCount (sink : List SinkEntry) : Nat :=
  sink.countP SinkEntry.IsFresh

/-- The test that a reference-map key is a heap object. -/
def RefKey.isObject : RefKey → Bool
  | .object _ => true
  | .backingStore _ => false

/-- The number of heap objects recorded in a reference map. -/
def objKeyCount (m : List (RefKey × SerializerReference)) : Nat :=
  m.countP (fun e => e.1.isObject)

/-- One elementary state change of the serializer, as the member functions make
it. `frame` collects the changes that touch neither `reference_map_`, the pending
table, the forward-reference counters nor the deferred queue, and that write no
forward-reference opcode and no synchronize marker. The side conditions of
`register`, `put`, `queue` and `add` are those under which the source calls the
member function. -/
inductive Step (h : Heap) : Serializer → Serializer → Prop
  | frame (s s' : Serializer) (t : List SinkEntry) :
      s'.reference_map_ = s.reference_map_ →
      s'.forward_refs_per_pending_object_ = s.forward_refs_per_pending_object_ →
      s'.unresolved_forward_refs_ = s.unresolved_forward_refs_ →
      s'.next_forward_ref_id_ = s.next_forward_ref_id_ →
      s'.deferred_objects_ = s.deferred_objects_ →
      s'.sink_ = s.sink_ ++ t → (∀ e ∈ t, e.IsQuiet = true) → Step h s s'
  | register (s : Serializer) (x : HeapObject) :
      (s.LookupReference (RefKey.object x)).is_valid = false →
      Step h s (RegisterObjectIsPending s x)
  | put (s : Serializer) (x : HeapObject) :
      s.findPending x ≠ none → Step h s (PutPendingForwardReferenceTo s x)
  | queue (s : Serializer) (x : HeapObject) :
      h.CanBeDeferred x = true → Step h s (QueueDeferredObject s x)
  | resolve (s : Serializer) (x : HeapObject) : Step h s (ResolvePendingObject s x)
  | add (s : Serializer) (key : RefKey) (r : SerializerReference) :
      r.is_valid = true → (s.LookupReference key).is_valid = false →
      (∀ x, key = RefKey.object x → s.findPending x = none) →
      Step h s (s.AddReference key r)
  | pop (s : Serializer) :
      Step h s { s with deferred_objects_ := s.deferred_objects_.dropLast }
  | sync (s : Serializer) : Step h s (s.Put Bytecode.kSynchronize)

/-- The state `s'` is reached from `s` by elementary state changes. -/
def Trace (h : Heap) : Serializer → Serializer → Prop :=
  Relation.ReflTransGen (Step h)

/-- The states the serializer passes through, starting from the freshly
constructed one. -/
def Reachable (c : Config) (h : Heap) (s : Serializer) : Prop :=
  Trace h (Serializer.initial c.kHotObjectCount) s

/-- No deferrable object is handed to `SerializePrologue` as its own map: the meta
map (the only object that is its own map) can not be deferred, and neither can
an external string that would stand for its own sequential-string map. -/
def MetaMapNotDeferrable (h : Heap) : Prop :=
  ∀ x, h.CanBeDeferred x = true →
    h.map x ≠ x ∧ ∀ info, h.kind x = InstanceKind.externalString info →
      SequentialStringMap h info ≠ x

/-- What holds when `ObjectSerializer::Serialize` is entered for `x`: `x` has no
Location yet, and if it is pending it was registered by the deferral path. -/
def SerializePre (h : Heap) (x : HeapObject) (s : Serializer) : Prop :=
  (s.LookupReference (RefKey.object x)).is_valid = false ∧
  (s.findPending x ≠ none → h.CanBeDeferred x = true)

/-- Changes confined to the sink, the hot-object window, the allocator and the
recursion depth, writing only entries that are quiet and open no fresh encoding. -/
def SinkOnly (s s' : Serializer) : Prop :=
  s'.reference_map_ = s.reference_map_ ∧
  s'.forward_refs_per_pending_object_ = s.forward_refs_per_pending_object_ ∧
  s'.unresolved_forward_refs_ = s.unresolved_forward_refs_ ∧
  s'.next_forward_ref_id_ = s.next_forward_ref_id_ ∧
  s'.deferred_objects_ = s.deferred_objects_ ∧
  ∃ t, s'.sink_ = s.sink_ ++ t ∧ ∀ e ∈ t, e.IsQuiet = true ∧ e.IsFresh = false

/-- The effect of a call of the graph walk from `s` to `s'`; `x?` is the object
the call serializes itself, if any.
* `trace`: the call is a sequence of elementary state changes;
* `prot`: an object other than `x?` that is pending and has no Location is still
  so afterwards;
* `pq`: if every pending object was in the deferred queue, in `B` or is `x?`, then
  afterwards every pending object is in the deferred queue or in `B`;
* `fresh`: as many fresh encodings were opened as heap objects were recorded in
  the reference map. -/
structure Good (h : Heap) (x? : Option HeapObject) (s s' : Serializer) : Prop where
  trace : Trace h s s'
  prot : ∀ o, some o ≠ x? → s.findPending o ≠ none →
    (s.LookupReference (RefKey.object o)).is_valid = false →
    s'.findPending o ≠ none ∧ (s'.LookupReference (RefKey.object o)).is_valid = false
  pq : ∀ B : HeapObject → Prop,
    (∀ o, s.findPending o ≠ none → o ∈ s.deferred_objects_ ∨ B o ∨ some o = x?) →
    (∀ o, s'.findPending o ≠ none → o ∈ s'.deferred_objects_ ∨ B o)
  fresh : freshCount s'.sink_ + objKeyCount s.reference_map_ =
    freshCount s.sink_ + objKeyCount s'.reference_map_

/-- The effect of every function of the graph walk when run with `fuel`: a
dispatch (`SerializeObject`) or a body visit serializes no object of its own
(`none`), the functions of an `ObjectSerializer` for `x` serialize `x`. -/
structure WalkSpec (c : Config) (h : Heap) (fuel : Nat) : Prop where
  serializeObject : ∀ s x s', SerializeObject c h fuel s x = .ok s' → Good h none s s'
  serialize : ∀ s x s', SerializePre h x s →
    ObjectSerializer.Serialize c h fuel s x = .ok s' → Good h (some x) s s'
  externalString : ∀ s x info s', h.kind x = InstanceKind.externalString info →
    SerializePre h x s →
    ObjectSerializer.SerializeExternalString c h fuel s x info = .ok s' →
    Good h (some x) s s'.2
  sequentialString : ∀ s x info s', h.kind x = InstanceKind.externalString info →
    SerializePre h x s →
    ObjectSerializer.SerializeExternalStringAsSequentialString c h fuel s x info = .ok s' →
    Good h (some x) s s'
  typedArray : ∀ s x info s', SerializePre h x s →
    ObjectSerializer.SerializeJSTypedArray c h fuel s x info = .ok s' → Good h (some x) s s'
  arrayBuffer : ∀ s x info s', SerializePre h x s →
    ObjectSerializer.SerializeJSArrayBuffer c h fuel s x info = .ok s' →
    Good h (some x) s s'.2
  object : ∀ s x s', SerializePre h x s →
    ObjectSerializer.SerializeObject c h fuel s x = .ok s' → Good h (some x) s s'
  prologue : ∀ s x space size map s',
    (s.LookupReference (RefKey.object x)).is_valid = false →
    (map = x → s.findPending x = none) →
    ObjectSerializer.SerializePrologue c h fuel s x space size map = .ok s' →
    Good h (some x) s s'
  content : ∀ os s size r,
    ObjectSerializer.SerializeContent c h fuel os s size = .ok r → Good h none s r.2
  iterateBody : ∀ os s vs r,
    ObjectSerializer.IterateBody c h fuel os s vs = .ok r → Good h none s r.2
  visitPointers : ∀ os s offset slots r,
    ObjectSerializer.VisitPointers c h fuel os s offset slots = .ok r → Good h none s r.2
  cleared : ∀ os s offset slots r,
    ObjectSerializer.VisitPointers.cleared c h fuel os s offset slots = .ok r →
    Good h none s r.2
  heapObjects : ∀ os s offset slots r,
    ObjectSerializer.VisitPointers.heapObjects c h fuel os s offset slots = .ok r →
    Good h none s r.2
  reference : ∀ os s offset cc cur rest r,
    ObjectSerializer.VisitPointers.reference c h fuel os s offset cc cur rest = .ok r →
    Good h none s r.2

/-- What holds of the tables in every state the walk passes through: the
forward-reference bookkeeping is consistent, no pending object has a Location,
only deferrable objects are queued, every recorded Location is valid and
recorded once, and the stream holds as many register records as resolve records
plus unresolved references. -/
structure WalkInv (h : Heap) (s : Serializer) : Prop where
  fwd : ForwardRefInv s
  disjoint : ∀ x, s.findPending x ≠ none →
    (s.LookupReference (RefKey.object x)).is_valid = false
  queue : ∀ o ∈ s.deferred_objects_, h.CanBeDeferred o = true
  refsValid : ∀ e ∈ s.reference_map_, e.2.is_valid = true
  refKeys : (s.reference_map_.map Prod.fst).Nodup
  balance : (s.sink_.count (SinkEntry.Put Bytecode.kRegisterPendingForwardRef) : Int) =
    s.sink_.count (SinkEntry.Put Bytecode.kResolvePendingForwardRef) +
      s.unresolved_forward_refs_

/-- The state `s'` extends `s`: the sink grew by entries none of which is the
synchronize marker, and the reference map grew by valid Locations. -/
structure Extends (s s' : Serializer) : Prop where
  sink : ∃ t, s'.sink_ = s.sink_ ++ t ∧ SinkEntry.Put Bytecode.kSynchronize ∉ t
  refs : ∃ l, s'.reference_map_ = l ++ s.reference_map_ ∧ ∀ e ∈ l, e.2.is_valid = true

/-- Every function of the graph walk, run with `fuel`, extends the state it
starts from. -/
structure WalkExtends (c : Config) (h : Heap) (fuel : Nat) : Prop where
  serializeObject : ∀ s x s', SerializeObject c h fuel s x = .ok s' → Extends s s'
  serialize : ∀ s x s', ObjectSerializer.Serialize c h fuel s x = .ok s' → Extends s s'
  externalString : ∀ s x info s',
    ObjectSerializer.SerializeExternalString c h fuel s x info = .ok s' → Extends s s'.2
  sequentialString : ∀ s x info s',
    ObjectSerializer.SerializeExternalStringAsSequentialString c h fuel s x info = .ok s' →
    Extends s s'
  typedArray : ∀ s x info s',
    ObjectSerializer.SerializeJSTypedArray c h fuel s x info = .ok s' → Extends s s'
  arrayBuffer : ∀ s x info s',
    ObjectSerializer.SerializeJSArrayBuffer c h fuel s x info = .ok s' → Extends s s'.2
  object : ∀ s x s', ObjectSerializer.SerializeObject c h fuel s x = .ok s' → Extends s s'
  prologue : ∀ s x space size map s',
    ObjectSerializer.SerializePrologue c h fuel s x space size map = .ok s' → Extends s s'
  content : ∀ os s size r,
    ObjectSerializer.SerializeContent c h fuel os s size = .ok r → Extends s r.2
  iterateBody : ∀ os s vs r,
    ObjectSerializer.IterateBody c h fuel os s vs = .ok r → Extends s r.2
  visitPointers : ∀ os s offset slots r,
    ObjectSerializer.VisitPointers c h fuel os s offset slots = .ok r → Extends s r.2
  cleared : ∀ os s offset slots r,
    ObjectSerializer.VisitPointers.cleared c h fuel os s offset slots = .ok r → Extends s r.2
  heapObjects : ∀ os s offset slots r,
    ObjectSerializer.VisitPointers.heapObjects c h fuel os s offset slots = .ok r →
    Extends s r.2
  reference : ∀ os s offset cc cur rest r,
    ObjectSerializer.VisitPointers.reference c h fuel os s offset cc cur rest = .ok r →
    Extends s r.2

/-- The first entry a call wrote to the sink satisfies `P`. -/
def FirstRecord (P : SinkEntry → Prop) (s s' : Serializer) : Prop :=
  ∃ e t, s'.sink_ = s.sink_ ++ e :: t ∧ P e

/-- An entry that starts a fresh encoding of an object: its new-object or
new-meta-map record, or the off-heap backing-store record that precedes the
encoding of a buffer or typed array whose store is new. -/
def StartsFreshEncoding (e : SinkEntry) : Prop :=
  e.IsFresh = true ∨ e = SinkEntry.Put Bytecode.kOffHeapBackingStore

/-- The plain heap with no deferrable object. -/
def rigidHeap : Heap :=
  { plainHeap with CanBeDeferred := fun _ => false }

/-- The entries `PutAlignmentPrefix` writes for `object`: one alignment-class
byte, or nothing when the object's map requires word alignment only. -/
def alignmentPrefixEntries (c : Config) (h : Heap) (object : HeapObject) : List SinkEntry :=
  if h.RequiredAlignment (h.map object) ≠ 0 then
    [SinkEntry.PutByte ((c.kAlignmentPrefix - 1) + h.RequiredAlignment (h.map object))]
  else []

/-- The entries that open a raw-data record of `bytes_to_output` bytes in
`OutputRawData`: the fixed form carrying the size in tagged words, or the
variable form followed by the length. -/
def rawDataHeader (c : Config) (bytes_to_output : Int) : List SinkEntry :=
  if bytes_to_output % c.kObjectAlignment = 0 ∧
      bytes_to_output ≤ c.kFixedRawDataCount * c.kTaggedSize then
    [SinkEntry.Put (Bytecode.kFixedRawData (bytes_to_output.toNat >>> c.kTaggedSizeLog2))]
  else [SinkEntry.Put Bytecode.kVariableRawData, SinkEntry.PutInt bytes_to_output]

/-- The raw bytes of `obj` are the same in the two heaps except possibly in the
field `[field_offset, field_offset + field_size)`. -/
def AgreeOutsideField (h1 h2 : Heap) (obj : HeapObject) (field_offset field_size : Nat) :
    Prop :=
  ∀ i, i < field_offset ∨ field_offset + field_size ≤ i → h1.byteAt obj i = h2.byteAt obj i

/-- The plain heap with every object a `BytecodeArray` whose byte at offset 53
(the bytecode-age field under `exampleConfig`) is `age`. -/
def agedHeap (age : Nat) : Heap :=
  { plainHeap with
    kind := fun _ => InstanceKind.bytecodeArray
    byteAt := fun _ i => if i = 53 then age else i % 256 }

/-- The slot value of a live reference to `target`: weak or strong. -/
def referenceSlot (weak : Bool) (target : HeapObject) : MaybeObject :=
  if weak then MaybeObject.Weak target else MaybeObject.Strong target

/-- The state after the weak prefix, which `VisitPointers` writes for a weak
reference before anything else. -/
def afterWeakPrefix (weak : Bool) (s : Serializer) : Serializer :=
  if weak then s.Put Bytecode.kWeakPrefix else s

/-- The target is a root that is immortal and immovable
(`root_index_map()->Lookup` succeeds and `RootsTable::IsImmortalImmovable`). -/
def IsImmortalImmovableRoot (h : Heap) (target : HeapObject) : Bool :=
  match h.root_index_map target with
  | some root_index => h.IsImmortalImmovable root_index
  | none => false

/-- The object `y`, if it is pending in `s`, is still pending in `s'`. -/
def KeepsPending (y : HeapObject) (s s' : Serializer) : Prop :=
  s.findPending y ≠ none → s'.findPending y ≠ none

/-- No function of the graph walk, run with `fuel`, takes `y` out of the pending
table, except the functions of the `ObjectSerializer` of `y` itself. -/
structure WalkKeepsPending (c : Config) (h : Heap) (y : HeapObject) (fuel : Nat) : Prop where
  serializeObject : ∀ s x s', SerializeObject c h fuel s x = .ok s' → KeepsPending y s s'
  serialize : ∀ s x s', x ≠ y →
    ObjectSerializer.Serialize c h fuel s x = .ok s' → KeepsPending y s s'
  externalString : ∀ s x info s', x ≠ y →
    ObjectSerializer.SerializeExternalString c h fuel s x info = .ok s' →
    KeepsPending y s s'.2
  sequentialString : ∀ s x info s', x ≠ y →
    ObjectSerializer.SerializeExternalStringAsSequentialString c h fuel s x info = .ok s' →
    KeepsPending y s s'
  typedArray : ∀ s x info s', x ≠ y →
    ObjectSerializer.SerializeJSTypedArray c h fuel s x info = .ok s' → KeepsPending y s s'
  arrayBuffer : ∀ s x info s', x ≠ y →
    ObjectSerializer.SerializeJSArrayBuffer c h fuel s x info = .ok s' →
    KeepsPending y s s'.2
  object : ∀ s x s', x ≠ y →
    ObjectSerializer.SerializeObject c h fuel s x = .ok s' → KeepsPending y s s'
  prologue : ∀ s x space size map s', x ≠ y →
    ObjectSerializer.SerializePrologue c h fuel s x space size map = .ok s' →
    KeepsPending y s s'
  content : ∀ os s size r,
    ObjectSerializer.SerializeContent c h fuel os s size = .ok r → KeepsPending y s r.2
  iterateBody : ∀ os s vs r,
    ObjectSerializer.IterateBody c h fuel os s vs = .ok r → KeepsPending y s r.2
  visitPointers : ∀ os s offset slots r,
    ObjectSerializer.VisitPointers c h fuel os s offset slots = .ok r → KeepsPending y s r.2
  cleared : ∀ os s offset slots r,
    ObjectSerializer.VisitPointers.cleared c h fuel os s offset slots = .ok r →
    KeepsPending y s r.2
  heapObjects : ∀ os s offset slots r,
    ObjectSerializer.VisitPointers.heapObjects c h fuel os s offset slots = .ok r →
    KeepsPending y s r.2
  reference : ∀ os s offset cc cur rest r,
    ObjectSerializer.VisitPointers.reference c h fuel os s offset cc cur rest = .ok r →
    KeepsPending y s r.2

/-- The Location that `SerializePrologue` takes from the allocator for `object_`
in state `s` (lines 390-399): a large-object index, a map index, or a chunk
position for the size plus the alignment fill. -/
def ObjectSerializer.AllocatedLocation (c : Config) (h : Heap) (s : Serializer)
    (object_ : HeapObject) (space : SnapshotSpace) (size : Nat) : SerializerReference :=
  match space with
  | .kLargeObject => (s.allocator_.AllocateLargeObject).1
  | .kMap => (s.allocator_.AllocateMap).1
  | _ => (s.allocator_.Allocate space (size + (PutAlignmentPrefix c h s object_).1)).1

/-- The plain heap in which object 0, the map of every object and a root, can
not be deferred. -/
def soundHeap : Heap :=
  { plainHeap with CanBeDeferred := fun o => decide (o ≠ 0) }

/-- Object 1 references object 2. -/
def chainHeap : Heap :=
  { soundHeap with
    Size := fun o => if o = 1 then 16 else 8
    body := fun o => if o = 1 then [.VisitPointers 8 [.Strong 2]] else [] }

/-- The diamond: A = 1, B = 2, C = 3, D = 4 with edges A -> B, A -> C, B -> D,
C -> D. -/
def diamondHeap : Heap :=
  { soundHeap with
    Size := fun o => if o = 1 then 24 else if o = 2 ∨ o = 3 then 16 else 8
    body := fun o =>
      if o = 1 then [.VisitPointers 8 [.Strong 2, .Strong 3]]
      else if o = 2 ∨ o = 3 then [.VisitPointers 8 [.Strong 4]]
      else [] }

/-- The states reached from the freshly constructed serializer by calls, each
returning normally, of the serializer operations: the dispatch
`SerializeObject`, `Serialize` (with its deferral path), `SerializePrologue`,
`ResolvePendingObject`, `SerializeDeferred`, the root pass and the deferred
pass. `Serialize` and `SerializePrologue` are called only for an object without
a Location (an object is serialized afresh only when it is not in
`reference_map_`), and `SerializePrologue` with the map that the source hands
it: the map of the object, or the map of the sequential string that stands for
an external string. -/
inductive OpReachable (c : Config) (h : Heap) : Serializer → Prop
  | initial : OpReachable c h (Serializer.initial c.kHotObjectCount)
  | serializeObject (fuel : Nat) (s : Serializer) (x : HeapObject) (s' : Serializer) :
      OpReachable c h s → SerializeObject c h fuel s x = .ok s' → OpReachable c h s'
  | serialize (fuel : Nat) (s : Serializer) (x : HeapObject) (s' : Serializer) :
      OpReachable c h s → (s.LookupReference (RefKey.object x)).is_valid = false →
      ObjectSerializer.Serialize c h fuel s x = .ok s' → OpReachable c h s'
  | serializePrologue (fuel : Nat) (s : Serializer) (x : HeapObject) (space : SnapshotSpace)
      (size : Nat) (map : HeapObject) (s' : Serializer) :
      OpReachable c h s → (s.LookupReference (RefKey.object x)).is_valid = false →
      (map = h.map x ∨
        ∃ info, h.kind x = InstanceKind.externalString info ∧
          map = SequentialStringMap h info) →
      ObjectSerializer.SerializePrologue c h fuel s x space size map = .ok s' →
      OpReachable c h s'
  | resolvePendingObject (s : Serializer) (x : HeapObject) :
      OpReachable c h s → OpReachable c h (ResolvePendingObject s x)
  | serializeDeferred (fuel : Nat) (s : Serializer) (x : HeapObject) (s' : Serializer) :
      OpReachable c h s → ObjectSerializer.SerializeDeferred c h fuel s x = .ok s' →
      OpReachable c h s'
  | visitRootPointers (fuel : Nat) (s : Serializer) (roots : List Object) (s' : Serializer) :
      OpReachable c h s → VisitRootPointers c h fuel s roots = .ok s' → OpReachable c h s'
  | serializeDeferredObjects (fuel : Nat) (s s' : Serializer) :
      OpReachable c h s → SerializeDeferredObjects c h fuel s = .ok s' → OpReachable c h s'

/-- Bookkeeping of forward references while a stream is read back: the ids that
were issued and are not yet resolved, the id the next register record gets, and
whether the entry just read was a resolve opcode, whose id comes next. -/
structure ForwardRefReplay where
  outstanding : List Int
  next : Int
  expectId : Bool
  deriving DecidableEq, Repr

/-- One entry of the stream. A register record is given the next id, as
`PutPendingForwardReferenceTo` issues it; a resolve record must carry an id that
is outstanding, which it consumes, and the numbering restarts at 0 once no id is
outstanding, as in `ResolvePendingForwardReference`. Other entries are passed
over. `none`: the stream resolves an id that is not outstanding. -/
def replayStep (st : ForwardRefReplay) (e : SinkEntry) : Option ForwardRefReplay :=
  if st.expectId then
    match e with
    | .PutInt id =>
      if id ∈ st.outstanding then
        some { outstanding := st.outstanding.erase id
               next := if st.outstanding.erase id = [] then 0 else st.next
               expectId := false }
      else none
    | _ => none
  else
    match e with
    | .Put .kRegisterPendingForwardRef =>
      some { st with outstanding := st.outstanding ++ [st.next], next := st.next + 1 }
    | .Put .kResolvePendingForwardRef => some { st with expectId := true }
    | _ => some st

/-- The bookkeeping after the whole stream, started from `st`. -/
def replayForwardRefs : List SinkEntry → ForwardRefReplay → Option ForwardRefReplay
  | [], st => some st
  | e :: rest, st =>
    match replayStep st e with
    | none => none
    | some st1 => replayForwardRefs rest st1

/-- The stream written so far replays to the serializer's own bookkeeping: the
outstanding ids are those stored in the pending table and the next id is
`next_forward_ref_id_`. -/
def ReplayInv (s : Serializer) : Prop :=
  ∃ out, replayForwardRefs s.sink_ { outstanding := [], next := 0, expectId := false } =
      some { outstanding := out, next := s.next_forward_ref_id_, expectId := false } ∧
    out.Perm s.outstandingIds

/-- The serializer state at the end of the complete run from root object 1 over
`chainHeap` with recursion bound 1. -/
def chainRunResult : Serializer :=
  { sink_ := [SinkEntry.Put (Bytecode.kNewObject SnapshotSpace.kOld),
      SinkEntry.PutInt 2,
      SinkEntry.Put (Bytecode.kRootArrayConstants 5),
      SinkEntry.Put Bytecode.kRegisterPendingForwardRef,
      SinkEntry.Put (Bytecode.kNewObject SnapshotSpace.kOld),
      SinkEntry.PutInt 1,
      SinkEntry.Put (Bytecode.kRootArrayConstants 5),
      SinkEntry.Put Bytecode.kResolvePendingForwardRef,
      SinkEntry.PutInt 0,
      SinkEntry.Put Bytecode.kSynchronize]
    reference_map_ := [(RefKey.object 2, SerializerReference.backReference SnapshotSpace.kOld 0 16),
      (RefKey.object 1, SerializerReference.backReference SnapshotSpace.kOld 0 0)]
    forward_refs_per_pending_object_ := []
    unresolved_forward_refs_ := 0
    next_forward_ref_id_ := 0
    deferred_objects_ := []
    hot_objects_ := { circular_queue_ := List.replicate 8 none, index_ := 0 }
    recursion_depth_ := 0
    allocator_ := { offset_read_only := 0, offset_old := 24, offset_code := 0, num_maps_ := 0,
                    seen_large_objects_index_ := 0, seen_backing_stores_index_ := 0 } }

/-- The serializer state at the end of the complete run from root A (object 1)
over `diamondHeap` with recursion bound 32. -/
def diamondRunResult : Serializer :=
  { sink_ := [SinkEntry.Put (Bytecode.kNewObject SnapshotSpace.kOld),
      SinkEntry.PutInt 3,
      SinkEntry.Put (Bytecode.kRootArrayConstants 5),
      SinkEntry.Put (Bytecode.kNewObject SnapshotSpace.kOld),
      SinkEntry.PutInt 2,
      SinkEntry.Put (Bytecode.kRootArrayConstants 5),
      SinkEntry.Put (Bytecode.kNewObject SnapshotSpace.kOld),
      SinkEntry.PutInt 1,
      SinkEntry.Put (Bytecode.kRootArrayConstants 5),
      SinkEntry.Put (Bytecode.kNewObject SnapshotSpace.kOld),
      SinkEntry.PutInt 2,
      SinkEntry.Put (Bytecode.kRootArrayConstants 5),
      SinkEntry.Put (Bytecode.kBackref SnapshotSpace.kOld),
      SinkEntry.PutInt 0,
      SinkEntry.PutInt 40,
      SinkEntry.Put Bytecode.kSynchronize]
    reference_map_ := [(RefKey.object 3, SerializerReference.backReference SnapshotSpace.kOld 0 48),
      (RefKey.object 4, SerializerReference.backReference SnapshotSpace.kOld 0 40),
      (RefKey.object 2, SerializerReference.backReference SnapshotSpace.kOld 0 24),
      (RefKey.object 1, SerializerReference.backReference SnapshotSpace.kOld 0 0)]
    forward_refs_per_pending_object_ := []
    unresolved_forward_refs_ := 0
    next_forward_ref_id_ := 0
    deferred_objects_ := []
    hot_objects_ :=
      { circular_queue_ := [some 4, none, none, none, none, none, none, none], index_ := 1 }
    recursion_depth_ := 0
    allocator_ := { offset_read_only := 0, offset_old := 64, offset_code := 0, num_maps_ := 0,
                    seen_large_objects_index_ := 0, seen_backing_stores_index_ := 0 } }

/-- The plain heap in which every map requires alignment class 1, with maximum
fill 4. -/
def alignedHeap : Heap :=
  { plainHeap with
    RequiredAlignment := fun _ => 1
    GetMaximumFillToAlign := fun _ => 4 }

/-- The example configuration with unknown external references allowed. -/
def testingConfig : Config :=
  { exampleConfig 32 with allow_unknown_external_references_for_testing := true }

/-- The data bytes an entry contributes to a raw payload: a literal byte or the
bytes of a `PutRaw`; opcodes and variable-length integers contribute none. -/
def SinkEntry.dataBytes : SinkEntry → List Nat
  | .PutByte b => [b]
  | .PutRaw data => data
  | _ => []

/-- The local `content_size` of `SerializeExternalStringAsSequentialString`:
`length * kCharSize` for a one-byte string, `length * kShortSize` otherwise. -/
def ExternalStringInfo.content_size (info : ExternalStringInfo) : Nat :=
  if info.IsExternalOneByteString then info.length * 1 else info.length * 2

/-- The local `allocation_size` of `SerializeExternalStringAsSequentialString`:
`SeqOneByteString::SizeFor(length)` or `SeqTwoByteString::SizeFor(length)`. -/
def ExternalStringInfo.allocation_size (c : Config) (info : ExternalStringInfo) : Nat :=
  SeqStringSizeFor c info.content_size

/-- The entries of the raw payload that `SerializeExternalStringAsSequentialString`
writes after the raw-data header: the header bytes of the string after the map,
the content, the padding. -/
def sequentialStringPayload (c : Config) (h : Heap) (object_ : HeapObject)
    (info : ExternalStringInfo) : List SinkEntry :=
  (List.range (c.kSeqStringHeaderSize - c.kHeapObjectHeaderSize)).map
      (fun i => SinkEntry.PutByte (h.byteAt object_ (c.kHeapObjectHeaderSize + i))) ++
    [SinkEntry.PutRaw (info.resource_data.take info.content_size)] ++
    List.replicate (info.allocation_size c - c.kSeqStringHeaderSize - info.content_size)
      (SinkEntry.PutByte 0)

/-- An external one-byte string of three characters. -/
def abcString : ExternalStringInfo :=
  { resource_as_address := 4096, IsExternalOneByteString := true,
    IsInternalizedString := false, length := 3, resource_data := [97, 98, 99] }

/-! ## Padding (`serializer.cc` lines 322-332) -/

/-- Modelled from the spec: the number of bytes an entry occupies in the
append-only byte buffer (the absent `SnapshotByteSink`): one byte for an opcode
or a literal byte, the bytes of a `PutRaw` themselves, and `intSize v` bytes for
the variable-length integer `v`. -/
def SinkEntry.byteSize (intSize : Int → Nat) : SinkEntry → Nat
  | .Put _ => 1
  | .PutByte _ => 1
  | .PutInt v => intSize v
  | .PutRaw data => data.length

/-- Modelled from the spec: `sink_.Position()`, the number of bytes written to
the buffer so far. -/
def Serializer.Position (intSize : Int → Nat) (s : Serializer) : Nat :=
  (s.sink_.map (SinkEntry.byteSize intSize)).sum

/-- The `while` loop of `Serializer::Pad`: a nop is written as long as
`sink_.Position() + padding_offset` is not aligned to `kPointerAlignment` (a
power of two, for which `IsAligned` is divisibility). -/
def Pad.loop (intSize : Int → Nat) (kPointerAlignment : Nat) (padding_offset : Int) :
    Nat → Serializer → Result Serializer
  | 0, _ => .outOfFuel
  | fuel + 1, s =>
    if ((s.Position intSize : Int) + padding_offset) % (kPointerAlignment : Int) ≠ 0 then
      Pad.loop intSize kPointerAlignment padding_offset fuel (s.Put Bytecode.kNop)
    else .ok s

/-- `Serializer::Pad`: `sizeof(int32_t) - 1` nops, then the alignment loop. -/
def Pad (intSize : Int → Nat) (kPointerAlignment : Nat) (fuel : Nat) (s : Serializer)
    (padding_offset : Int) : Result Serializer :=
  let s1 := (List.range (4 - 1)).foldl (fun s _ => s.Put Bytecode.kNop) s
  Pad.loop intSize kPointerAlignment padding_offset fuel s1

/-! ## Vocabulary for the slot accounting of `VisitPointers` -/

/-- How `VisitPointers` accounts for a slot or, for a repeat, a run of slots: a
Smi slot is left to the next raw-data record; a cleared weak slot gets the
cleared-weak marker; a reference to a pending object gets a forward reference;
a run of identical references to an immortal immovable root gets one repeat
record and one dispatch; any other reference gets a dispatch of its own. -/
inductive SlotEvent
  | rawData (value : Int)
  | clearedWeak
  | pendingForwardRef (weak : Bool) (target : HeapObject)
  | repeatRecord (weak : Bool) (target : HeapObject) (count : Nat)
  | singleDispatch (weak : Bool) (target : HeapObject)
  deriving DecidableEq, Repr

/-- The slots an event covers. -/
def SlotEvent.slots : SlotEvent → List MaybeObject
  | .rawData value => [MaybeObject.Smi value]
  | .clearedWeak => [MaybeObject.Cleared]
  | .pendingForwardRef weak target => [referenceSlot weak target]
  | .repeatRecord weak target count => List.replicate count (referenceSlot weak target)
  | .singleDispatch weak target => [referenceSlot weak target]

/-- A run of `VisitPointers` from `(os, s)` over the slots that start at `offset`,
event by event, ending in `(os2, s2)`. In front of every slot that is not a Smi
the raw data up to that slot has been flushed by `OutputRawData` (which writes
nothing when nothing is outstanding); a nested `SerializeObject` is a call that
returned. -/
inductive VisitRun (c : Config) (h : Heap) :
    ObjectSerializer → Serializer → Nat → List MaybeObject → List SlotEvent →
      ObjectSerializer → Serializer → Prop
  | done {os : ObjectSerializer} {s : Serializer} {offset : Nat} :
      VisitRun c h os s offset [] [] os s
  | smi {os : ObjectSerializer} {s : Serializer} {offset : Nat} {value : Int}
      {rest : List MaybeObject} {evs : List SlotEvent} {os2 : ObjectSerializer}
      {s2 : Serializer}
      (hrun : VisitRun c h os s (offset + c.kTaggedSize) rest evs os2 s2) :
      VisitRun c h os s offset (MaybeObject.Smi value :: rest)
        (SlotEvent.rawData value :: evs) os2 s2
  | cleared {os : ObjectSerializer} {s : Serializer} {offset : Nat}
      {rest : List MaybeObject} {evs : List SlotEvent} {os2 : ObjectSerializer}
      {s2 : Serializer}
      (hrun : VisitRun c h
        { (ObjectSerializer.OutputRawData c h os s offset).1 with
          bytes_processed_so_far_ :=
            (ObjectSerializer.OutputRawData c h os s offset).1.bytes_processed_so_far_ +
              c.kTaggedSize }
        ((ObjectSerializer.OutputRawData c h os s offset).2.Put Bytecode.kClearedWeakReference)
        (offset + c.kTaggedSize) rest evs os2 s2) :
      VisitRun c h os s offset (MaybeObject.Cleared :: rest)
        (SlotEvent.clearedWeak :: evs) os2 s2
  | pending {os : ObjectSerializer} {s : Serializer} {offset : Nat} {weak : Bool}
      {target : HeapObject} {cur : MaybeObject}
      {rest : List MaybeObject} {evs : List SlotEvent} {os2 : ObjectSerializer}
      {s2 : Serializer}
      (hcur : cur = referenceSlot weak target)
      (hp : (SerializePendingObject
        (afterWeakPrefix weak (ObjectSerializer.OutputRawData c h os s offset).2) target).1 =
          true)
      (hrun : VisitRun c h
        { (ObjectSerializer.OutputRawData c h os s offset).1 with
          bytes_processed_so_far_ :=
            (ObjectSerializer.OutputRawData c h os s offset).1.bytes_processed_so_far_ +
              c.kTaggedSize }
        (SerializePendingObject
          (afterWeakPrefix weak (ObjectSerializer.OutputRawData c h os s offset).2) target).2
        (offset + c.kTaggedSize) rest evs os2 s2) :
      VisitRun c h os s offset (cur :: rest)
        (SlotEvent.pendingForwardRef weak target :: evs) os2 s2
  | repeated {os : ObjectSerializer} {s : Serializer} {offset : Nat} {weak : Bool}
      {target : HeapObject} {cur : MaybeObject}
      {rest : List MaybeObject} {evs : List SlotEvent} {os2 : ObjectSerializer}
      {s2 : Serializer} {fuel : Nat} {s1 : Serializer}
      (hcur : cur = referenceSlot weak target)
      (hp : (SerializePendingObject
        (afterWeakPrefix weak (ObjectSerializer.OutputRawData c h os s offset).2) target).1 =
          false)
      (hc : rest ≠ [] ∧ IsImmortalImmovableRoot h target = true ∧ rest.head? = some cur)
      (hdispatch : SerializeObject c h fuel
        (PutRepeat c (afterWeakPrefix weak (ObjectSerializer.OutputRawData c h os s offset).2)
          (1 + countLeading cur rest)) target = .ok s1)
      (hrun : VisitRun c h
        { (ObjectSerializer.OutputRawData c h os s offset).1 with
          bytes_processed_so_far_ :=
            (ObjectSerializer.OutputRawData c h os s offset).1.bytes_processed_so_far_ +
              (1 + countLeading cur rest) * c.kTaggedSize }
        s1 (offset + (1 + countLeading cur rest) * c.kTaggedSize)
        (rest.drop (1 + countLeading cur rest - 1)) evs os2 s2) :
      VisitRun c h os s offset (cur :: rest)
        (SlotEvent.repeatRecord weak target (1 + countLeading cur rest) :: evs) os2 s2
  | single {os : ObjectSerializer} {s : Serializer} {offset : Nat} {weak : Bool}
      {target : HeapObject} {cur : MaybeObject}
      {rest : List MaybeObject} {evs : List SlotEvent} {os2 : ObjectSerializer}
      {s2 : Serializer} {fuel : Nat} {s1 : Serializer}
      (hcur : cur = referenceSlot weak target)
      (hp : (SerializePendingObject
        (afterWeakPrefix weak (ObjectSerializer.OutputRawData c h os s offset).2) target).1 =
          false)
      (hc : ¬ (rest ≠ [] ∧ IsImmortalImmovableRoot h target = true ∧
        rest.head? = some cur))
      (hdispatch : SerializeObject c h fuel
        (afterWeakPrefix weak (ObjectSerializer.OutputRawData c h os s offset).2) target =
          .ok s1)
      (hrun : VisitRun c h
        { (ObjectSerializer.OutputRawData c h os s offset).1 with
          bytes_processed_so_far_ :=
            (ObjectSerializer.OutputRawData c h os s offset).1.bytes_processed_so_far_ +
              c.kTaggedSize }
        s1 (offset + c.kTaggedSize) rest evs os2 s2) :
      VisitRun c h os s offset (cur :: rest)
        (SlotEvent.singleDispatch weak target :: evs) os2 s2

/-- The value of `bytes_processed_so_far_` after the slots that start at
`offset` have been visited: every slot that is not a Smi moves it just past
that slot, a Smi leaves it alone. -/
def bytesProcessedAfter (kTaggedSize : Nat) : Int → Nat → List MaybeObject → Int
  | bytes, _, [] => bytes
  | bytes, offset, MaybeObject.Smi _ :: rest =>
    bytesProcessedAfter kTaggedSize bytes (offset + kTaggedSize) rest
  | _, offset, _ :: rest =>
    bytesProcessedAfter kTaggedSize ((offset + kTaggedSize : Nat) : Int)
      (offset + kTaggedSize) rest

/-- The slot is a Smi. -/
def MaybeObject.IsSmi : MaybeObject → Bool
  | .Smi _ => true
  | _ => false

/-- With at least `g` units of fuel the three loops of `VisitPointers` return on
`slots`, from every state. -/
def VisitReturns (c : Config) (h : Heap) (g : Nat) (slots : List MaybeObject) : Prop :=
  ∀ fuel, g ≤ fuel → ∀ (os : ObjectSerializer) (s : Serializer) (offset : Nat),
    (∃ r, ObjectSerializer.VisitPointers c h fuel os s offset slots = .ok r) ∧
    (∃ r, ObjectSerializer.VisitPointers.cleared c h fuel os s offset slots = .ok r) ∧
    (∃ r, ObjectSerializer.VisitPointers.heapObjects c h fuel os s offset slots = .ok r)

/-- The plain heap with every object a `DescriptorArray` of 24 bytes whose byte
at offset `i` is `i`. -/
def descriptorHeap : Heap :=
  { plainHeap with
    kind := fun _ => InstanceKind.descriptorArray
    Size := fun _ => 24
    byteAt := fun _ i => i % 256 }

/-- Object 1 is an external one-byte string of 24 bytes whose resource field
(offset 16) holds the raw address 4096, which the external-reference table
encodes as api reference 7. Object 2 is an array buffer of 48 bytes without
backing store and object 3 one with four bytes of backing store at address 100;
the extension field (offset 40) of both holds the pointer 7, the
backing-store field (offset 32) of object 3 the address 100. -/
def fieldHeap : Heap :=
  { soundHeap with
    Size := fun o => if o = 1 then 24 else if o = 2 ∨ o = 3 then 48 else 8
    kind := fun o =>
      if o = 1 then
        .externalString { resource_as_address := 4096, IsExternalOneByteString := true,
                          IsInternalizedString := false, length := 3,
                          resource_data := [97, 98, 99] }
      else if o = 2 then .jsArrayBuffer { backing_store := none, byte_length := 0, extension := 7 }
      else if o = 3 then
        .jsArrayBuffer { backing_store := some 100, byte_length := 4, extension := 7 }
      else .other
    byteAt := fun o i =>
      if o = 1 ∧ i = 17 then 16
      else if (o = 2 ∨ o = 3) ∧ i = 40 then 7
      else if o = 3 ∧ i = 32 then 100
      else 0
    TryEncode := fun a => if a = 4096 then some { index := 7, is_from_api := true } else none }

/-! ## The events of the graph walk -/

/-- What the graph walk does for a node, in the order it happens. The log is
ghost state: it is computed beside the walk and read by no function of it.
* `edge target`: an edge to `target` is followed, that is, the dispatch
  `SerializeObject(target)` is called (for a slot, the map word, an embedded
  pointer, a code target or a root slot), or `VisitPointers` answers a slot that
  holds the pending `target` itself;
* `referenceRecord target`: a hot-object, back-reference (or attached-reference)
  or register-forward-reference record is written for `target`;
* `freshEncoding object`: `SerializePrologue` writes the new-object or
  new-meta-map record of `object`;
* `deferral object`: `ObjectSerializer::Serialize` takes its deferral branch for
  `object`. -/
inductive WalkEvent
  | edge (target : HeapObject)
  | referenceRecord (target : HeapObject)
  | freshEncoding (object : HeapObject)
  | deferral (object : HeapObject)
  deriving DecidableEq, Repr

mutual

/-- The events of a call of the dispatch `SerializeObject`: the edge, then the
reference record of the hot-object, back-reference or pending check that
answers it (a root record is no reference record), or the events of
`ObjectSerializer::Serialize`. -/
def SerializeObject.events (c : Config) (h : Heap) :
    Nat → Serializer → HeapObject → List WalkEvent
  | 0, _, _ => []
  | fuel + 1, s, obj =>
    WalkEvent.edge obj ::
      (if (SerializeRoot c h s obj).1 then []
      else if (SerializeHotObject s obj).1 then [WalkEvent.referenceRecord obj]
      else if (SerializeBackReference c h s obj).1 then [WalkEvent.referenceRecord obj]
      else if (SerializePendingObject s obj).1 then [WalkEvent.referenceRecord obj]
      else ObjectSerializer.Serialize.events c h fuel s obj)
termination_by structural fuel _ _ => fuel

/-- The events of `ObjectSerializer::Serialize`: the deferral with the
forward-reference record that `PutPendingForwardReferenceTo` writes, or the
events of the function that encodes the object. -/
def ObjectSerializer.Serialize.events (c : Config) (h : Heap) :
    Nat → Serializer → HeapObject → List WalkEvent
  | 0, _, _ => []
  | fuel + 1, s, object_ =>
    let s1 := RecursionScope.enter s
    if ObjectSerializer.ShouldDefer c h s1 object_ then
      [WalkEvent.deferral object_, WalkEvent.referenceRecord object_]
    else
      match h.kind object_ with
      | .externalString info =>
        ObjectSerializer.SerializeExternalString.events c h fuel s1 object_ info
      | .jsTypedArray info =>
        ObjectSerializer.SerializeJSTypedArray.events c h fuel s1 object_ info
      | .jsArrayBuffer info =>
        ObjectSerializer.SerializeJSArrayBuffer.events c h fuel s1 object_ info
      | _ => ObjectSerializer.SerializeObject.events c h fuel s1 object_
termination_by structural fuel _ _ => fuel

/-- The events of `ObjectSerializer::SerializeExternalString`. -/
def ObjectSerializer.SerializeExternalString.events (c : Config) (h : Heap) :
    Nat → Serializer → HeapObject → ExternalStringInfo → List WalkEvent
  | 0, _, _, _ => []
  | fuel + 1, s, object_, info =>
    match h.TryEncode info.resource_as_address with
    | some reference =>
      ObjectSerializer.SerializeObject.events c
        (SetResourceRefForSerialization c h object_ reference.index) fuel s object_
    | none =>
      ObjectSerializer.SerializeExternalStringAsSequentialString.events c h fuel s object_ info
termination_by structural fuel _ _ _ => fuel

/-- The events of `ObjectSerializer::SerializeExternalStringAsSequentialString`:
those of its `SerializePrologue`. -/
def ObjectSerializer.SerializeExternalStringAsSequentialString.events (c : Config)
    (h : Heap) : Nat → Serializer → HeapObject → ExternalStringInfo → List WalkEvent
  | 0, _, _, _ => []
  | fuel + 1, s, object_, info =>
    let map := SequentialStringMap h info
    let content_size := if info.IsExternalOneByteString then info.length * 1 else info.length * 2
    let allocation_size := SeqStringSizeFor c content_size
    let space := if allocation_size > c.kMaxRegularHeapObjectSize
      then SnapshotSpace.kLargeObject else SnapshotSpace.kOld
    ObjectSerializer.SerializePrologue.events c h fuel s object_ space allocation_size map
termination_by structural fuel _ _ _ => fuel

/-- The events of `ObjectSerializer::SerializeJSTypedArray`. -/
def ObjectSerializer.SerializeJSTypedArray.events (c : Config) (h : Heap) :
    Nat → Serializer → HeapObject → JSTypedArrayInfo → List WalkEvent
  | 0, _, _, _ => []
  | fuel + 1, s, object_, info =>
    if info.is_on_heap then ObjectSerializer.SerializeObject.events c h fuel s object_
    else if info.WasDetached = false then
      if ¬ info.buffer_byte_length ≤ 2 ^ 31 - 1 then []
      else
        ObjectSerializer.SerializeObject.events c h fuel
          (SerializeBackingStore h s info.backing_store info.buffer_byte_length).2 object_
    else ObjectSerializer.SerializeObject.events c h fuel s object_
termination_by structural fuel _ _ _ => fuel

/-- The events of `ObjectSerializer::SerializeJSArrayBuffer`. -/
def ObjectSerializer.SerializeJSArrayBuffer.events (c : Config) (h : Heap) :
    Nat → Serializer → HeapObject → JSArrayBufferInfo → List WalkEvent
  | 0, _, _, _ => []
  | fuel + 1, s, object_, info =>
    if ¬ info.byte_length ≤ 2 ^ 31 - 1 then []
    else
      match info.backing_store with
      | some backing_store =>
        ObjectSerializer.SerializeObject.events c
          (set_extension c
            (SetBackingStoreRefForSerialization c h object_
              (SerializeBackingStore h s backing_store info.byte_length).1) object_ 0)
          fuel (SerializeBackingStore h s backing_store info.byte_length).2 object_
      | none =>
        ObjectSerializer.SerializeObject.events c
          (SetBackingStoreRefForSerialization c h object_ c.kNullRefSentinel) fuel s object_
termination_by structural fuel _ _ _ => fuel

/-- The events of `ObjectSerializer::SerializeObject`: those of the prologue,
then those of the content. -/
def ObjectSerializer.SerializeObject.events (c : Config) (h : Heap) :
    Nat → Serializer → HeapObject → List WalkEvent
  | 0, _, _ => []
  | fuel + 1, s, object_ =>
    match GetSnapshotSpace c h object_ with
    | none => []
    | some space =>
      ObjectSerializer.SerializePrologue.events c h fuel s object_ space (h.Size object_)
          (h.map object_) ++
        (match ObjectSerializer.SerializePrologue c h fuel s object_ space (h.Size object_)
            (h.map object_) with
          | .ok s1 =>
            ObjectSerializer.SerializeContent.events c h fuel
              { object_ := object_, bytes_processed_so_far_ := c.kTaggedSize } s1
              (h.Size object_)
          | _ => [])
termination_by structural fuel _ _ => fuel

/-- The events of `ObjectSerializer::SerializePrologue`: the fresh encoding of
the object and, unless the object is its own map, the events of serializing
the map. -/
def ObjectSerializer.SerializePrologue.events (c : Config) (h : Heap) :
    Nat → Serializer → HeapObject → SnapshotSpace → Nat → HeapObject → List WalkEvent
  | 0, _, _, _, _, _ => []
  | fuel + 1, s, object_, space, size, map =>
    if map = object_ then [WalkEvent.freshEncoding object_]
    else
      WalkEvent.freshEncoding object_ ::
        SerializeObject.events c h fuel
          (RegisterObjectIsPending
            ((s.Put (Bytecode.kNewObject space)).PutInt (size >>> c.kObjectAlignmentBits))
            object_) map
termination_by structural fuel _ _ _ _ _ => fuel

/-- The events of `ObjectSerializer::SerializeContent`. -/
def ObjectSerializer.SerializeContent.events (c : Config) (h : Heap) :
    Nat → ObjectSerializer → Serializer → Nat → List WalkEvent
  | 0, _, _, _ => []
  | fuel + 1, os, s, size =>
    if h.kind os.object_ = InstanceKind.code then
      ObjectSerializer.IterateBody.events c h fuel os
        (ObjectSerializer.OutputCode c h s os.object_ size) (h.body os.object_)
    else ObjectSerializer.IterateBody.events c h fuel os s (h.body os.object_)
termination_by structural fuel _ _ _ => fuel

/-- The events of the visitor callbacks of `IterateBody`, one after the other:
the slots of `VisitPointers`, and the edge of `VisitEmbeddedPointer` and of
`VisitCodeTarget`; the other callbacks follow no edge. The state in which the
callbacks after `v` run is the one `IterateBody` reaches on `v` alone. -/
def ObjectSerializer.IterateBody.events (c : Config) (h : Heap) :
    Nat → ObjectSerializer → Serializer → List BodyVisit → List WalkEvent
  | 0, _, _, _ => []
  | _ + 1, _, _, [] => []
  | fuel + 1, os, s, v :: rest =>
    (match v with
      | .VisitPointers start_offset slots =>
        ObjectSerializer.VisitPointers.events c h fuel os s start_offset slots
      | .VisitEmbeddedPointer target _ => SerializeObject.events c h fuel s target
      | .VisitForeignExternalReference _ => []
      | .VisitCodeExternalReference _ _ => []
      | .VisitInternalReference _ => []
      | .VisitRuntimeEntry => []
      | .VisitOffHeapTarget _ _ => []
      | .VisitCodeTarget target _ => SerializeObject.events c h fuel s target) ++
    (match ObjectSerializer.IterateBody c h (fuel + 1) os s [v] with
      | .ok r => ObjectSerializer.IterateBody.events c h fuel r.1 r.2 rest
      | _ => [])
termination_by structural fuel _ _ _ => fuel

/-- The events of `ObjectSerializer::VisitPointers`. -/
def ObjectSerializer.VisitPointers.events (c : Config) (h : Heap) :
    Nat → ObjectSerializer → Serializer → Nat → List MaybeObject → List WalkEvent
  | 0, _, _, _, _ => []
  | _ + 1, _, _, _, [] => []
  | fuel + 1, os, s, offset, slot :: slots =>
    match slot with
    | .Smi _ =>
      ObjectSerializer.VisitPointers.events c h fuel os s (offset + c.kTaggedSize) slots
    | _ =>
      ObjectSerializer.VisitPointers.cleared.events c h fuel
        (ObjectSerializer.OutputRawData c h os s offset).1
        (ObjectSerializer.OutputRawData c h os s offset).2 offset (slot :: slots)
termination_by structural fuel _ _ _ _ => fuel

/-- The events of the second inner `while` of `VisitPointers`. -/
def ObjectSerializer.VisitPointers.cleared.events (c : Config) (h : Heap) :
    Nat → ObjectSerializer → Serializer → Nat → List MaybeObject → List WalkEvent
  | 0, _, _, _, _ => []
  | fuel + 1, os, s, offset, slots =>
    match slots with
    | .Cleared :: rest =>
      ObjectSerializer.VisitPointers.cleared.events c h fuel
        { os with bytes_processed_so_far_ := os.bytes_processed_so_far_ + c.kTaggedSize }
        (s.Put Bytecode.kClearedWeakReference) (offset + c.kTaggedSize) rest
    | _ => ObjectSerializer.VisitPointers.heapObjects.events c h fuel os s offset slots
termination_by structural fuel _ _ _ _ => fuel

/-- The events of the third inner `while` of `VisitPointers`. -/
def ObjectSerializer.VisitPointers.heapObjects.events (c : Config) (h : Heap) :
    Nat → ObjectSerializer → Serializer → Nat → List MaybeObject → List WalkEvent
  | 0, _, _, _, _ => []
  | fuel + 1, os, s, offset, slots =>
    match slots with
    | [] => []
    | .Smi v :: rest =>
      ObjectSerializer.VisitPointers.events c h fuel os s offset (.Smi v :: rest)
    | .Cleared :: rest =>
      ObjectSerializer.VisitPointers.events c h fuel os s offset (.Cleared :: rest)
    | .Strong current_contents :: rest =>
      ObjectSerializer.VisitPointers.reference.events c h fuel os s offset current_contents
        (.Strong current_contents) rest
    | .Weak current_contents :: rest =>
      ObjectSerializer.VisitPointers.reference.events c h fuel os
        (s.Put Bytecode.kWeakPrefix) offset current_contents (.Weak current_contents) rest
termination_by structural fuel _ _ _ _ => fuel

/-- The events of the body of the third inner `while` of `VisitPointers` for a
slot that holds a reference to `current_contents`: a pending target is answered
on the spot with a forward-reference record, any other target goes through the
dispatch `SerializeObject`. -/
def ObjectSerializer.VisitPointers.reference.events (c : Config) (h : Heap) :
    Nat → ObjectSerializer → Serializer → Nat → HeapObject → MaybeObject →
      List MaybeObject → List WalkEvent
  | 0, _, _, _, _, _, _ => []
  | fuel + 1, os, s, offset, current_contents, current, rest =>
    if (SerializePendingObject s current_contents).1 then
      WalkEvent.edge current_contents :: WalkEvent.referenceRecord current_contents ::
        ObjectSerializer.VisitPointers.heapObjects.events c h fuel
          { os with bytes_processed_so_far_ := os.bytes_processed_so_far_ + c.kTaggedSize }
          (SerializePendingObject s current_contents).2 (offset + c.kTaggedSize) rest
    else if rest ≠ [] ∧
        (match h.root_index_map current_contents with
          | some root_index => h.IsImmortalImmovable root_index
          | none => false) = true ∧
        rest.head? = some current then
      let repeat_count := 1 + countLeading current rest
      SerializeObject.events c h fuel (PutRepeat c s repeat_count) current_contents ++
        (match SerializeObject c h fuel (PutRepeat c s repeat_count) current_contents with
          | .ok s1 =>
            ObjectSerializer.VisitPointers.heapObjects.events c h fuel
              { os with bytes_processed_so_far_ :=
                  os.bytes_processed_so_far_ + repeat_count * c.kTaggedSize }
              s1 (offset + repeat_count * c.kTaggedSize) (rest.drop (repeat_count - 1))
          | _ => [])
    else
      SerializeObject.events c h fuel s current_contents ++
        (match SerializeObject c h fuel s current_contents with
          | .ok s1 =>
            ObjectSerializer.VisitPointers.heapObjects.events c h fuel
              { os with bytes_processed_so_far_ :=
                  os.bytes_processed_so_far_ + c.kTaggedSize }
              s1 (offset + c.kTaggedSize) rest
          | _ => [])
termination_by structural fuel _ _ _ _ _ _ => fuel

end

/-- The events of `ObjectSerializer::SerializeDeferred`. -/
def ObjectSerializer.SerializeDeferred.events (c : Config) (h : Heap) (fuel : Nat)
    (s : Serializer) (object_ : HeapObject) : List WalkEvent :=
  if (s.LookupReference (RefKey.object object_)).is_valid then []
  else ObjectSerializer.Serialize.events c h fuel s object_

/-- The events of `Serializer::SerializeDeferredObjects`. -/
def SerializeDeferredObjects.events (c : Config) (h : Heap) :
    Nat → Serializer → List WalkEvent
  | 0, _ => []
  | fuel + 1, s =>
    match s.deferred_objects_.getLast? with
    | none => []
    | some obj =>
      ObjectSerializer.SerializeDeferred.events c h fuel
          { s with deferred_objects_ := s.deferred_objects_.dropLast } obj ++
        (match ObjectSerializer.SerializeDeferred c h fuel
            { s with deferred_objects_ := s.deferred_objects_.dropLast } obj with
          | .ok s1 => SerializeDeferredObjects.events c h fuel s1
          | _ => [])

/-- The events of `Serializer::SerializeRootObject`: a root slot that holds a heap
object is an edge to it. -/
def SerializeRootObject.events (c : Config) (h : Heap) (fuel : Nat) (s : Serializer)
    (o : Object) : List WalkEvent :=
  match o with
  | .Smi _ => []
  | .HeapObject obj => SerializeObject.events c h fuel s obj

/-- The events of `Serializer::VisitRootPointers`. -/
def VisitRootPointers.events (c : Config) (h : Heap) (fuel : Nat) :
    Serializer → List Object → List WalkEvent
  | _, [] => []
  | s, current :: rest =>
    SerializeRootObject.events c h fuel s current ++
      (match SerializeRootObject c h fuel s current with
        | .ok s1 => VisitRootPointers.events c h fuel s1 rest
        | _ => [])

/-- The events of a complete run: those of the root pass, then those of the
deferred pass. -/
def SerializeRun.events (c : Config) (h : Heap) (fuel : Nat) (roots : List Object) :
    List WalkEvent :=
  VisitRootPointers.events c h fuel (Serializer.initial c.kHotObjectCount) roots ++
    (match VisitRootPointers c h fuel (Serializer.initial c.kHotObjectCount) roots with
      | .ok s => SerializeDeferredObjects.events c h fuel s
      | _ => [])

/-- Object 1 references object 2 three times. -/
def tripleHeap : Heap :=
  { soundHeap with
    Size := fun o => if o = 1 then 32 else 8
    body := fun o =>
      if o = 1 then [.VisitPointers 8 [.Strong 2, .Strong 2, .Strong 2]] else [] }
/-- The number of edges to `x` that the walk followed. -/
def edgesTo (x : HeapObject) (E : List WalkEvent) : Nat :=
  E.count (WalkEvent.edge x)

/-- The number of reference records (hot-object, back-reference or
forward-reference) written for `x`. -/
def referenceRecordsFor (x : HeapObject) (E : List WalkEvent) : Nat :=
  E.count (WalkEvent.referenceRecord x)

/-- The number of fresh encodings (new-object or new-meta-map records) of `x`. -/
def freshEncodingsOf (x : HeapObject) (E : List WalkEvent) : Nat :=
  E.count (WalkEvent.freshEncoding x)

/-- The number of times `x` was deferred. -/
def deferralsOf (x : HeapObject) (E : List WalkEvent) : Nat :=
  E.count (WalkEvent.deferral x)

/-- The object has a Location: `reference_map_` holds a valid reference for it. -/
def Serializer.Located (s : Serializer) (x : HeapObject) : Prop :=
  (s.LookupReference (RefKey.object x)).is_valid = true

/-- The prologue of `x` is under way: `x` is pending, has no Location yet and is
not waiting in the deferred queue. -/
def Serializer.Opened (s : Serializer) (x : HeapObject) : Prop :=
  ¬ s.Located x ∧ s.findPending x ≠ none ∧ s.deferred_objects_.count x = 0

/-- How the events logged so far for `x` fit the state of the tables. A hot
object has a Location, and `x` is in one of four phases:
* untouched: no Location, not pending, not queued, and no event names it;
* deferred: pending without Location, queued once, deferred once, not yet
  encoded, and each edge was answered by a reference record;
* opened: its prologue is under way; its fresh encoding is written;
* located: it has a Location and its fresh encoding is written.
In the last three phases the reference records are one fewer than the edges and
the deferrals together, and a deferral answered an edge. -/
structure NodeInv (x : HeapObject) (s : Serializer) (E : List WalkEvent) : Prop where
  hot : s.hot_objects_.Find x ≠ none → s.Located x
  phase :
    (¬ s.Located x ∧ s.findPending x = none ∧ s.deferred_objects_.count x = 0 ∧
      edgesTo x E = 0 ∧ referenceRecordsFor x E = 0 ∧ freshEncodingsOf x E = 0 ∧
      deferralsOf x E = 0) ∨
    (¬ s.Located x ∧ s.findPending x ≠ none ∧ s.deferred_objects_.count x = 1 ∧
      freshEncodingsOf x E = 0 ∧ deferralsOf x E = 1 ∧
      referenceRecordsFor x E + 1 = edgesTo x E + deferralsOf x E ∧
      deferralsOf x E ≤ edgesTo x E) ∨
    (¬ s.Located x ∧ s.findPending x ≠ none ∧ s.deferred_objects_.count x = 0 ∧
      freshEncodingsOf x E = 1 ∧ deferralsOf x E ≤ 1 ∧
      referenceRecordsFor x E + 1 = edgesTo x E + deferralsOf x E ∧
      deferralsOf x E ≤ edgesTo x E) ∨
    (s.Located x ∧ s.deferred_objects_.count x = 0 ∧
      freshEncodingsOf x E = 1 ∧ deferralsOf x E ≤ 1 ∧
      referenceRecordsFor x E + 1 = edgesTo x E + deferralsOf x E ∧
      deferralsOf x E ≤ edgesTo x E)

/-- What holds of `x` when `ObjectSerializer::Serialize` is entered for it: it
has no Location, is not hot and not queued, is not yet encoded, and the edges
so far were answered by reference records but for one (the edge that is being
answered now, or the edge answered by the deferral). -/
def Awaiting (x : HeapObject) (s : Serializer) (E : List WalkEvent) : Prop :=
  s.hot_objects_.Find x = none ∧ ¬ s.Located x ∧ s.deferred_objects_.count x = 0 ∧
  freshEncodingsOf x E = 0 ∧ deferralsOf x E ≤ 1 ∧
  referenceRecordsFor x E + 1 = edgesTo x E + deferralsOf x E ∧
  deferralsOf x E ≤ edgesTo x E

/-- The tables say the same of `x` in `s'` as in `s`; an object that became hot
has a Location. -/
structure SameFor (x : HeapObject) (s s' : Serializer) : Prop where
  loc : s'.LookupReference (RefKey.object x) = s.LookupReference (RefKey.object x)
  pend : s'.findPending x ≠ none ↔ s.findPending x ≠ none
  queue : s'.deferred_objects_.count x = s.deferred_objects_.count x
  hot : s'.hot_objects_.Find x ≠ none → s.hot_objects_.Find x ≠ none ∨ s'.Located x

/-- A step of the walk that is not the encoding of `x` itself: the events fit the
tables afterwards as before, and the prologue of `x` is under way afterwards
exactly if it was before. -/
def Keep (x : HeapObject) (s : Serializer) (E : List WalkEvent) (s' : Serializer)
    (E' : List WalkEvent) : Prop :=
  NodeInv x s E → NodeInv x s' E' ∧ (s.Opened x ↔ s'.Opened x)

/-- A step of the walk that encodes `x` (or defers it): entered with `x` awaiting
its encoding, it leaves the events fitting the tables, and the prologue of `x` is
over. -/
def Enc (x : HeapObject) (s : Serializer) (E : List WalkEvent) (s' : Serializer)
    (E' : List WalkEvent) : Prop :=
  Awaiting x s E → NodeInv x s' E' ∧ ¬ s'.Opened x

/-- The effect on `x` of a function of the `ObjectSerializer` of `y`. -/
def Obj (x y : HeapObject) (s : Serializer) (E : List WalkEvent) (s' : Serializer)
    (E' : List WalkEvent) : Prop :=
  (y ≠ x → Keep x s E s' E') ∧ (y = x → Enc x s E s' E')

/-- The effect on `x` of every function of the graph walk when run with `fuel`,
in terms of the events it logs. -/
structure WalkTally (c : Config) (h : Heap) (x : HeapObject) (fuel : Nat) : Prop where
  serializeObject : ∀ s y s' E, SerializeObject c h fuel s y = .ok s' →
    Keep x s E s' (E ++ SerializeObject.events c h fuel s y)
  serialize : ∀ s y s' E, ObjectSerializer.Serialize c h fuel s y = .ok s' →
    (y ≠ x → Keep x s E s' (E ++ ObjectSerializer.Serialize.events c h fuel s y)) ∧
    (y = x →
      (deferralsOf x E = 1 →
        ObjectSerializer.ShouldDefer c h (RecursionScope.enter s) x = false) →
      Enc x s E s' (E ++ ObjectSerializer.Serialize.events c h fuel s y))
  externalString : ∀ s y info s' E,
    ObjectSerializer.SerializeExternalString c h fuel s y info = .ok s' →
    Obj x y s E s'.2 (E ++ ObjectSerializer.SerializeExternalString.events c h fuel s y info)
  sequentialString : ∀ s y info s' E,
    ObjectSerializer.SerializeExternalStringAsSequentialString c h fuel s y info = .ok s' →
    Obj x y s E s'
      (E ++ ObjectSerializer.SerializeExternalStringAsSequentialString.events c h fuel s y info)
  typedArray : ∀ s y info s' E,
    ObjectSerializer.SerializeJSTypedArray c h fuel s y info = .ok s' →
    Obj x y s E s' (E ++ ObjectSerializer.SerializeJSTypedArray.events c h fuel s y info)
  arrayBuffer : ∀ s y info s' E,
    ObjectSerializer.SerializeJSArrayBuffer c h fuel s y info = .ok s' →
    Obj x y s E s'.2 (E ++ ObjectSerializer.SerializeJSArrayBuffer.events c h fuel s y info)
  object : ∀ s y s' E, ObjectSerializer.SerializeObject c h fuel s y = .ok s' →
    Obj x y s E s' (E ++ ObjectSerializer.SerializeObject.events c h fuel s y)
  prologue : ∀ s y space size map s' E,
    ObjectSerializer.SerializePrologue c h fuel s y space size map = .ok s' →
    Obj x y s E s' (E ++ ObjectSerializer.SerializePrologue.events c h fuel s y space size map)
  content : ∀ os s size r E,
    ObjectSerializer.SerializeContent c h fuel os s size = .ok r →
    Keep x s E r.2 (E ++ ObjectSerializer.SerializeContent.events c h fuel os s size)
  iterateBody : ∀ os s vs r E,
    ObjectSerializer.IterateBody c h fuel os s vs = .ok r →
    Keep x s E r.2 (E ++ ObjectSerializer.IterateBody.events c h fuel os s vs)
  visitPointers : ∀ os s offset slots r E,
    ObjectSerializer.VisitPointers c h fuel os s offset slots = .ok r →
    Keep x s E r.2 (E ++ ObjectSerializer.VisitPointers.events c h fuel os s offset slots)
  cleared : ∀ os s offset slots r E,
    ObjectSerializer.VisitPointers.cleared c h fuel os s offset slots = .ok r →
    Keep x s E r.2
      (E ++ ObjectSerializer.VisitPointers.cleared.events c h fuel os s offset slots)
  heapObjects : ∀ os s offset slots r E,
    ObjectSerializer.VisitPointers.heapObjects c h fuel os s offset slots = .ok r →
    Keep x s E r.2
      (E ++ ObjectSerializer.VisitPointers.heapObjects.events c h fuel os s offset slots)
  reference : ∀ os s offset cc cur rest r E,
    ObjectSerializer.VisitPointers.reference c h fuel os s offset cc cur rest = .ok r →
    Keep x s E r.2
      (E ++ ObjectSerializer.VisitPointers.reference.events c h fuel os s offset cc cur rest)
/-- The node an event is about. -/
def WalkEvent.node : WalkEvent → HeapObject
  | .edge target => target
  | .referenceRecord target => target
  | .freshEncoding object => object
  | .deferral object => object

/-- The two kinds of record that the dedup count is about. -/
inductive RecordKind
  | freshEncoding
  | referenceRecord
  deriving DecidableEq, Repr

/-- The record that a sink entry opens, if it opens one of the two kinds: the
opcode of a new-object or new-meta-map record opens a fresh encoding, the opcode
of a hot-object, back-reference, attached-reference or
register-forward-reference record opens a reference record. -/
def SinkEntry.recordKind : SinkEntry → Option RecordKind
  | .Put (.kNewObject _) => some .freshEncoding
  | .Put .kNewMetaMap => some .freshEncoding
  | .Put (.kHotObject _) => some .referenceRecord
  | .Put (.kBackref _) => some .referenceRecord
  | .Put .kAttachedReference => some .referenceRecord
  | .Put .kRegisterPendingForwardRef => some .referenceRecord
  | _ => none

/-- The record that an event of the walk stands for, if any. -/
def WalkEvent.recordKind : WalkEvent → Option RecordKind
  | .freshEncoding _ => some .freshEncoding
  | .referenceRecord _ => some .referenceRecord
  | _ => none

/-- The fresh encodings and reference records of a stream, in stream order. -/
def recordsOf (sink : List SinkEntry) : List RecordKind :=
  sink.filterMap SinkEntry.recordKind

/-- The fresh encodings and reference records that a log of events stands for, in
the order of the log. -/
def recordedBy (E : List WalkEvent) : List RecordKind :=
  E.filterMap WalkEvent.recordKind

/-- The records that a step of the walk added to the stream are those of its
events, in the same order. -/
def Records (s s' : Serializer) (ev : List WalkEvent) : Prop :=
  recordsOf s'.sink_ = recordsOf s.sink_ ++ recordedBy ev

/-- Every function of the graph walk, run with `fuel`, writes the records of its
events, in the order of the events. -/
structure WalkRecords (c : Config) (h : Heap) (fuel : Nat) : Prop where
  serializeObject : ∀ s y s', SerializeObject c h fuel s y = .ok s' →
    Records s s' (SerializeObject.events c h fuel s y)
  serialize : ∀ s y s', ObjectSerializer.Serialize c h fuel s y = .ok s' →
    Records s s' (ObjectSerializer.Serialize.events c h fuel s y)
  externalString : ∀ s y info s',
    ObjectSerializer.SerializeExternalString c h fuel s y info = .ok s' →
    Records s s'.2 (ObjectSerializer.SerializeExternalString.events c h fuel s y info)
  sequentialString : ∀ s y info s',
    ObjectSerializer.SerializeExternalStringAsSequentialString c h fuel s y info = .ok s' →
    Records s s'
      (ObjectSerializer.SerializeExternalStringAsSequentialString.events c h fuel s y info)
  typedArray : ∀ s y info s',
    ObjectSerializer.SerializeJSTypedArray c h fuel s y info = .ok s' →
    Records s s' (ObjectSerializer.SerializeJSTypedArray.events c h fuel s y info)
  arrayBuffer : ∀ s y info s',
    ObjectSerializer.SerializeJSArrayBuffer c h fuel s y info = .ok s' →
    Records s s'.2 (ObjectSerializer.SerializeJSArrayBuffer.events c h fuel s y info)
  object : ∀ s y s', ObjectSerializer.SerializeObject c h fuel s y = .ok s' →
    Records s s' (ObjectSerializer.SerializeObject.events c h fuel s y)
  prologue : ∀ s y space size map s',
    ObjectSerializer.SerializePrologue c h fuel s y space size map = .ok s' →
    Records s s' (ObjectSerializer.SerializePrologue.events c h fuel s y space size map)
  content : ∀ os s size r,
    ObjectSerializer.SerializeContent c h fuel os s size = .ok r →
    Records s r.2 (ObjectSerializer.SerializeContent.events c h fuel os s size)
  iterateBody : ∀ os s vs r,
    ObjectSerializer.IterateBody c h fuel os s vs = .ok r →
    Records s r.2 (ObjectSerializer.IterateBody.events c h fuel os s vs)
  visitPointers : ∀ os s offset slots r,
    ObjectSerializer.VisitPointers c h fuel os s offset slots = .ok r →
    Records s r.2 (ObjectSerializer.VisitPointers.events c h fuel os s offset slots)
  cleared : ∀ os s offset slots r,
    ObjectSerializer.VisitPointers.cleared c h fuel os s offset slots = .ok r →
    Records s r.2 (ObjectSerializer.VisitPointers.cleared.events c h fuel os s offset slots)
  heapObjects : ∀ os s offset slots r,
    ObjectSerializer.VisitPointers.heapObjects c h fuel os s offset slots = .ok r →
    Records s r.2
      (ObjectSerializer.VisitPointers.heapObjects.events c h fuel os s offset slots)
  reference : ∀ os s offset cc cur rest r,
    ObjectSerializer.VisitPointers.reference c h fuel os s offset cc cur rest = .ok r →
    Records s r.2
      (ObjectSerializer.VisitPointers.reference.events c h fuel os s offset cc cur rest)

/-! # Verification -/

/-! ## Forward-reference primitives: basic facts -/

theorem ResolvePendingForwardReference_sink (s : Serializer) (id : Int) :
    (ResolvePendingForwardReference s id).sink_ =
      s.sink_ ++ [SinkEntry.Put Bytecode.kResolvePendingForwardRef, SinkEntry.PutInt id] := by
  unfold ResolvePendingForwardReference
  simp only [Serializer.Put, Serializer.PutInt]
  split <;> simp

theorem ResolvePendingForwardReference_unresolved (s : Serializer) (id : Int) :
    (ResolvePendingForwardReference s id).unresolved_forward_refs_ =
      s.unresolved_forward_refs_ - 1 := by
  unfold ResolvePendingForwardReference
  simp only [Serializer.Put, Serializer.PutInt]
  split <;> simp

theorem ResolvePendingForwardReference_table (s : Serializer) (id : Int) :
    (ResolvePendingForwardReference s id).forward_refs_per_pending_object_ =
      s.forward_refs_per_pending_object_ := by
  unfold ResolvePendingForwardReference
  simp only [Serializer.Put, Serializer.PutInt]
  split <;> simp

theorem ResolvePendingForwardReference_next (s : Serializer) (id : Int) :
    (ResolvePendingForwardReference s id).next_forward_ref_id_ =
      if s.unresolved_forward_refs_ - 1 = 0 then 0 else s.next_forward_ref_id_ := by
  unfold ResolvePendingForwardReference
  simp only [Serializer.Put, Serializer.PutInt]
  split <;> simp_all

theorem ResolvePendingForwardReference_frame (s : Serializer) (id : Int) :
    (ResolvePendingForwardReference s id).reference_map_ = s.reference_map_ ∧
    (ResolvePendingForwardReference s id).deferred_objects_ = s.deferred_objects_ ∧
    (ResolvePendingForwardReference s id).hot_objects_ = s.hot_objects_ ∧
    (ResolvePendingForwardReference s id).recursion_depth_ = s.recursion_depth_ ∧
    (ResolvePendingForwardReference s id).allocator_ = s.allocator_ := by
  unfold ResolvePendingForwardReference
  simp only [Serializer.Put, Serializer.PutInt]
  split <;> simp

theorem lookup_pushBackId_self (obj : HeapObject) (id : Int) (t : List (HeapObject × List Int))
    (ids : List Int) (hl : t.lookup obj = some ids) :
    (pushBackId obj id t).lookup obj = some (ids ++ [id]) := by
  induction t with
  | nil => simp at hl
  | cons e rest ih =>
    obtain ⟨k, v⟩ := e
    by_cases hk : k = obj
    · subst hk
      simp [pushBackId, List.lookup] at hl ⊢
      exact hl
    · have hk2 : (obj == k) = false := by simpa using fun h => hk h.symm
      simp [pushBackId, hk, List.lookup, hk2] at hl ⊢
      exact ih hl

theorem lookup_pushBackId_other (obj o : HeapObject) (id : Int)
    (t : List (HeapObject × List Int)) (hne : o ≠ obj) :
    (pushBackId obj id t).lookup o = t.lookup o := by
  induction t with
  | nil => simp [pushBackId]
  | cons e rest ih =>
    obtain ⟨k, v⟩ := e
    by_cases hk : k = obj
    · subst hk
      have hk2 : (o == k) = false := by simpa using hne
      simp [pushBackId, List.lookup, hk2]
    · by_cases ho : o = k
      · subst ho
        simp [pushBackId, hk, List.lookup]
      · have hk2 : (o == k) = false := by simpa using ho
        simp [pushBackId, hk, List.lookup, hk2, ih]

/-- C1. Forward-ref id reuse: whenever a call to `ResolvePendingForwardReference`
leaves `unresolved_forward_refs_ == 0`, the id counter is 0 and the next
`PutPendingForwardReferenceTo` appends the id 0 to the entry it is given. This
holds from every serializer state, reachable or not. -/
theorem forward_ref_id_reuse (s : Serializer) (forward_reference_id : Int)
    (obj : HeapObject) (ids : List Int)
    (hzero : (ResolvePendingForwardReference s forward_reference_id).unresolved_forward_refs_ = 0)
    (hentry : (ResolvePendingForwardReference s forward_reference_id).findPending obj = some ids) :
    (ResolvePendingForwardReference s forward_reference_id).next_forward_ref_id_ = 0 ∧
    (PutPendingForwardReferenceTo (ResolvePendingForwardReference s forward_reference_id)
      obj).findPending obj = some (ids ++ [0]) := by
  have hnext : (ResolvePendingForwardReference s forward_reference_id).next_forward_ref_id_ = 0 := by
    rw [ResolvePendingForwardReference_next]
    rw [ResolvePendingForwardReference_unresolved] at hzero
    simp [hzero]
  refine ⟨hnext, ?_⟩
  unfold PutPendingForwardReferenceTo
  simp only [Serializer.findPending, Serializer.Put] at hentry ⊢
  rw [hnext]
  exact lookup_pushBackId_self obj 0 _ ids hentry

/-- Witness for C1: one id outstanding for object 7; resolving it empties the
outstanding set and the next id registered against object 9 is 0. -/
theorem forward_ref_id_reuse_witness :
    (PutPendingForwardReferenceTo
      (ResolvePendingForwardReference
        { Serializer.initial 8 with
          forward_refs_per_pending_object_ := [(7, [4]), (9, [])]
          unresolved_forward_refs_ := 1
          next_forward_ref_id_ := 5 } 4) 9).findPending 9 = some ([] ++ [0]) :=
  (forward_ref_id_reuse
    { Serializer.initial 8 with
      forward_refs_per_pending_object_ := [(7, [4]), (9, [])]
      unresolved_forward_refs_ := 1
      next_forward_ref_id_ := 5 } 4 9 [] (by decide) (by decide)).2

theorem foldl_Resolve_sink (ids : List Int) (s : Serializer) :
    (ids.foldl ResolvePendingForwardReference s).sink_ =
      s.sink_ ++ ids.flatMap (fun id =>
        [SinkEntry.Put Bytecode.kResolvePendingForwardRef, SinkEntry.PutInt id]) := by
  induction ids generalizing s with
  | nil => simp
  | cons id rest ih =>
    simp only [List.foldl_cons, ih, ResolvePendingForwardReference_sink, List.flatMap_cons,
      List.append_assoc]

theorem foldl_Resolve_unresolved (ids : List Int) (s : Serializer) :
    (ids.foldl ResolvePendingForwardReference s).unresolved_forward_refs_ =
      s.unresolved_forward_refs_ - ids.length := by
  induction ids generalizing s with
  | nil => simp
  | cons id rest ih =>
    simp only [List.foldl_cons, ih, ResolvePendingForwardReference_unresolved, List.length_cons]
    push_cast
    ring

theorem foldl_Resolve_table (ids : List Int) (s : Serializer) :
    (ids.foldl ResolvePendingForwardReference s).forward_refs_per_pending_object_ =
      s.forward_refs_per_pending_object_ := by
  induction ids generalizing s with
  | nil => simp
  | cons id rest ih => simp only [List.foldl_cons, ih, ResolvePendingForwardReference_table]

theorem foldl_Resolve_frame (ids : List Int) (s : Serializer) :
    (ids.foldl ResolvePendingForwardReference s).reference_map_ = s.reference_map_ ∧
    (ids.foldl ResolvePendingForwardReference s).deferred_objects_ = s.deferred_objects_ ∧
    (ids.foldl ResolvePendingForwardReference s).hot_objects_ = s.hot_objects_ ∧
    (ids.foldl ResolvePendingForwardReference s).recursion_depth_ = s.recursion_depth_ ∧
    (ids.foldl ResolvePendingForwardReference s).allocator_ = s.allocator_ := by
  induction ids generalizing s with
  | nil => simp
  | cons id rest ih =>
    simp only [List.foldl_cons]
    obtain ⟨h1, h2, h3, h4, h5⟩ := ih (ResolvePendingForwardReference s id)
    obtain ⟨g1, g2, g3, g4, g5⟩ := ResolvePendingForwardReference_frame s id
    exact ⟨h1.trans g1, h2.trans g2, h3.trans g3, h4.trans g4, h5.trans g5⟩

theorem lookup_eraseEntry_self (obj : HeapObject) (t : List (HeapObject × List Int)) :
    (eraseEntry obj t).lookup obj = none := by
  induction t with
  | nil => simp [eraseEntry]
  | cons e rest ih =>
    obtain ⟨k, v⟩ := e
    by_cases hk : k = obj
    · subst hk
      simpa [eraseEntry] using ih
    · have hk2 : (obj == k) = false := by simpa using fun h => hk h.symm
      simp only [eraseEntry, ne_eq, decide_not] at ih ⊢
      simp [List.filter_cons, hk, List.lookup, hk2, ih]

theorem lookup_eraseEntry_other (obj o : HeapObject) (t : List (HeapObject × List Int))
    (hne : o ≠ obj) : (eraseEntry obj t).lookup o = t.lookup o := by
  induction t with
  | nil => simp [eraseEntry]
  | cons e rest ih =>
    obtain ⟨k, v⟩ := e
    simp only [eraseEntry, ne_eq, decide_not] at ih ⊢
    by_cases hk : k = obj
    · subst hk
      have hk2 : (o == k) = false := by simpa using hne
      simp [List.filter_cons, List.lookup, hk2, ih]
    · by_cases ho : o = k
      · subst ho
        simp [List.filter_cons, hk, List.lookup]
      · have hk2 : (o == k) = false := by simpa using ho
        simp [List.filter_cons, hk, List.lookup, hk2, ih]

/-- C5. For a pending entry `ref` holding the ids `ids`, `ResolvePendingObject`
appends to the sink exactly one record `kResolvePendingForwardRef, id` per
registered id, in registration order and nothing else; it lowers
`unresolved_forward_refs_` by the number of ids; it removes the entry of `ref`
from the pending table and leaves the entry of every other object, the reference
map, the deferred queue and the hot-object window as they were. -/
theorem ResolvePendingObject_spec (s : Serializer) (ref : HeapObject) (ids : List Int)
    (hentry : s.findPending ref = some ids) :
    (ResolvePendingObject s ref).sink_ =
      s.sink_ ++ ids.flatMap (fun id =>
        [SinkEntry.Put Bytecode.kResolvePendingForwardRef, SinkEntry.PutInt id]) ∧
    (ResolvePendingObject s ref).unresolved_forward_refs_ =
      s.unresolved_forward_refs_ - ids.length ∧
    (ResolvePendingObject s ref).findPending ref = none ∧
    (∀ o, o ≠ ref → (ResolvePendingObject s ref).findPending o = s.findPending o) ∧
    (ResolvePendingObject s ref).forward_refs_per_pending_object_ =
      eraseEntry ref s.forward_refs_per_pending_object_ ∧
    (ResolvePendingObject s ref).reference_map_ = s.reference_map_ ∧
    (ResolvePendingObject s ref).deferred_objects_ = s.deferred_objects_ ∧
    (ResolvePendingObject s ref).hot_objects_ = s.hot_objects_ := by
  obtain ⟨f1, f2, f3, _, _⟩ := foldl_Resolve_frame ids s
  have hl : s.forward_refs_per_pending_object_.lookup ref = some ids := hentry
  simp only [ResolvePendingObject, Serializer.findPending, hl, Option.getD_some,
    foldl_Resolve_sink, foldl_Resolve_unresolved, foldl_Resolve_table, f1, f2, f3, true_and]
  exact ⟨lookup_eraseEntry_self ref _, fun o ho => lookup_eraseEntry_other ref o _ ho, trivial⟩

/-- Witness for C5: the entry of object 7 holds ids 0 and 2, object 9 holds id 1. -/
theorem ResolvePendingObject_spec_witness :
    (ResolvePendingObject
      { Serializer.initial 8 with
        forward_refs_per_pending_object_ := [(7, [0, 2]), (9, [1])]
        unresolved_forward_refs_ := 3
        next_forward_ref_id_ := 3 } 7).sink_ =
      [SinkEntry.Put Bytecode.kResolvePendingForwardRef, SinkEntry.PutInt 0,
       SinkEntry.Put Bytecode.kResolvePendingForwardRef, SinkEntry.PutInt 2] :=
  (ResolvePendingObject_spec
    { Serializer.initial 8 with
      forward_refs_per_pending_object_ := [(7, [0, 2]), (9, [1])]
      unresolved_forward_refs_ := 3
      next_forward_ref_id_ := 3 } 7 [0, 2] (by decide)).1

/-! ## The forward-reference invariant -/

theorem keys_pushBackId (obj : HeapObject) (id : Int) (t : List (HeapObject × List Int)) :
    (pushBackId obj id t).map Prod.fst = t.map Prod.fst := by
  induction t with
  | nil => simp [pushBackId]
  | cons e rest ih =>
    obtain ⟨k, v⟩ := e
    by_cases hk : k = obj
    · simp [pushBackId, hk]
    · simp [pushBackId, hk, ih]

theorem idsOfTable_pushBackId (obj : HeapObject) (id : Int) (t : List (HeapObject × List Int))
    (ids : List Int) (hl : t.lookup obj = some ids) :
    (idsOfTable (pushBackId obj id t)).Perm (id :: idsOfTable t) := by
  induction t with
  | nil => simp at hl
  | cons e rest ih =>
    obtain ⟨k, v⟩ := e
    by_cases hk : k = obj
    · subst hk
      simp only [pushBackId, if_true, idsOfTable, List.map_cons, List.flatten_cons,
        List.append_assoc]
      have : (v ++ ([id] ++ (rest.map Prod.snd).flatten)).Perm
          ([id] ++ (v ++ (rest.map Prod.snd).flatten)) := by
        rw [← List.append_assoc, ← List.append_assoc]
        exact List.Perm.append_right _ List.perm_append_comm
      simp
    · have hk2 : (obj == k) = false := by simpa using fun h => hk h.symm
      simp only [List.lookup, hk2] at hl
      have ih' := ih hl
      simp only [pushBackId, hk, if_false, idsOfTable, List.map_cons, List.flatten_cons] at ih' ⊢
      calc (v ++ ((pushBackId obj id rest).map Prod.snd).flatten).Perm
            (v ++ (id :: (rest.map Prod.snd).flatten)) := List.Perm.append_left v ih'
        _ |>.Perm (id :: (v ++ (rest.map Prod.snd).flatten)) := List.perm_middle

theorem eraseEntry_of_lookup_none (obj : HeapObject) (t : List (HeapObject × List Int))
    (hl : t.lookup obj = none) : eraseEntry obj t = t := by
  induction t with
  | nil => simp [eraseEntry]
  | cons e rest ih =>
    obtain ⟨k, v⟩ := e
    by_cases hk : k = obj
    · subst hk
      simp [List.lookup] at hl
    · have hk2 : (obj == k) = false := by simpa using fun h => hk h.symm
      simp only [List.lookup, hk2] at hl
      have ih' := ih hl
      simp only [eraseEntry, ne_eq, decide_not] at ih' ⊢
      simp [List.filter_cons, hk, ih']

theorem eraseEntry_of_not_mem (obj : HeapObject) (t : List (HeapObject × List Int))
    (hl : obj ∉ t.map Prod.fst) : eraseEntry obj t = t := by
  induction t with
  | nil => simp [eraseEntry]
  | cons e rest ih =>
    obtain ⟨k, v⟩ := e
    simp only [List.map_cons, List.mem_cons, not_or] at hl
    have ih' := ih hl.2
    simp only [eraseEntry, ne_eq, decide_not] at ih' ⊢
    have hk : ¬ k = obj := fun h => hl.1 h.symm
    simp [List.filter_cons, hk, ih']

theorem idsOfTable_eraseEntry (obj : HeapObject) (t : List (HeapObject × List Int))
    (ids : List Int) (hn : (t.map Prod.fst).Nodup) (hl : t.lookup obj = some ids) :
    (idsOfTable t).Perm (ids ++ idsOfTable (eraseEntry obj t)) := by
  induction t with
  | nil => simp at hl
  | cons e rest ih =>
    obtain ⟨k, v⟩ := e
    simp only [List.map_cons, List.nodup_cons] at hn
    by_cases hk : k = obj
    · subst hk
      simp only [List.lookup, beq_self_eq_true, Option.some.injEq] at hl
      subst hl
      have : eraseEntry k ((k, v) :: rest) = rest := by
        have h1 := eraseEntry_of_not_mem k rest hn.1
        simp only [eraseEntry, ne_eq, decide_not] at h1 ⊢
        simp [List.filter_cons, h1]
      rw [this]
      simp [idsOfTable]
    · have hk2 : (obj == k) = false := by simpa using fun h => hk h.symm
      simp only [List.lookup, hk2] at hl
      have ih' := ih hn.2 hl
      have : eraseEntry obj ((k, v) :: rest) = (k, v) :: eraseEntry obj rest := by
        simp [eraseEntry, List.filter_cons, hk]
      rw [this]
      simp only [idsOfTable, List.map_cons, List.flatten_cons] at ih' ⊢
      calc (v ++ (rest.map Prod.snd).flatten).Perm
            (v ++ (ids ++ ((eraseEntry obj rest).map Prod.snd).flatten)) :=
              List.Perm.append_left v ih'
        _ |>.Perm (ids ++ (v ++ ((eraseEntry obj rest).map Prod.snd).flatten)) := by
              rw [← List.append_assoc, ← List.append_assoc]
              exact List.Perm.append_right _ List.perm_append_comm

theorem keys_eraseEntry_sublist (obj : HeapObject) (t : List (HeapObject × List Int)) :
    ((eraseEntry obj t).map Prod.fst).Sublist (t.map Prod.fst) := by
  unfold eraseEntry
  exact (List.filter_sublist t).map Prod.fst

theorem ForwardRefInv_initial (n : Nat) : ForwardRefInv (Serializer.initial n) := by
  constructor <;> simp [Serializer.initial, Serializer.pendingKeys, Serializer.outstandingIds,
    idsOfTable]

theorem ForwardRefInv_frame (s s' : Serializer) (hinv : ForwardRefInv s)
    (ht : s'.forward_refs_per_pending_object_ = s.forward_refs_per_pending_object_)
    (hu : s'.unresolved_forward_refs_ = s.unresolved_forward_refs_)
    (hn : s'.next_forward_ref_id_ = s.next_forward_ref_id_) : ForwardRefInv s' := by
  obtain ⟨h1, h2, h3, h4, h5, h6⟩ := hinv
  constructor <;> simp only [Serializer.pendingKeys, Serializer.outstandingIds, ht, hu, hn] at * <;>
    assumption

theorem lookup_eq_none_iff_not_mem_keys (obj : HeapObject) (t : List (HeapObject × List Int)) :
    t.lookup obj = none ↔ obj ∉ t.map Prod.fst := by
  induction t with
  | nil => simp
  | cons e rest ih =>
    obtain ⟨k, v⟩ := e
    by_cases hk : obj = k
    · subst hk
      simp [List.lookup]
    · have hk2 : (obj == k) = false := by simpa using hk
      simp [List.lookup, hk2, ih, hk]

theorem ForwardRefInv_register (s : Serializer) (obj : HeapObject) (hinv : ForwardRefInv s) :
    ForwardRefInv (RegisterObjectIsPending s obj) := by
  unfold RegisterObjectIsPending
  cases hl : s.findPending obj with
  | some ids => simpa using hinv
  | none =>
    obtain ⟨h1, h2, h3, h4, h5, h6⟩ := hinv
    have hnot : obj ∉ s.forward_refs_per_pending_object_.map Prod.fst :=
      (lookup_eq_none_iff_not_mem_keys obj _).1 hl
    have hids : idsOfTable (s.forward_refs_per_pending_object_ ++ [(obj, [])]) =
        idsOfTable s.forward_refs_per_pending_object_ := by
      simp [idsOfTable]
    constructor
    · simp only [Serializer.pendingKeys, List.map_append, List.map_cons, List.map_nil]
      rw [List.nodup_append]
      refine ⟨h1, by simp, ?_⟩
      intro a ha hb
      simp only [List.mem_singleton] at hb
      subst hb
      exact hnot ha
    all_goals simp only [Serializer.outstandingIds, hids] at *
    all_goals assumption

theorem ForwardRefInv_put (s : Serializer) (obj : HeapObject) (hinv : ForwardRefInv s)
    (hentry : s.findPending obj ≠ none) :
    ForwardRefInv (PutPendingForwardReferenceTo s obj) := by
  obtain ⟨h1, h2, h3, h4, h5, h6⟩ := hinv
  obtain ⟨ids, hids⟩ := Option.ne_none_iff_exists'.1 hentry
  have hperm := idsOfTable_pushBackId obj s.next_forward_ref_id_ _ ids hids
  have hfresh : s.next_forward_ref_id_ ∉ s.outstandingIds := fun hm => by
    have := (h4 _ hm).2
    omega
  constructor
  · simpa [PutPendingForwardReferenceTo, Serializer.Put, Serializer.pendingKeys,
      keys_pushBackId] using h1
  · simp only [PutPendingForwardReferenceTo, Serializer.Put, Serializer.outstandingIds]
    rw [hperm.length_eq, List.length_cons, h2]
    simp [Serializer.outstandingIds]
  · simp only [PutPendingForwardReferenceTo, Serializer.Put, Serializer.outstandingIds]
    rw [hperm.nodup_iff]
    exact List.nodup_cons.2 ⟨hfresh, h3⟩
  · intro id hid
    simp only [PutPendingForwardReferenceTo, Serializer.Put, Serializer.outstandingIds] at hid ⊢
    rcases List.mem_cons.1 (hperm.mem_iff.1 hid) with h | h
    · subst h
      omega
    · have := h4 id h
      omega
  · simp only [PutPendingForwardReferenceTo, Serializer.Put]
    omega
  · intro hempty
    simp only [PutPendingForwardReferenceTo, Serializer.Put, Serializer.outstandingIds] at hempty
    have := hperm.length_eq
    rw [hempty] at this
    simp at this

theorem foldl_Resolve_next (ids : List Int) (s : Serializer)
    (hle : (ids.length : Int) ≤ s.unresolved_forward_refs_) :
    (ids.foldl ResolvePendingForwardReference s).next_forward_ref_id_ =
      if ids ≠ [] ∧ s.unresolved_forward_refs_ = ids.length then 0
      else s.next_forward_ref_id_ := by
  induction ids generalizing s with
  | nil => simp
  | cons id rest ih =>
    simp only [List.foldl_cons, List.length_cons, Nat.cast_add, Nat.cast_one] at hle ⊢
    have hle' : (rest.length : Int) ≤
        (ResolvePendingForwardReference s id).unresolved_forward_refs_ := by
      rw [ResolvePendingForwardReference_unresolved]
      omega
    rw [ih _ hle', ResolvePendingForwardReference_unresolved, ResolvePendingForwardReference_next]
    cases rest with
    | nil =>
      simp only [ne_eq, not_true_eq_false, false_and, if_false, List.length_nil, Nat.cast_zero,
        zero_add, List.cons_ne_nil, not_false_eq_true, true_and]
      by_cases h0 : s.unresolved_forward_refs_ - 1 = 0
      · have : s.unresolved_forward_refs_ = 1 := by omega
        simp [h0, this]
      · have : ¬ s.unresolved_forward_refs_ = 1 := by omega
        simp [h0, this]
    | cons x xs =>
      simp only [ne_eq, List.cons_ne_nil, not_false_eq_true, true_and, List.length_cons,
        Nat.cast_add, Nat.cast_one] at hle ⊢
      by_cases h1 : s.unresolved_forward_refs_ - 1 = (xs.length : Int) + 1
      · have : s.unresolved_forward_refs_ = (xs.length : Int) + 1 + 1 := by omega
        simp [h1, this]
      · have h2 : ¬ s.unresolved_forward_refs_ = (xs.length : Int) + 1 + 1 := by omega
        have h3 : ¬ s.unresolved_forward_refs_ - 1 = 0 := by omega
        simp [h1, h2, h3]

theorem ForwardRefInv_resolve (s : Serializer) (obj : HeapObject) (hinv : ForwardRefInv s) :
    ForwardRefInv (ResolvePendingObject s obj) := by
  obtain ⟨h1, h2, h3, h4, h5, h6⟩ := hinv
  cases hl : s.forward_refs_per_pending_object_.lookup obj with
  | none =>
    have he := eraseEntry_of_lookup_none obj _ hl
    have : ResolvePendingObject s obj = s := by
      simp [ResolvePendingObject, Serializer.findPending, hl, he]
    rw [this]
    exact ⟨h1, h2, h3, h4, h5, h6⟩
  | some ids =>
    have hperm := idsOfTable_eraseEntry obj _ ids h1 hl
    have hlen : s.outstandingIds.length =
        ids.length + (idsOfTable (eraseEntry obj s.forward_refs_per_pending_object_)).length := by
      simp only [Serializer.outstandingIds]
      rw [hperm.length_eq, List.length_append]
    have hle : (ids.length : Int) ≤ s.unresolved_forward_refs_ := by
      rw [h2, hlen]
      push_cast
      omega
    have hsub : ∀ id ∈ idsOfTable (eraseEntry obj s.forward_refs_per_pending_object_),
        id ∈ s.outstandingIds := fun id hid =>
      hperm.mem_iff.2 (List.mem_append_right _ hid)
    constructor
    · simp only [ResolvePendingObject, Serializer.pendingKeys]
      exact (keys_eraseEntry_sublist obj _).nodup
        (by simpa [foldl_Resolve_table, Serializer.pendingKeys] using h1)
    · simp only [ResolvePendingObject, Serializer.findPending, hl, Option.getD_some,
        Serializer.outstandingIds, foldl_Resolve_unresolved, foldl_Resolve_table, h2]
      have hlen' : (idsOfTable s.forward_refs_per_pending_object_).length = ids.length +
          (idsOfTable (eraseEntry obj s.forward_refs_per_pending_object_)).length := hlen
      rw [hlen']
      push_cast
      ring
    · simp only [ResolvePendingObject, Serializer.outstandingIds, foldl_Resolve_table]
      exact ((hperm.nodup_iff.1 h3).sublist (List.sublist_append_right _ _))
    · intro id hid
      simp only [ResolvePendingObject, Serializer.outstandingIds, foldl_Resolve_table,
        Serializer.findPending, hl, Option.getD_some] at hid ⊢
      have hb := h4 id (hsub id hid)
      rw [foldl_Resolve_next ids s hle]
      split
      · rename_i hc
        exfalso
        have : (idsOfTable (eraseEntry obj s.forward_refs_per_pending_object_)).length = 0 := by
          have := hc.2
          rw [h2, hlen] at this
          push_cast at this
          omega
        rw [List.length_eq_zero] at this
        rw [this] at hid
        simp at hid
      · exact hb
    · simp only [ResolvePendingObject, Serializer.findPending, hl, Option.getD_some]
      rw [foldl_Resolve_next ids s hle]
      split
      · exact le_refl 0
      · exact h5
    · intro hempty
      simp only [ResolvePendingObject, Serializer.outstandingIds, foldl_Resolve_table,
        Serializer.findPending, hl, Option.getD_some] at hempty ⊢
      rw [foldl_Resolve_next ids s hle]
      split
      · rfl
      · rename_i hc
        by_cases hids : ids = []
        · subst hids
          apply h6
          simp only [Serializer.outstandingIds]
          have := hperm.length_eq
          rw [hempty] at this
          simpa using this
        · exfalso
          apply hc
          refine ⟨hids, ?_⟩
          rw [h2, hlen, hempty]
          simp

theorem ForwardRefReachable.inv {s : Serializer} (hr : ForwardRefReachable s) :
    ForwardRefInv s := by
  induction hr with
  | initial n => exact ForwardRefInv_initial n
  | register s obj _ ih => exact ForwardRefInv_register s obj ih
  | put s obj _ he ih => exact ForwardRefInv_put s obj ih he
  | resolve s obj _ ih => exact ForwardRefInv_resolve s obj ih
  | frame s s' _ ht hu hn ih => exact ForwardRefInv_frame s s' ih ht hu hn

/-- C6. In every reachable state of the forward-reference bookkeeping the stored
ids are pairwise distinct and smaller than `next_forward_ref_id_`;
`PutPendingForwardReferenceTo` issues the id `next_forward_ref_id_`, which is
greater than every outstanding id, and advances the counter by exactly one, so
the following registration issues an id exactly one greater. -/
theorem forward_ref_ids_strictly_increasing (s : Serializer) (hr : ForwardRefReachable s) :
    s.outstandingIds.Nodup ∧
    (∀ id ∈ s.outstandingIds, id < s.next_forward_ref_id_) ∧
    (∀ obj ids, s.findPending obj = some ids →
      (PutPendingForwardReferenceTo s obj).findPending obj =
        some (ids ++ [s.next_forward_ref_id_]) ∧
      (PutPendingForwardReferenceTo s obj).next_forward_ref_id_ = s.next_forward_ref_id_ + 1 ∧
      ∀ obj2 ids2, (PutPendingForwardReferenceTo s obj).findPending obj2 = some ids2 →
        (PutPendingForwardReferenceTo (PutPendingForwardReferenceTo s obj) obj2).findPending
          obj2 = some (ids2 ++ [s.next_forward_ref_id_ + 1])) := by
  have hinv := hr.inv
  refine ⟨hinv.ids_nodup, fun id hid => (hinv.ids_bound id hid).2, ?_⟩
  intro obj ids hl
  have hput : ∀ (t : Serializer) (o : HeapObject) (l : List Int), t.findPending o = some l →
      (PutPendingForwardReferenceTo t o).findPending o = some (l ++ [t.next_forward_ref_id_]) := by
    intro t o l ht
    simp only [PutPendingForwardReferenceTo, Serializer.findPending, Serializer.Put] at ht ⊢
    exact lookup_pushBackId_self o _ _ l ht
  refine ⟨hput s obj ids hl, by simp [PutPendingForwardReferenceTo, Serializer.Put], ?_⟩
  intro obj2 ids2 hl2
  have := hput _ obj2 ids2 hl2
  simpa [PutPendingForwardReferenceTo, Serializer.Put] using this

/-- Witness for C6: object 7 is registered pending and one forward reference to
it is outstanding. -/
theorem forward_ref_ids_strictly_increasing_witness :
    (PutPendingForwardReferenceTo (RegisterObjectIsPending (Serializer.initial 8) 7)
      7).outstandingIds.Nodup :=
  (forward_ref_ids_strictly_increasing _
    (ForwardRefReachable.put _ 7
      (ForwardRefReachable.register _ 7 (ForwardRefReachable.initial 8)) (by decide))).1

/-- Counterexample for C7. With recursion bound 1, the root pass over object 1
defers objects 2 and 3 (ids 0 and 1); popping object 3 from the deferred queue
resolves id 1 and then registers id 2 against the still pending object 2. The
two outstanding ids are then 0 and 2, which is not the range 0..1. The same
shape arises from the bare member functions: after ids 0 and 1 are registered
against two objects, resolving the first leaves the single id 1 outstanding. -/
theorem outstanding_ids_not_dense :
    Result.bind
      (Result.bind
        (VisitRootPointers (exampleConfig 1) gapHeap 40 (Serializer.initial 8) [Object.HeapObject 1])
        (fun s => ObjectSerializer.SerializeDeferred (exampleConfig 1) gapHeap 40
          { s with deferred_objects_ := s.deferred_objects_.dropLast } 3))
      (fun s => Result.ok s.forward_refs_per_pending_object_) = Result.ok [(2, [0, 2])] ∧
    ¬ IsDenseFromZero [0, 2] ∧
    ForwardRefReachable
      (ResolvePendingObject (PutPendingForwardReferenceTo (RegisterObjectIsPending
        (PutPendingForwardReferenceTo (RegisterObjectIsPending (Serializer.initial 8) 7) 7)
          9) 9) 7) ∧
    (ResolvePendingObject (PutPendingForwardReferenceTo (RegisterObjectIsPending
        (PutPendingForwardReferenceTo (RegisterObjectIsPending (Serializer.initial 8) 7) 7)
          9) 9) 7).outstandingIds = [1] ∧
    ¬ IsDenseFromZero [1] := by
  refine ⟨by decide!, by decide, ?_, by decide, by decide⟩
  exact ForwardRefReachable.resolve _ 7
    (ForwardRefReachable.put _ 9
      (ForwardRefReachable.register _ 9
        (ForwardRefReachable.put _ 7
          (ForwardRefReachable.register _ 7 (ForwardRefReachable.initial 8)) (by decide)))
      (by decide))

/-- C7, amended. In every reachable state of the forward-reference bookkeeping
the outstanding ids are pairwise distinct integers of the range
`[0, next_forward_ref_id_)` (gaps may remain where an older entry was resolved),
and once no id is outstanding the counter is 0, so the next id issued is 0. -/
theorem outstanding_ids_bounded_and_restart (s : Serializer) (hr : ForwardRefReachable s) :
    s.outstandingIds.Nodup ∧
    (∀ id ∈ s.outstandingIds, 0 ≤ id ∧ id < s.next_forward_ref_id_) ∧
    (s.outstandingIds = [] →
      s.next_forward_ref_id_ = 0 ∧
      ∀ obj ids, s.findPending obj = some ids →
        (PutPendingForwardReferenceTo s obj).findPending obj = some (ids ++ [0])) := by
  have hinv := hr.inv
  refine ⟨hinv.ids_nodup, hinv.ids_bound, fun hempty => ⟨hinv.reset hempty, ?_⟩⟩
  intro obj ids hl
  have h0 := hinv.reset hempty
  simp only [PutPendingForwardReferenceTo, Serializer.findPending, Serializer.Put] at hl ⊢
  rw [h0]
  exact lookup_pushBackId_self obj 0 _ ids hl

/-- Witness for C7 (amended): ids 0 and 1 are registered against objects 7 and 9
and the entry of object 7 is resolved, leaving id 1 outstanding. -/
theorem outstanding_ids_bounded_and_restart_witness :
    (ResolvePendingObject (PutPendingForwardReferenceTo (RegisterObjectIsPending
        (PutPendingForwardReferenceTo (RegisterObjectIsPending (Serializer.initial 8) 7) 7)
          9) 9) 7).outstandingIds.Nodup :=
  (outstanding_ids_bounded_and_restart _
    (ForwardRefReachable.resolve _ 7
      (ForwardRefReachable.put _ 9
        (ForwardRefReachable.register _ 9
          (ForwardRefReachable.put _ 7
            (ForwardRefReachable.register _ 7 (ForwardRefReachable.initial 8)) (by decide)))
        (by decide)))).1

/-! ## Elementary steps of the walk -/

theorem SinkOnly.refl (s : Serializer) : SinkOnly s s :=
  ⟨rfl, rfl, rfl, rfl, rfl, [], by simp, by simp⟩

theorem SinkOnly.trans {s1 s2 s3 : Serializer} (h12 : SinkOnly s1 s2) (h23 : SinkOnly s2 s3) :
    SinkOnly s1 s3 := by
  obtain ⟨a1, a2, a3, a4, a5, t, a6, a7⟩ := h12
  obtain ⟨b1, b2, b3, b4, b5, u, b6, b7⟩ := h23
  refine ⟨b1.trans a1, b2.trans a2, b3.trans a3, b4.trans a4, b5.trans a5, t ++ u, ?_, ?_⟩
  · rw [b6, a6, List.append_assoc]
  · intro e he
    rcases List.mem_append.1 he with h | h
    · exact a7 e h
    · exact b7 e h

theorem SinkOnly.of_sink (s s' : Serializer) (t : List SinkEntry)
    (h1 : s' = { s with sink_ := s.sink_ ++ t })
    (h2 : ∀ e ∈ t, e.IsQuiet = true ∧ e.IsFresh = false) : SinkOnly s s' := by
  subst h1
  exact ⟨rfl, rfl, rfl, rfl, rfl, t, rfl, h2⟩

theorem SinkOnly.Put (s : Serializer) (b : Bytecode)
    (hb : (SinkEntry.Put b).IsQuiet = true ∧ (SinkEntry.Put b).IsFresh = false) :
    SinkOnly s (s.Put b) :=
  ⟨rfl, rfl, rfl, rfl, rfl, [SinkEntry.Put b], rfl, by simpa using hb⟩

theorem SinkOnly.PutInt (s : Serializer) (v : Int) : SinkOnly s (s.PutInt v) :=
  ⟨rfl, rfl, rfl, rfl, rfl, [SinkEntry.PutInt v], rfl,
    by simp [SinkEntry.IsQuiet, SinkEntry.IsFresh]⟩

theorem SinkOnly.PutByte (s : Serializer) (v : Nat) : SinkOnly s (s.PutByte v) :=
  ⟨rfl, rfl, rfl, rfl, rfl, [SinkEntry.PutByte v], rfl,
    by simp [SinkEntry.IsQuiet, SinkEntry.IsFresh]⟩

theorem SinkOnly.PutRaw (s : Serializer) (v : List Nat) : SinkOnly s (s.PutRaw v) :=
  ⟨rfl, rfl, rfl, rfl, rfl, [SinkEntry.PutRaw v], rfl,
    by simp [SinkEntry.IsQuiet, SinkEntry.IsFresh]⟩

theorem SinkOnly.hot (s : Serializer) (l : HotObjectsList) :
    SinkOnly s { s with hot_objects_ := l } :=
  ⟨rfl, rfl, rfl, rfl, rfl, [], by simp, by simp⟩

theorem SinkOnly.allocator (s : Serializer) (a : SerializerAllocator) :
    SinkOnly s { s with allocator_ := a } :=
  ⟨rfl, rfl, rfl, rfl, rfl, [], by simp, by simp⟩

theorem SinkOnly.depth (s : Serializer) (d : Nat) :
    SinkOnly s { s with recursion_depth_ := d } :=
  ⟨rfl, rfl, rfl, rfl, rfl, [], by simp, by simp⟩

theorem SinkOnly.foldl_PutByte (l : List Nat) (s : Serializer) :
    SinkOnly s (l.foldl Serializer.PutByte s) := by
  induction l generalizing s with
  | nil => exact SinkOnly.refl s
  | cons b rest ih => exact (SinkOnly.PutByte s b).trans (ih _)

theorem SinkOnly.PutQ (s : Serializer) (b : Bytecode)
    (h1 : b ≠ Bytecode.kRegisterPendingForwardRef) (h2 : b ≠ Bytecode.kResolvePendingForwardRef)
    (h3 : b ≠ Bytecode.kSynchronize) (h4 : b ≠ Bytecode.kNewMetaMap)
    (h5 : ∀ sp, b ≠ Bytecode.kNewObject sp) : SinkOnly s (s.Put b) := by
  apply SinkOnly.Put
  cases b <;> simp_all [SinkEntry.IsQuiet, SinkEntry.IsFresh]

theorem SinkOnly.PutAlignmentPrefix (c : Config) (h : Heap) (s : Serializer) (o : HeapObject) :
    SinkOnly s (PutAlignmentPrefix c h s o).2 := by
  unfold V8Snapshot.PutAlignmentPrefix
  dsimp only
  split
  · exact SinkOnly.PutByte s _
  · exact SinkOnly.refl s

theorem SinkOnly.PutRoot (c : Config) (h : Heap) (s : Serializer) (root : Nat)
    (o : HeapObject) : SinkOnly s (PutRoot c h s root o) := by
  unfold V8Snapshot.PutRoot
  dsimp only
  split
  · exact SinkOnly.PutQ s _ (by simp) (by simp) (by simp) (by simp) (by simp)
  · exact ((SinkOnly.PutQ s _ (by simp) (by simp) (by simp) (by simp) (by simp)).trans
      (SinkOnly.PutInt _ _)).trans (SinkOnly.hot _ _)

theorem SinkOnly.SerializeRoot (c : Config) (h : Heap) (s : Serializer) (o : HeapObject) :
    SinkOnly s (SerializeRoot c h s o).2 := by
  unfold V8Snapshot.SerializeRoot
  split
  · exact SinkOnly.PutRoot c h s _ o
  · exact SinkOnly.refl s

theorem SinkOnly.SerializeHotObject (s : Serializer) (o : HeapObject) :
    SinkOnly s (SerializeHotObject s o).2 := by
  unfold V8Snapshot.SerializeHotObject
  split
  · exact SinkOnly.refl s
  · exact SinkOnly.PutQ s _ (by simp) (by simp) (by simp) (by simp) (by simp)

theorem SinkOnly.PutBackReference (s : Serializer) (o : HeapObject) (r : SerializerReference) :
    SinkOnly s (PutBackReference s o r) := by
  unfold V8Snapshot.PutBackReference
  dsimp only
  refine SinkOnly.trans ?_ (SinkOnly.hot _ _)
  cases r
  · exact SinkOnly.refl s
  · exact (SinkOnly.PutInt _ _).trans (SinkOnly.PutInt _ _)
  · exact SinkOnly.PutInt _ _
  · exact SinkOnly.PutInt _ _
  · exact SinkOnly.refl s
  · exact SinkOnly.refl s

theorem SinkOnly.PutAttachedReference (s : Serializer) (r : SerializerReference) :
    SinkOnly s (PutAttachedReference s r) := by
  unfold V8Snapshot.PutAttachedReference
  split
  · exact (SinkOnly.PutQ s _ (by simp) (by simp) (by simp) (by simp) (by simp)).trans
      (SinkOnly.PutInt _ _)
  · exact SinkOnly.PutQ s _ (by simp) (by simp) (by simp) (by simp) (by simp)

theorem SinkOnly.SerializeBackReference (c : Config) (h : Heap) (s : Serializer)
    (o : HeapObject) : SinkOnly s (SerializeBackReference c h s o).2 := by
  unfold V8Snapshot.SerializeBackReference
  simp only
  split
  · exact SinkOnly.refl s
  · split
    · exact SinkOnly.PutAttachedReference s _
    · exact ((SinkOnly.PutAlignmentPrefix c h s o).trans
        (SinkOnly.PutQ _ _ (by simp) (by simp) (by simp) (by simp) (by simp))).trans
        (SinkOnly.PutBackReference _ _ _)

theorem SinkOnly.PutRepeat (c : Config) (s : Serializer) (n : Nat) :
    SinkOnly s (PutRepeat c s n) := by
  unfold V8Snapshot.PutRepeat
  split
  · exact SinkOnly.PutQ s _ (by simp) (by simp) (by simp) (by simp) (by simp)
  · exact (SinkOnly.PutQ s _ (by simp) (by simp) (by simp) (by simp) (by simp)).trans
      (SinkOnly.PutInt _ _)

theorem SinkOnly.OutputRawWithCustomField (h : Heap) (s : Serializer) (o : HeapObject)
    (a b f : Int) (n : Nat) (v : List Nat) :
    SinkOnly s (OutputRawWithCustomField h s o a b f n v) := by
  unfold V8Snapshot.OutputRawWithCustomField
  simp only
  split
  · exact ((SinkOnly.PutRaw _ _).trans (SinkOnly.PutRaw _ _)).trans (SinkOnly.PutRaw _ _)
  · exact SinkOnly.PutRaw _ _

theorem SinkOnly.OutputRawData (c : Config) (h : Heap) (os : ObjectSerializer) (s : Serializer)
    (up_to : Int) : SinkOnly s (ObjectSerializer.OutputRawData c h os s up_to).2 := by
  unfold ObjectSerializer.OutputRawData
  simp only
  split
  · have h1 : SinkOnly s
        (if (up_to - os.bytes_processed_so_far_) % (c.kObjectAlignment : Int) = 0 ∧
            up_to - os.bytes_processed_so_far_ ≤ (c.kFixedRawDataCount : Int) * c.kTaggedSize then
          s.Put (Bytecode.kFixedRawData
            ((up_to - os.bytes_processed_so_far_).toNat >>> c.kTaggedSizeLog2))
        else (s.Put Bytecode.kVariableRawData).PutInt (up_to - os.bytes_processed_so_far_)) := by
      split
      · exact SinkOnly.PutQ s _ (by simp) (by simp) (by simp) (by simp) (by simp)
      · exact (SinkOnly.PutQ s _ (by simp) (by simp) (by simp) (by simp) (by simp)).trans
          (SinkOnly.PutInt _ _)
    split
    · exact h1.trans (SinkOnly.OutputRawWithCustomField _ _ _ _ _ _ _ _)
    · exact h1.trans (SinkOnly.OutputRawWithCustomField _ _ _ _ _ _ _ _)
    · exact h1.trans (SinkOnly.PutRaw _ _)
  · exact SinkOnly.refl s

theorem SinkOnly.OutputExternalReference (c : Config) (h : Heap) (os : ObjectSerializer)
    (s : Serializer) (target size : Nat) (sandboxify : Bool)
    (r : ObjectSerializer × Serializer)
    (hr : ObjectSerializer.OutputExternalReference c h os s target size sandboxify = .ok r) :
    SinkOnly s r.2 := by
  unfold ObjectSerializer.OutputExternalReference at hr
  simp only at hr
  split at hr
  · split at hr
    · cases hr
    · split at hr
      · cases hr
      · split at hr
        · cases hr
        · cases hr
          exact (SinkOnly.PutQ s _ (by simp) (by simp) (by simp) (by simp) (by simp)).trans
            (SinkOnly.PutRaw _ _)
  · split at hr
    · cases hr
      refine SinkOnly.trans ?_ (SinkOnly.PutInt _ _)
      split
      · exact SinkOnly.PutQ s _ (by simp) (by simp) (by simp) (by simp) (by simp)
      · exact SinkOnly.PutQ s _ (by simp) (by simp) (by simp) (by simp) (by simp)
    · cases hr
      refine SinkOnly.trans ?_ (SinkOnly.PutInt _ _)
      split
      · exact SinkOnly.PutQ s _ (by simp) (by simp) (by simp) (by simp) (by simp)
      · exact SinkOnly.PutQ s _ (by simp) (by simp) (by simp) (by simp) (by simp)

theorem SinkOnly.OutputSequentialString (c : Config) (h : Heap) (s : Serializer)
    (o : HeapObject) (a b : Nat) (res : List Nat) :
    SinkOnly s (ObjectSerializer.OutputSequentialString c h s o a b res) := by
  unfold ObjectSerializer.OutputSequentialString
  simp only
  exact ((((SinkOnly.PutQ s _ (by simp) (by simp) (by simp) (by simp) (by simp)).trans
    (SinkOnly.PutInt _ _)).trans (SinkOnly.foldl_PutByte _ _)).trans
    (SinkOnly.PutRaw _ _)).trans (SinkOnly.foldl_PutByte _ _)

theorem SinkOnly.OutputCode (c : Config) (h : Heap) (s : Serializer) (o : HeapObject)
    (size : Nat) : SinkOnly s (ObjectSerializer.OutputCode c h s o size) := by
  unfold ObjectSerializer.OutputCode
  simp only
  exact ((SinkOnly.PutQ s _ (by simp) (by simp) (by simp) (by simp) (by simp)).trans
    (SinkOnly.PutInt _ _)).trans (SinkOnly.PutRaw _ _)

theorem SinkOnly.PutSmiRoot (c : Config) (s : Serializer) (v : Nat) :
    SinkOnly s (PutSmiRoot c s v) := by
  unfold V8Snapshot.PutSmiRoot
  simp only
  exact (SinkOnly.PutQ s _ (by simp) (by simp) (by simp) (by simp) (by simp)).trans
    (SinkOnly.PutRaw _ _)

theorem SinkOnly.enter (s : Serializer) : SinkOnly s (RecursionScope.enter s) :=
  SinkOnly.depth s _

theorem SinkOnly.leave (s : Serializer) : SinkOnly s (RecursionScope.leave s) :=
  SinkOnly.depth s _

/-! ## Table facts used by the walk -/

theorem freshCount_append (a b : List SinkEntry) :
    freshCount (a ++ b) = freshCount a + freshCount b := by
  simp [freshCount, List.countP_append]

theorem freshCount_eq_zero (t : List SinkEntry) (ht : ∀ e ∈ t, e.IsFresh = false) :
    freshCount t = 0 := by
  simp only [freshCount, List.countP_eq_zero]
  intro e he
  simp [ht e he]

theorem findPending_register (s : Serializer) (x o : HeapObject) :
    (RegisterObjectIsPending s x).findPending o ≠ none ↔ (o = x ∨ s.findPending o ≠ none) := by
  unfold RegisterObjectIsPending
  cases hx : s.findPending x with
  | some ids =>
    simp only
    constructor
    · exact fun h => Or.inr h
    · rintro (h | h)
      · subst h
        simp [hx]
      · exact h
  | none =>
    simp only [Serializer.findPending] at hx ⊢
    rw [List.lookup_append]
    by_cases ho : o = x
    · subst ho
      simp [hx, List.lookup]
    · have : (o == x) = false := by simpa using ho
      simp [List.lookup, this, ho]

theorem register_frame (s : Serializer) (x : HeapObject) :
    (RegisterObjectIsPending s x).reference_map_ = s.reference_map_ ∧
    (RegisterObjectIsPending s x).deferred_objects_ = s.deferred_objects_ ∧
    (RegisterObjectIsPending s x).sink_ = s.sink_ ∧
    (RegisterObjectIsPending s x).unresolved_forward_refs_ = s.unresolved_forward_refs_ ∧
    (RegisterObjectIsPending s x).next_forward_ref_id_ = s.next_forward_ref_id_ := by
  unfold RegisterObjectIsPending
  split <;> simp

theorem findPending_put (s : Serializer) (x o : HeapObject) :
    (PutPendingForwardReferenceTo s x).findPending o ≠ none ↔ s.findPending o ≠ none := by
  simp only [PutPendingForwardReferenceTo, Serializer.Put, Serializer.findPending, ne_eq,
    lookup_eq_none_iff_not_mem_keys, keys_pushBackId]

theorem findPending_resolve_self (s : Serializer) (x : HeapObject) :
    (ResolvePendingObject s x).findPending x = none := by
  simp only [ResolvePendingObject, Serializer.findPending, foldl_Resolve_table]
  exact lookup_eraseEntry_self x _

theorem findPending_resolve_other (s : Serializer) (x o : HeapObject) (ho : o ≠ x) :
    (ResolvePendingObject s x).findPending o = s.findPending o := by
  simp only [ResolvePendingObject, Serializer.findPending, foldl_Resolve_table]
  exact lookup_eraseEntry_other x o _ ho

theorem resolve_frame (s : Serializer) (x : HeapObject) :
    (ResolvePendingObject s x).reference_map_ = s.reference_map_ ∧
    (ResolvePendingObject s x).deferred_objects_ = s.deferred_objects_ ∧
    freshCount (ResolvePendingObject s x).sink_ = freshCount s.sink_ := by
  obtain ⟨f1, f2, -, -, -⟩ := foldl_Resolve_frame ((s.findPending x).getD []) s
  refine ⟨by simpa [ResolvePendingObject] using f1, by simpa [ResolvePendingObject] using f2, ?_⟩
  have hz : ∀ ids : List Int, freshCount (ids.flatMap (fun id =>
      [SinkEntry.Put Bytecode.kResolvePendingForwardRef, SinkEntry.PutInt id])) = 0 := by
    intro ids
    apply freshCount_eq_zero
    intro e he
    simp only [List.mem_flatMap, List.mem_cons, List.mem_singleton, List.not_mem_nil,
      or_false] at he
    obtain ⟨id, -, rfl | rfl⟩ := he <;> rfl
  simp only [ResolvePendingObject, foldl_Resolve_sink, freshCount_append, hz, add_zero]

theorem LookupReference_add_self (s : Serializer) (key : RefKey) (r : SerializerReference) :
    (s.AddReference key r).LookupReference key = r := by
  simp [Serializer.AddReference, Serializer.LookupReference, List.lookup]

theorem LookupReference_add_other (s : Serializer) (key k : RefKey) (r : SerializerReference)
    (hk : k ≠ key) : (s.AddReference key r).LookupReference k = s.LookupReference k := by
  have : (k == key) = false := by simpa using hk
  simp [Serializer.AddReference, Serializer.LookupReference, List.lookup, this]

theorem LookupReference_of_map_eq (s s' : Serializer) (key : RefKey)
    (hm : s'.reference_map_ = s.reference_map_) :
    s'.LookupReference key = s.LookupReference key := by
  simp [Serializer.LookupReference, hm]

theorem findPending_of_table_eq (s s' : Serializer) (o : HeapObject)
    (hm : s'.forward_refs_per_pending_object_ = s.forward_refs_per_pending_object_) :
    s'.findPending o = s.findPending o := by
  simp [Serializer.findPending, hm]

theorem Allocate_valid (a : SerializerAllocator) (sp : SnapshotSpace) (n : Nat) :
    (a.Allocate sp n).1.is_valid = true := by
  unfold SerializerAllocator.Allocate
  split <;> rfl

theorem AllocateAndResolve_ok (c : Config) (h : Heap) (s : Serializer) (x : HeapObject)
    (space : SnapshotSpace) (size : Nat) (r : SerializerReference × Serializer)
    (hr : ObjectSerializer.AllocateAndResolve c h s x space size = .ok r) :
    r.1.is_valid = true ∧ ∃ s1, SinkOnly s s1 ∧ r.2 = ResolvePendingObject s1 x := by
  unfold ObjectSerializer.AllocateAndResolve at hr
  split at hr
  · split at hr
    · cases hr
    · cases hr
      exact ⟨rfl, _, SinkOnly.allocator s _, rfl⟩
  · cases hr
    exact ⟨rfl, _, SinkOnly.allocator s _, rfl⟩
  · cases hr
    exact ⟨Allocate_valid _ _ _, _,
      (SinkOnly.PutAlignmentPrefix c h s x).trans (SinkOnly.allocator _ _), rfl⟩

/-! ## Composition of walk effects -/

theorem Trace.single {h : Heap} {s s' : Serializer} (hs : Step h s s') : Trace h s s' :=
  Relation.ReflTransGen.single hs

theorem Trace.trans_trace {h : Heap} {s1 s2 s3 : Serializer} (h12 : Trace h s1 s2)
    (h23 : Trace h s2 s3) : Trace h s1 s3 :=
  Relation.ReflTransGen.trans h12 h23

theorem Trace.of_sinkOnly_trace {h : Heap} {s s' : Serializer} (hs : SinkOnly s s') :
    Trace h s s' := by
  obtain ⟨a1, a2, a3, a4, a5, t, a6, a7⟩ := hs
  exact Trace.single (Step.frame s s' t a1 a2 a3 a4 a5 a6 (fun e he => (a7 e he).1))

theorem SinkOnly.freshCount {s s' : Serializer} (hs : SinkOnly s s') :
    freshCount s'.sink_ = freshCount s.sink_ := by
  obtain ⟨-, -, -, -, -, t, a6, a7⟩ := hs
  rw [a6, freshCount_append, freshCount_eq_zero t (fun e he => (a7 e he).2), add_zero]

theorem Good.of_sinkOnly_good {h : Heap} {s s' : Serializer} (hs : SinkOnly s s') :
    Good h none s s' := by
  have hf := hs.freshCount
  have ht : Trace h s s' := Trace.of_sinkOnly_trace hs
  obtain ⟨a1, a2, a3, a4, a5, -⟩ := hs
  refine ⟨ht, ?_, ?_, ?_⟩
  · intro o _ hp hl
    rw [findPending_of_table_eq s s' o a2, LookupReference_of_map_eq s s' _ a1]
    exact ⟨hp, hl⟩
  · intro B hB o ho
    rw [findPending_of_table_eq s s' o a2] at ho
    rw [a5]
    rcases hB o ho with h1 | h1 | h1
    · exact Or.inl h1
    · exact Or.inr h1
    · cases h1
  · rw [hf, a1]

theorem Good.refl_good (h : Heap) (s : Serializer) : Good h none s s :=
  Good.of_sinkOnly_good (SinkOnly.refl s)

theorem Good.trans_left {h : Heap} {x? : Option HeapObject} {s1 s2 s3 : Serializer}
    (h12 : Good h x? s1 s2) (h23 : Good h none s2 s3) : Good h x? s1 s3 := by
  refine ⟨h12.trace.trans h23.trace, ?_, ?_, ?_⟩
  · intro o hne hp hl
    obtain ⟨hp2, hl2⟩ := h12.prot o hne hp hl
    exact h23.prot o (by simp) hp2 hl2
  · intro B hB
    have h2 := h12.pq B hB
    exact h23.pq B (fun o ho => (h2 o ho).elim Or.inl (fun hb => Or.inr (Or.inl hb)))
  · have := h12.fresh
    have := h23.fresh
    omega

theorem Good.trans_right {h : Heap} {x? : Option HeapObject} {s1 s2 s3 : Serializer}
    (h12 : Good h none s1 s2) (h23 : Good h x? s2 s3) : Good h x? s1 s3 := by
  refine ⟨h12.trace.trans h23.trace, ?_, ?_, ?_⟩
  · intro o hne hp hl
    obtain ⟨hp2, hl2⟩ := h12.prot o (by simp) hp hl
    exact h23.prot o hne hp2 hl2
  · intro B hB
    have h2 := h12.pq (fun o => B o ∨ some o = x?) (fun o ho => by
      rcases hB o ho with h1 | h1 | h1
      · exact Or.inl h1
      · exact Or.inr (Or.inl (Or.inl h1))
      · exact Or.inr (Or.inl (Or.inr h1)))
    exact h23.pq B (fun o ho => by
      rcases h2 o ho with h1 | h1 | h1
      · exact Or.inl h1
      · exact Or.inr (Or.inl h1)
      · exact Or.inr (Or.inr h1))
  · have := h12.fresh
    have := h23.fresh
    omega

theorem Good.put_good {h : Heap} (s : Serializer) (x : HeapObject) (hx : s.findPending x ≠ none) :
    Good h none s (PutPendingForwardReferenceTo s x) := by
  refine ⟨Trace.single (Step.put s x hx), ?_, ?_, ?_⟩
  · intro o _ hp hl
    exact ⟨(findPending_put s x o).2 hp, by
      rw [LookupReference_of_map_eq s _ _ (by simp [PutPendingForwardReferenceTo,
        Serializer.Put])]
      exact hl⟩
  · intro B hB o ho
    have ho' := (findPending_put s x o).1 ho
    have hq : (PutPendingForwardReferenceTo s x).deferred_objects_ = s.deferred_objects_ := by
      simp [PutPendingForwardReferenceTo, Serializer.Put]
    rw [hq]
    rcases hB o ho' with h1 | h1 | h1
    · exact Or.inl h1
    · exact Or.inr h1
    · cases h1
  · have h1 : (PutPendingForwardReferenceTo s x).sink_ =
        s.sink_ ++ [SinkEntry.Put Bytecode.kRegisterPendingForwardRef] := by
      simp [PutPendingForwardReferenceTo, Serializer.Put]
    have h2 : (PutPendingForwardReferenceTo s x).reference_map_ = s.reference_map_ := by
      simp [PutPendingForwardReferenceTo, Serializer.Put]
    rw [h1, h2, freshCount_append]
    simp [freshCount, SinkEntry.IsFresh]

theorem Good.SerializePendingObject_good {h : Heap} (s : Serializer) (x : HeapObject) :
    Good h none s (SerializePendingObject s x).2 := by
  unfold V8Snapshot.SerializePendingObject
  cases hx : s.findPending x with
  | none => exact Good.refl_good h s
  | some ids => exact Good.put_good s x (by simp [hx])

theorem Good.defer_good {h : Heap} (s : Serializer) (x : HeapObject)
    (hl : (s.LookupReference (RefKey.object x)).is_valid = false)
    (hd : h.CanBeDeferred x = true) : Good h (some x) s (ObjectSerializer.Defer s x) := by
  have hreg : (RegisterObjectIsPending s x).findPending x ≠ none :=
    (findPending_register s x x).2 (Or.inl rfl)
  obtain ⟨r1, r2, r3, -, -⟩ := register_frame s x
  have hmap : (ObjectSerializer.Defer s x).reference_map_ = s.reference_map_ := by
    simp [ObjectSerializer.Defer, QueueDeferredObject, PutPendingForwardReferenceTo,
      Serializer.Put, r1]
  have hq : (ObjectSerializer.Defer s x).deferred_objects_ = s.deferred_objects_ ++ [x] := by
    simp [ObjectSerializer.Defer, QueueDeferredObject, PutPendingForwardReferenceTo,
      Serializer.Put, r2]
  have hsink : (ObjectSerializer.Defer s x).sink_ =
      s.sink_ ++ [SinkEntry.Put Bytecode.kRegisterPendingForwardRef] := by
    simp [ObjectSerializer.Defer, QueueDeferredObject, PutPendingForwardReferenceTo,
      Serializer.Put, r3]
  have hpend : ∀ o, (ObjectSerializer.Defer s x).findPending o ≠ none ↔
      (o = x ∨ s.findPending o ≠ none) := by
    intro o
    have : (ObjectSerializer.Defer s x).findPending o =
        (PutPendingForwardReferenceTo (RegisterObjectIsPending s x) x).findPending o := by
      simp [ObjectSerializer.Defer, QueueDeferredObject, Serializer.findPending]
    rw [this, findPending_put, findPending_register]
  refine ⟨?_, ?_, ?_, ?_⟩
  · exact ((Trace.single (Step.register s x hl)).trans
      (Trace.single (Step.put _ x hreg))).trans (Trace.single (Step.queue _ x hd))
  · intro o _ hp hlo
    exact ⟨(hpend o).2 (Or.inr hp), by rw [LookupReference_of_map_eq s _ _ hmap]; exact hlo⟩
  · intro B hB o ho
    rw [hq]
    rcases (hpend o).1 ho with h1 | h1
    · subst h1
      exact Or.inl (by simp)
    · rcases hB o h1 with h2 | h2 | h2
      · exact Or.inl (List.mem_append_left _ h2)
      · exact Or.inr h2
      · cases h2
        exact Or.inl (by simp)
  · rw [hsink, hmap, freshCount_append]
    simp [freshCount, SinkEntry.IsFresh]

theorem objKeyCount_add (m : List (RefKey × SerializerReference)) (key : RefKey)
    (r : SerializerReference) :
    objKeyCount ((key, r) :: m) = objKeyCount m + (if key.isObject then 1 else 0) := by
  simp [objKeyCount, List.countP_cons]

theorem Good.add_backingStore {h : Heap} (s : Serializer) (b : Nat) (r : SerializerReference)
    (hr : r.is_valid = true)
    (hl : (s.LookupReference (RefKey.backingStore b)).is_valid = false) :
    Good h none s (s.AddReference (RefKey.backingStore b) r) := by
  refine ⟨Trace.single (Step.add s _ r hr hl (fun x hx => by cases hx)), ?_, ?_, ?_⟩
  · intro o _ hp hlo
    refine ⟨hp, ?_⟩
    rw [LookupReference_add_other s _ _ r (by simp)]
    exact hlo
  · intro B hB o ho
    rcases hB o ho with h1 | h1 | h1
    · exact Or.inl h1
    · exact Or.inr h1
    · cases h1
  · simp [Serializer.AddReference, objKeyCount_add, RefKey.isObject]

theorem Good.SerializeBackingStore_good {h : Heap} (s : Serializer) (b n : Nat) :
    Good h none s (SerializeBackingStore h s b n).2 := by
  unfold V8Snapshot.SerializeBackingStore
  dsimp only
  split
  · rename_i hinv
    have hso : SinkOnly s
        { ((s.Put Bytecode.kOffHeapBackingStore).PutInt n).PutRaw (h.backingStoreBytes b n) with
          allocator_ := (((s.Put Bytecode.kOffHeapBackingStore).PutInt n).PutRaw
            (h.backingStoreBytes b n)).allocator_.AllocateOffHeapBackingStore.2 } :=
      (((SinkOnly.PutQ s _ (by simp) (by simp) (by simp) (by simp) (by simp)).trans
        (SinkOnly.PutInt _ _)).trans (SinkOnly.PutRaw _ _)).trans (SinkOnly.allocator _ _)
    refine (Good.of_sinkOnly_good hso).trans_left (Good.add_backingStore _ b _ rfl ?_)
    rw [LookupReference_of_map_eq s _ _ hso.1]
    exact hinv
  · exact Good.refl_good h s

theorem Good.prologue_meta {h : Heap} (s : Serializer) (x : HeapObject)
    (a : SerializerAllocator) (r : SerializerReference)
    (hl : (s.LookupReference (RefKey.object x)).is_valid = false)
    (hp : s.findPending x = none) (hr : r.is_valid = true) :
    Good h (some x) s
      (({ s.Put Bytecode.kNewMetaMap with allocator_ := a }).AddReference (RefKey.object x) r) := by
  have hstep1 : Step h s { s.Put Bytecode.kNewMetaMap with allocator_ := a } :=
    Step.frame s _ [SinkEntry.Put Bytecode.kNewMetaMap] rfl rfl rfl rfl rfl rfl
      (by simp [SinkEntry.IsQuiet])
  refine ⟨(Trace.single hstep1).trans (Trace.single (Step.add _ _ r hr hl ?_)), ?_, ?_, ?_⟩
  · intro y hy
    cases hy
    exact hp
  · intro o hne hpo hlo
    refine ⟨hpo, ?_⟩
    have : RefKey.object o ≠ RefKey.object x := fun hc => hne (by cases hc; rfl)
    rw [LookupReference_add_other _ _ _ r this]
    exact hlo
  · intro B hB o ho
    have ho' : s.findPending o ≠ none := ho
    rcases hB o ho' with h1 | h1 | h1
    · exact Or.inl h1
    · exact Or.inr h1
    · cases h1
      exact absurd hp ho'
  · simp only [Serializer.AddReference, Serializer.Put, objKeyCount_add, RefKey.isObject,
      if_true, freshCount_append]
    simp [freshCount, SinkEntry.IsFresh]
    omega

theorem Good.prologue {h : Heap} (s s3 s3' : Serializer) (x : HeapObject)
    (space : SnapshotSpace) (n : Int) (r : SerializerReference)
    (hl : (s.LookupReference (RefKey.object x)).is_valid = false)
    (hmid : Good h none
      (RegisterObjectIsPending ((s.Put (Bytecode.kNewObject space)).PutInt n) x) s3)
    (hso : SinkOnly s3 s3') (hr : r.is_valid = true) :
    Good h (some x) s ((ResolvePendingObject s3' x).AddReference (RefKey.object x) r) := by
  obtain ⟨g1, g2, g3, -, -⟩ :=
    register_frame ((s.Put (Bytecode.kNewObject space)).PutInt n) x
  have hl1 : (((s.Put (Bytecode.kNewObject space)).PutInt n).LookupReference
      (RefKey.object x)).is_valid = false := hl
  have hl2 : ((RegisterObjectIsPending ((s.Put (Bytecode.kNewObject space)).PutInt n)
      x).LookupReference (RefKey.object x)).is_valid = false := by
    rw [LookupReference_of_map_eq _ _ _ g1]
    exact hl1
  have hx2 : (RegisterObjectIsPending ((s.Put (Bytecode.kNewObject space)).PutInt n)
      x).findPending x ≠ none := (findPending_register _ x x).2 (Or.inl rfl)
  obtain ⟨hx3, hl3⟩ := hmid.prot x (by simp) hx2 hl2
  obtain ⟨f1, f2, f3⟩ := resolve_frame s3' x
  have hl4 : ((ResolvePendingObject s3' x).LookupReference (RefKey.object x)).is_valid =
      false := by
    rw [LookupReference_of_map_eq _ _ _ f1, LookupReference_of_map_eq _ _ _ hso.1]
    exact hl3
  have hstep1 : Step h s ((s.Put (Bytecode.kNewObject space)).PutInt n) :=
    Step.frame s _ [SinkEntry.Put (Bytecode.kNewObject space), SinkEntry.PutInt n]
      rfl rfl rfl rfl rfl (by simp [Serializer.Put, Serializer.PutInt])
      (by simp [SinkEntry.IsQuiet])
  refine ⟨?_, ?_, ?_, ?_⟩
  · exact ((((Trace.single hstep1).trans (Trace.single (Step.register _ x hl1))).trans
      hmid.trace).trans (Trace.of_sinkOnly_trace hso)).trans
      ((Trace.single (Step.resolve s3' x)).trans
        (Trace.single (Step.add _ _ r hr hl4
          (fun y hy => by cases hy; exact findPending_resolve_self s3' x))))
  · intro o hne hpo hlo
    have hox : o ≠ x := fun hc => hne (by rw [hc])
    have hp2 : (RegisterObjectIsPending ((s.Put (Bytecode.kNewObject space)).PutInt n)
        x).findPending o ≠ none := (findPending_register _ x o).2 (Or.inr hpo)
    have hlo2 : ((RegisterObjectIsPending ((s.Put (Bytecode.kNewObject space)).PutInt n)
        x).LookupReference (RefKey.object o)).is_valid = false := by
      rw [LookupReference_of_map_eq _ _ _ g1]
      exact hlo
    obtain ⟨hp3, hlo3⟩ := hmid.prot o (by simp) hp2 hlo2
    constructor
    · have : ((ResolvePendingObject s3' x).AddReference (RefKey.object x) r).findPending o =
          (ResolvePendingObject s3' x).findPending o := rfl
      rw [this, findPending_resolve_other s3' x o hox, findPending_of_table_eq s3 s3' o hso.2.1]
      exact hp3
    · have hk : RefKey.object o ≠ RefKey.object x := fun hc => hox (by cases hc; rfl)
      rw [LookupReference_add_other _ _ _ r hk, LookupReference_of_map_eq _ _ _ f1,
        LookupReference_of_map_eq _ _ _ hso.1]
      exact hlo3
  · intro B hB o ho
    have ho1 : (ResolvePendingObject s3' x).findPending o ≠ none := ho
    have hox : o ≠ x := fun hc => ho1 (by rw [hc]; exact findPending_resolve_self s3' x)
    rw [findPending_resolve_other s3' x o hox, findPending_of_table_eq s3 s3' o hso.2.1] at ho1
    have hq : ((ResolvePendingObject s3' x).AddReference (RefKey.object x) r).deferred_objects_ =
        s3.deferred_objects_ := by
      have : ((ResolvePendingObject s3' x).AddReference (RefKey.object x) r).deferred_objects_ =
          (ResolvePendingObject s3' x).deferred_objects_ := rfl
      rw [this, f2, hso.2.2.2.2.1]
    rw [hq]
    have h3 := hmid.pq (fun o => B o ∨ o = x) (fun o ho2 => by
      rw [g2]
      rcases (findPending_register _ x o).1 ho2 with h1 | h1
      · exact Or.inr (Or.inl (Or.inr h1))
      · rcases hB o h1 with h2 | h2 | h2
        · exact Or.inl h2
        · exact Or.inr (Or.inl (Or.inl h2))
        · exact Or.inr (Or.inl (Or.inr (by cases h2; rfl)))) o ho1
    rcases h3 with h1 | h1 | h1
    · exact Or.inl h1
    · exact Or.inr h1
    · exact absurd h1 hox
  · have hf := hmid.fresh
    rw [g1, g3] at hf
    have hs1 : freshCount ((s.Put (Bytecode.kNewObject space)).PutInt n).sink_ =
        freshCount s.sink_ + 1 := by
      simp [Serializer.Put, Serializer.PutInt, freshCount, SinkEntry.IsFresh,
        List.countP_append, List.countP_cons]
    have hm1 : ((s.Put (Bytecode.kNewObject space)).PutInt n).reference_map_ =
        s.reference_map_ := rfl
    rw [hs1, hm1] at hf
    have hfin : freshCount ((ResolvePendingObject s3' x).AddReference (RefKey.object x) r).sink_ =
        freshCount s3.sink_ := by
      have : ((ResolvePendingObject s3' x).AddReference (RefKey.object x) r).sink_ =
          (ResolvePendingObject s3' x).sink_ := rfl
      rw [this, f3, hso.freshCount]
    have hmfin : objKeyCount
        ((ResolvePendingObject s3' x).AddReference (RefKey.object x) r).reference_map_ =
        objKeyCount s3.reference_map_ + 1 := by
      simp only [Serializer.AddReference, objKeyCount_add, RefKey.isObject, if_true, f1, hso.1]
    rw [hfin, hmfin]
    omega

/-! ## One-step unfoldings of the walk -/

theorem Result.bind_eq_ok {α β : Type} (x : Result α) (f : α → Result β) (b : β) :
    Result.bind x f = .ok b ↔ ∃ a, x = .ok a ∧ f a = .ok b := by
  cases x <;> simp [Result.bind]

theorem SerializeObject_succ (c : Config) (h : Heap) (fuel : Nat) (s : Serializer)
    (obj : HeapObject) :
    SerializeObject c h (fuel + 1) s obj =
      if (SerializeRoot c h s obj).1 then .ok (SerializeRoot c h s obj).2
      else if (SerializeHotObject s obj).1 then .ok (SerializeHotObject s obj).2
      else if (SerializeBackReference c h s obj).1 then .ok (SerializeBackReference c h s obj).2
      else if (SerializePendingObject s obj).1 then .ok (SerializePendingObject s obj).2
      else ObjectSerializer.Serialize c h fuel s obj := by
  rw [SerializeObject]

theorem Serialize_succ (c : Config) (h : Heap) (fuel : Nat) (s : Serializer)
    (object_ : HeapObject) :
    ObjectSerializer.Serialize c h (fuel + 1) s object_ =
      if ObjectSerializer.ShouldDefer c h (RecursionScope.enter s) object_ then
        .ok (RecursionScope.leave (ObjectSerializer.Defer (RecursionScope.enter s) object_))
      else
        Result.bind
          (match h.kind object_ with
            | .externalString info =>
              Result.bind
                (ObjectSerializer.SerializeExternalString c h fuel (RecursionScope.enter s)
                  object_ info)
                (fun r => .ok r.2)
            | .jsTypedArray info =>
              ObjectSerializer.SerializeJSTypedArray c h fuel (RecursionScope.enter s)
                object_ info
            | .jsArrayBuffer info =>
              Result.bind
                (ObjectSerializer.SerializeJSArrayBuffer c h fuel (RecursionScope.enter s)
                  object_ info)
                (fun r => .ok r.2)
            | _ => ObjectSerializer.SerializeObject c h fuel (RecursionScope.enter s) object_)
          (fun s2 => .ok (RecursionScope.leave s2)) := by
  rw [ObjectSerializer.Serialize]

theorem SerializeExternalString_succ (c : Config) (h : Heap) (fuel : Nat) (s : Serializer)
    (object_ : HeapObject) (info : ExternalStringInfo) :
    ObjectSerializer.SerializeExternalString c h (fuel + 1) s object_ info =
      match h.TryEncode info.resource_as_address with
      | some reference =>
        Result.bind
          (ObjectSerializer.SerializeObject c
            (SetResourceRefForSerialization c h object_ reference.index) fuel s object_)
          (fun s1 => .ok (restoredString c h
            (SetResourceRefForSerialization c h object_ reference.index) object_ info, s1))
      | none =>
        Result.bind
          (ObjectSerializer.SerializeExternalStringAsSequentialString c h fuel s object_ info)
          (fun s1 => .ok (h, s1)) := by
  rw [ObjectSerializer.SerializeExternalString]
  rfl

theorem SerializeExternalStringAsSequentialString_succ (c : Config) (h : Heap) (fuel : Nat)
    (s : Serializer) (object_ : HeapObject) (info : ExternalStringInfo) :
    ObjectSerializer.SerializeExternalStringAsSequentialString c h (fuel + 1) s object_ info =
      Result.bind
        (ObjectSerializer.SerializePrologue c h fuel s object_
          (if SeqStringSizeFor c
              (if info.IsExternalOneByteString then info.length * 1 else info.length * 2) >
              c.kMaxRegularHeapObjectSize
            then SnapshotSpace.kLargeObject else SnapshotSpace.kOld)
          (SeqStringSizeFor c
            (if info.IsExternalOneByteString then info.length * 1 else info.length * 2))
          (SequentialStringMap h info))
        (fun s1 => .ok (ObjectSerializer.OutputSequentialString c h s1 object_
          (SeqStringSizeFor c
            (if info.IsExternalOneByteString then info.length * 1 else info.length * 2))
          (if info.IsExternalOneByteString then info.length * 1 else info.length * 2)
          info.resource_data)) := by
  rw [ObjectSerializer.SerializeExternalStringAsSequentialString]

theorem SerializeJSTypedArray_succ (c : Config) (h : Heap) (fuel : Nat) (s : Serializer)
    (object_ : HeapObject) (info : JSTypedArrayInfo) :
    ObjectSerializer.SerializeJSTypedArray c h (fuel + 1) s object_ info =
      if info.is_on_heap then ObjectSerializer.SerializeObject c h fuel s object_
      else if info.WasDetached = false then
        if ¬ info.buffer_byte_length ≤ 2 ^ 31 - 1 then .fatal
        else
          ObjectSerializer.SerializeObject c h fuel
            (SerializeBackingStore h s info.backing_store info.buffer_byte_length).2 object_
      else ObjectSerializer.SerializeObject c h fuel s object_ := by
  rw [ObjectSerializer.SerializeJSTypedArray]

theorem SerializeJSArrayBuffer_succ (c : Config) (h : Heap) (fuel : Nat) (s : Serializer)
    (object_ : HeapObject) (info : JSArrayBufferInfo) :
    ObjectSerializer.SerializeJSArrayBuffer c h (fuel + 1) s object_ info =
      if ¬ info.byte_length ≤ 2 ^ 31 - 1 then .fatal
      else
        match info.backing_store with
        | some backing_store =>
          Result.bind
            (ObjectSerializer.SerializeObject c
              (set_extension c
                (SetBackingStoreRefForSerialization c h object_
                  (SerializeBackingStore h s backing_store info.byte_length).1) object_ 0)
              fuel (SerializeBackingStore h s backing_store info.byte_length).2 object_)
            (fun s2 => .ok (restoredBuffer c h
              (set_extension c
                (SetBackingStoreRefForSerialization c h object_
                  (SerializeBackingStore h s backing_store info.byte_length).1) object_ 0)
              object_ info, s2))
        | none =>
          Result.bind
            (ObjectSerializer.SerializeObject c
              (SetBackingStoreRefForSerialization c h object_ c.kNullRefSentinel) fuel s
              object_)
            (fun s2 => .ok (restoredBuffer c h
              (SetBackingStoreRefForSerialization c h object_ c.kNullRefSentinel)
              object_ info, s2)) := by
  rw [ObjectSerializer.SerializeJSArrayBuffer]
  unfold restoredBuffer
  split
  · rfl
  · cases info.backing_store <;> rfl

theorem ObjectSerializer_SerializeObject_succ (c : Config) (h : Heap) (fuel : Nat)
    (s : Serializer) (object_ : HeapObject) :
    ObjectSerializer.SerializeObject c h (fuel + 1) s object_ =
      match GetSnapshotSpace c h object_ with
      | none => .fatal
      | some space =>
        Result.bind
          (ObjectSerializer.SerializePrologue c h fuel s object_ space (h.Size object_)
            (h.map object_))
          (fun s1 =>
            Result.bind
              (ObjectSerializer.SerializeContent c h fuel
                { object_ := object_, bytes_processed_so_far_ := c.kTaggedSize } s1
                (h.Size object_))
              (fun r => .ok r.2)) := by
  rw [ObjectSerializer.SerializeObject]

theorem SerializePrologue_succ (c : Config) (h : Heap) (fuel : Nat) (s : Serializer)
    (object_ : HeapObject) (space : SnapshotSpace) (size : Nat) (map : HeapObject) :
    ObjectSerializer.SerializePrologue c h (fuel + 1) s object_ space size map =
      if map = object_ then
        .ok (({ s.Put Bytecode.kNewMetaMap with
            allocator_ := ((s.Put Bytecode.kNewMetaMap).allocator_.Allocate space size).2 }).AddReference
          (RefKey.object object_) ((s.Put Bytecode.kNewMetaMap).allocator_.Allocate space size).1)
      else
        Result.bind
          (SerializeObject c h fuel
            (RegisterObjectIsPending
              ((s.Put (Bytecode.kNewObject space)).PutInt (size >>> c.kObjectAlignmentBits))
              object_) map)
          (fun s3 =>
            Result.bind (ObjectSerializer.AllocateAndResolve c h s3 object_ space size)
              (fun r => .ok (r.2.AddReference (RefKey.object object_) r.1))) := by
  rw [ObjectSerializer.SerializePrologue]

theorem SerializeContent_succ (c : Config) (h : Heap) (fuel : Nat) (os : ObjectSerializer)
    (s : Serializer) (size : Nat) :
    ObjectSerializer.SerializeContent c h (fuel + 1) os s size =
      if h.kind os.object_ = InstanceKind.code then
        ObjectSerializer.IterateBody c h fuel os
          (ObjectSerializer.OutputCode c h s os.object_ size) (h.body os.object_)
      else
        Result.bind (ObjectSerializer.IterateBody c h fuel os s (h.body os.object_))
          (fun r => .ok (ObjectSerializer.OutputRawData c h r.1 r.2 size)) := by
  rw [ObjectSerializer.SerializeContent]
theorem IterateBody_nil (c : Config) (h : Heap) (fuel : Nat) (os : ObjectSerializer)
    (s : Serializer) :
    ObjectSerializer.IterateBody c h (fuel + 1) os s [] = .ok (os, s) := by
  rfl

theorem IterateBody_cons (c : Config) (h : Heap) (fuel : Nat) (os : ObjectSerializer)
    (s : Serializer) (v : BodyVisit) (rest : List BodyVisit) :
    ObjectSerializer.IterateBody c h (fuel + 1) os s (v :: rest) =
      Result.bind
        (match v with
          | .VisitPointers start_offset slots =>
            ObjectSerializer.VisitPointers c h fuel os s start_offset slots
          | .VisitEmbeddedPointer target target_address_size =>
            Result.bind (SerializeObject c h fuel s target) (fun s1 =>
              .ok ({ os with bytes_processed_so_far_ :=
                os.bytes_processed_so_far_ + target_address_size }, s1))
          | .VisitForeignExternalReference foreign_address =>
            ObjectSerializer.OutputExternalReference c h os s foreign_address
              c.kExternalPointerSize true
          | .VisitCodeExternalReference target target_address_size =>
            ObjectSerializer.OutputExternalReference c h os s target target_address_size false
          | .VisitInternalReference target_offset =>
            .ok (os, (s.Put Bytecode.kInternalReference).PutInt target_offset)
          | .VisitRuntimeEntry => .fatal
          | .VisitOffHeapTarget addr target_address_size =>
            if addr = 0 then .fatal
            else
              match h.IsIsolateIndependentBuiltin addr with
              | none => .fatal
              | some builtin_index =>
                .ok ({ os with bytes_processed_so_far_ :=
                  os.bytes_processed_so_far_ + target_address_size },
                  (s.Put Bytecode.kOffHeapTarget).PutInt builtin_index)
          | .VisitCodeTarget target target_address_size =>
            Result.bind (SerializeObject c h fuel s target) (fun s1 =>
              .ok ({ os with bytes_processed_so_far_ :=
                os.bytes_processed_so_far_ + target_address_size }, s1)))
        (fun r => ObjectSerializer.IterateBody c h fuel r.1 r.2 rest) := by
  rfl

theorem VisitPointers_nil (c : Config) (h : Heap) (fuel : Nat) (os : ObjectSerializer)
    (s : Serializer) (offset : Nat) :
    ObjectSerializer.VisitPointers c h (fuel + 1) os s offset [] = .ok (os, s) := by
  rfl

theorem VisitPointers_cons (c : Config) (h : Heap) (fuel : Nat) (os : ObjectSerializer)
    (s : Serializer) (offset : Nat) (slot : MaybeObject) (slots : List MaybeObject) :
    ObjectSerializer.VisitPointers c h (fuel + 1) os s offset (slot :: slots) =
      match slot with
      | .Smi _ => ObjectSerializer.VisitPointers c h fuel os s (offset + c.kTaggedSize) slots
      | _ =>
        ObjectSerializer.VisitPointers.cleared c h fuel
          (ObjectSerializer.OutputRawData c h os s offset).1
          (ObjectSerializer.OutputRawData c h os s offset).2 offset (slot :: slots) := by
  rfl

theorem VisitPointers_cleared_succ (c : Config) (h : Heap) (fuel : Nat) (os : ObjectSerializer)
    (s : Serializer) (offset : Nat) (slots : List MaybeObject) :
    ObjectSerializer.VisitPointers.cleared c h (fuel + 1) os s offset slots =
      match slots with
      | .Cleared :: rest =>
        ObjectSerializer.VisitPointers.cleared c h fuel
          { os with bytes_processed_so_far_ := os.bytes_processed_so_far_ + c.kTaggedSize }
          (s.Put Bytecode.kClearedWeakReference) (offset + c.kTaggedSize) rest
      | _ => ObjectSerializer.VisitPointers.heapObjects c h fuel os s offset slots := by
  rfl

theorem VisitPointers_heapObjects_succ (c : Config) (h : Heap) (fuel : Nat)
    (os : ObjectSerializer) (s : Serializer) (offset : Nat) (slots : List MaybeObject) :
    ObjectSerializer.VisitPointers.heapObjects c h (fuel + 1) os s offset slots =
      match slots with
      | [] => .ok (os, s)
      | .Smi v :: rest => ObjectSerializer.VisitPointers c h fuel os s offset (.Smi v :: rest)
      | .Cleared :: rest => ObjectSerializer.VisitPointers c h fuel os s offset (.Cleared :: rest)
      | .Strong current_contents :: rest =>
        ObjectSerializer.VisitPointers.reference c h fuel os s offset current_contents
          (.Strong current_contents) rest
      | .Weak current_contents :: rest =>
        ObjectSerializer.VisitPointers.reference c h fuel os (s.Put Bytecode.kWeakPrefix)
          offset current_contents (.Weak current_contents) rest := by
  rfl

theorem VisitPointers_reference_succ (c : Config) (h : Heap) (fuel : Nat)
    (os : ObjectSerializer) (s : Serializer) (offset : Nat) (current_contents : HeapObject)
    (current : MaybeObject) (rest : List MaybeObject) :
    ObjectSerializer.VisitPointers.reference c h (fuel + 1) os s offset current_contents
        current rest =
      if (SerializePendingObject s current_contents).1 then
        ObjectSerializer.VisitPointers.heapObjects c h fuel
          { os with bytes_processed_so_far_ := os.bytes_processed_so_far_ + c.kTaggedSize }
          (SerializePendingObject s current_contents).2 (offset + c.kTaggedSize) rest
      else if rest ≠ [] ∧
          (match h.root_index_map current_contents with
            | some root_index => h.IsImmortalImmovable root_index
            | none => false) = true ∧
          rest.head? = some current then
        Result.bind
          (SerializeObject c h fuel (PutRepeat c s (1 + countLeading current rest))
            current_contents)
          (fun s1 =>
            ObjectSerializer.VisitPointers.heapObjects c h fuel
              { os with bytes_processed_so_far_ :=
                  os.bytes_processed_so_far_ + (1 + countLeading current rest) * c.kTaggedSize }
              s1 (offset + (1 + countLeading current rest) * c.kTaggedSize)
              (rest.drop (1 + countLeading current rest - 1)))
      else
        Result.bind (SerializeObject c h fuel s current_contents) (fun s1 =>
          ObjectSerializer.VisitPointers.heapObjects c h fuel
            { os with bytes_processed_so_far_ := os.bytes_processed_so_far_ + c.kTaggedSize }
            s1 (offset + c.kTaggedSize) rest) := by
  rfl

/-! ## The walk is a sequence of elementary steps -/

theorem Good.to_none {h : Heap} {x : HeapObject} {s s' : Serializer}
    (hg : Good h (some x) s s') (hx : s.findPending x = none) : Good h none s s' := by
  refine ⟨hg.trace, ?_, ?_, hg.fresh⟩
  · intro o _ hp hl
    have hne : some o ≠ some x := fun hc => by
      cases hc
      exact hp hx
    exact hg.prot o hne hp hl
  · intro B hB
    exact hg.pq B (fun o ho => by
      rcases hB o ho with h1 | h1 | h1
      · exact Or.inl h1
      · exact Or.inr (Or.inl h1)
      · cases h1)

theorem SerializePre.of_sinkOnly_pre {h : Heap} {x : HeapObject} {s s1 : Serializer}
    (hp : SerializePre h x s) (hs : SinkOnly s s1) : SerializePre h x s1 := by
  obtain ⟨p1, p2⟩ := hp
  refine ⟨?_, ?_⟩
  · rw [LookupReference_of_map_eq s s1 _ hs.1]
    exact p1
  · rw [findPending_of_table_eq s s1 x hs.2.1]
    exact p2

theorem SerializePre.SerializeBackingStore_pre {h : Heap} {x : HeapObject} {s : Serializer}
    (hp : SerializePre h x s) (b n : Nat) :
    SerializePre h x (SerializeBackingStore h s b n).2 := by
  unfold V8Snapshot.SerializeBackingStore
  dsimp only
  split
  · obtain ⟨p1, p2⟩ := hp
    refine ⟨?_, p2⟩
    rw [LookupReference_add_other _ _ _ _ (by simp)]
    exact p1
  · exact hp

theorem SerializeBackReference_false (c : Config) (h : Heap) (s : Serializer) (x : HeapObject)
    (hb : (SerializeBackReference c h s x).1 = false) :
    (s.LookupReference (RefKey.object x)).is_valid = false := by
  unfold SerializeBackReference at hb
  dsimp only at hb
  split at hb
  · assumption
  · split at hb <;> simp at hb

theorem SerializePendingObject_false (s : Serializer) (x : HeapObject)
    (hb : (SerializePendingObject s x).1 = false) : s.findPending x = none := by
  unfold SerializePendingObject at hb
  split at hb
  · assumption
  · simp at hb

theorem ShouldDefer_true (c : Config) (h : Heap) (s : Serializer) (x : HeapObject)
    (hd : ObjectSerializer.ShouldDefer c h s x = true) :
    ExceedsMaximum c s = true ∧ h.CanBeDeferred x = true := by
  simpa [ObjectSerializer.ShouldDefer, MustBeDeferred] using hd

theorem Heap.WriteField_sameShape (h : Heap) (obj : HeapObject) (offset : Nat)
    (bytes : List Nat) : (h.WriteField obj offset bytes).SameShape h := by
  cases h
  rfl

theorem SetResourceRefForSerialization_sameShape (c : Config) (h : Heap) (x : HeapObject)
    (ref : Nat) : (SetResourceRefForSerialization c h x ref).SameShape h :=
  Heap.WriteField_sameShape h x _ _

theorem SetBackingStoreRefForSerialization_sameShape (c : Config) (h : Heap) (x : HeapObject)
    (ref : Nat) : (SetBackingStoreRefForSerialization c h x ref).SameShape h :=
  Heap.WriteField_sameShape h x _ _

theorem set_extension_sameShape (c : Config) (h : Heap) (x : HeapObject)
    (extension : Nat) : (set_extension c h x extension).SameShape h :=
  Heap.WriteField_sameShape h x _ _

theorem Heap.SameShape.trans_shape {h2 h1 h : Heap} (e21 : h2.SameShape h1)
    (e10 : h1.SameShape h) : h2.SameShape h := by
  unfold Heap.SameShape at *
  cases h2
  cases h1
  cases h
  simp only [Heap.mk.injEq] at e21 e10 ⊢
  obtain ⟨a1, a2, a3, a4, a5, a6, a7, a8, a9, a10, a11, a12, a13, a14, a15, a16, a17, a18,
    a19, a20, a21, a22⟩ := e21
  obtain ⟨b1, b2, b3, b4, b5, b6, b7, b8, b9, b10, b11, b12, b13, b14, b15, b16, b17, b18,
    b19, b20, b21, b22⟩ := e10
  subst_vars
  simp

theorem duringBuffer_sameShape (c : Config) (h : Heap) (x : HeapObject) (ref : Nat) :
    (set_extension c (SetBackingStoreRefForSerialization c h x ref) x 0).SameShape h :=
  (set_extension_sameShape c _ x 0).trans_shape
    (SetBackingStoreRefForSerialization_sameShape c h x ref)

theorem Heap.SameShape.canBeDeferred {h1 h : Heap} (e : h1.SameShape h) :
    h1.CanBeDeferred = h.CanBeDeferred := by
  have e1 : { h1 with byteAt := h.byteAt } = h := e
  have e2 := congrArg Heap.CanBeDeferred e1
  exact e2

theorem Heap.SameShape.map_eq {h1 h : Heap} (e : h1.SameShape h) : h1.map = h.map := by
  have e1 : { h1 with byteAt := h.byteAt } = h := e
  have e2 := congrArg Heap.map e1
  exact e2

theorem Heap.SameShape.kind_eq {h1 h : Heap} (e : h1.SameShape h) : h1.kind = h.kind := by
  have e1 : { h1 with byteAt := h.byteAt } = h := e
  have e2 := congrArg Heap.kind e1
  exact e2

theorem Heap.SameShape.sequentialStringMap {h1 h : Heap} (e : h1.SameShape h)
    (info : ExternalStringInfo) : SequentialStringMap h1 info = SequentialStringMap h info := by
  have e0 : { h1 with byteAt := h.byteAt } = h := e
  have e1 := congrArg Heap.one_byte_internalized_string_map e0
  have e2 := congrArg Heap.one_byte_string_map e0
  have e3 := congrArg Heap.internalized_string_map e0
  have e4 := congrArg Heap.string_map e0
  dsimp only at e1 e2 e3 e4
  unfold SequentialStringMap
  rw [e1, e2, e3, e4]

theorem MetaMapNotDeferrable.of_sameShape_meta {h1 h : Heap} (hH : MetaMapNotDeferrable h)
    (e : h1.SameShape h) : MetaMapNotDeferrable h1 := by
  intro x hx
  rw [e.canBeDeferred] at hx
  rw [e.map_eq, e.kind_eq]
  refine ⟨(hH x hx).1, fun info hk => ?_⟩
  rw [e.sequentialStringMap]
  exact (hH x hx).2 info hk

theorem SerializePre.of_sameShape_pre {h1 h : Heap} {x : HeapObject} {s : Serializer}
    (hp : SerializePre h x s) (e : h1.SameShape h) : SerializePre h1 x s := by
  refine ⟨hp.1, fun hc => ?_⟩
  rw [e.canBeDeferred]
  exact hp.2 hc

theorem Step.of_sameShape_step {h1 h : Heap} {s s' : Serializer} (e : h1.SameShape h)
    (hs : Step h1 s s') : Step h s s' := by
  cases hs with
  | frame _ t a1 a2 a3 a4 a5 a6 a7 => exact Step.frame _ _ t a1 a2 a3 a4 a5 a6 a7
  | register x hx => exact Step.register _ x hx
  | put x hx => exact Step.put _ x hx
  | queue x hx => exact Step.queue _ x (by rw [← e.canBeDeferred]; exact hx)
  | resolve x => exact Step.resolve _ x
  | add key r a1 a2 a3 => exact Step.add _ key r a1 a2 a3
  | pop => exact Step.pop _
  | sync => exact Step.sync _

theorem Trace.of_sameShape_trace {h1 h : Heap} {s s' : Serializer} (e : h1.SameShape h)
    (ht : Trace h1 s s') : Trace h s s' :=
  Relation.ReflTransGen.mono (fun _ _ hs => Step.of_sameShape_step e hs) ht

theorem Good.of_sameShape_good {h1 h : Heap} {x? : Option HeapObject} {s s' : Serializer}
    (hg : Good h1 x? s s') (e : h1.SameShape h) : Good h x? s s' :=
  { trace := Trace.of_sameShape_trace e hg.trace
    prot := hg.prot
    pq := hg.pq
    fresh := hg.fresh }

theorem WalkSpec.zero (c : Config) (h : Heap) : WalkSpec c h 0 := by
  constructor
  · intro s x s' hok
    cases hok
  · intro s x s' _ hok
    cases hok
  · intro s x info s' _ _ hok
    cases hok
  · intro s x info s' _ _ hok
    cases hok
  · intro s x info s' _ hok
    cases hok
  · intro s x info s' _ hok
    cases hok
  · intro s x s' _ hok
    cases hok
  · intro s x space size map s' _ _ hok
    cases hok
  · intro os s size r hok
    cases hok
  · intro os s vs r hok
    cases hok
  · intro os s offset slots r hok
    cases hok
  · intro os s offset slots r hok
    cases hok
  · intro os s offset slots r hok
    cases hok
  · intro os s offset cc cur rest r hok
    cases hok

theorem WalkSpec.step_serializeObject {c : Config} {h : Heap} {fuel : Nat}
    (ih : WalkSpec c h fuel) (s : Serializer) (x : HeapObject) (s' : Serializer)
    (hok : SerializeObject c h (fuel + 1) s x = .ok s') : Good h none s s' := by
  rw [SerializeObject_succ] at hok
  split at hok
  · cases hok
    exact Good.of_sinkOnly_good (SinkOnly.SerializeRoot c h s x)
  · split at hok
    · cases hok
      exact Good.of_sinkOnly_good (SinkOnly.SerializeHotObject s x)
    · split at hok
      · cases hok
        exact Good.of_sinkOnly_good (SinkOnly.SerializeBackReference c h s x)
      · split at hok
        · cases hok
          exact Good.SerializePendingObject_good s x
        · rename_i hback hpend
          have hl := SerializeBackReference_false c h s x (by simpa using hback)
          have hp := SerializePendingObject_false s x (by simpa using hpend)
          exact (ih.serialize s x s' ⟨hl, fun hc => absurd hp hc⟩ hok).to_none hp

theorem WalkSpec.step_serialize {c : Config} {h : Heap} {fuel : Nat}
    (ih : WalkSpec c h fuel) (s : Serializer) (x : HeapObject) (s' : Serializer)
    (hpre : SerializePre h x s)
    (hok : ObjectSerializer.Serialize c h (fuel + 1) s x = .ok s') : Good h (some x) s s' := by
  rw [Serialize_succ] at hok
  have hpre1 : SerializePre h x (RecursionScope.enter s) := hpre.of_sinkOnly_pre (SinkOnly.enter s)
  have henter : Good h none s (RecursionScope.enter s) := Good.of_sinkOnly_good (SinkOnly.enter s)
  split at hok
  · rename_i hd
    cases hok
    exact (henter.trans_right
      (Good.defer_good _ x hpre1.1 (ShouldDefer_true c h _ x hd).2)).trans_left
      (Good.of_sinkOnly_good (SinkOnly.leave _))
  · obtain ⟨s2, h2, h3⟩ := (Result.bind_eq_ok _ _ _).1 hok
    cases h3
    refine (henter.trans_right ?_).trans_left (Good.of_sinkOnly_good (SinkOnly.leave _))
    split at h2
    · rename_i info hk
      obtain ⟨r, hr, he⟩ := (Result.bind_eq_ok _ _ _).1 h2
      cases he
      exact ih.externalString _ x info r hk hpre1 hr
    · exact ih.typedArray _ x _ s2 hpre1 h2
    · obtain ⟨r, hr, he⟩ := (Result.bind_eq_ok _ _ _).1 h2
      cases he
      exact ih.arrayBuffer _ x _ r hpre1 hr
    · exact ih.object _ x s2 hpre1 h2

theorem WalkSpec.step_externalString {c : Config} {h : Heap} {fuel : Nat}
    (ih : WalkSpec c h fuel) (ihw : ∀ h1 : Heap, h1.SameShape h → WalkSpec c h1 fuel)
    (s : Serializer) (x : HeapObject) (info : ExternalStringInfo)
    (s' : Heap × Serializer) (hk : h.kind x = InstanceKind.externalString info)
    (hpre : SerializePre h x s)
    (hok : ObjectSerializer.SerializeExternalString c h (fuel + 1) s x info = .ok s') :
    Good h (some x) s s'.2 := by
  rw [SerializeExternalString_succ] at hok
  split at hok
  · obtain ⟨s1, h1, he⟩ := (Result.bind_eq_ok _ _ _).1 hok
    cases he
    exact Good.of_sameShape_good
      ((ihw _ (SetResourceRefForSerialization_sameShape c h x _)).object s x s1
        (hpre.of_sameShape_pre (SetResourceRefForSerialization_sameShape c h x _)) h1)
      (SetResourceRefForSerialization_sameShape c h x _)
  · obtain ⟨s1, h1, he⟩ := (Result.bind_eq_ok _ _ _).1 hok
    cases he
    exact ih.sequentialString s x info s1 hk hpre h1

theorem WalkSpec.step_sequentialString {c : Config} {h : Heap} {fuel : Nat}
    (hH : MetaMapNotDeferrable h)
    (ih : WalkSpec c h fuel) (s : Serializer) (x : HeapObject) (info : ExternalStringInfo)
    (s' : Serializer) (hk : h.kind x = InstanceKind.externalString info)
    (hpre : SerializePre h x s)
    (hok : ObjectSerializer.SerializeExternalStringAsSequentialString c h (fuel + 1) s x info =
      .ok s') : Good h (some x) s s' := by
  rw [SerializeExternalStringAsSequentialString_succ] at hok
  obtain ⟨s1, h1, h2⟩ := (Result.bind_eq_ok _ _ _).1 hok
  cases h2
  have hmap : SequentialStringMap h info = x → s.findPending x = none := by
    intro hm
    by_contra hc
    exact (hH x (hpre.2 hc)).2 info hk hm
  exact (ih.prologue s x _ _ _ s1 hpre.1 hmap h1).trans_left
    (Good.of_sinkOnly_good (SinkOnly.OutputSequentialString c h s1 x _ _ _))

theorem WalkSpec.step_typedArray {c : Config} {h : Heap} {fuel : Nat}
    (ih : WalkSpec c h fuel) (s : Serializer) (x : HeapObject) (info : JSTypedArrayInfo)
    (s' : Serializer) (hpre : SerializePre h x s)
    (hok : ObjectSerializer.SerializeJSTypedArray c h (fuel + 1) s x info = .ok s') :
    Good h (some x) s s' := by
  rw [SerializeJSTypedArray_succ] at hok
  split at hok
  · exact ih.object s x s' hpre hok
  · split at hok
    · split at hok
      · cases hok
      · exact (Good.SerializeBackingStore_good s _ _).trans_right
          (ih.object _ x s' (hpre.SerializeBackingStore_pre _ _) hok)
    · exact ih.object s x s' hpre hok

theorem WalkSpec.step_arrayBuffer {c : Config} {h : Heap} {fuel : Nat}
    (ihw : ∀ h1 : Heap, h1.SameShape h → WalkSpec c h1 fuel)
    (s : Serializer) (x : HeapObject) (info : JSArrayBufferInfo)
    (s' : Heap × Serializer) (hpre : SerializePre h x s)
    (hok : ObjectSerializer.SerializeJSArrayBuffer c h (fuel + 1) s x info = .ok s') :
    Good h (some x) s s'.2 := by
  rw [SerializeJSArrayBuffer_succ] at hok
  split at hok
  · cases hok
  · split at hok
    · obtain ⟨s1, h1, he⟩ := (Result.bind_eq_ok _ _ _).1 hok
      cases he
      exact (Good.SerializeBackingStore_good s _ _).trans_right
        (Good.of_sameShape_good
          ((ihw _ (duringBuffer_sameShape c h x _)).object _ x s1
            ((hpre.SerializeBackingStore_pre _ _).of_sameShape_pre
              (duringBuffer_sameShape c h x _)) h1)
          (duringBuffer_sameShape c h x _))
    · obtain ⟨s1, h1, he⟩ := (Result.bind_eq_ok _ _ _).1 hok
      cases he
      have hs := SetBackingStoreRefForSerialization_sameShape c h x c.kNullRefSentinel
      exact ((ihw _ hs).object s x s1 (hpre.of_sameShape_pre hs) h1).of_sameShape_good hs

theorem WalkSpec.step_object {c : Config} {h : Heap} {fuel : Nat}
    (hH : MetaMapNotDeferrable h)
    (ih : WalkSpec c h fuel) (s : Serializer) (x : HeapObject) (s' : Serializer)
    (hpre : SerializePre h x s)
    (hok : ObjectSerializer.SerializeObject c h (fuel + 1) s x = .ok s') :
    Good h (some x) s s' := by
  rw [ObjectSerializer_SerializeObject_succ] at hok
  split at hok
  · cases hok
  · obtain ⟨s1, h1, h2⟩ := (Result.bind_eq_ok _ _ _).1 hok
    obtain ⟨r, h3, h4⟩ := (Result.bind_eq_ok _ _ _).1 h2
    cases h4
    have hmap : h.map x = x → s.findPending x = none := by
      intro hm
      by_contra hc
      exact (hH x (hpre.2 hc)).1 hm
    exact (ih.prologue s x _ _ _ s1 hpre.1 hmap h1).trans_left (ih.content _ s1 _ r h3)

theorem WalkSpec.step_prologue {c : Config} {h : Heap} {fuel : Nat}
    (ih : WalkSpec c h fuel) (s : Serializer) (x : HeapObject) (space : SnapshotSpace)
    (size : Nat) (map : HeapObject) (s' : Serializer)
    (hl : (s.LookupReference (RefKey.object x)).is_valid = false)
    (hmap : map = x → s.findPending x = none)
    (hok : ObjectSerializer.SerializePrologue c h (fuel + 1) s x space size map = .ok s') :
    Good h (some x) s s' := by
  rw [SerializePrologue_succ] at hok
  split at hok
  · rename_i hm
    cases hok
    exact Good.prologue_meta s x _ _ hl (hmap hm) (Allocate_valid _ _ _)
  · obtain ⟨s3, h1, h2⟩ := (Result.bind_eq_ok _ _ _).1 hok
    obtain ⟨r, h3, h4⟩ := (Result.bind_eq_ok _ _ _).1 h2
    cases h4
    obtain ⟨hv, s3', hso, hr⟩ := AllocateAndResolve_ok c h s3 x space size r h3
    rw [hr]
    exact Good.prologue s s3 s3' x space _ r.1 hl (ih.serializeObject _ map s3 h1) hso hv

theorem WalkSpec.step_content {c : Config} {h : Heap} {fuel : Nat}
    (ih : WalkSpec c h fuel) (os : ObjectSerializer) (s : Serializer) (size : Nat)
    (r : ObjectSerializer × Serializer)
    (hok : ObjectSerializer.SerializeContent c h (fuel + 1) os s size = .ok r) :
    Good h none s r.2 := by
  rw [SerializeContent_succ] at hok
  split at hok
  · exact (Good.of_sinkOnly_good (SinkOnly.OutputCode c h s os.object_ size)).trans_left
      (ih.iterateBody os _ _ r hok)
  · obtain ⟨r1, h1, h2⟩ := (Result.bind_eq_ok _ _ _).1 hok
    cases h2
    exact (ih.iterateBody os s _ r1 h1).trans_left
      (Good.of_sinkOnly_good (SinkOnly.OutputRawData c h r1.1 r1.2 size))

theorem WalkSpec.step_iterateBody {c : Config} {h : Heap} {fuel : Nat}
    (ih : WalkSpec c h fuel) (os : ObjectSerializer) (s : Serializer) (vs : List BodyVisit)
    (r : ObjectSerializer × Serializer)
    (hok : ObjectSerializer.IterateBody c h (fuel + 1) os s vs = .ok r) :
    Good h none s r.2 := by
  cases vs with
  | nil =>
    rw [IterateBody_nil] at hok
    cases hok
    exact Good.refl_good h s
  | cons v rest =>
    rw [IterateBody_cons] at hok
    obtain ⟨r1, h1, h2⟩ := (Result.bind_eq_ok _ _ _).1 hok
    refine Good.trans_left ?_ (ih.iterateBody r1.1 r1.2 rest r h2)
    cases v with
    | VisitPointers start_offset slots => exact ih.visitPointers os s _ _ r1 h1
    | VisitEmbeddedPointer target n =>
      obtain ⟨s1, h3, h4⟩ := (Result.bind_eq_ok _ _ _).1 h1
      cases h4
      exact ih.serializeObject s target s1 h3
    | VisitForeignExternalReference a =>
      exact Good.of_sinkOnly_good (SinkOnly.OutputExternalReference c h os s _ _ _ r1 h1)
    | VisitCodeExternalReference t n =>
      exact Good.of_sinkOnly_good (SinkOnly.OutputExternalReference c h os s _ _ _ r1 h1)
    | VisitInternalReference t =>
      cases h1
      exact Good.of_sinkOnly_good ((SinkOnly.PutQ s _ (by simp) (by simp) (by simp) (by simp)
        (by simp)).trans (SinkOnly.PutInt _ _))
    | VisitRuntimeEntry => cases h1
    | VisitOffHeapTarget addr n =>
      dsimp only at h1
      split at h1
      · cases h1
      · split at h1
        · cases h1
        · cases h1
          exact Good.of_sinkOnly_good ((SinkOnly.PutQ s _ (by simp) (by simp) (by simp) (by simp)
            (by simp)).trans (SinkOnly.PutInt _ _))
    | VisitCodeTarget target n =>
      obtain ⟨s1, h3, h4⟩ := (Result.bind_eq_ok _ _ _).1 h1
      cases h4
      exact ih.serializeObject s target s1 h3

theorem WalkSpec.step_visitPointers {c : Config} {h : Heap} {fuel : Nat}
    (ih : WalkSpec c h fuel) (os : ObjectSerializer) (s : Serializer) (offset : Nat)
    (slots : List MaybeObject) (r : ObjectSerializer × Serializer)
    (hok : ObjectSerializer.VisitPointers c h (fuel + 1) os s offset slots = .ok r) :
    Good h none s r.2 := by
  cases slots with
  | nil =>
    rw [VisitPointers_nil] at hok
    cases hok
    exact Good.refl_good h s
  | cons slot rest =>
    rw [VisitPointers_cons] at hok
    have hraw : Good h none s (ObjectSerializer.OutputRawData c h os s offset).2 :=
      Good.of_sinkOnly_good (SinkOnly.OutputRawData c h os s offset)
    cases slot with
    | Smi v => exact ih.visitPointers os s _ rest r hok
    | Cleared => exact hraw.trans_left (ih.cleared _ _ _ _ r hok)
    | Strong t => exact hraw.trans_left (ih.cleared _ _ _ _ r hok)
    | Weak t => exact hraw.trans_left (ih.cleared _ _ _ _ r hok)

theorem WalkSpec.step_cleared {c : Config} {h : Heap} {fuel : Nat}
    (ih : WalkSpec c h fuel) (os : ObjectSerializer) (s : Serializer) (offset : Nat)
    (slots : List MaybeObject) (r : ObjectSerializer × Serializer)
    (hok : ObjectSerializer.VisitPointers.cleared c h (fuel + 1) os s offset slots = .ok r) :
    Good h none s r.2 := by
  rw [VisitPointers_cleared_succ] at hok
  split at hok
  · exact (Good.of_sinkOnly_good (SinkOnly.PutQ s _ (by simp) (by simp) (by simp) (by simp)
      (by simp))).trans_left (ih.cleared _ _ _ _ r hok)
  · exact ih.heapObjects os s offset slots r hok

theorem WalkSpec.step_heapObjects {c : Config} {h : Heap} {fuel : Nat}
    (ih : WalkSpec c h fuel) (os : ObjectSerializer) (s : Serializer) (offset : Nat)
    (slots : List MaybeObject) (r : ObjectSerializer × Serializer)
    (hok : ObjectSerializer.VisitPointers.heapObjects c h (fuel + 1) os s offset slots = .ok r) :
    Good h none s r.2 := by
  rw [VisitPointers_heapObjects_succ] at hok
  split at hok
  · cases hok
    exact Good.refl_good h s
  · exact ih.visitPointers os s offset _ r hok
  · exact ih.visitPointers os s offset _ r hok
  · exact ih.reference os s offset _ _ _ r hok
  · exact (Good.of_sinkOnly_good (SinkOnly.PutQ s _ (by simp) (by simp) (by simp) (by simp)
      (by simp))).trans_left (ih.reference os _ offset _ _ _ r hok)

theorem WalkSpec.step_reference {c : Config} {h : Heap} {fuel : Nat}
    (ih : WalkSpec c h fuel) (os : ObjectSerializer) (s : Serializer) (offset : Nat)
    (cc : HeapObject) (cur : MaybeObject) (rest : List MaybeObject)
    (r : ObjectSerializer × Serializer)
    (hok : ObjectSerializer.VisitPointers.reference c h (fuel + 1) os s offset cc cur rest =
      .ok r) : Good h none s r.2 := by
  rw [VisitPointers_reference_succ] at hok
  split at hok
  · exact (Good.SerializePendingObject_good s cc).trans_left (ih.heapObjects _ _ _ _ r hok)
  · split at hok
    · obtain ⟨s1, h1, h2⟩ := (Result.bind_eq_ok _ _ _).1 hok
      exact ((Good.of_sinkOnly_good (SinkOnly.PutRepeat c s _)).trans_left
        (ih.serializeObject _ cc s1 h1)).trans_left (ih.heapObjects _ _ _ _ r h2)
    · obtain ⟨s1, h1, h2⟩ := (Result.bind_eq_ok _ _ _).1 hok
      exact (ih.serializeObject _ cc s1 h1).trans_left (ih.heapObjects _ _ _ _ r h2)

/-- Every function of the graph walk, with any fuel, has the effect `WalkSpec`
describes, provided no deferrable object is its own map. -/
theorem walkSpec (c : Config) (h : Heap) (hH : MetaMapNotDeferrable h) (fuel : Nat) :
    WalkSpec c h fuel := by
  induction fuel generalizing h with
  | zero => exact WalkSpec.zero c h
  | succ n ih =>
    have ihh := ih h hH
    have ihw : ∀ h1 : Heap, h1.SameShape h → WalkSpec c h1 n :=
      fun h1 hs => ih h1 (hH.of_sameShape_meta hs)
    exact
      { serializeObject := ihh.step_serializeObject
        serialize := ihh.step_serialize
        externalString := ihh.step_externalString ihw
        sequentialString := ihh.step_sequentialString hH
        typedArray := ihh.step_typedArray
        arrayBuffer := WalkSpec.step_arrayBuffer ihw
        object := ihh.step_object hH
        prologue := ihh.step_prologue
        content := ihh.step_content
        iterateBody := ihh.step_iterateBody
        visitPointers := ihh.step_visitPointers
        cleared := ihh.step_cleared
        heapObjects := ihh.step_heapObjects
        reference := ihh.step_reference }

/-! ## Invariants of the elementary steps -/

theorem lookup_invalid_iff (m : List (RefKey × SerializerReference)) (key : RefKey)
    (hv : ∀ e ∈ m, e.2.is_valid = true) :
    ((m.lookup key).getD SerializerReference.invalid).is_valid = false ↔
      key ∉ m.map Prod.fst := by
  induction m with
  | nil => simp [SerializerReference.is_valid]
  | cons e rest ih =>
    obtain ⟨k, r⟩ := e
    have hr : r.is_valid = true := hv (k, r) (by simp)
    have ih' := ih (fun e he => hv e (List.mem_cons_of_mem _ he))
    by_cases hk : key = k
    · subst hk
      simp [List.lookup, hr]
    · have : (key == k) = false := by simpa using hk
      simp only [List.lookup, this, List.map_cons, List.mem_cons, not_or]
      rw [ih']
      exact ⟨fun h1 => ⟨hk, h1⟩, fun h1 => h1.2⟩

theorem LookupReference_invalid_iff (s : Serializer) (key : RefKey)
    (hv : ∀ e ∈ s.reference_map_, e.2.is_valid = true) :
    (s.LookupReference key).is_valid = false ↔ key ∉ s.reference_map_.map Prod.fst :=
  lookup_invalid_iff s.reference_map_ key hv

theorem count_append_quiet (sink t : List SinkEntry) (e : SinkEntry) (he : e.IsQuiet = false)
    (ht : ∀ x ∈ t, x.IsQuiet = true) : (sink ++ t).count e = sink.count e := by
  rw [List.count_append]
  have : t.count e = 0 := by
    rw [List.count_eq_zero]
    intro hm
    have := ht e hm
    rw [he] at this
    cases this
  omega

theorem WalkInv.initial (h : Heap) (n : Nat) : WalkInv h (Serializer.initial n) := by
  refine ⟨ForwardRefInv_initial n, ?_, ?_, ?_, ?_, ?_⟩ <;>
    simp [Serializer.initial, Serializer.findPending, Serializer.LookupReference,
      SerializerReference.is_valid]

theorem WalkInv.step {h : Heap} {s s' : Serializer} (hi : WalkInv h s) (hs : Step h s s') :
    WalkInv h s' := by
  obtain ⟨i1, i2, i3, i4, i5, i6⟩ := hi
  cases hs with
  | frame _ t a1 a2 a3 a4 a5 a6 a7 =>
    refine ⟨ForwardRefInv_frame s s' i1 a2 a3 a4, ?_, ?_, ?_, ?_, ?_⟩
    · intro x hx
      rw [findPending_of_table_eq s s' x a2] at hx
      rw [LookupReference_of_map_eq s s' _ a1]
      exact i2 x hx
    · rw [a5]
      exact i3
    · rw [a1]
      exact i4
    · rw [a1]
      exact i5
    · rw [a6, a3,
        count_append_quiet _ _ (SinkEntry.Put Bytecode.kRegisterPendingForwardRef) rfl a7,
        count_append_quiet _ _ (SinkEntry.Put Bytecode.kResolvePendingForwardRef) rfl a7]
      exact i6
  | register x hl =>
    obtain ⟨g1, g2, g3, g4, g5⟩ := register_frame s x
    refine ⟨ForwardRefInv_register s x i1, ?_, ?_, ?_, ?_, ?_⟩
    · intro y hy
      rw [LookupReference_of_map_eq s _ _ g1]
      rcases (findPending_register s x y).1 hy with h1 | h1
      · subst h1
        exact hl
      · exact i2 y h1
    · rw [g2]
      exact i3
    · rw [g1]
      exact i4
    · rw [g1]
      exact i5
    · rw [g3, g4]
      exact i6
  | put x hx =>
    refine ⟨ForwardRefInv_put s x i1 hx, ?_, ?_, ?_, ?_, ?_⟩
    · intro y hy
      exact i2 y ((findPending_put s x y).1 hy)
    · exact i3
    · exact i4
    · exact i5
    · simp only [PutPendingForwardReferenceTo, Serializer.Put, List.count_append,
        List.count_singleton]
      simp only [beq_self_eq_true, if_true]
      have : (SinkEntry.Put Bytecode.kRegisterPendingForwardRef ==
          SinkEntry.Put Bytecode.kResolvePendingForwardRef) = false := by decide
      simp only [this, if_false]
      push_cast
      omega
  | queue x hd =>
    refine ⟨ForwardRefInv_frame s _ i1 rfl rfl rfl, i2, ?_, i4, i5, i6⟩
    intro o ho
    simp only [QueueDeferredObject, List.mem_append, List.mem_singleton] at ho
    rcases ho with h1 | h1
    · exact i3 o h1
    · rw [h1]
      exact hd
  | resolve x =>
    obtain ⟨f1, f2, -⟩ := resolve_frame s x
    refine ⟨ForwardRefInv_resolve s x i1, ?_, ?_, ?_, ?_, ?_⟩
    · intro y hy
      rw [LookupReference_of_map_eq s _ _ f1]
      by_cases hyx : y = x
      · subst hyx
        exact absurd (findPending_resolve_self s y) hy
      · rw [findPending_resolve_other s x y hyx] at hy
        exact i2 y hy
    · rw [f2]
      exact i3
    · rw [f1]
      exact i4
    · rw [f1]
      exact i5
    · simp only [ResolvePendingObject, foldl_Resolve_sink, foldl_Resolve_unresolved,
        List.count_append]
      have hc1 : ∀ ids : List Int, (ids.flatMap (fun id =>
          [SinkEntry.Put Bytecode.kResolvePendingForwardRef, SinkEntry.PutInt id])).count
          (SinkEntry.Put Bytecode.kRegisterPendingForwardRef) = 0 := by
        intro ids
        induction ids with
        | nil => rfl
        | cons a l ih =>
          simp only [List.flatMap_cons, List.count_append, ih]
          simp [List.count_cons]
      have hc2 : ∀ ids : List Int, (ids.flatMap (fun id =>
          [SinkEntry.Put Bytecode.kResolvePendingForwardRef, SinkEntry.PutInt id])).count
          (SinkEntry.Put Bytecode.kResolvePendingForwardRef) = ids.length := by
        intro ids
        induction ids with
        | nil => rfl
        | cons a l ih =>
          simp only [List.flatMap_cons, List.count_append, ih, List.length_cons]
          have : [SinkEntry.Put Bytecode.kResolvePendingForwardRef, SinkEntry.PutInt a].count
              (SinkEntry.Put Bytecode.kResolvePendingForwardRef) = 1 := by
            simp [List.count_cons]
          omega
      rw [hc1, hc2]
      push_cast
      omega
  | add key r hr hl hp =>
    refine ⟨ForwardRefInv_frame s _ i1 rfl rfl rfl, ?_, i3, ?_, ?_, i6⟩
    · intro y hy
      have hy' : s.findPending y ≠ none := hy
      have hk : RefKey.object y ≠ key := fun hc => hy' (hp y hc.symm)
      rw [LookupReference_add_other s key _ r hk]
      exact i2 y hy'
    · intro e he
      simp only [Serializer.AddReference, List.mem_cons] at he
      rcases he with h1 | h1
      · rw [h1]
        exact hr
      · exact i4 e h1
    · simp only [Serializer.AddReference, List.map_cons, List.nodup_cons]
      exact ⟨(LookupReference_invalid_iff s key i4).1 hl, i5⟩
  | pop =>
    refine ⟨ForwardRefInv_frame s _ i1 rfl rfl rfl, i2, ?_, i4, i5, i6⟩
    intro o ho
    exact i3 o (List.mem_of_mem_dropLast ho)
  | sync =>
    refine ⟨ForwardRefInv_frame s _ i1 rfl rfl rfl, i2, i3, i4, i5, ?_⟩
    simp only [Serializer.Put, List.count_append, List.count_singleton]
    have h1 : (SinkEntry.Put Bytecode.kSynchronize ==
        SinkEntry.Put Bytecode.kRegisterPendingForwardRef) = false := by decide
    have h2 : (SinkEntry.Put Bytecode.kSynchronize ==
        SinkEntry.Put Bytecode.kResolvePendingForwardRef) = false := by decide
    simp only [h1, h2, if_false]
    push_cast
    omega

theorem WalkInv.trace {h : Heap} {s s' : Serializer} (hi : WalkInv h s) (ht : Trace h s s') :
    WalkInv h s' := by
  induction ht with
  | refl => exact hi
  | tail _ hs ih => exact ih.step hs

/-! ## The walk only extends the sink and the reference map -/

theorem Extends.refl_ext (s : Serializer) : Extends s s :=
  ⟨⟨[], by simp, by simp⟩, ⟨[], by simp, by simp⟩⟩

theorem Extends.trans_ext {s1 s2 s3 : Serializer} (h12 : Extends s1 s2) (h23 : Extends s2 s3) :
    Extends s1 s3 := by
  obtain ⟨⟨t, a1, a2⟩, ⟨l, a3, a4⟩⟩ := h12
  obtain ⟨⟨u, b1, b2⟩, ⟨m, b3, b4⟩⟩ := h23
  refine ⟨⟨t ++ u, by rw [b1, a1, List.append_assoc], ?_⟩,
    ⟨m ++ l, by rw [b3, a3, List.append_assoc], ?_⟩⟩
  · intro hm
    rcases List.mem_append.1 hm with h | h
    · exact a2 h
    · exact b2 h
  · intro e he
    rcases List.mem_append.1 he with h | h
    · exact b4 e h
    · exact a4 e h

theorem Extends.of_sinkOnly_ext {s s' : Serializer} (hs : SinkOnly s s') : Extends s s' := by
  obtain ⟨a1, -, -, -, -, t, a6, a7⟩ := hs
  refine ⟨⟨t, a6, fun hm => ?_⟩, ⟨[], by simpa using a1, by simp⟩⟩
  have := (a7 _ hm).1
  cases this

theorem Extends.of_sink_same_map {s s' : Serializer} (t : List SinkEntry)
    (h1 : s'.sink_ = s.sink_ ++ t) (h2 : SinkEntry.Put Bytecode.kSynchronize ∉ t)
    (h3 : s'.reference_map_ = s.reference_map_) : Extends s s' :=
  ⟨⟨t, h1, h2⟩, ⟨[], by simpa using h3, by simp⟩⟩

theorem Extends.register_ext (s : Serializer) (x : HeapObject) :
    Extends s (RegisterObjectIsPending s x) := by
  obtain ⟨g1, -, g3, -, -⟩ := register_frame s x
  exact Extends.of_sink_same_map [] (by simpa using g3) (by simp) g1

theorem Extends.put_ext (s : Serializer) (x : HeapObject) :
    Extends s (PutPendingForwardReferenceTo s x) :=
  Extends.of_sink_same_map [SinkEntry.Put Bytecode.kRegisterPendingForwardRef]
    (by simp [PutPendingForwardReferenceTo, Serializer.Put]) (by simp)
    (by simp [PutPendingForwardReferenceTo, Serializer.Put])

theorem Extends.resolve_ext (s : Serializer) (x : HeapObject) :
    Extends s (ResolvePendingObject s x) := by
  obtain ⟨f1, -, -⟩ := resolve_frame s x
  refine Extends.of_sink_same_map (((s.findPending x).getD []).flatMap (fun id =>
      [SinkEntry.Put Bytecode.kResolvePendingForwardRef, SinkEntry.PutInt id]))
    (by simp only [ResolvePendingObject, foldl_Resolve_sink]) ?_ f1
  intro hm
  simp only [List.mem_flatMap, List.mem_cons, List.mem_singleton, List.not_mem_nil,
    or_false] at hm
  obtain ⟨id, -, h1 | h1⟩ := hm <;> cases h1

theorem Extends.add (s : Serializer) (key : RefKey) (r : SerializerReference)
    (hr : r.is_valid = true) : Extends s (s.AddReference key r) :=
  ⟨⟨[], by simp [Serializer.AddReference], by simp⟩,
    ⟨[(key, r)], by simp [Serializer.AddReference], by simpa using hr⟩⟩

theorem Extends.defer_ext (s : Serializer) (x : HeapObject) :
    Extends s (ObjectSerializer.Defer s x) := by
  have h3 : Extends (PutPendingForwardReferenceTo (RegisterObjectIsPending s x) x)
      (ObjectSerializer.Defer s x) :=
    Extends.of_sink_same_map [] (by simp [ObjectSerializer.Defer, QueueDeferredObject])
      (by simp) (by simp [ObjectSerializer.Defer, QueueDeferredObject])
  exact ((Extends.register_ext s x).trans_ext (Extends.put_ext _ x)).trans_ext h3

theorem Extends.SerializePendingObject_ext (s : Serializer) (x : HeapObject) :
    Extends s (SerializePendingObject s x).2 := by
  unfold V8Snapshot.SerializePendingObject
  split
  · exact Extends.refl_ext s
  · exact Extends.put_ext s x

theorem Extends.SerializeBackingStore_ext (h : Heap) (s : Serializer) (b n : Nat) :
    Extends s (SerializeBackingStore h s b n).2 := by
  unfold V8Snapshot.SerializeBackingStore
  dsimp only
  split
  · have hso : SinkOnly s
        { ((s.Put Bytecode.kOffHeapBackingStore).PutInt n).PutRaw (h.backingStoreBytes b n) with
          allocator_ := (((s.Put Bytecode.kOffHeapBackingStore).PutInt n).PutRaw
            (h.backingStoreBytes b n)).allocator_.AllocateOffHeapBackingStore.2 } :=
      (((SinkOnly.PutQ s _ (by simp) (by simp) (by simp) (by simp) (by simp)).trans
        (SinkOnly.PutInt _ _)).trans (SinkOnly.PutRaw _ _)).trans (SinkOnly.allocator _ _)
    exact (Extends.of_sinkOnly_ext hso).trans_ext (Extends.add _ _ _ rfl)
  · exact Extends.refl_ext s

theorem Extends.Put_ext (s : Serializer) (b : Bytecode) (hb : b ≠ Bytecode.kSynchronize) :
    Extends s (s.Put b) :=
  Extends.of_sink_same_map [SinkEntry.Put b] rfl (by simpa using fun hc => hb hc.symm) rfl

theorem WalkExtends.zero_ext (c : Config) (h : Heap) : WalkExtends c h 0 := by
  constructor
  · intro s x s' hok
    cases hok
  · intro s x s' hok
    cases hok
  · intro s x info s' hok
    cases hok
  · intro s x info s' hok
    cases hok
  · intro s x info s' hok
    cases hok
  · intro s x info s' hok
    cases hok
  · intro s x s' hok
    cases hok
  · intro s x space size map s' hok
    cases hok
  · intro os s size r hok
    cases hok
  · intro os s vs r hok
    cases hok
  · intro os s offset slots r hok
    cases hok
  · intro os s offset slots r hok
    cases hok
  · intro os s offset slots r hok
    cases hok
  · intro os s offset cc cur rest r hok
    cases hok

theorem WalkExtends.succ_ext {c : Config} {h : Heap} {fuel : Nat} (ih : WalkExtends c h fuel)
    (ihw : ∀ h1 : Heap, WalkExtends c h1 fuel) : WalkExtends c h (fuel + 1) := by
  have hput : ∀ (s : Serializer) (b : Bytecode), b ≠ Bytecode.kSynchronize →
      Extends s (s.Put b) := Extends.Put_ext
  constructor
  · intro s x s' hok
    rw [SerializeObject_succ] at hok
    split at hok
    · cases hok
      exact Extends.of_sinkOnly_ext (SinkOnly.SerializeRoot c h s x)
    · split at hok
      · cases hok
        exact Extends.of_sinkOnly_ext (SinkOnly.SerializeHotObject s x)
      · split at hok
        · cases hok
          exact Extends.of_sinkOnly_ext (SinkOnly.SerializeBackReference c h s x)
        · split at hok
          · cases hok
            exact Extends.SerializePendingObject_ext s x
          · exact ih.serialize s x s' hok
  · intro s x s' hok
    rw [Serialize_succ] at hok
    have henter : Extends s (RecursionScope.enter s) := Extends.of_sinkOnly_ext (SinkOnly.enter s)
    split at hok
    · cases hok
      exact (henter.trans_ext (Extends.defer_ext _ x)).trans_ext (Extends.of_sinkOnly_ext (SinkOnly.leave _))
    · obtain ⟨s2, h2, h3⟩ := (Result.bind_eq_ok _ _ _).1 hok
      cases h3
      refine (henter.trans_ext ?_).trans_ext (Extends.of_sinkOnly_ext (SinkOnly.leave _))
      split at h2
      · obtain ⟨r, hr, he⟩ := (Result.bind_eq_ok _ _ _).1 h2
        cases he
        exact ih.externalString _ x _ r hr
      · exact ih.typedArray _ x _ s2 h2
      · obtain ⟨r, hr, he⟩ := (Result.bind_eq_ok _ _ _).1 h2
        cases he
        exact ih.arrayBuffer _ x _ r hr
      · exact ih.object _ x s2 h2
  · intro s x info s' hok
    rw [SerializeExternalString_succ] at hok
    split at hok
    · obtain ⟨s1, h1, he⟩ := (Result.bind_eq_ok _ _ _).1 hok
      cases he
      exact (ihw _).object s x s1 h1
    · obtain ⟨s1, h1, he⟩ := (Result.bind_eq_ok _ _ _).1 hok
      cases he
      exact ih.sequentialString s x info s1 h1
  · intro s x info s' hok
    rw [SerializeExternalStringAsSequentialString_succ] at hok
    obtain ⟨s1, h1, h2⟩ := (Result.bind_eq_ok _ _ _).1 hok
    cases h2
    exact (ih.prologue s x _ _ _ s1 h1).trans_ext
      (Extends.of_sinkOnly_ext (SinkOnly.OutputSequentialString c h s1 x _ _ _))
  · intro s x info s' hok
    rw [SerializeJSTypedArray_succ] at hok
    split at hok
    · exact ih.object s x s' hok
    · split at hok
      · split at hok
        · cases hok
        · exact (Extends.SerializeBackingStore_ext h s _ _).trans_ext (ih.object _ x s' hok)
      · exact ih.object s x s' hok
  · intro s x info s' hok
    rw [SerializeJSArrayBuffer_succ] at hok
    split at hok
    · cases hok
    · split at hok
      · obtain ⟨s1, h1, he⟩ := (Result.bind_eq_ok _ _ _).1 hok
        cases he
        exact (Extends.SerializeBackingStore_ext h s _ _).trans_ext ((ihw _).object _ x s1 h1)
      · obtain ⟨s1, h1, he⟩ := (Result.bind_eq_ok _ _ _).1 hok
        cases he
        exact (ihw _).object s x s1 h1
  · intro s x s' hok
    rw [ObjectSerializer_SerializeObject_succ] at hok
    split at hok
    · cases hok
    · obtain ⟨s1, h1, h2⟩ := (Result.bind_eq_ok _ _ _).1 hok
      obtain ⟨r, h3, h4⟩ := (Result.bind_eq_ok _ _ _).1 h2
      cases h4
      exact (ih.prologue s x _ _ _ s1 h1).trans_ext (ih.content _ s1 _ r h3)
  · intro s x space size map s' hok
    rw [SerializePrologue_succ] at hok
    split at hok
    · cases hok
      exact ((hput s _ (by simp)).trans_ext (Extends.of_sinkOnly_ext (SinkOnly.allocator _ _))).trans_ext
        (Extends.add _ _ _ (Allocate_valid _ _ _))
    · obtain ⟨s3, h1, h2⟩ := (Result.bind_eq_ok _ _ _).1 hok
      obtain ⟨r, h3, h4⟩ := (Result.bind_eq_ok _ _ _).1 h2
      cases h4
      obtain ⟨hv, s3', hso, hr⟩ := AllocateAndResolve_ok c h s3 x space size r h3
      rw [hr]
      exact ((((((hput s _ (by simp)).trans_ext (Extends.of_sinkOnly_ext (SinkOnly.PutInt _ _))).trans_ext
        (Extends.register_ext _ x)).trans_ext (ih.serializeObject _ map s3 h1)).trans_ext
        (Extends.of_sinkOnly_ext hso)).trans_ext (Extends.resolve_ext s3' x)).trans_ext (Extends.add _ _ _ hv)
  · intro os s size r hok
    rw [SerializeContent_succ] at hok
    split at hok
    · exact (Extends.of_sinkOnly_ext (SinkOnly.OutputCode c h s os.object_ size)).trans_ext
        (ih.iterateBody os _ _ r hok)
    · obtain ⟨r1, h1, h2⟩ := (Result.bind_eq_ok _ _ _).1 hok
      cases h2
      exact (ih.iterateBody os s _ r1 h1).trans_ext
        (Extends.of_sinkOnly_ext (SinkOnly.OutputRawData c h r1.1 r1.2 size))
  · intro os s vs r hok
    cases vs with
    | nil =>
      rw [IterateBody_nil] at hok
      cases hok
      exact Extends.refl_ext s
    | cons v rest =>
      rw [IterateBody_cons] at hok
      obtain ⟨r1, h1, h2⟩ := (Result.bind_eq_ok _ _ _).1 hok
      refine Extends.trans_ext ?_ (ih.iterateBody r1.1 r1.2 rest r h2)
      cases v with
      | VisitPointers start_offset slots => exact ih.visitPointers os s _ _ r1 h1
      | VisitEmbeddedPointer target n =>
        obtain ⟨s1, h3, h4⟩ := (Result.bind_eq_ok _ _ _).1 h1
        cases h4
        exact ih.serializeObject s target s1 h3
      | VisitForeignExternalReference a =>
        exact Extends.of_sinkOnly_ext (SinkOnly.OutputExternalReference c h os s _ _ _ r1 h1)
      | VisitCodeExternalReference t n =>
        exact Extends.of_sinkOnly_ext (SinkOnly.OutputExternalReference c h os s _ _ _ r1 h1)
      | VisitInternalReference t =>
        cases h1
        exact (hput s _ (by simp)).trans_ext (Extends.of_sinkOnly_ext (SinkOnly.PutInt _ _))
      | VisitRuntimeEntry => cases h1
      | VisitOffHeapTarget addr n =>
        dsimp only at h1
        split at h1
        · cases h1
        · split at h1
          · cases h1
          · cases h1
            exact (hput s _ (by simp)).trans_ext (Extends.of_sinkOnly_ext (SinkOnly.PutInt _ _))
      | VisitCodeTarget target n =>
        obtain ⟨s1, h3, h4⟩ := (Result.bind_eq_ok _ _ _).1 h1
        cases h4
        exact ih.serializeObject s target s1 h3
  · intro os s offset slots r hok
    cases slots with
    | nil =>
      rw [VisitPointers_nil] at hok
      cases hok
      exact Extends.refl_ext s
    | cons slot rest =>
      rw [VisitPointers_cons] at hok
      have hraw : Extends s (ObjectSerializer.OutputRawData c h os s offset).2 :=
        Extends.of_sinkOnly_ext (SinkOnly.OutputRawData c h os s offset)
      cases slot with
      | Smi v => exact ih.visitPointers os s _ rest r hok
      | Cleared => exact hraw.trans_ext (ih.cleared _ _ _ _ r hok)
      | Strong t => exact hraw.trans_ext (ih.cleared _ _ _ _ r hok)
      | Weak t => exact hraw.trans_ext (ih.cleared _ _ _ _ r hok)
  · intro os s offset slots r hok
    rw [VisitPointers_cleared_succ] at hok
    split at hok
    · exact (hput s _ (by simp)).trans_ext (ih.cleared _ _ _ _ r hok)
    · exact ih.heapObjects os s offset slots r hok
  · intro os s offset slots r hok
    rw [VisitPointers_heapObjects_succ] at hok
    split at hok
    · cases hok
      exact Extends.refl_ext s
    · exact ih.visitPointers os s offset _ r hok
    · exact ih.visitPointers os s offset _ r hok
    · exact ih.reference os s offset _ _ _ r hok
    · exact (hput s _ (by simp)).trans_ext (ih.reference os _ offset _ _ _ r hok)
  · intro os s offset cc cur rest r hok
    rw [VisitPointers_reference_succ] at hok
    split at hok
    · exact (Extends.SerializePendingObject_ext s cc).trans_ext (ih.heapObjects _ _ _ _ r hok)
    · split at hok
      · obtain ⟨s1, h1, h2⟩ := (Result.bind_eq_ok _ _ _).1 hok
        exact ((Extends.of_sinkOnly_ext (SinkOnly.PutRepeat c s _)).trans_ext
          (ih.serializeObject _ cc s1 h1)).trans_ext (ih.heapObjects _ _ _ _ r h2)
      · obtain ⟨s1, h1, h2⟩ := (Result.bind_eq_ok _ _ _).1 hok
        exact (ih.serializeObject _ cc s1 h1).trans_ext (ih.heapObjects _ _ _ _ r h2)

/-- Every function of the graph walk, with any fuel, extends the state. -/
theorem walkExtends (c : Config) (h : Heap) (fuel : Nat) : WalkExtends c h fuel := by
  induction fuel generalizing h with
  | zero => exact WalkExtends.zero_ext c h
  | succ n ih => exact (ih h).succ_ext ih

/-! ## Draining the deferred queue -/

theorem SerializeDeferredObjects_succ (c : Config) (h : Heap) (fuel : Nat) (s : Serializer) :
    SerializeDeferredObjects c h (fuel + 1) s =
      match s.deferred_objects_.getLast? with
      | none => .ok (s.Put Bytecode.kSynchronize)
      | some obj =>
        Result.bind
          (ObjectSerializer.SerializeDeferred c h fuel
            { s with deferred_objects_ := s.deferred_objects_.dropLast } obj)
          (fun s1 => SerializeDeferredObjects c h fuel s1) := by
  rfl

theorem Extends.SerializeDeferred (c : Config) (h : Heap) (fuel : Nat) (s : Serializer)
    (x : HeapObject) (s' : Serializer)
    (hok : ObjectSerializer.SerializeDeferred c h fuel s x = .ok s') : Extends s s' := by
  unfold ObjectSerializer.SerializeDeferred at hok
  dsimp only at hok
  split at hok
  · cases hok
    exact Extends.refl_ext s
  · exact (walkExtends c h fuel).serialize s x s' hok

theorem SerializeDeferredObjects_ok (c : Config) (h : Heap) (fuel : Nat) (s s' : Serializer)
    (hok : SerializeDeferredObjects c h fuel s = .ok s') :
    s'.deferred_objects_ = [] ∧
    ∃ t, s'.sink_ = s.sink_ ++ t ++ [SinkEntry.Put Bytecode.kSynchronize] ∧
      SinkEntry.Put Bytecode.kSynchronize ∉ t := by
  induction fuel generalizing s with
  | zero => cases hok
  | succ n ih =>
    rw [SerializeDeferredObjects_succ] at hok
    split at hok
    · rename_i hnone
      cases hok
      refine ⟨by simpa using hnone, [], by simp [Serializer.Put], by simp⟩
    · obtain ⟨s1, h1, h2⟩ := (Result.bind_eq_ok _ _ _).1 hok
      obtain ⟨⟨t1, a1, a2⟩, -⟩ := Extends.SerializeDeferred c h n _ _ s1 h1
      obtain ⟨hq, t2, b1, b2⟩ := ih s1 h2
      refine ⟨hq, t1 ++ t2, ?_, ?_⟩
      · rw [b1, a1]
        simp
      · intro hm
        rcases List.mem_append.1 hm with hm | hm
        · exact a2 hm
        · exact b2 hm

/-- C10. `SerializeDeferredObjects` with an empty deferred queue writes the
single marker `kSynchronize` and changes nothing else; with a non-empty queue it
pops the most recently queued object (the back of the queue, which includes
objects queued while draining, since every turn looks at the current back),
runs `SerializeDeferred` on it and continues; whenever it returns the queue is
empty and what it wrote is a stream without `kSynchronize` followed by exactly
one `kSynchronize`. -/
theorem SerializeDeferredObjects_spec (c : Config) (h : Heap) (fuel : Nat) (s : Serializer) :
    (s.deferred_objects_ = [] →
      SerializeDeferredObjects c h (fuel + 1) s = .ok (s.Put Bytecode.kSynchronize)) ∧
    (∀ q obj, s.deferred_objects_ = q ++ [obj] →
      SerializeDeferredObjects c h (fuel + 1) s =
        Result.bind
          (ObjectSerializer.SerializeDeferred c h fuel { s with deferred_objects_ := q } obj)
          (fun s1 => SerializeDeferredObjects c h fuel s1)) ∧
    (∀ s', SerializeDeferredObjects c h fuel s = .ok s' →
      s'.deferred_objects_ = [] ∧
      ∃ t, s'.sink_ = s.sink_ ++ t ++ [SinkEntry.Put Bytecode.kSynchronize] ∧
        SinkEntry.Put Bytecode.kSynchronize ∉ t) := by
  refine ⟨?_, ?_, fun s' hok => SerializeDeferredObjects_ok c h fuel s s' hok⟩
  · intro hq
    rw [SerializeDeferredObjects_succ, hq]
    rfl
  · intro q obj hq
    rw [SerializeDeferredObjects_succ, hq]
    simp

/-- Witness for C10: draining the empty queue of the freshly constructed
serializer writes one synchronize marker. -/
theorem SerializeDeferredObjects_spec_witness :
    SerializeDeferredObjects (exampleConfig 32) plainHeap (0 + 1) (Serializer.initial 8) =
      .ok ((Serializer.initial 8).Put Bytecode.kSynchronize) :=
  (SerializeDeferredObjects_spec (exampleConfig 32) plainHeap 0 (Serializer.initial 8)).1 rfl

/-! ## The two paths of `ObjectSerializer::Serialize` -/

theorem FirstRecord.mono {P Q : SinkEntry → Prop} {s s' : Serializer}
    (hf : FirstRecord P s s') (hpq : ∀ e, P e → Q e) : FirstRecord Q s s' := by
  obtain ⟨e, t, h1, h2⟩ := hf
  exact ⟨e, t, h1, hpq e h2⟩

theorem FirstRecord.extends {P : SinkEntry → Prop} {s s1 s2 : Serializer}
    (hf : FirstRecord P s s1) (he : Extends s1 s2) : FirstRecord P s s2 := by
  obtain ⟨e, t, h1, h2⟩ := hf
  obtain ⟨⟨u, a1, -⟩, -⟩ := he
  exact ⟨e, t ++ u, by rw [a1, h1]; simp, h2⟩

theorem FirstRecord.of_sink_eq {P : SinkEntry → Prop} {s0 s s' : Serializer}
    (hs : s.sink_ = s0.sink_) (hf : FirstRecord P s s') : FirstRecord P s0 s' := by
  obtain ⟨e, t, h1, h2⟩ := hf
  exact ⟨e, t, by rw [h1, hs], h2⟩

theorem Extends.lookup_valid {s s' : Serializer} (he : Extends s s') (key : RefKey)
    (hv : (s.LookupReference key).is_valid = true) :
    (s'.LookupReference key).is_valid = true := by
  obtain ⟨-, l, a1, a2⟩ := he
  unfold Serializer.LookupReference at hv ⊢
  rw [a1]
  clear a1
  induction l with
  | nil => simpa using hv
  | cons e rest ih =>
    obtain ⟨k, r⟩ := e
    by_cases hk : key = k
    · subst hk
      simpa [List.lookup] using a2 (key, r) (by simp)
    · have : (key == k) = false := by simpa using hk
      simp only [List.cons_append, List.lookup, this]
      exact ih (fun e he => a2 e (List.mem_cons_of_mem _ he))

theorem SerializePrologue_first (c : Config) (h : Heap) (fuel : Nat) (s : Serializer)
    (x : HeapObject) (space : SnapshotSpace) (size : Nat) (map : HeapObject) (s' : Serializer)
    (hok : ObjectSerializer.SerializePrologue c h fuel s x space size map = .ok s') :
    FirstRecord (fun e => e.IsFresh = true) s s' ∧
    (s'.LookupReference (RefKey.object x)).is_valid = true := by
  cases fuel with
  | zero => cases hok
  | succ n =>
    rw [SerializePrologue_succ] at hok
    split at hok
    · cases hok
      refine ⟨⟨SinkEntry.Put Bytecode.kNewMetaMap, [], rfl, rfl⟩, ?_⟩
      rw [LookupReference_add_self]
      exact Allocate_valid _ _ _
    · obtain ⟨s3, h1, h2⟩ := (Result.bind_eq_ok _ _ _).1 hok
      obtain ⟨r, h3, h4⟩ := (Result.bind_eq_ok _ _ _).1 h2
      cases h4
      obtain ⟨hv, s3', hso, hr⟩ := AllocateAndResolve_ok c h s3 x space size r h3
      refine ⟨?_, by rw [LookupReference_add_self]; exact hv⟩
      have h0 : FirstRecord (fun e => e.IsFresh = true) s (s.Put (Bytecode.kNewObject space)) :=
        ⟨SinkEntry.Put (Bytecode.kNewObject space), [], rfl, rfl⟩
      rw [hr]
      exact h0.extends ((((((Extends.of_sinkOnly_ext (SinkOnly.PutInt _ _)).trans_ext
        (Extends.register_ext _ x)).trans_ext ((walkExtends c h n).serializeObject _ map s3 h1)).trans_ext
        (Extends.of_sinkOnly_ext hso)).trans_ext (Extends.resolve_ext s3' x)).trans_ext
        (Extends.add _ _ _ hv))

theorem ObjectSerializer_SerializeObject_first (c : Config) (h : Heap) (fuel : Nat)
    (s : Serializer) (x : HeapObject) (s' : Serializer)
    (hok : ObjectSerializer.SerializeObject c h fuel s x = .ok s') :
    FirstRecord (fun e => e.IsFresh = true) s s' ∧
    (s'.LookupReference (RefKey.object x)).is_valid = true := by
  cases fuel with
  | zero => cases hok
  | succ n =>
    rw [ObjectSerializer_SerializeObject_succ] at hok
    split at hok
    · cases hok
    · obtain ⟨s1, h1, h2⟩ := (Result.bind_eq_ok _ _ _).1 hok
      obtain ⟨r, h3, h4⟩ := (Result.bind_eq_ok _ _ _).1 h2
      cases h4
      obtain ⟨f1, f2⟩ := SerializePrologue_first c h n s x _ _ _ s1 h1
      have he := (walkExtends c h n).content _ s1 _ r h3
      exact ⟨f1.extends he, he.lookup_valid _ f2⟩

theorem SerializeBackingStore_first (h : Heap) (s : Serializer) (b n : Nat) :
    (SerializeBackingStore h s b n).2.sink_ = s.sink_ ∨
    FirstRecord (fun e => e = SinkEntry.Put Bytecode.kOffHeapBackingStore) s
      (SerializeBackingStore h s b n).2 := by
  unfold SerializeBackingStore
  dsimp only
  split
  · exact Or.inr ⟨_, [SinkEntry.PutInt n, SinkEntry.PutRaw (h.backingStoreBytes b n)],
      by simp [Serializer.AddReference, Serializer.Put, Serializer.PutInt, Serializer.PutRaw],
      rfl⟩
  · exact Or.inl rfl

theorem after_backingStore_first (c : Config) (h h1 : Heap) (fuel : Nat) (s : Serializer)
    (b n : Nat) (x : HeapObject) (s' : Serializer)
    (hok : ObjectSerializer.SerializeObject c h1 fuel (SerializeBackingStore h s b n).2 x =
      .ok s') :
    FirstRecord StartsFreshEncoding s s' := by
  obtain ⟨f1, -⟩ := ObjectSerializer_SerializeObject_first c h1 fuel _ x s' hok
  rcases SerializeBackingStore_first h s b n with e1 | e1
  · exact (FirstRecord.of_sink_eq e1 f1).mono (fun e he => Or.inl he)
  · exact (e1.extends ((walkExtends c h1 fuel).object _ x s' hok)).mono
      (fun e he => Or.inr he)

theorem Serialize_fresh_path (c : Config) (h : Heap) (fuel : Nat) (s : Serializer)
    (x : HeapObject) (s' : Serializer)
    (hnd : ObjectSerializer.ShouldDefer c h (RecursionScope.enter s) x = false)
    (hok : ObjectSerializer.Serialize c h (fuel + 1) s x = .ok s') :
    FirstRecord StartsFreshEncoding s s' ∧
    (s'.LookupReference (RefKey.object x)).is_valid = true := by
  rw [Serialize_succ, hnd] at hok
  simp only [Bool.false_eq_true, if_false] at hok
  obtain ⟨s2, h2, h3⟩ := (Result.bind_eq_ok _ _ _).1 hok
  cases h3
  have hleave : Extends s2 (RecursionScope.leave s2) := Extends.of_sinkOnly_ext (SinkOnly.leave s2)
  have key : FirstRecord StartsFreshEncoding (RecursionScope.enter s) s2 ∧
      (s2.LookupReference (RefKey.object x)).is_valid = true := by
    split at h2
    · rename_i info hk
      cases fuel with
      | zero => cases h2
      | succ n =>
        obtain ⟨r, hr, he⟩ := (Result.bind_eq_ok _ _ _).1 h2
        cases he
        rw [SerializeExternalString_succ] at hr
        split at hr
        · obtain ⟨s3, h6, h7⟩ := (Result.bind_eq_ok _ _ _).1 hr
          cases h7
          obtain ⟨f1, f2⟩ := ObjectSerializer_SerializeObject_first c _ n _ x s3 h6
          exact ⟨f1.mono (fun e he => Or.inl he), f2⟩
        · obtain ⟨s3, h6, h7⟩ := (Result.bind_eq_ok _ _ _).1 hr
          cases h7
          cases n with
          | zero => cases h6
          | succ m =>
            rw [SerializeExternalStringAsSequentialString_succ] at h6
            obtain ⟨s1, h4, h5⟩ := (Result.bind_eq_ok _ _ _).1 h6
            cases h5
            obtain ⟨f1, f2⟩ := SerializePrologue_first c h m _ x _ _ _ s1 h4
            have he := Extends.of_sinkOnly_ext
              (SinkOnly.OutputSequentialString c h s1 x
                (SeqStringSizeFor c
                  (if info.IsExternalOneByteString then info.length * 1 else info.length * 2))
                (if info.IsExternalOneByteString then info.length * 1 else info.length * 2)
                info.resource_data)
            exact ⟨(f1.extends he).mono (fun e he => Or.inl he), he.lookup_valid _ f2⟩
    · rename_i info hk
      cases fuel with
      | zero => cases h2
      | succ n =>
        rw [SerializeJSTypedArray_succ] at h2
        split at h2
        · obtain ⟨f1, f2⟩ := ObjectSerializer_SerializeObject_first c h n _ x s2 h2
          exact ⟨f1.mono (fun e he => Or.inl he), f2⟩
        · split at h2
          · split at h2
            · cases h2
            · exact ⟨after_backingStore_first c h h n _ _ _ x s2 h2,
                (ObjectSerializer_SerializeObject_first c h n _ x s2 h2).2⟩
          · obtain ⟨f1, f2⟩ := ObjectSerializer_SerializeObject_first c h n _ x s2 h2
            exact ⟨f1.mono (fun e he => Or.inl he), f2⟩
    · rename_i info hk
      cases fuel with
      | zero => cases h2
      | succ n =>
        obtain ⟨r, hr, he⟩ := (Result.bind_eq_ok _ _ _).1 h2
        cases he
        rw [SerializeJSArrayBuffer_succ] at hr
        split at hr
        · cases hr
        · split at hr
          · obtain ⟨s3, h6, h7⟩ := (Result.bind_eq_ok _ _ _).1 hr
            cases h7
            exact ⟨after_backingStore_first c h _ n _ _ _ x s3 h6,
              (ObjectSerializer_SerializeObject_first c _ n _ x s3 h6).2⟩
          · obtain ⟨s3, h6, h7⟩ := (Result.bind_eq_ok _ _ _).1 hr
            cases h7
            obtain ⟨f1, f2⟩ := ObjectSerializer_SerializeObject_first c _ n _ x s3 h6
            exact ⟨f1.mono (fun e he => Or.inl he), f2⟩
    · obtain ⟨f1, f2⟩ := ObjectSerializer_SerializeObject_first c h fuel _ x s2 h2
      exact ⟨f1.mono (fun e he => Or.inl he), f2⟩
  exact ⟨FirstRecord.of_sink_eq (s := RecursionScope.enter s) rfl (key.1.extends hleave),
    hleave.lookup_valid _ key.2⟩

theorem findPending_register_self (s : Serializer) (x : HeapObject) :
    (RegisterObjectIsPending s x).findPending x = some ((s.findPending x).getD []) := by
  unfold RegisterObjectIsPending
  cases hx : s.findPending x with
  | some ids => simp [hx]
  | none =>
    simp only [Serializer.findPending] at hx ⊢
    rw [List.lookup_append, hx]
    simp [List.lookup]

theorem findPending_register_other (s : Serializer) (x o : HeapObject) (ho : o ≠ x) :
    (RegisterObjectIsPending s x).findPending o = s.findPending o := by
  unfold RegisterObjectIsPending
  cases hx : s.findPending x with
  | some ids => rfl
  | none =>
    simp only [Serializer.findPending]
    rw [List.lookup_append]
    have : (o == x) = false := by simpa using ho
    simp [List.lookup, this]

/-- C8. `MustBeDeferred` is constantly false in the base serializer, so
`ObjectSerializer::Serialize` defers exactly when the recursion depth exceeds the
maximum and the object can be deferred. On the deferral path it returns (with
any fuel) the state in which the sink holds one more entry, the opcode
`kRegisterPendingForwardRef`; the object has a pending entry whose ids are the
old ones followed by the newly issued id `next_forward_ref_id_`; the counters
went up by one; the object is at the back of the deferred queue; the other
pending entries, the reference map, the hot-object window and the recursion
depth are as before. Off the deferral path every normal return has written, as
its first entry, the start of the object's fresh encoding. -/
theorem Serialize_deferral_spec (c : Config) (h : Heap) (fuel : Nat) (s : Serializer)
    (obj : HeapObject) :
    MustBeDeferred obj = false ∧
    (ExceedsMaximum c (RecursionScope.enter s) = true ∧ h.CanBeDeferred obj = true →
      ObjectSerializer.Serialize c h (fuel + 1) s obj =
        .ok (RecursionScope.leave (ObjectSerializer.Defer (RecursionScope.enter s) obj)) ∧
      (RecursionScope.leave (ObjectSerializer.Defer (RecursionScope.enter s) obj)).sink_ =
        s.sink_ ++ [SinkEntry.Put Bytecode.kRegisterPendingForwardRef] ∧
      (RecursionScope.leave (ObjectSerializer.Defer (RecursionScope.enter s)
        obj)).findPending obj =
        some ((s.findPending obj).getD [] ++ [s.next_forward_ref_id_]) ∧
      (∀ o, o ≠ obj →
        (RecursionScope.leave (ObjectSerializer.Defer (RecursionScope.enter s)
          obj)).findPending o = s.findPending o) ∧
      (RecursionScope.leave (ObjectSerializer.Defer (RecursionScope.enter s)
        obj)).unresolved_forward_refs_ = s.unresolved_forward_refs_ + 1 ∧
      (RecursionScope.leave (ObjectSerializer.Defer (RecursionScope.enter s)
        obj)).next_forward_ref_id_ = s.next_forward_ref_id_ + 1 ∧
      (RecursionScope.leave (ObjectSerializer.Defer (RecursionScope.enter s)
        obj)).deferred_objects_ = s.deferred_objects_ ++ [obj] ∧
      (RecursionScope.leave (ObjectSerializer.Defer (RecursionScope.enter s)
        obj)).reference_map_ = s.reference_map_ ∧
      (RecursionScope.leave (ObjectSerializer.Defer (RecursionScope.enter s)
        obj)).hot_objects_ = s.hot_objects_ ∧
      (RecursionScope.leave (ObjectSerializer.Defer (RecursionScope.enter s)
        obj)).recursion_depth_ = s.recursion_depth_) ∧
    (¬ (ExceedsMaximum c (RecursionScope.enter s) = true ∧ h.CanBeDeferred obj = true) →
      ∀ s', ObjectSerializer.Serialize c h (fuel + 1) s obj = .ok s' →
        FirstRecord StartsFreshEncoding s s') := by
  refine ⟨rfl, ?_, ?_⟩
  · rintro ⟨he, hd⟩
    have hsd : ObjectSerializer.ShouldDefer c h (RecursionScope.enter s) obj = true := by
      simp [ObjectSerializer.ShouldDefer, he, hd]
    obtain ⟨g1, g2, g3, g4, g5⟩ := register_frame (RecursionScope.enter s) obj
    refine ⟨by rw [Serialize_succ, hsd]; rfl, ?_, ?_, ?_, ?_, ?_, ?_, ?_, ?_, ?_⟩
    · show (RegisterObjectIsPending (RecursionScope.enter s) obj).sink_ ++ _ = _
      rw [g3]
      rfl
    · have h1 := findPending_register_self (RecursionScope.enter s) obj
      have h2 := lookup_pushBackId_self obj
        (RegisterObjectIsPending (RecursionScope.enter s) obj).next_forward_ref_id_ _ _ h1
      refine Eq.trans h2 ?_
      rw [g5]
      rfl
    · intro o ho
      have h1 := findPending_register_other (RecursionScope.enter s) obj o ho
      have h2 := lookup_pushBackId_other obj o
        (RegisterObjectIsPending (RecursionScope.enter s) obj).next_forward_ref_id_
        (RegisterObjectIsPending (RecursionScope.enter s) obj).forward_refs_per_pending_object_
        ho
      exact h2.trans h1
    · show (RegisterObjectIsPending (RecursionScope.enter s) obj).unresolved_forward_refs_ + 1
        = _
      rw [g4]
      rfl
    · show (RegisterObjectIsPending (RecursionScope.enter s) obj).next_forward_ref_id_ + 1 = _
      rw [g5]
      rfl
    · show (RegisterObjectIsPending (RecursionScope.enter s) obj).deferred_objects_ ++ _ = _
      rw [g2]
      rfl
    · show (RegisterObjectIsPending (RecursionScope.enter s) obj).reference_map_ = _
      rw [g1]
      rfl
    · show (RegisterObjectIsPending (RecursionScope.enter s) obj).hot_objects_ = _
      unfold RegisterObjectIsPending
      split <;> rfl
    · show (RegisterObjectIsPending (RecursionScope.enter s) obj).recursion_depth_ - 1 = _
      unfold RegisterObjectIsPending
      split <;> rfl
  · intro hn s' hok
    have hsd : ObjectSerializer.ShouldDefer c h (RecursionScope.enter s) obj = false := by
      simp only [ObjectSerializer.ShouldDefer, MustBeDeferred, Bool.or_false]
      by_contra hc
      simp only [Bool.not_eq_false, Bool.and_eq_true] at hc
      exact hn hc
    exact (Serialize_fresh_path c h fuel s obj s' hsd hok).1

/-- Witness for C8: with recursion bound 0 the first `Serialize` call is already
beyond the bound, and object 1 of the plain heap is deferrable. -/
theorem Serialize_deferral_spec_witness :
    ObjectSerializer.Serialize (exampleConfig 0) plainHeap (0 + 1) (Serializer.initial 8) 1 =
      .ok (RecursionScope.leave
        (ObjectSerializer.Defer (RecursionScope.enter (Serializer.initial 8)) 1)) :=
  ((Serialize_deferral_spec (exampleConfig 0) plainHeap 0 (Serializer.initial 8) 1).2.1
    ⟨by decide, by decide⟩).1

/-- Counterexample for C9. With recursion bound 0 the call `Serialize` for
object 1 of the heap without deferrable objects runs beyond the bound; it does
not abort but returns normally, having written the fresh encoding of the
object (new-object record, size in words, map). -/
theorem non_deferrable_beyond_bound_returns :
    ExceedsMaximum (exampleConfig 0) (RecursionScope.enter (Serializer.initial 8)) = true ∧
    rigidHeap.CanBeDeferred 1 = false ∧
    Result.bind
      (ObjectSerializer.Serialize (exampleConfig 0) rigidHeap 10 (Serializer.initial 8) 1)
      (fun s => Result.ok s.sink_) =
      Result.ok [SinkEntry.Put (Bytecode.kNewObject SnapshotSpace.kOld), SinkEntry.PutInt 1,
        SinkEntry.Put (Bytecode.kRootArrayConstants 5)] := by
  refine ⟨by decide, by decide, by decide!⟩

/-- C9, amended. For an object that can not be deferred the deferral condition of
`ObjectSerializer::Serialize` is false whatever the recursion depth, so
exceeding the bound neither defers nor aborts: the call takes the same path as
within the bound, and whenever it returns it has written the start of the
object's fresh encoding as its first entry and the object has a Location. -/
theorem Serialize_non_deferrable (c : Config) (h : Heap) (fuel : Nat) (s : Serializer)
    (obj : HeapObject) (hnd : h.CanBeDeferred obj = false) :
    ObjectSerializer.ShouldDefer c h (RecursionScope.enter s) obj = false ∧
    ∀ s', ObjectSerializer.Serialize c h (fuel + 1) s obj = .ok s' →
      FirstRecord StartsFreshEncoding s s' ∧
      (s'.LookupReference (RefKey.object obj)).is_valid = true := by
  have hsd : ObjectSerializer.ShouldDefer c h (RecursionScope.enter s) obj = false := by
    simp [ObjectSerializer.ShouldDefer, MustBeDeferred, hnd]
  exact ⟨hsd, fun s' hok => Serialize_fresh_path c h fuel s obj s' hsd hok⟩

/-- Witness for C9 (amended): object 1 of the heap without deferrable objects, at
recursion bound 0. -/
theorem Serialize_non_deferrable_witness :
    ObjectSerializer.ShouldDefer (exampleConfig 0) rigidHeap
      (RecursionScope.enter (Serializer.initial 8)) 1 = false :=
  (Serialize_non_deferrable (exampleConfig 0) rigidHeap 9 (Serializer.initial 8) 1
    (by decide)).1

/-! ## The root pass and the deferred pass -/

theorem Good.walkInv {h : Heap} {x? : Option HeapObject} {s s' : Serializer}
    (hi : WalkInv h s) (hg : Good h x? s s') : WalkInv h s' :=
  hi.trace hg.trace

theorem Good.deferrable {h : Heap} {x? : Option HeapObject} {s s' : Serializer}
    (hi : WalkInv h s) (hg : Good h x? s s')
    (hd : ∀ o, s.findPending o ≠ none → h.CanBeDeferred o = true) :
    ∀ o, s'.findPending o ≠ none → h.CanBeDeferred o = true := by
  intro o ho
  rcases hg.pq (fun o => h.CanBeDeferred o = true) (fun o ho => Or.inr (Or.inl (hd o ho))) o ho
    with hq | hq
  · exact (hg.walkInv hi).queue o hq
  · exact hq

theorem SerializeRootObject_good (c : Config) (h : Heap) (hH : MetaMapNotDeferrable h)
    (fuel : Nat) (s : Serializer) (o : Object) (s' : Serializer)
    (hok : SerializeRootObject c h fuel s o = .ok s') : Good h none s s' := by
  cases o with
  | Smi v =>
    simp only [SerializeRootObject] at hok
    cases hok
    exact Good.of_sinkOnly_good (SinkOnly.PutSmiRoot c s v)
  | HeapObject x => exact (walkSpec c h hH fuel).serializeObject s x s' hok

theorem VisitRootPointers_good (c : Config) (h : Heap) (hH : MetaMapNotDeferrable h)
    (fuel : Nat) (roots : List Object) (s s' : Serializer)
    (hok : VisitRootPointers c h fuel s roots = .ok s') : Good h none s s' := by
  induction roots generalizing s with
  | nil =>
    simp only [VisitRootPointers] at hok
    cases hok
    exact Good.refl_good h _
  | cons o rest ih =>
    simp only [VisitRootPointers] at hok
    obtain ⟨s1, h1, h2⟩ := (Result.bind_eq_ok _ _ _).1 hok
    exact (SerializeRootObject_good c h hH fuel s o s1 h1).trans_left (ih s1 h2)

theorem SerializeDeferred_good (c : Config) (h : Heap) (hH : MetaMapNotDeferrable h)
    (fuel : Nat) (s : Serializer) (x : HeapObject) (s' : Serializer)
    (hi : WalkInv h s) (hx : s.findPending x ≠ none → h.CanBeDeferred x = true)
    (hok : ObjectSerializer.SerializeDeferred c h fuel s x = .ok s') :
    Trace h s s' ∧
    (∀ B : HeapObject → Prop,
      (∀ o, s.findPending o ≠ none → o ∈ s.deferred_objects_ ∨ B o ∨ o = x) →
      (∀ o, s'.findPending o ≠ none → o ∈ s'.deferred_objects_ ∨ B o)) ∧
    freshCount s'.sink_ + objKeyCount s.reference_map_ =
      freshCount s.sink_ + objKeyCount s'.reference_map_ := by
  unfold ObjectSerializer.SerializeDeferred at hok
  dsimp only at hok
  split at hok
  · rename_i hv
    cases hok
    refine ⟨Relation.ReflTransGen.refl, fun B hB o ho => ?_, rfl⟩
    rcases hB o ho with hq | hq | hq
    · exact Or.inl hq
    · exact Or.inr hq
    · subst hq
      have := hi.disjoint o ho
      rw [this] at hv
      cases hv
  · rename_i hv
    have hpre : SerializePre h x s := ⟨by simpa using hv, hx⟩
    have hg := (walkSpec c h hH fuel).serialize s x s' hpre hok
    refine ⟨hg.trace, fun B hB => hg.pq B (fun o ho => ?_), hg.fresh⟩
    rcases hB o ho with hq | hq | hq
    · exact Or.inl hq
    · exact Or.inr (Or.inl hq)
    · exact Or.inr (Or.inr (by rw [hq]))

theorem SerializeDeferredObjects_trace (c : Config) (h : Heap) (hH : MetaMapNotDeferrable h)
    (fuel : Nat) (s s' : Serializer) (hi : WalkInv h s)
    (hok : SerializeDeferredObjects c h fuel s = .ok s') :
    Trace h s s' ∧
    (∀ B : HeapObject → Prop,
      (∀ o, s.findPending o ≠ none → o ∈ s.deferred_objects_ ∨ B o) →
      (∀ o, s'.findPending o ≠ none → B o)) ∧
    freshCount s'.sink_ + objKeyCount s.reference_map_ =
      freshCount s.sink_ + objKeyCount s'.reference_map_ := by
  induction fuel generalizing s with
  | zero => cases hok
  | succ n ih =>
    rw [SerializeDeferredObjects_succ] at hok
    split at hok
    · rename_i hnone
      cases hok
      have hq : s.deferred_objects_ = [] := by simpa using hnone
      refine ⟨Trace.single (Step.sync s), fun B hB o ho => ?_, ?_⟩
      · rcases hB o ho with hm | hm
        · rw [hq] at hm
          cases hm
        · exact hm
      · show freshCount (s.sink_ ++ [SinkEntry.Put Bytecode.kSynchronize]) + _ = _
        rw [freshCount_append]
        rfl
    · rename_i obj hsome
      obtain ⟨s1, h1, h2⟩ := (Result.bind_eq_ok _ _ _).1 hok
      have hq : s.deferred_objects_ = s.deferred_objects_.dropLast ++ [obj] :=
        (List.dropLast_append_getLast? obj hsome).symm
      have hpop : Step h s { s with deferred_objects_ := s.deferred_objects_.dropLast } :=
        Step.pop s
      have hi1 := hi.step hpop
      have hobj : h.CanBeDeferred obj = true :=
        hi.queue obj (by rw [hq]; simp)
      obtain ⟨ht, hpq, hf⟩ := SerializeDeferred_good c h hH n _ obj s1 hi1 (fun _ => hobj) h1
      obtain ⟨ht2, hpq2, hf2⟩ := ih s1 (hi1.trace ht) h2
      refine ⟨(Trace.single hpop).trans (ht.trans ht2), fun B hB => hpq2 B (hpq B ?_), ?_⟩
      · intro o ho
        rcases hB o ho with hm | hm
        · rw [hq] at hm
          rcases List.mem_append.1 hm with hm | hm
          · exact Or.inl hm
          · exact Or.inr (Or.inr (by simpa using hm))
        · exact Or.inr (Or.inl hm)
      · have hf1 : freshCount s1.sink_ + objKeyCount s.reference_map_ =
            freshCount s.sink_ + objKeyCount s1.reference_map_ := hf
        omega

theorem SerializeRun_trace (c : Config) (h : Heap) (hH : MetaMapNotDeferrable h)
    (fuel : Nat) (roots : List Object) (s' : Serializer)
    (hok : SerializeRun c h fuel roots = .ok s') :
    Reachable c h s' ∧ (∀ o, s'.findPending o = none) ∧
    freshCount s'.sink_ = objKeyCount s'.reference_map_ := by
  unfold SerializeRun at hok
  obtain ⟨s1, h1, h2⟩ := (Result.bind_eq_ok _ _ _).1 hok
  have hg := VisitRootPointers_good c h hH fuel roots _ s1 h1
  have hi0 := WalkInv.initial h c.kHotObjectCount
  have hp1 : ∀ o, s1.findPending o ≠ none → o ∈ s1.deferred_objects_ ∨ False := by
    intro o ho
    exact hg.pq (fun _ => False) (fun o ho => (ho rfl).elim) o ho
  obtain ⟨ht, hpq, hf⟩ := SerializeDeferredObjects_trace c h hH fuel s1 s' (hg.walkInv hi0) h2
  refine ⟨hg.trace.trans ht, fun o => ?_, ?_⟩
  · by_contra ho
    exact hpq (fun _ => False) hp1 o ho
  · have hf1 := hg.fresh
    have e1 : freshCount (Serializer.initial c.kHotObjectCount).sink_ = 0 := rfl
    have e2 : objKeyCount (Serializer.initial c.kHotObjectCount).reference_map_ = 0 := rfl
    omega

/-! ## Reference records and the deferred pass, function by function -/

theorem PutAlignmentPrefix_eq (c : Config) (h : Heap) (s : Serializer) (object : HeapObject) :
    (PutAlignmentPrefix c h s object).2 =
      { s with sink_ := s.sink_ ++ alignmentPrefixEntries c h object } := by
  unfold PutAlignmentPrefix alignmentPrefixEntries
  dsimp only
  split
  · rfl
  · simp

/-- C11. `SerializeDeferred` on an object that already has a valid entry in
`reference_map_` returns the serializer state it was given (nothing is written,
no table changes); on an object without such an entry it is `Serialize` on that
object. -/
theorem SerializeDeferred_spec (c : Config) (h : Heap) (fuel : Nat) (s : Serializer)
    (object_ : HeapObject) :
    ((s.LookupReference (RefKey.object object_)).is_valid = true →
      ObjectSerializer.SerializeDeferred c h fuel s object_ = .ok s) ∧
    ((s.LookupReference (RefKey.object object_)).is_valid = false →
      ObjectSerializer.SerializeDeferred c h fuel s object_ =
        ObjectSerializer.Serialize c h fuel s object_) := by
  constructor
  · intro hv
    simp [ObjectSerializer.SerializeDeferred, hv]
  · intro hv
    simp [ObjectSerializer.SerializeDeferred, hv]

/-- Witness for C11: object 1 already has a Location. -/
theorem SerializeDeferred_spec_witness :
    ObjectSerializer.SerializeDeferred (exampleConfig 32) plainHeap 5
      ((Serializer.initial 8).AddReference (RefKey.object 1)
        (SerializerReference.backReference SnapshotSpace.kOld 0 0)) 1 =
      .ok ((Serializer.initial 8).AddReference (RefKey.object 1)
        (SerializerReference.backReference SnapshotSpace.kOld 0 0)) :=
  (SerializeDeferred_spec (exampleConfig 32) plainHeap 5
    ((Serializer.initial 8).AddReference (RefKey.object 1)
      (SerializerReference.backReference SnapshotSpace.kOld 0 0)) 1).1 (by decide)

/-- C13. `PutRoot` writes the one-opcode fixed-index form
`RootArrayConstant::Encode(root)` and leaves the hot-object window (and all
else) unchanged exactly when the root index is below `kRootArrayConstantsCount`
and the third-party-heap mode is on or the object is not in the young
generation; in every other case it writes `kRootArray` followed by the root
index and adds the object to the hot-object window. -/
theorem PutRoot_spec (c : Config) (h : Heap) (s : Serializer) (root : Nat)
    (object : HeapObject) :
    (root < c.kRootArrayConstantsCount ∧
        (c.V8_ENABLE_THIRD_PARTY_HEAP_BOOL = true ∨ h.InYoungGeneration object = false) →
      PutRoot c h s root object =
        { s with sink_ := s.sink_ ++ [SinkEntry.Put (Bytecode.kRootArrayConstants root)] }) ∧
    (¬ (root < c.kRootArrayConstantsCount ∧
        (c.V8_ENABLE_THIRD_PARTY_HEAP_BOOL = true ∨ h.InYoungGeneration object = false)) →
      PutRoot c h s root object =
        { s with
          sink_ := s.sink_ ++ [SinkEntry.Put Bytecode.kRootArray, SinkEntry.PutInt root]
          hot_objects_ := s.hot_objects_.Add object }) := by
  constructor
  · intro hc
    unfold PutRoot
    rw [if_pos hc]
    rfl
  · intro hc
    unfold PutRoot
    rw [if_neg hc]
    simp [Serializer.Put, Serializer.PutInt]

/-- Witness for C13: root index 5 is below the 32 fixed-index roots and the
third-party-heap mode is on. -/
theorem PutRoot_spec_witness :
    PutRoot (exampleConfig 32) plainHeap (Serializer.initial 8) 5 0 =
      { Serializer.initial 8 with
        sink_ := (Serializer.initial 8).sink_ ++
          [SinkEntry.Put (Bytecode.kRootArrayConstants 5)] } :=
  (PutRoot_spec (exampleConfig 32) plainHeap (Serializer.initial 8) 5 0).1
    ⟨by decide, Or.inl rfl⟩

/-- Counterexample for C14. Object 0 of the plain heap is a root (index 5);
`SerializeRoot` returns true and writes the fixed-index root record, yet the
object is not in the hot-object window afterwards. -/
theorem root_constant_not_in_hot_objects :
    plainHeap.root_index_map 0 = some 5 ∧
    (SerializeRoot (exampleConfig 32) plainHeap (Serializer.initial 8) 0).1 = true ∧
    (SerializeRoot (exampleConfig 32) plainHeap (Serializer.initial 8) 0).2.sink_ =
      [SinkEntry.Put (Bytecode.kRootArrayConstants 5)] ∧
    (SerializeRoot (exampleConfig 32) plainHeap (Serializer.initial 8)
      0).2.hot_objects_.Find 0 = none := by
  decide

/-- C14, amended. For an object with root index `r`, `SerializeRoot` returns true
and writes a root record; the object is added to the hot-object window when the
record has the general form (`kRootArray`, index), and the window is left
unchanged when the record has the fixed-index form. For an object that is not a
root it returns false and leaves the whole state unchanged. -/
theorem SerializeRoot_spec (c : Config) (h : Heap) (s : Serializer) (obj : HeapObject) :
    (∀ r, h.root_index_map obj = some r →
      (SerializeRoot c h s obj).1 = true ∧
      ((r < c.kRootArrayConstantsCount ∧
          (c.V8_ENABLE_THIRD_PARTY_HEAP_BOOL = true ∨ h.InYoungGeneration obj = false)) →
        (SerializeRoot c h s obj).2.sink_ =
          s.sink_ ++ [SinkEntry.Put (Bytecode.kRootArrayConstants r)] ∧
        (SerializeRoot c h s obj).2.hot_objects_ = s.hot_objects_) ∧
      (¬ (r < c.kRootArrayConstantsCount ∧
          (c.V8_ENABLE_THIRD_PARTY_HEAP_BOOL = true ∨ h.InYoungGeneration obj = false)) →
        (SerializeRoot c h s obj).2.sink_ =
          s.sink_ ++ [SinkEntry.Put Bytecode.kRootArray, SinkEntry.PutInt r] ∧
        (SerializeRoot c h s obj).2.hot_objects_ = s.hot_objects_.Add obj)) ∧
    (h.root_index_map obj = none → SerializeRoot c h s obj = (false, s)) := by
  constructor
  · intro r hr
    have e : SerializeRoot c h s obj = (true, PutRoot c h s r obj) := by
      simp [SerializeRoot, hr]
    rw [e]
    refine ⟨rfl, ?_, ?_⟩
    · intro hc
      unfold PutRoot
      rw [if_pos hc]
      exact ⟨rfl, rfl⟩
    · intro hc
      unfold PutRoot
      rw [if_neg hc]
      simp [Serializer.Put, Serializer.PutInt]
  · intro hr
    simp [SerializeRoot, hr]

/-- Witness for C14 (amended): object 1 of the plain heap is not a root. -/
theorem SerializeRoot_spec_witness :
    SerializeRoot (exampleConfig 32) plainHeap (Serializer.initial 8) 1 =
      (false, Serializer.initial 8) :=
  (SerializeRoot_spec (exampleConfig 32) plainHeap (Serializer.initial 8) 1).2 (by decide)

/-- C15. `SerializeBackReference` returns false and leaves the state unchanged
when the object has no valid `reference_map_` entry. For a back reference it
returns true and writes, after the alignment prefix (if any), the opcode
`BackRef::Encode(space)` followed by the address of the partition: the map
index for the map partition, the large-object index for the large-object
partition, chunk index then chunk offset for every other partition; then the
object is added to the hot-object window. For an attached reference it returns
true, writes `kAttachedReference` and the attached index, and the hot-object
window is untouched. -/
theorem SerializeBackReference_spec (c : Config) (h : Heap) (s : Serializer)
    (obj : HeapObject) :
    ((s.LookupReference (RefKey.object obj)).is_valid = false →
      SerializeBackReference c h s obj = (false, s)) ∧
    (∀ i, s.LookupReference (RefKey.object obj) = SerializerReference.mapReference i →
      SerializeBackReference c h s obj =
        (true, { s with
          sink_ := s.sink_ ++ alignmentPrefixEntries c h obj ++
            [SinkEntry.Put (Bytecode.kBackref SnapshotSpace.kMap), SinkEntry.PutInt i]
          hot_objects_ := s.hot_objects_.Add obj })) ∧
    (∀ i, s.LookupReference (RefKey.object obj) = SerializerReference.largeObjectReference i →
      SerializeBackReference c h s obj =
        (true, { s with
          sink_ := s.sink_ ++ alignmentPrefixEntries c h obj ++
            [SinkEntry.Put (Bytecode.kBackref SnapshotSpace.kLargeObject), SinkEntry.PutInt i]
          hot_objects_ := s.hot_objects_.Add obj })) ∧
    (∀ space chunk_index chunk_offset,
      space ≠ SnapshotSpace.kMap → space ≠ SnapshotSpace.kLargeObject →
      s.LookupReference (RefKey.object obj) =
        SerializerReference.backReference space chunk_index chunk_offset →
      SerializeBackReference c h s obj =
        (true, { s with
          sink_ := s.sink_ ++ alignmentPrefixEntries c h obj ++
            [SinkEntry.Put (Bytecode.kBackref space), SinkEntry.PutInt chunk_index,
              SinkEntry.PutInt chunk_offset]
          hot_objects_ := s.hot_objects_.Add obj })) ∧
    (∀ i, s.LookupReference (RefKey.object obj) = SerializerReference.attachedReference i →
      SerializeBackReference c h s obj =
        (true, { s with
          sink_ := s.sink_ ++
            [SinkEntry.Put Bytecode.kAttachedReference, SinkEntry.PutInt i] })) := by
  refine ⟨?_, ?_, ?_, ?_, ?_⟩
  · intro hv
    simp [SerializeBackReference, hv]
  · intro i hr
    simp [SerializeBackReference, hr, SerializerReference.is_valid,
      SerializerReference.is_attached_reference, SerializerReference.space, PutBackReference,
      PutAlignmentPrefix_eq, Serializer.Put, Serializer.PutInt]
  · intro i hr
    simp [SerializeBackReference, hr, SerializerReference.is_valid,
      SerializerReference.is_attached_reference, SerializerReference.space, PutBackReference,
      PutAlignmentPrefix_eq, Serializer.Put, Serializer.PutInt]
  · intro space ci co _ _ hr
    simp [SerializeBackReference, hr, SerializerReference.is_valid,
      SerializerReference.is_attached_reference, SerializerReference.space, PutBackReference,
      PutAlignmentPrefix_eq, Serializer.Put, Serializer.PutInt]
  · intro i hr
    simp [SerializeBackReference, hr, SerializerReference.is_valid,
      SerializerReference.is_attached_reference, PutAttachedReference,
      Serializer.Put, Serializer.PutInt]

/-- Witness for C15: object 1 has no entry in the reference map of the freshly
constructed serializer. -/
theorem SerializeBackReference_spec_witness :
    SerializeBackReference (exampleConfig 32) plainHeap (Serializer.initial 8) 1 =
      (false, Serializer.initial 8) :=
  (SerializeBackReference_spec (exampleConfig 32) plainHeap (Serializer.initial 8) 1).1
    (by decide)

/-- C18. The first `SerializeBackingStore` call for a raw-memory identity (one
without a valid `reference_map_` entry) writes exactly one off-heap-backing-store
record (opcode, byte length, then exactly `byte_length` raw bytes, those of the
memory `[backing_store, backing_store + byte_length)`), allocates a new
off-heap index, stores it under the identity and returns it. A call for an
identity whose stored index is `i` writes nothing, allocates nothing, changes
nothing and returns `i`, whatever byte length it is given. Hence a second call
right after a first one returns the same index and leaves the state of the
first call as it is: two views over one region give one record and the same
index twice. -/
theorem SerializeBackingStore_spec (h : Heap) (s : Serializer) (backing_store : Nat)
    (byte_length : Nat) :
    ((s.LookupReference (RefKey.backingStore backing_store)).is_valid = false →
      SerializeBackingStore h s backing_store byte_length =
        (s.allocator_.seen_backing_stores_index_ + 1,
          { s with
            sink_ := s.sink_ ++ [SinkEntry.Put Bytecode.kOffHeapBackingStore,
              SinkEntry.PutInt byte_length,
              SinkEntry.PutRaw (h.backingStoreBytes backing_store byte_length)]
            allocator_ := { s.allocator_ with
              seen_backing_stores_index_ := s.allocator_.seen_backing_stores_index_ + 1 }
            reference_map_ :=
              (RefKey.backingStore backing_store,
                SerializerReference.offHeapBackingStore
                  (s.allocator_.seen_backing_stores_index_ + 1)) :: s.reference_map_ })) ∧
    (∀ i, s.LookupReference (RefKey.backingStore backing_store) =
        SerializerReference.offHeapBackingStore i →
      SerializeBackingStore h s backing_store byte_length = (i, s)) ∧
    (∀ byte_length2,
      SerializeBackingStore h (SerializeBackingStore h s backing_store byte_length).2
          backing_store byte_length2 =
        ((SerializeBackingStore h s backing_store byte_length).1,
          (SerializeBackingStore h s backing_store byte_length).2)) ∧
    ((h.backingStoreBytes backing_store byte_length).length = byte_length ∧
      ∀ i, i < byte_length →
        (h.backingStoreBytes backing_store byte_length)[i]? =
          some (h.offHeapByteAt (backing_store + i))) := by
  have first : (s.LookupReference (RefKey.backingStore backing_store)).is_valid = false →
      SerializeBackingStore h s backing_store byte_length =
        (s.allocator_.seen_backing_stores_index_ + 1,
          { s with
            sink_ := s.sink_ ++ [SinkEntry.Put Bytecode.kOffHeapBackingStore,
              SinkEntry.PutInt byte_length,
              SinkEntry.PutRaw (h.backingStoreBytes backing_store byte_length)]
            allocator_ := { s.allocator_ with
              seen_backing_stores_index_ := s.allocator_.seen_backing_stores_index_ + 1 }
            reference_map_ :=
              (RefKey.backingStore backing_store,
                SerializerReference.offHeapBackingStore
                  (s.allocator_.seen_backing_stores_index_ + 1)) :: s.reference_map_ }) := by
    intro hv
    simp [SerializeBackingStore, hv, SerializerAllocator.AllocateOffHeapBackingStore,
      Serializer.AddReference, Serializer.Put, Serializer.PutInt, Serializer.PutRaw]
  have later : ∀ (t : Serializer) (n : Nat),
      (t.LookupReference (RefKey.backingStore backing_store)).is_valid = true →
      SerializeBackingStore h t backing_store n =
        ((match t.LookupReference (RefKey.backingStore backing_store) with
          | .offHeapBackingStore i => i
          | _ => 0), t) := by
    intro t n hv
    simp [SerializeBackingStore, hv]
  refine ⟨first, ?_, ?_, ?_⟩
  rotate_left 2
  · refine ⟨by simp [Heap.backingStoreBytes], fun i hi => ?_⟩
    simp [Heap.backingStoreBytes, List.getElem?_map, List.getElem?_range hi]
  · intro i hr
    rw [later s byte_length (by rw [hr]; rfl), hr]
  · intro n2
    cases hv : (s.LookupReference (RefKey.backingStore backing_store)).is_valid with
    | false =>
      rw [first hv]
      rw [later _ n2 (by simp [Serializer.LookupReference, SerializerReference.is_valid])]
      simp [Serializer.LookupReference]
    | true =>
      rw [later s byte_length hv]
      exact later s n2 hv

/-- Witness for C18: the first call for backing store 100 in the freshly
constructed serializer. -/
theorem SerializeBackingStore_spec_witness :
    SerializeBackingStore plainHeap (Serializer.initial 8) 100 4 =
      ((Serializer.initial 8).allocator_.seen_backing_stores_index_ + 1,
        { Serializer.initial 8 with
          sink_ := (Serializer.initial 8).sink_ ++ [SinkEntry.Put Bytecode.kOffHeapBackingStore,
            SinkEntry.PutInt 4,
            SinkEntry.PutRaw [100, 101, 102, 103]]
          allocator_ := { (Serializer.initial 8).allocator_ with
            seen_backing_stores_index_ :=
              (Serializer.initial 8).allocator_.seen_backing_stores_index_ + 1 }
          reference_map_ :=
            (RefKey.backingStore 100,
              SerializerReference.offHeapBackingStore
                ((Serializer.initial 8).allocator_.seen_backing_stores_index_ + 1)) ::
              (Serializer.initial 8).reference_map_ }) :=
  (SerializeBackingStore_spec plainHeap (Serializer.initial 8) 100 4).1 (by decide)

theorem ReadBytes_congr (h1 h2 : Heap) (obj : HeapObject) (start n : Nat)
    (hag : ∀ i, i < n → h1.byteAt obj (start + i) = h2.byteAt obj (start + i)) :
    h1.ReadBytes obj start n = h2.ReadBytes obj start n := by
  unfold Heap.ReadBytes
  apply List.map_congr_left
  intro i hi
  exact hag i (List.mem_range.1 hi)

theorem OutputRawWithCustomField_inside (h : Heap) (s : Serializer) (obj : HeapObject)
    (written_so_far bytes_to_write : Int) (field_offset field_size : Nat)
    (field_value : List Nat) (h0 : 0 ≤ written_so_far)
    (h1 : written_so_far ≤ field_offset)
    (h2 : (field_offset : Int) + field_size ≤ written_so_far + bytes_to_write)
    (h3 : 0 < field_size) :
    OutputRawWithCustomField h s obj written_so_far bytes_to_write field_offset field_size
        field_value =
      { s with sink_ := s.sink_ ++
          [SinkEntry.PutRaw (h.ReadBytes obj written_so_far.toNat
              (field_offset - written_so_far.toNat)),
            SinkEntry.PutRaw (field_value.take field_size),
            SinkEntry.PutRaw (h.ReadBytes obj (field_offset + field_size)
              ((written_so_far + bytes_to_write).toNat - (field_offset + field_size)))] } := by
  unfold OutputRawWithCustomField
  dsimp only
  rw [if_pos ⟨by omega, by omega⟩]
  have e1 : ((field_offset : Int) - written_so_far).toNat =
      field_offset - written_so_far.toNat := by omega
  have e2 : (written_so_far + ((field_offset : Int) - written_so_far + field_size)).toNat =
      field_offset + field_size := by omega
  have e3 : (bytes_to_write - ((field_offset : Int) - written_so_far + field_size)).toNat =
      (written_so_far + bytes_to_write).toNat - (field_offset + field_size) := by omega
  rw [e1, e2, e3]
  simp [Serializer.PutRaw]

theorem OutputRawData_sentinel_field (c : Config) (h : Heap) (os : ObjectSerializer)
    (s : Serializer) (up_to_offset : Int) (field_offset field_size : Nat)
    (field_value : List Nat)
    (hk : h.kind os.object_ = InstanceKind.bytecodeArray ∧
        field_offset = c.kBytecodeAgeOffset ∧ field_size = 1 ∧
        field_value = [c.kNoAgeBytecodeAge] ∨
      h.kind os.object_ = InstanceKind.descriptorArray ∧
        field_offset = c.kRawNumberOfMarkedDescriptorsOffset ∧ field_size = 2 ∧
        field_value = [0, 0])
    (h0 : 0 ≤ os.bytes_processed_so_far_)
    (h1 : os.bytes_processed_so_far_ ≤ field_offset)
    (h2 : (field_offset : Int) + field_size ≤ up_to_offset) :
    ObjectSerializer.OutputRawData c h os s up_to_offset =
      ({ os with bytes_processed_so_far_ := up_to_offset },
        { s with sink_ := s.sink_ ++
            rawDataHeader c (up_to_offset - os.bytes_processed_so_far_) ++
            [SinkEntry.PutRaw (h.ReadBytes os.object_ os.bytes_processed_so_far_.toNat
                (field_offset - os.bytes_processed_so_far_.toNat)),
              SinkEntry.PutRaw field_value,
              SinkEntry.PutRaw (h.ReadBytes os.object_ (field_offset + field_size)
                (up_to_offset.toNat - (field_offset + field_size)))] }) := by
  have hsz : 0 < field_size := by
    rcases hk with ⟨_, _, e, _⟩ | ⟨_, _, e, _⟩ <;> omega
  have hne : up_to_offset - os.bytes_processed_so_far_ ≠ 0 := by omega
  have hsum : os.bytes_processed_so_far_ + (up_to_offset - os.bytes_processed_so_far_) =
      up_to_offset := by omega
  have hcf := fun t => OutputRawWithCustomField_inside h t os.object_
    os.bytes_processed_so_far_ (up_to_offset - os.bytes_processed_so_far_) field_offset
    field_size field_value h0 h1 (by omega) hsz
  rw [hsum] at hcf
  have htake : field_value.take field_size = field_value := by
    rcases hk with ⟨_, _, e, e'⟩ | ⟨_, _, e, e'⟩ <;> subst e e' <;> rfl
  rw [htake] at hcf
  unfold ObjectSerializer.OutputRawData
  dsimp only
  rw [if_pos hne, hsum]
  rcases hk with ⟨hkind, e1, e2, e3⟩ | ⟨hkind, e1, e2, e3⟩
  · rw [hkind]
    dsimp only
    subst e1 e2 e3
    rw [hcf]
    unfold rawDataHeader
    split <;> simp [Serializer.Put, Serializer.PutInt]
  · rw [hkind]
    dsimp only
    subst e1 e2 e3
    rw [hcf]
    unfold rawDataHeader
    split <;> simp [Serializer.Put, Serializer.PutInt]

/-- C17. Sentinel normalisation does not depend on the live field value. For two
heaps in which the object is a `BytecodeArray` and whose raw bytes of the object
differ at most in the one-byte bytecode-age field, and likewise for two heaps
in which it is a `DescriptorArray` and the bytes differ at most in the two-byte
number-of-marked-descriptors field, `OutputRawData` over the same range gives
the same result (the same sink, byte for byte) whenever the field lies inside
the range being written, and in that output the field holds the sentinel
(`kNoAgeBytecodeAge`, respectively 0, 0) between the raw bytes before and after
it. -/
theorem OutputRawData_sentinel_independent (c : Config) (h1 h2 : Heap)
    (os : ObjectSerializer) (s : Serializer) (up_to_offset : Int)
    (h0 : 0 ≤ os.bytes_processed_so_far_) :
    (h1.kind os.object_ = InstanceKind.bytecodeArray →
      h2.kind os.object_ = InstanceKind.bytecodeArray →
      AgreeOutsideField h1 h2 os.object_ c.kBytecodeAgeOffset 1 →
      os.bytes_processed_so_far_ ≤ c.kBytecodeAgeOffset →
      (c.kBytecodeAgeOffset : Int) + 1 ≤ up_to_offset →
      ObjectSerializer.OutputRawData c h1 os s up_to_offset =
        ObjectSerializer.OutputRawData c h2 os s up_to_offset ∧
      (ObjectSerializer.OutputRawData c h1 os s up_to_offset).2.sink_ =
        s.sink_ ++ rawDataHeader c (up_to_offset - os.bytes_processed_so_far_) ++
          [SinkEntry.PutRaw (h1.ReadBytes os.object_ os.bytes_processed_so_far_.toNat
              (c.kBytecodeAgeOffset - os.bytes_processed_so_far_.toNat)),
            SinkEntry.PutRaw [c.kNoAgeBytecodeAge],
            SinkEntry.PutRaw (h1.ReadBytes os.object_ (c.kBytecodeAgeOffset + 1)
              (up_to_offset.toNat - (c.kBytecodeAgeOffset + 1)))]) ∧
    (h1.kind os.object_ = InstanceKind.descriptorArray →
      h2.kind os.object_ = InstanceKind.descriptorArray →
      AgreeOutsideField h1 h2 os.object_ c.kRawNumberOfMarkedDescriptorsOffset 2 →
      os.bytes_processed_so_far_ ≤ c.kRawNumberOfMarkedDescriptorsOffset →
      (c.kRawNumberOfMarkedDescriptorsOffset : Int) + 2 ≤ up_to_offset →
      ObjectSerializer.OutputRawData c h1 os s up_to_offset =
        ObjectSerializer.OutputRawData c h2 os s up_to_offset ∧
      (ObjectSerializer.OutputRawData c h1 os s up_to_offset).2.sink_ =
        s.sink_ ++ rawDataHeader c (up_to_offset - os.bytes_processed_so_far_) ++
          [SinkEntry.PutRaw (h1.ReadBytes os.object_ os.bytes_processed_so_far_.toNat
              (c.kRawNumberOfMarkedDescriptorsOffset - os.bytes_processed_so_far_.toNat)),
            SinkEntry.PutRaw [0, 0],
            SinkEntry.PutRaw (h1.ReadBytes os.object_
              (c.kRawNumberOfMarkedDescriptorsOffset + 2)
              (up_to_offset.toNat - (c.kRawNumberOfMarkedDescriptorsOffset + 2)))]) := by
  have key : ∀ (field_offset field_size : Nat) (field_value : List Nat),
      (h1.kind os.object_ = InstanceKind.bytecodeArray ∧
          h2.kind os.object_ = InstanceKind.bytecodeArray ∧
          field_offset = c.kBytecodeAgeOffset ∧ field_size = 1 ∧
          field_value = [c.kNoAgeBytecodeAge] ∨
        h1.kind os.object_ = InstanceKind.descriptorArray ∧
          h2.kind os.object_ = InstanceKind.descriptorArray ∧
          field_offset = c.kRawNumberOfMarkedDescriptorsOffset ∧ field_size = 2 ∧
          field_value = [0, 0]) →
      AgreeOutsideField h1 h2 os.object_ field_offset field_size →
      os.bytes_processed_so_far_ ≤ field_offset →
      (field_offset : Int) + field_size ≤ up_to_offset →
      ObjectSerializer.OutputRawData c h1 os s up_to_offset =
        ObjectSerializer.OutputRawData c h2 os s up_to_offset ∧
      (ObjectSerializer.OutputRawData c h1 os s up_to_offset).2.sink_ =
        s.sink_ ++ rawDataHeader c (up_to_offset - os.bytes_processed_so_far_) ++
          [SinkEntry.PutRaw (h1.ReadBytes os.object_ os.bytes_processed_so_far_.toNat
              (field_offset - os.bytes_processed_so_far_.toNat)),
            SinkEntry.PutRaw field_value,
            SinkEntry.PutRaw (h1.ReadBytes os.object_ (field_offset + field_size)
              (up_to_offset.toNat - (field_offset + field_size)))] := by
    intro fo fs fv hk hag hlo hhi
    have hk1 : h1.kind os.object_ = InstanceKind.bytecodeArray ∧
          fo = c.kBytecodeAgeOffset ∧ fs = 1 ∧ fv = [c.kNoAgeBytecodeAge] ∨
        h1.kind os.object_ = InstanceKind.descriptorArray ∧
          fo = c.kRawNumberOfMarkedDescriptorsOffset ∧ fs = 2 ∧ fv = [0, 0] := by
      rcases hk with ⟨a, _, b⟩ | ⟨a, _, b⟩
      · exact Or.inl ⟨a, b⟩
      · exact Or.inr ⟨a, b⟩
    have hk2 : h2.kind os.object_ = InstanceKind.bytecodeArray ∧
          fo = c.kBytecodeAgeOffset ∧ fs = 1 ∧ fv = [c.kNoAgeBytecodeAge] ∨
        h2.kind os.object_ = InstanceKind.descriptorArray ∧
          fo = c.kRawNumberOfMarkedDescriptorsOffset ∧ fs = 2 ∧ fv = [0, 0] := by
      rcases hk with ⟨_, a, b⟩ | ⟨_, a, b⟩
      · exact Or.inl ⟨a, b⟩
      · exact Or.inr ⟨a, b⟩
    have r1 := OutputRawData_sentinel_field c h1 os s up_to_offset fo fs fv hk1 h0 hlo hhi
    have r2 := OutputRawData_sentinel_field c h2 os s up_to_offset fo fs fv hk2 h0 hlo hhi
    have pre : h1.ReadBytes os.object_ os.bytes_processed_so_far_.toNat
          (fo - os.bytes_processed_so_far_.toNat) =
        h2.ReadBytes os.object_ os.bytes_processed_so_far_.toNat
          (fo - os.bytes_processed_so_far_.toNat) :=
      ReadBytes_congr h1 h2 _ _ _ (fun i hi => hag _ (Or.inl (by omega)))
    have post : h1.ReadBytes os.object_ (fo + fs) (up_to_offset.toNat - (fo + fs)) =
        h2.ReadBytes os.object_ (fo + fs) (up_to_offset.toNat - (fo + fs)) :=
      ReadBytes_congr h1 h2 _ _ _ (fun i _ => hag _ (Or.inr (by omega)))
    refine ⟨?_, ?_⟩
    · rw [r1, r2, pre, post]
    · rw [r1]
  refine ⟨?_, ?_⟩
  · intro a b hag hlo hhi
    exact key _ 1 _ (Or.inl ⟨a, b, rfl, rfl, rfl⟩) hag hlo (by simpa using hhi)
  · intro a b hag hlo hhi
    exact key _ 2 _ (Or.inr ⟨a, b, rfl, rfl, rfl⟩) hag hlo (by simpa using hhi)

/-- Witness for C17: two `BytecodeArray` heaps with bytecode age 7 and 0, raw
data written from offset 8 up to offset 64. -/
theorem OutputRawData_sentinel_independent_witness :
    ObjectSerializer.OutputRawData (exampleConfig 32) (agedHeap 7)
        { object_ := 1, bytes_processed_so_far_ := 8 } (Serializer.initial 8) 64 =
      ObjectSerializer.OutputRawData (exampleConfig 32) (agedHeap 0)
        { object_ := 1, bytes_processed_so_far_ := 8 } (Serializer.initial 8) 64 :=
  ((OutputRawData_sentinel_independent (exampleConfig 32) (agedHeap 7) (agedHeap 0)
    { object_ := 1, bytes_processed_so_far_ := 8 } (Serializer.initial 8) 64
    (by decide)).1 rfl rfl
    (fun i hi => by
      have hne : i ≠ 53 := by
        rcases hi with hi | hi
        · exact Nat.ne_of_lt hi
        · exact Nat.ne_of_gt hi
      simp [agedHeap, hne])
    (by decide) (by decide)).1

/-! ## Runs of identical references in `VisitPointers` -/

theorem countLeading_replicate_append (v : MaybeObject) (k : Nat) (rest : List MaybeObject)
    (hr : rest.head? ≠ some v) : countLeading v (List.replicate k v ++ rest) = k := by
  induction k with
  | zero =>
    cases rest with
    | nil => rfl
    | cons x xs =>
      have hx : x ≠ v := fun e => hr (by simp [e])
      simp [countLeading, hx]
  | succ k ih => simp [List.replicate_succ, countLeading, ih]

theorem countLeading_pos (v : MaybeObject) (rest : List MaybeObject)
    (hr : rest.head? = some v) : 1 ≤ countLeading v rest := by
  cases rest with
  | nil => simp at hr
  | cons x xs =>
    have hx : x = v := by simpa using hr
    simp [countLeading, hx]

theorem SerializePendingObject_of_none (s : Serializer) (x : HeapObject)
    (hx : s.findPending x = none) : SerializePendingObject s x = (false, s) := by
  unfold SerializePendingObject
  rw [hx]

theorem SerializePendingObject_of_some (s : Serializer) (x : HeapObject)
    (hx : s.findPending x ≠ none) :
    SerializePendingObject s x = (true, PutPendingForwardReferenceTo s x) := by
  unfold SerializePendingObject
  cases hp : s.findPending x with
  | none => exact (hx hp).elim
  | some ids => rfl

theorem heapObjects_reference (c : Config) (h : Heap) (fuel : Nat) (os : ObjectSerializer)
    (s : Serializer) (offset : Nat) (weak : Bool) (target : HeapObject)
    (rest : List MaybeObject) :
    ObjectSerializer.VisitPointers.heapObjects c h (fuel + 1) os s offset
        (referenceSlot weak target :: rest) =
      ObjectSerializer.VisitPointers.reference c h fuel os (afterWeakPrefix weak s) offset
        target (referenceSlot weak target) rest := by
  rw [VisitPointers_heapObjects_succ]
  cases weak <;> rfl

theorem findPending_afterWeakPrefix (weak : Bool) (s : Serializer) (x : HeapObject) :
    (afterWeakPrefix weak s).findPending x = s.findPending x := by
  cases weak <;> rfl

/-- C16. In the reference loop of `VisitPointers`, at a live reference slot
(weak or strong, the weak prefix being written first):
* a maximal run of `n ≥ 2` slots holding the identical reference to a
  non-pending immortal immovable root gives exactly one `PutRepeat n` followed
  by one `SerializeObject` of the shared target, and the loop continues after
  the run;
* any other slot whose target is not pending gives one `SerializeObject` for
  that slot alone, without `PutRepeat`, and the loop continues with the next
  slot;
* a slot whose target is pending gives the forward-reference record of
  `SerializePendingObject` (the pending check of the dispatch), for that slot
  alone;
* the count handed to `PutRepeat`, `1 + countLeading current rest` under the
  condition that the next slot equals the current one, is at least 2. -/
theorem VisitPointers_repeat_runs (c : Config) (h : Heap) (fuel : Nat)
    (os : ObjectSerializer) (s : Serializer) (offset : Nat) (weak : Bool)
    (target : HeapObject) (rest : List MaybeObject) :
    (∀ n, 2 ≤ n → s.findPending target = none → IsImmortalImmovableRoot h target = true →
      rest.head? ≠ some (referenceSlot weak target) →
      ObjectSerializer.VisitPointers.heapObjects c h (fuel + 2) os s offset
          (List.replicate n (referenceSlot weak target) ++ rest) =
        Result.bind
          (SerializeObject c h fuel (PutRepeat c (afterWeakPrefix weak s) n) target)
          (fun s1 =>
            ObjectSerializer.VisitPointers.heapObjects c h fuel
              { os with bytes_processed_so_far_ :=
                  os.bytes_processed_so_far_ + n * c.kTaggedSize }
              s1 (offset + n * c.kTaggedSize) rest)) ∧
    (s.findPending target = none →
      (IsImmortalImmovableRoot h target = false ∨
        rest.head? ≠ some (referenceSlot weak target)) →
      ObjectSerializer.VisitPointers.heapObjects c h (fuel + 2) os s offset
          (referenceSlot weak target :: rest) =
        Result.bind (SerializeObject c h fuel (afterWeakPrefix weak s) target)
          (fun s1 =>
            ObjectSerializer.VisitPointers.heapObjects c h fuel
              { os with bytes_processed_so_far_ := os.bytes_processed_so_far_ + c.kTaggedSize }
              s1 (offset + c.kTaggedSize) rest)) ∧
    (s.findPending target ≠ none →
      ObjectSerializer.VisitPointers.heapObjects c h (fuel + 2) os s offset
          (referenceSlot weak target :: rest) =
        ObjectSerializer.VisitPointers.heapObjects c h fuel
          { os with bytes_processed_so_far_ := os.bytes_processed_so_far_ + c.kTaggedSize }
          (PutPendingForwardReferenceTo (afterWeakPrefix weak s) target)
          (offset + c.kTaggedSize) rest) ∧
    (rest.head? = some (referenceSlot weak target) →
      2 ≤ 1 + countLeading (referenceSlot weak target) rest) := by
  refine ⟨?_, ?_, ?_, ?_⟩
  · intro n hn hnp hroot hmax
    obtain ⟨m, rfl⟩ : ∃ m, n = m + 1 := ⟨n - 1, by omega⟩
    obtain ⟨k, rfl⟩ : ∃ k, m = k + 1 := ⟨m - 1, by omega⟩
    have hp := SerializePendingObject_of_none (afterWeakPrefix weak s) target
      (by rw [findPending_afterWeakPrefix]; exact hnp)
    have hcl : countLeading (referenceSlot weak target)
        (List.replicate (k + 1) (referenceSlot weak target) ++ rest) = k + 1 :=
      countLeading_replicate_append _ _ _ hmax
    have hcond : (List.replicate (k + 1) (referenceSlot weak target) ++ rest) ≠ [] ∧
        (match h.root_index_map target with
          | some root_index => h.IsImmortalImmovable root_index
          | none => false) = true ∧
        (List.replicate (k + 1) (referenceSlot weak target) ++ rest).head? =
          some (referenceSlot weak target) := by
      refine ⟨by simp [List.replicate_succ], hroot, by simp [List.replicate_succ]⟩
    have hdrop : (List.replicate (k + 1) (referenceSlot weak target) ++ rest).drop
        (1 + (k + 1) - 1) = rest := by
      have : 1 + (k + 1) - 1 = (List.replicate (k + 1) (referenceSlot weak target)).length := by
        simp
      rw [this, List.drop_left]
    have e : List.replicate (k + 1 + 1) (referenceSlot weak target) ++ rest =
        referenceSlot weak target ::
          (List.replicate (k + 1) (referenceSlot weak target) ++ rest) := by
      simp [List.replicate_succ]
    rw [e, heapObjects_reference, VisitPointers_reference_succ, hp]
    simp only [Bool.false_eq_true, if_false]
    rw [if_pos hcond, hcl, hdrop]
    have e2 : (1 + (k + 1)) = k + 1 + 1 := by omega
    have e3 : (1 : Int) + ((k + 1 : Nat) : Int) = ((k + 1 + 1 : Nat) : Int) := by omega
    rw [e2, e3]
  · intro hnp hsingle
    have hp := SerializePendingObject_of_none (afterWeakPrefix weak s) target
      (by rw [findPending_afterWeakPrefix]; exact hnp)
    rw [heapObjects_reference, VisitPointers_reference_succ, hp]
    simp only [Bool.false_eq_true, if_false]
    rw [if_neg]
    rintro ⟨_, hroot, hhead⟩
    rcases hsingle with hs | hs
    · unfold IsImmortalImmovableRoot at hs
      rw [hs] at hroot
      cases hroot
    · exact hs hhead
  · intro hpend
    have hp := SerializePendingObject_of_some (afterWeakPrefix weak s) target
      (by rw [findPending_afterWeakPrefix]; exact hpend)
    rw [heapObjects_reference, VisitPointers_reference_succ, hp]
    simp only [if_true]
  · intro hhead
    have := countLeading_pos _ _ hhead
    omega

/-- Witness for C16: three slots holding the strong reference to root object 0 of
the plain heap. -/
theorem VisitPointers_repeat_runs_witness :
    ObjectSerializer.VisitPointers.heapObjects (exampleConfig 32) plainHeap (1 + 2)
        { object_ := 1, bytes_processed_so_far_ := 8 } (Serializer.initial 8) 8
        (List.replicate 3 (referenceSlot false 0) ++ []) =
      Result.bind
        (SerializeObject (exampleConfig 32) plainHeap 1
          (PutRepeat (exampleConfig 32) (afterWeakPrefix false (Serializer.initial 8)) 3) 0)
        (fun s1 =>
          ObjectSerializer.VisitPointers.heapObjects (exampleConfig 32) plainHeap 1
            { ({ object_ := 1, bytes_processed_so_far_ := 8 } : ObjectSerializer) with
              bytes_processed_so_far_ := (8 : Int) + (3 : Nat) * (exampleConfig 32).kTaggedSize }
            s1 (8 + 3 * (exampleConfig 32).kTaggedSize) []) :=
  (VisitPointers_repeat_runs (exampleConfig 32) plainHeap 1
    { object_ := 1, bytes_processed_so_far_ := 8 } (Serializer.initial 8) 8 false 0 []).1
    3 (by decide) rfl (by decide) (by simp)

/-! ## The pending window of an object -/

theorem KeepsPending.refl_keeps (y : HeapObject) (s : Serializer) : KeepsPending y s s :=
  fun hp => hp

theorem KeepsPending.trans_keeps {y : HeapObject} {s1 s2 s3 : Serializer}
    (h12 : KeepsPending y s1 s2) (h23 : KeepsPending y s2 s3) : KeepsPending y s1 s3 :=
  fun hp => h23 (h12 hp)

theorem KeepsPending.of_table {y : HeapObject} {s s' : Serializer}
    (ht : s'.forward_refs_per_pending_object_ = s.forward_refs_per_pending_object_) :
    KeepsPending y s s' := by
  intro hp
  rw [findPending_of_table_eq s s' y ht]
  exact hp

theorem KeepsPending.of_sinkOnly_keeps {y : HeapObject} {s s' : Serializer} (hs : SinkOnly s s') :
    KeepsPending y s s' :=
  KeepsPending.of_table hs.2.1

theorem KeepsPending.register_keeps (y : HeapObject) (s : Serializer) (x : HeapObject) :
    KeepsPending y s (RegisterObjectIsPending s x) :=
  fun hp => (findPending_register s x y).2 (Or.inr hp)

theorem KeepsPending.put_keeps (y : HeapObject) (s : Serializer) (x : HeapObject) :
    KeepsPending y s (PutPendingForwardReferenceTo s x) :=
  fun hp => (findPending_put s x y).2 hp

theorem KeepsPending.resolve_keeps (y : HeapObject) (s : Serializer) (x : HeapObject)
    (hxy : x ≠ y) : KeepsPending y s (ResolvePendingObject s x) := by
  intro hp
  rw [findPending_resolve_other s x y (fun e => hxy e.symm)]
  exact hp

theorem KeepsPending.defer_keeps (y : HeapObject) (s : Serializer) (x : HeapObject) :
    KeepsPending y s (ObjectSerializer.Defer s x) :=
  ((KeepsPending.register_keeps y s x).trans_keeps (KeepsPending.put_keeps y _ x)).trans_keeps
    (KeepsPending.of_table rfl)

theorem KeepsPending.SerializePendingObject_keeps (y : HeapObject) (s : Serializer)
    (x : HeapObject) : KeepsPending y s (SerializePendingObject s x).2 := by
  unfold V8Snapshot.SerializePendingObject
  split
  · exact KeepsPending.refl_keeps y s
  · exact KeepsPending.put_keeps y s x

theorem KeepsPending.SerializeBackingStore_keeps (y : HeapObject) (h : Heap) (s : Serializer)
    (b n : Nat) : KeepsPending y s (SerializeBackingStore h s b n).2 := by
  apply KeepsPending.of_table
  unfold V8Snapshot.SerializeBackingStore
  dsimp only
  split <;> rfl

theorem WalkKeepsPending.zero_keeps (c : Config) (h : Heap) (y : HeapObject) :
    WalkKeepsPending c h y 0 := by
  constructor
  · intro s x s' hok
    cases hok
  · intro s x s' _ hok
    cases hok
  · intro s x info s' _ hok
    cases hok
  · intro s x info s' _ hok
    cases hok
  · intro s x info s' _ hok
    cases hok
  · intro s x info s' _ hok
    cases hok
  · intro s x s' _ hok
    cases hok
  · intro s x space size map s' _ hok
    cases hok
  · intro os s size r hok
    cases hok
  · intro os s vs r hok
    cases hok
  · intro os s offset slots r hok
    cases hok
  · intro os s offset slots r hok
    cases hok
  · intro os s offset slots r hok
    cases hok
  · intro os s offset cc cur rest r hok
    cases hok

theorem WalkKeepsPending.succ_keeps {c : Config} {h : Heap} {y : HeapObject} {fuel : Nat}
    (ih : WalkKeepsPending c h y fuel) (ihw : ∀ h1 : Heap, WalkKeepsPending c h1 y fuel) :
    WalkKeepsPending c h y (fuel + 1) := by
  have hput : ∀ (s : Serializer) (b : Bytecode), KeepsPending y s (s.Put b) :=
    fun s b => KeepsPending.of_table rfl
  have hint : ∀ (s : Serializer) (v : Int), KeepsPending y s (s.PutInt v) :=
    fun s v => KeepsPending.of_table rfl
  constructor
  · intro s x s' hok
    rw [SerializeObject_succ] at hok
    split at hok
    · cases hok
      exact KeepsPending.of_sinkOnly_keeps (SinkOnly.SerializeRoot c h s x)
    · split at hok
      · cases hok
        exact KeepsPending.of_sinkOnly_keeps (SinkOnly.SerializeHotObject s x)
      · split at hok
        · cases hok
          exact KeepsPending.of_sinkOnly_keeps (SinkOnly.SerializeBackReference c h s x)
        · split at hok
          · cases hok
            exact KeepsPending.SerializePendingObject_keeps y s x
          · rename_i hnp
            intro hp
            have hx : s.findPending x = none :=
              SerializePendingObject_false s x (by simpa using hnp)
            have hxy : x ≠ y := fun e => hp (e ▸ hx)
            exact ih.serialize s x s' hxy hok hp
  · intro s x s' hxy hok
    rw [Serialize_succ] at hok
    have henter : KeepsPending y s (RecursionScope.enter s) :=
      KeepsPending.of_sinkOnly_keeps (SinkOnly.enter s)
    split at hok
    · cases hok
      exact (henter.trans_keeps (KeepsPending.defer_keeps y _ x)).trans_keeps
        (KeepsPending.of_sinkOnly_keeps (SinkOnly.leave _))
    · obtain ⟨s2, h2, h3⟩ := (Result.bind_eq_ok _ _ _).1 hok
      cases h3
      refine (henter.trans_keeps ?_).trans_keeps (KeepsPending.of_sinkOnly_keeps (SinkOnly.leave _))
      split at h2
      · obtain ⟨r, hr, he⟩ := (Result.bind_eq_ok _ _ _).1 h2
        cases he
        exact ih.externalString _ x _ r hxy hr
      · exact ih.typedArray _ x _ s2 hxy h2
      · obtain ⟨r, hr, he⟩ := (Result.bind_eq_ok _ _ _).1 h2
        cases he
        exact ih.arrayBuffer _ x _ r hxy hr
      · exact ih.object _ x s2 hxy h2
  · intro s x info s' hxy hok
    rw [SerializeExternalString_succ] at hok
    split at hok
    · obtain ⟨s1, h1, he⟩ := (Result.bind_eq_ok _ _ _).1 hok
      cases he
      exact (ihw _).object s x s1 hxy h1
    · obtain ⟨s1, h1, he⟩ := (Result.bind_eq_ok _ _ _).1 hok
      cases he
      exact ih.sequentialString s x info s1 hxy h1
  · intro s x info s' hxy hok
    rw [SerializeExternalStringAsSequentialString_succ] at hok
    obtain ⟨s1, h1, h2⟩ := (Result.bind_eq_ok _ _ _).1 hok
    cases h2
    exact (ih.prologue s x _ _ _ s1 hxy h1).trans_keeps
      (KeepsPending.of_sinkOnly_keeps (SinkOnly.OutputSequentialString c h s1 x _ _ _))
  · intro s x info s' hxy hok
    rw [SerializeJSTypedArray_succ] at hok
    split at hok
    · exact ih.object s x s' hxy hok
    · split at hok
      · split at hok
        · cases hok
        · exact (KeepsPending.SerializeBackingStore_keeps y h s _ _).trans_keeps (ih.object _ x s' hxy hok)
      · exact ih.object s x s' hxy hok
  · intro s x info s' hxy hok
    rw [SerializeJSArrayBuffer_succ] at hok
    split at hok
    · cases hok
    · split at hok
      · obtain ⟨s1, h1, he⟩ := (Result.bind_eq_ok _ _ _).1 hok
        cases he
        exact (KeepsPending.SerializeBackingStore_keeps y h s _ _).trans_keeps
          ((ihw _).object _ x s1 hxy h1)
      · obtain ⟨s1, h1, he⟩ := (Result.bind_eq_ok _ _ _).1 hok
        cases he
        exact (ihw _).object s x s1 hxy h1
  · intro s x s' hxy hok
    rw [ObjectSerializer_SerializeObject_succ] at hok
    split at hok
    · cases hok
    · obtain ⟨s1, h1, h2⟩ := (Result.bind_eq_ok _ _ _).1 hok
      obtain ⟨r, h3, h4⟩ := (Result.bind_eq_ok _ _ _).1 h2
      cases h4
      exact (ih.prologue s x _ _ _ s1 hxy h1).trans_keeps (ih.content _ s1 _ r h3)
  · intro s x space size map s' hxy hok
    rw [SerializePrologue_succ] at hok
    split at hok
    · cases hok
      exact KeepsPending.of_table rfl
    · obtain ⟨s3, h1, h2⟩ := (Result.bind_eq_ok _ _ _).1 hok
      obtain ⟨r, h3, h4⟩ := (Result.bind_eq_ok _ _ _).1 h2
      cases h4
      obtain ⟨hv, s3', hso, hr⟩ := AllocateAndResolve_ok c h s3 x space size r h3
      rw [hr]
      exact ((((((hput s _).trans_keeps (hint _ _)).trans_keeps
        (KeepsPending.register_keeps y _ x)).trans_keeps (ih.serializeObject _ map s3 h1)).trans_keeps
        (KeepsPending.of_sinkOnly_keeps hso)).trans_keeps (KeepsPending.resolve_keeps y s3' x hxy)).trans_keeps
        (KeepsPending.of_table rfl)
  · intro os s size r hok
    rw [SerializeContent_succ] at hok
    split at hok
    · exact (KeepsPending.of_sinkOnly_keeps (SinkOnly.OutputCode c h s os.object_ size)).trans_keeps
        (ih.iterateBody os _ _ r hok)
    · obtain ⟨r1, h1, h2⟩ := (Result.bind_eq_ok _ _ _).1 hok
      cases h2
      exact (ih.iterateBody os s _ r1 h1).trans_keeps
        (KeepsPending.of_sinkOnly_keeps (SinkOnly.OutputRawData c h r1.1 r1.2 size))
  · intro os s vs r hok
    cases vs with
    | nil =>
      rw [IterateBody_nil] at hok
      cases hok
      exact KeepsPending.refl_keeps y s
    | cons v rest =>
      rw [IterateBody_cons] at hok
      obtain ⟨r1, h1, h2⟩ := (Result.bind_eq_ok _ _ _).1 hok
      refine KeepsPending.trans_keeps ?_ (ih.iterateBody r1.1 r1.2 rest r h2)
      cases v with
      | VisitPointers start_offset slots => exact ih.visitPointers os s _ _ r1 h1
      | VisitEmbeddedPointer target n =>
        obtain ⟨s1, h3, h4⟩ := (Result.bind_eq_ok _ _ _).1 h1
        cases h4
        exact ih.serializeObject s target s1 h3
      | VisitForeignExternalReference a =>
        exact KeepsPending.of_sinkOnly_keeps (SinkOnly.OutputExternalReference c h os s _ _ _ r1 h1)
      | VisitCodeExternalReference t n =>
        exact KeepsPending.of_sinkOnly_keeps (SinkOnly.OutputExternalReference c h os s _ _ _ r1 h1)
      | VisitInternalReference t =>
        cases h1
        exact KeepsPending.of_table rfl
      | VisitRuntimeEntry => cases h1
      | VisitOffHeapTarget addr n =>
        dsimp only at h1
        split at h1
        · cases h1
        · split at h1
          · cases h1
          · cases h1
            exact KeepsPending.of_table rfl
      | VisitCodeTarget target n =>
        obtain ⟨s1, h3, h4⟩ := (Result.bind_eq_ok _ _ _).1 h1
        cases h4
        exact ih.serializeObject s target s1 h3
  · intro os s offset slots r hok
    cases slots with
    | nil =>
      rw [VisitPointers_nil] at hok
      cases hok
      exact KeepsPending.refl_keeps y s
    | cons slot rest =>
      rw [VisitPointers_cons] at hok
      have hraw : KeepsPending y s (ObjectSerializer.OutputRawData c h os s offset).2 :=
        KeepsPending.of_sinkOnly_keeps (SinkOnly.OutputRawData c h os s offset)
      cases slot with
      | Smi v => exact ih.visitPointers os s _ rest r hok
      | Cleared => exact hraw.trans_keeps (ih.cleared _ _ _ _ r hok)
      | Strong t => exact hraw.trans_keeps (ih.cleared _ _ _ _ r hok)
      | Weak t => exact hraw.trans_keeps (ih.cleared _ _ _ _ r hok)
  · intro os s offset slots r hok
    rw [VisitPointers_cleared_succ] at hok
    split at hok
    · exact (hput s _).trans_keeps (ih.cleared _ _ _ _ r hok)
    · exact ih.heapObjects os s offset slots r hok
  · intro os s offset slots r hok
    rw [VisitPointers_heapObjects_succ] at hok
    split at hok
    · cases hok
      exact KeepsPending.refl_keeps y s
    · exact ih.visitPointers os s offset _ r hok
    · exact ih.visitPointers os s offset _ r hok
    · exact ih.reference os s offset _ _ _ r hok
    · exact (hput s _).trans_keeps (ih.reference os _ offset _ _ _ r hok)
  · intro os s offset cc cur rest r hok
    rw [VisitPointers_reference_succ] at hok
    split at hok
    · exact (KeepsPending.SerializePendingObject_keeps y s cc).trans_keeps (ih.heapObjects _ _ _ _ r hok)
    · split at hok
      · obtain ⟨s1, h1, h2⟩ := (Result.bind_eq_ok _ _ _).1 hok
        exact ((KeepsPending.of_sinkOnly_keeps (SinkOnly.PutRepeat c s _)).trans_keeps
          (ih.serializeObject _ cc s1 h1)).trans_keeps (ih.heapObjects _ _ _ _ r h2)
      · obtain ⟨s1, h1, h2⟩ := (Result.bind_eq_ok _ _ _).1 hok
        exact (ih.serializeObject _ cc s1 h1).trans_keeps (ih.heapObjects _ _ _ _ r h2)

/-- No function of the graph walk, with any fuel, takes an object out of the
pending table, except the `ObjectSerializer` of that object. -/
theorem walkKeepsPending (c : Config) (h : Heap) (y : HeapObject) (fuel : Nat) :
    WalkKeepsPending c h y fuel := by
  induction fuel generalizing h with
  | zero => exact WalkKeepsPending.zero_keeps c h y
  | succ n ih => exact (ih h).succ_keeps ih

theorem ResolvePendingObject_sink (s : Serializer) (x : HeapObject) :
    (ResolvePendingObject s x).sink_ =
      s.sink_ ++ ((s.findPending x).getD []).flatMap (fun id =>
        [SinkEntry.Put Bytecode.kResolvePendingForwardRef, SinkEntry.PutInt id]) := by
  unfold ResolvePendingObject
  exact foldl_Resolve_sink _ s

theorem AllocateAndResolve_chunked (c : Config) (h : Heap) (s : Serializer) (x : HeapObject)
    (space : SnapshotSpace) (size : Nat) (h1 : space ≠ SnapshotSpace.kLargeObject)
    (h2 : space ≠ SnapshotSpace.kMap) :
    ObjectSerializer.AllocateAndResolve c h s x space size =
      .ok (((PutAlignmentPrefix c h s x).2.allocator_.Allocate space
          (size + (PutAlignmentPrefix c h s x).1)).1,
        ResolvePendingObject
          { (PutAlignmentPrefix c h s x).2 with
            allocator_ := ((PutAlignmentPrefix c h s x).2.allocator_.Allocate space
              (size + (PutAlignmentPrefix c h s x).1)).2 } x) := by
  cases space
  · rfl
  · rfl
  · rfl
  · exact absurd rfl h2
  · exact absurd rfl h1

theorem AllocateAndResolve_spec (c : Config) (h : Heap) (s : Serializer) (x : HeapObject)
    (space : SnapshotSpace) (size : Nat) (r : SerializerReference × Serializer)
    (hr : ObjectSerializer.AllocateAndResolve c h s x space size = .ok r) :
    r.1 = ObjectSerializer.AllocatedLocation c h s x space size ∧
    r.2.sink_ = s.sink_ ++
      (if space = SnapshotSpace.kLargeObject ∨ space = SnapshotSpace.kMap then []
        else alignmentPrefixEntries c h x) ++
      ((s.findPending x).getD []).flatMap (fun id =>
        [SinkEntry.Put Bytecode.kResolvePendingForwardRef, SinkEntry.PutInt id]) ∧
    r.2.findPending x = none ∧
    r.2.reference_map_ = s.reference_map_ := by
  by_cases h1 : space = SnapshotSpace.kLargeObject
  · subst h1
    unfold ObjectSerializer.AllocateAndResolve at hr
    dsimp only at hr
    split at hr
    · cases hr
    · cases hr
      refine ⟨rfl, ?_, findPending_resolve_self _ x, (resolve_frame _ x).1⟩
      rw [ResolvePendingObject_sink]
      simp [Serializer.findPending]
  · by_cases h2 : space = SnapshotSpace.kMap
    · subst h2
      unfold ObjectSerializer.AllocateAndResolve at hr
      cases hr
      refine ⟨rfl, ?_, findPending_resolve_self _ x, (resolve_frame _ x).1⟩
      rw [ResolvePendingObject_sink]
      simp [Serializer.findPending]
    · have hr2 : r = (((PutAlignmentPrefix c h s x).2.allocator_.Allocate space
            (size + (PutAlignmentPrefix c h s x).1)).1,
          ResolvePendingObject
            { (PutAlignmentPrefix c h s x).2 with
              allocator_ := ((PutAlignmentPrefix c h s x).2.allocator_.Allocate space
                (size + (PutAlignmentPrefix c h s x).1)).2 } x) := by
        rw [AllocateAndResolve_chunked c h s x space size h1 h2] at hr
        exact (Result.ok.inj hr).symm
      have e := PutAlignmentPrefix_eq c h s x
      have ea : (PutAlignmentPrefix c h s x).2.allocator_ = s.allocator_ := by rw [e]
      rw [hr2]
      refine ⟨?_, ?_, findPending_resolve_self _ x, ?_⟩
      · unfold ObjectSerializer.AllocatedLocation
        dsimp only
        rw [ea]
        cases space
        · rfl
        · rfl
        · rfl
        · exact absurd rfl h2
        · exact absurd rfl h1
      · dsimp only
        rw [ResolvePendingObject_sink, e]
        simp [Serializer.findPending, h1, h2]
      · dsimp only
        rw [(resolve_frame _ x).1, e]

theorem AllocateAndResolve_fatal_iff (c : Config) (h : Heap) (s : Serializer) (x : HeapObject)
    (space : SnapshotSpace) (size : Nat) :
    (ObjectSerializer.AllocateAndResolve c h s x space size = .fatal ↔
      space = SnapshotSpace.kLargeObject ∧ h.kind x = InstanceKind.code) ∧
    (¬ (space = SnapshotSpace.kLargeObject ∧ h.kind x = InstanceKind.code) →
      ∃ r, ObjectSerializer.AllocateAndResolve c h s x space size = .ok r) := by
  by_cases h1 : space = SnapshotSpace.kLargeObject
  · subst h1
    unfold ObjectSerializer.AllocateAndResolve
    dsimp only
    by_cases hk : h.kind x = InstanceKind.code
    · rw [if_pos hk]
      exact ⟨⟨fun _ => ⟨rfl, hk⟩, fun _ => rfl⟩, fun hn => (hn ⟨rfl, hk⟩).elim⟩
    · rw [if_neg hk]
      refine ⟨⟨(fun hf => by cases hf), fun hf => (hk hf.2).elim⟩, fun _ => ⟨_, rfl⟩⟩
  · by_cases h2 : space = SnapshotSpace.kMap
    · subst h2
      unfold ObjectSerializer.AllocateAndResolve
      refine ⟨⟨(fun hf => by cases hf), fun hf => (h1 hf.1).elim⟩, fun _ => ⟨_, rfl⟩⟩
    · rw [AllocateAndResolve_chunked c h s x space size h1 h2]
      refine ⟨⟨(fun hf => by cases hf), fun hf => (h1 hf.1).elim⟩, fun _ => ⟨_, rfl⟩⟩

/-- C12. For an object that is not its own map (not the meta map), and given
that the serialization of its map returns (in state `s3`), `SerializePrologue`
writes, in this order: the opcode `NewObject::Encode(space)`, the size in words
`size >> kObjectAlignmentBits`, whatever the dispatch of the map writes (its
complete encoding), the alignment prefix if any (only for partitions other than
large-object and map), and one resolve record per forward-reference id
registered for the object. The object is in the pending table when the
serialization of its map starts and still is when it has returned, that is,
until its Location is allocated. The prologue aborts only for a code object in
the large-object partition; otherwise it returns, and then the object is in
`reference_map_` with the Location just allocated and is no longer in the
pending table. -/
theorem SerializePrologue_spec (c : Config) (h : Heap) (fuel : Nat) (s : Serializer)
    (object_ : HeapObject) (space : SnapshotSpace) (size : Nat) (map : HeapObject)
    (s3 : Serializer) (hne : map ≠ object_)
    (hmap : SerializeObject c h fuel
      (RegisterObjectIsPending
        ((s.Put (Bytecode.kNewObject space)).PutInt (size >>> c.kObjectAlignmentBits))
        object_) map = .ok s3) :
    (RegisterObjectIsPending
      ((s.Put (Bytecode.kNewObject space)).PutInt (size >>> c.kObjectAlignmentBits))
      object_).findPending object_ ≠ none ∧
    s3.findPending object_ ≠ none ∧
    (∃ tmap, s3.sink_ = s.sink_ ++ [SinkEntry.Put (Bytecode.kNewObject space),
      SinkEntry.PutInt (size >>> c.kObjectAlignmentBits)] ++ tmap) ∧
    (ObjectSerializer.SerializePrologue c h (fuel + 1) s object_ space size map = .fatal ↔
      space = SnapshotSpace.kLargeObject ∧ h.kind object_ = InstanceKind.code) ∧
    (¬ (space = SnapshotSpace.kLargeObject ∧ h.kind object_ = InstanceKind.code) →
      ∃ s', ObjectSerializer.SerializePrologue c h (fuel + 1) s object_ space size map =
        .ok s') ∧
    (∀ s', ObjectSerializer.SerializePrologue c h (fuel + 1) s object_ space size map =
        .ok s' →
      s'.sink_ = s3.sink_ ++
        (if space = SnapshotSpace.kLargeObject ∨ space = SnapshotSpace.kMap then []
          else alignmentPrefixEntries c h object_) ++
        ((s3.findPending object_).getD []).flatMap (fun id =>
          [SinkEntry.Put Bytecode.kResolvePendingForwardRef, SinkEntry.PutInt id]) ∧
      s'.reference_map_ =
        (RefKey.object object_, ObjectSerializer.AllocatedLocation c h s3 object_ space size) ::
          s3.reference_map_ ∧
      s'.LookupReference (RefKey.object object_) =
        ObjectSerializer.AllocatedLocation c h s3 object_ space size ∧
      (ObjectSerializer.AllocatedLocation c h s3 object_ space size).is_valid = true ∧
      s'.findPending object_ = none) := by
  have hp2 : (RegisterObjectIsPending
      ((s.Put (Bytecode.kNewObject space)).PutInt (size >>> c.kObjectAlignmentBits))
      object_).findPending object_ ≠ none :=
    (findPending_register _ _ _).2 (Or.inl rfl)
  have hp3 : s3.findPending object_ ≠ none :=
    (walkKeepsPending c h object_ fuel).serializeObject _ map s3 hmap hp2
  have heq : ObjectSerializer.SerializePrologue c h (fuel + 1) s object_ space size map =
      Result.bind (ObjectSerializer.AllocateAndResolve c h s3 object_ space size)
        (fun r => .ok (r.2.AddReference (RefKey.object object_) r.1)) := by
    rw [SerializePrologue_succ, if_neg hne, hmap]
    rfl
  obtain ⟨hfatal, hret⟩ := AllocateAndResolve_fatal_iff c h s3 object_ space size
  refine ⟨hp2, hp3, ?_, ?_, ?_, ?_⟩
  · obtain ⟨⟨t, ht, -⟩, -⟩ := (walkExtends c h fuel).serializeObject _ map s3 hmap
    refine ⟨t, ?_⟩
    rw [ht, (register_frame _ object_).2.2.1]
    simp [Serializer.Put, Serializer.PutInt]
  · rw [heq, ← hfatal]
    cases ObjectSerializer.AllocateAndResolve c h s3 object_ space size with
    | ok r => exact ⟨(fun hf => by cases hf), (fun hf => by cases hf)⟩
    | fatal => exact ⟨fun _ => rfl, fun _ => rfl⟩
    | outOfFuel => exact ⟨(fun hf => by cases hf), (fun hf => by cases hf)⟩
  · intro hn
    obtain ⟨r, hr⟩ := hret hn
    exact ⟨_, by rw [heq, hr]; rfl⟩
  · intro s' hok
    rw [heq] at hok
    obtain ⟨r, hr, h4⟩ := (Result.bind_eq_ok _ _ _).1 hok
    cases h4
    obtain ⟨e1, e2, e3, e4⟩ := AllocateAndResolve_spec c h s3 object_ space size r hr
    have hv := (AllocateAndResolve_ok c h s3 object_ space size r hr).1
    refine ⟨e2, ?_, ?_, ?_, e3⟩
    · simp [Serializer.AddReference, e1, e4]
    · rw [LookupReference_add_self, e1]
    · rw [← e1]
      exact hv

/-- Witness for C12: object 1 of the plain heap, whose map (object 0) is a root. -/
theorem SerializePrologue_spec_witness :
    ∃ s', ObjectSerializer.SerializePrologue (exampleConfig 32) plainHeap (1 + 1)
      (Serializer.initial 8) 1 SnapshotSpace.kOld 8 0 = .ok s' :=
  (SerializePrologue_spec (exampleConfig 32) plainHeap 1 (Serializer.initial 8) 1
    SnapshotSpace.kOld 8 0
    (SerializeRoot (exampleConfig 32) plainHeap
      (RegisterObjectIsPending
        (((Serializer.initial 8).Put (Bytecode.kNewObject SnapshotSpace.kOld)).PutInt
          (8 >>> (exampleConfig 32).kObjectAlignmentBits)) 1) 0).2
    (by decide) rfl).2.2.2.2.1 (by decide)

/-! ## Reference map and pending table are disjoint -/

theorem soundHeap_metaMapNotDeferrable : MetaMapNotDeferrable soundHeap := by
  intro x hx
  have hx0 : x ≠ 0 := by simpa [soundHeap] using hx
  refine ⟨fun e => hx0 e.symm, fun info hk => ?_⟩
  simp [soundHeap, plainHeap] at hk

theorem OpReachable.walkInv_deferrable {c : Config} {h : Heap} (hH : MetaMapNotDeferrable h)
    {s : Serializer} (hs : OpReachable c h s) :
    WalkInv h s ∧ ∀ o, s.findPending o ≠ none → h.CanBeDeferred o = true := by
  induction hs with
  | initial =>
    exact ⟨WalkInv.initial h _, fun o ho => (ho rfl).elim⟩
  | serializeObject fuel s x s' _ hok ih =>
    have hg := (walkSpec c h hH fuel).serializeObject s x s' hok
    exact ⟨hg.walkInv ih.1, hg.deferrable ih.1 ih.2⟩
  | serialize fuel s x s' _ hl hok ih =>
    have hg := (walkSpec c h hH fuel).serialize s x s' ⟨hl, ih.2 x⟩ hok
    exact ⟨hg.walkInv ih.1, hg.deferrable ih.1 ih.2⟩
  | serializePrologue fuel s x space size map s' _ hl hmap hok ih =>
    have hmeta : map = x → s.findPending x = none := by
      intro e
      by_contra hp
      have hd := ih.2 x hp
      rcases hmap with hm | ⟨info, hk, hm⟩
      · exact (hH x hd).1 (hm.symm.trans e)
      · exact (hH x hd).2 info hk (hm.symm.trans e)
    have hg := (walkSpec c h hH fuel).prologue s x space size map s' hl hmeta hok
    exact ⟨hg.walkInv ih.1, hg.deferrable ih.1 ih.2⟩
  | resolvePendingObject s x _ ih =>
    refine ⟨ih.1.step (Step.resolve s x), fun o ho => ih.2 o ?_⟩
    by_cases hox : o = x
    · subst hox
      exact (ho (findPending_resolve_self s o)).elim
    · rw [findPending_resolve_other s x o hox] at ho
      exact ho
  | serializeDeferred fuel s x s' _ hok ih =>
    obtain ⟨ht, hpq, -⟩ := SerializeDeferred_good c h hH fuel s x s' ih.1 (ih.2 x) hok
    have hi' := ih.1.trace ht
    refine ⟨hi', fun o ho => ?_⟩
    rcases hpq (fun o => h.CanBeDeferred o = true)
      (fun o ho => Or.inr (Or.inl (ih.2 o ho))) o ho with hq | hq
    · exact hi'.queue o hq
    · exact hq
  | visitRootPointers fuel s roots s' _ hok ih =>
    have hg := VisitRootPointers_good c h hH fuel roots s s' hok
    exact ⟨hg.walkInv ih.1, hg.deferrable ih.1 ih.2⟩
  | serializeDeferredObjects fuel s s' _ hok ih =>
    obtain ⟨ht, hpq, -⟩ := SerializeDeferredObjects_trace c h hH fuel s s' ih.1 hok
    exact ⟨ih.1.trace ht,
      hpq (fun o => h.CanBeDeferred o = true) (fun o ho => Or.inr (ih.2 o ho))⟩

/-- C2. In every state reachable from the freshly constructed serializer through
the serializer operations, an object that is in the pending table has no valid
entry in the reference map. `CanBeDeferred` is not part of the sources; it is
taken to refuse every object that `SerializePrologue` is handed as its own map
(the meta map, or an external string that is itself one of the string maps),
as `SerializePrologue` assumes when it handles the meta map without a pending
entry and checks that a map is never pending. -/
theorem pending_has_no_location (c : Config) (h : Heap) (hH : MetaMapNotDeferrable h)
    (s : Serializer) (hs : OpReachable c h s) (x : HeapObject)
    (hp : s.findPending x ≠ none) :
    (s.LookupReference (RefKey.object x)).is_valid = false :=
  (hs.walkInv_deferrable hH).1.disjoint x hp

/-- Witness for C2: with recursion bound 0, `Serialize` defers object 1
of the heap whose meta map is not deferrable; the object is then pending. -/
theorem pending_has_no_location_witness :
    ((RecursionScope.leave (ObjectSerializer.Defer
      (RecursionScope.enter (Serializer.initial 8)) 1)).LookupReference
        (RefKey.object 1)).is_valid = false :=
  pending_has_no_location (exampleConfig 0) soundHeap soundHeap_metaMapNotDeferrable _
    (OpReachable.serialize 1 (Serializer.initial 8) 1 _ OpReachable.initial (by decide) rfl)
    1 (by decide)

/-! ## Register and resolve records match -/

theorem replayForwardRefs_append (a b : List SinkEntry) (st : ForwardRefReplay) :
    replayForwardRefs (a ++ b) st =
      match replayForwardRefs a st with
      | none => none
      | some st1 => replayForwardRefs b st1 := by
  induction a generalizing st with
  | nil => rfl
  | cons e rest ih =>
    simp only [List.cons_append, replayForwardRefs]
    cases replayStep st e with
    | none => rfl
    | some st1 => exact ih st1

theorem replayForwardRefs_quiet (t : List SinkEntry) (st : ForwardRefReplay)
    (hst : st.expectId = false)
    (ht : ∀ e ∈ t, e ≠ SinkEntry.Put Bytecode.kRegisterPendingForwardRef ∧
      e ≠ SinkEntry.Put Bytecode.kResolvePendingForwardRef) :
    replayForwardRefs t st = some st := by
  induction t with
  | nil => rfl
  | cons e rest ih =>
    have he := ht e (List.mem_cons_self _ _)
    have hstep : replayStep st e = some st := by
      unfold replayStep
      rw [hst]
      simp only [Bool.false_eq_true, if_false]
      split
      · exact absurd rfl he.1
      · exact absurd rfl he.2
      · rfl
    simp only [replayForwardRefs, hstep]
    exact ih (fun e he => ht e (List.mem_cons_of_mem _ he))

theorem replayForwardRefs_resolve_record (a : Int) (t : List SinkEntry) (out : List Int)
    (n : Int) (hmem : a ∈ out) :
    replayForwardRefs
        (SinkEntry.Put Bytecode.kResolvePendingForwardRef :: SinkEntry.PutInt a :: t)
        { outstanding := out, next := n, expectId := false } =
      replayForwardRefs t
        { outstanding := out.erase a, next := if out.erase a = [] then 0 else n,
          expectId := false } := by
  simp [replayForwardRefs, replayStep, hmem]

theorem replayForwardRefs_resolve (ids rest out : List Int) (n : Int)
    (hperm : out.Perm (ids ++ rest)) (hnd : out.Nodup) :
    ∃ out1, replayForwardRefs
        (ids.flatMap (fun id =>
          [SinkEntry.Put Bytecode.kResolvePendingForwardRef, SinkEntry.PutInt id]))
        { outstanding := out, next := n, expectId := false } =
      some { outstanding := out1, next := if ids ≠ [] ∧ rest = [] then 0 else n,
             expectId := false } ∧
      out1.Perm rest := by
  induction ids generalizing out n with
  | nil =>
    refine ⟨out, ?_, by simpa using hperm⟩
    simp [replayForwardRefs]
  | cons a l ih =>
    have hmem : a ∈ out := hperm.mem_iff.2 (by simp)
    have hperm1 : (out.erase a).Perm (l ++ rest) := by
      have := hperm.erase a
      simpa using this
    have hnd1 : (out.erase a).Nodup := hnd.erase a
    obtain ⟨out1, h1, h2⟩ := ih (out.erase a) (if out.erase a = [] then 0 else n) hperm1 hnd1
    refine ⟨out1, ?_, h2⟩
    rw [List.flatMap_cons]
    show replayForwardRefs
      (SinkEntry.Put Bytecode.kResolvePendingForwardRef :: SinkEntry.PutInt a ::
        l.flatMap (fun id =>
          [SinkEntry.Put Bytecode.kResolvePendingForwardRef, SinkEntry.PutInt id])) _ = _
    rw [replayForwardRefs_resolve_record a _ out n hmem, h1]
    have hn : (if l ≠ [] ∧ rest = [] then (0 : Int) else if out.erase a = [] then 0 else n) =
        (if a :: l ≠ [] ∧ rest = [] then 0 else n) := by
      by_cases hr : rest = []
      · subst hr
        by_cases hl : l = []
        · subst hl
          have he : out.erase a = [] := by simpa using hperm1
          simp [he]
        · simp [hl]
      · have he : out.erase a ≠ [] := by
          intro he
          rw [he] at hperm1
          have hlen := hperm1.length_eq
          simp only [List.length_nil, List.length_append] at hlen
          exact hr (List.length_eq_zero.1 (by omega))
        simp [hr, he]
    rw [hn]

theorem outstandingIds_register (s : Serializer) (x : HeapObject) :
    (RegisterObjectIsPending s x).outstandingIds = s.outstandingIds := by
  unfold RegisterObjectIsPending
  split
  · rfl
  · simp [Serializer.outstandingIds, idsOfTable]

theorem ReplayInv.initial_replay (n : Nat) : ReplayInv (Serializer.initial n) :=
  ⟨[], rfl, List.Perm.refl _⟩

theorem ReplayInv.of_quiet {s s' : Serializer} (hr : ReplayInv s) (t : List SinkEntry)
    (hsink : s'.sink_ = s.sink_ ++ t) (ht : ∀ e ∈ t, e.IsQuiet = true ∨ e = SinkEntry.Put
      Bytecode.kSynchronize)
    (htab : s'.forward_refs_per_pending_object_ = s.forward_refs_per_pending_object_)
    (hnext : s'.next_forward_ref_id_ = s.next_forward_ref_id_) : ReplayInv s' := by
  obtain ⟨out, h1, h2⟩ := hr
  refine ⟨out, ?_, ?_⟩
  · rw [hsink, replayForwardRefs_append, h1, hnext]
    apply replayForwardRefs_quiet _ _ rfl
    intro e he
    rcases ht e he with hq | hq
    · constructor
      · intro hc
        rw [hc] at hq
        cases hq
      · intro hc
        rw [hc] at hq
        cases hq
    · rw [hq]
      exact ⟨by decide, by decide⟩
  · simpa [Serializer.outstandingIds, htab] using h2

theorem ReplayInv.step_replay {h : Heap} {s s' : Serializer} (hi : WalkInv h s)
    (hr : ReplayInv s) (hs : Step h s s') : ReplayInv s' := by
  cases hs with
  | frame _ t a1 a2 a3 a4 a5 a6 a7 =>
    exact hr.of_quiet t a6 (fun e he => Or.inl (a7 e he)) a2 a4
  | register x hl =>
    obtain ⟨g1, g2, g3, g4, g5⟩ := register_frame s x
    obtain ⟨out, h1, h2⟩ := hr
    refine ⟨out, ?_, ?_⟩
    · rw [g3, g5]
      exact h1
    · rw [outstandingIds_register]
      exact h2
  | put x hx =>
    obtain ⟨out, h1, h2⟩ := hr
    obtain ⟨ids, hids⟩ : ∃ ids, s.forward_refs_per_pending_object_.lookup x = some ids := by
      cases hl : s.forward_refs_per_pending_object_.lookup x with
      | none => exact (hx hl).elim
      | some ids => exact ⟨ids, rfl⟩
    refine ⟨out ++ [s.next_forward_ref_id_], ?_, ?_⟩
    · show replayForwardRefs (s.sink_ ++ [SinkEntry.Put Bytecode.kRegisterPendingForwardRef]) _
        = _
      rw [replayForwardRefs_append, h1]
      rfl
    · have hp := idsOfTable_pushBackId x s.next_forward_ref_id_ _ ids hids
      show (out ++ [s.next_forward_ref_id_]).Perm
        (idsOfTable (pushBackId x s.next_forward_ref_id_ s.forward_refs_per_pending_object_))
      refine List.Perm.trans ?_ hp.symm
      exact (List.perm_append_singleton _ _).trans (List.Perm.cons _ h2)
  | queue x hd => exact hr
  | resolve x =>
    obtain ⟨out, h1, h2⟩ := hr
    obtain ⟨k1, k2, k3, k4, k5, k6⟩ := hi.fwd
    cases hl : s.forward_refs_per_pending_object_.lookup x with
    | none =>
      have he := eraseEntry_of_lookup_none x _ hl
      have : ResolvePendingObject s x = s := by
        simp [ResolvePendingObject, Serializer.findPending, hl, he]
      rw [this]
      exact ⟨out, h1, h2⟩
    | some ids =>
      have hperm := idsOfTable_eraseEntry x _ ids k1 hl
      have hout : out.Perm (ids ++ idsOfTable (eraseEntry x s.forward_refs_per_pending_object_)) :=
        h2.trans hperm
      have hnd : out.Nodup := h2.nodup_iff.2 k3
      obtain ⟨out1, r1, r2⟩ := replayForwardRefs_resolve ids _ out s.next_forward_ref_id_ hout hnd
      have hlen : s.outstandingIds.length = ids.length +
          (idsOfTable (eraseEntry x s.forward_refs_per_pending_object_)).length := by
        simp only [Serializer.outstandingIds]
        rw [hperm.length_eq, List.length_append]
      have hle : (ids.length : Int) ≤ s.unresolved_forward_refs_ := by
        rw [k2, hlen]
        push_cast
        omega
      have hfind : (s.findPending x).getD [] = ids := by
        simp [Serializer.findPending, hl]
      refine ⟨out1, ?_, ?_⟩
      · rw [ResolvePendingObject_sink, replayForwardRefs_append, h1, hfind]
        dsimp only
        rw [r1]
        have hnext : (ResolvePendingObject s x).next_forward_ref_id_ =
            if ids ≠ [] ∧ s.unresolved_forward_refs_ = ids.length then 0
            else s.next_forward_ref_id_ := by
          simp only [ResolvePendingObject, hfind]
          exact foldl_Resolve_next ids s hle
        rw [hnext]
        have hiff : (s.unresolved_forward_refs_ = (ids.length : Int)) ↔
            idsOfTable (eraseEntry x s.forward_refs_per_pending_object_) = [] := by
          rw [k2, hlen]
          constructor
          · intro hh
            apply List.length_eq_zero.1
            push_cast at hh
            omega
          · intro hh
            rw [hh]
            simp
        by_cases hc : idsOfTable (eraseEntry x s.forward_refs_per_pending_object_) = []
        · have hu := hiff.2 hc
          simp [hc, hu]
        · have hu : ¬ s.unresolved_forward_refs_ = (ids.length : Int) := fun hu => hc (hiff.1 hu)
          simp [hc, hu]
      · simpa [ResolvePendingObject, Serializer.outstandingIds, foldl_Resolve_table] using r2
  | add key r hr' hl hp => exact hr
  | pop => exact hr
  | sync =>
    exact hr.of_quiet [SinkEntry.Put Bytecode.kSynchronize] rfl
      (fun e he => Or.inr (by simpa using he)) rfl rfl

theorem ReplayInv.trace_replay {h : Heap} {s s' : Serializer} (hi : WalkInv h s)
    (hr : ReplayInv s) (ht : Trace h s s') : ReplayInv s' := by
  induction ht with
  | refl => exact hr
  | tail hab hs ih => exact ReplayInv.step_replay (hi.trace hab) ih hs

theorem chainHeap_metaMapNotDeferrable : MetaMapNotDeferrable chainHeap := by
  intro x hx
  have hx0 : x ≠ 0 := by simpa [chainHeap, soundHeap] using hx
  refine ⟨fun e => hx0 e.symm, fun info hk => ?_⟩
  simp [chainHeap, soundHeap, plainHeap] at hk

/-- C3. With `CanBeDeferred` (not part of the sources) refusing every object that
`SerializePrologue` is handed as its own map, as `SerializePrologue` assumes of
the meta map, every complete run (root pass followed by
`SerializeDeferredObjects`) from the initial state that returns has written a
stream in which every resolve record carries an id that was issued by an
earlier register record and is still outstanding, and at the end no issued id
is outstanding (each register record is matched by exactly one resolve
record); the number of register records equals the number of resolve records,
the pending table is empty and `unresolved_forward_refs_` is 0. -/
theorem complete_run_forward_refs_matched (c : Config) (h : Heap)
    (hH : MetaMapNotDeferrable h) (fuel : Nat) (roots : List Object) (s' : Serializer)
    (hrun : SerializeRun c h fuel roots = .ok s') :
    replayForwardRefs s'.sink_ { outstanding := [], next := 0, expectId := false } =
      some { outstanding := [], next := 0, expectId := false } ∧
    s'.sink_.count (SinkEntry.Put Bytecode.kRegisterPendingForwardRef) =
      s'.sink_.count (SinkEntry.Put Bytecode.kResolvePendingForwardRef) ∧
    s'.forward_refs_per_pending_object_ = [] ∧
    s'.unresolved_forward_refs_ = 0 := by
  obtain ⟨hreach, hnone, -⟩ := SerializeRun_trace c h hH fuel roots s' hrun
  have hi : WalkInv h s' := (WalkInv.initial h _).trace hreach
  have hr : ReplayInv s' :=
    ReplayInv.trace_replay (WalkInv.initial h _) (ReplayInv.initial_replay _) hreach
  have htab : s'.forward_refs_per_pending_object_ = [] := by
    cases ht : s'.forward_refs_per_pending_object_ with
    | nil => rfl
    | cons e t =>
      have := hnone e.1
      simp [Serializer.findPending, ht, List.lookup] at this
  have hout : s'.outstandingIds = [] := by
    simp [Serializer.outstandingIds, htab, idsOfTable]
  have hun : s'.unresolved_forward_refs_ = 0 := by
    rw [hi.fwd.count, hout]
    rfl
  obtain ⟨out, h1, h2⟩ := hr
  rw [hout] at h2
  have hout' : out = [] := List.Perm.eq_nil h2
  refine ⟨?_, ?_, htab, hun⟩
  · rw [h1, hout', hi.fwd.reset hout]
  · have hb := hi.balance
    rw [hun] at hb
    have hb' : ((s'.sink_.count (SinkEntry.Put Bytecode.kRegisterPendingForwardRef) : Nat) : Int) =
        ((s'.sink_.count (SinkEntry.Put Bytecode.kResolvePendingForwardRef) : Nat) : Int) := by
      simpa using hb
    exact_mod_cast hb'

/-- Witness for C3: the run from root object 1 over `chainHeap` with
recursion bound 1, in which object 2 is deferred: one register record, later
resolved with id 0. -/
theorem complete_run_forward_refs_matched_witness :
    replayForwardRefs chainRunResult.sink_ { outstanding := [], next := 0, expectId := false } =
      some { outstanding := [], next := 0, expectId := false } :=
  (complete_run_forward_refs_matched (exampleConfig 1) chainHeap chainHeap_metaMapNotDeferrable
    16 [Object.HeapObject 1] chainRunResult (by decide!)).1

/-! ## Dedup -/

theorem diamondHeap_metaMapNotDeferrable : MetaMapNotDeferrable diamondHeap := by
  intro x hx
  have hx0 : x ≠ 0 := by simpa [diamondHeap, soundHeap] using hx
  refine ⟨fun e => hx0 e.symm, fun info hk => ?_⟩
  simp [diamondHeap, soundHeap, plainHeap] at hk

theorem SerializeObject_located (c : Config) (h : Heap) (fuel : Nat) (s : Serializer)
    (x : HeapObject) (s1 : Serializer)
    (hl : (s.LookupReference (RefKey.object x)).is_valid = true)
    (hok : SerializeObject c h fuel s x = .ok s1) : SinkOnly s s1 := by
  cases fuel with
  | zero => cases hok
  | succ n =>
    rw [SerializeObject_succ] at hok
    split at hok
    · cases hok
      exact SinkOnly.SerializeRoot c h s x
    · split at hok
      · cases hok
        exact SinkOnly.SerializeHotObject s x
      · split at hok
        · cases hok
          exact SinkOnly.SerializeBackReference c h s x
        · rename_i hb
          have := SerializeBackReference_false c h s x (by simpa using hb)
          rw [this] at hl
          cases hl

/-! ## The counter of unresolved forward references -/

/-- Counterexample for C30. After object 7 is registered pending and one forward
reference to it is registered (id 0), a call of `ResolvePendingForwardReference`
for id 0 leaves `unresolved_forward_refs_` at 0 while the pending table still
stores one id. -/
theorem resolve_forward_reference_alone_breaks_count :
    (ResolvePendingForwardReference
      (PutPendingForwardReferenceTo (RegisterObjectIsPending (Serializer.initial 8) 7) 7)
      0).unresolved_forward_refs_ = 0 ∧
    (ResolvePendingForwardReference
      (PutPendingForwardReferenceTo (RegisterObjectIsPending (Serializer.initial 8) 7) 7)
      0).forward_refs_per_pending_object_ = [(7, [0])] ∧
    (ResolvePendingForwardReference
      (PutPendingForwardReferenceTo (RegisterObjectIsPending (Serializer.initial 8) 7) 7)
      0).outstandingIds.length = 1 := by
  decide

/-- C30, amended. In every state reachable from the initial state through
`RegisterObjectIsPending`, `PutPendingForwardReferenceTo` (on an existing entry)
and `ResolvePendingObject` (which calls `ResolvePendingForwardReference` once for
every id of the entry and then erases the entry), `unresolved_forward_refs_`
equals the total number of ids stored across all entries of the pending table,
so it is never negative; a call of `ResolvePendingForwardReference` on its own
lowers the counter by one and leaves the table as it is; and
`RegisterObjectIsPending` on an object that is already pending keeps the ids
registered against it and changes nothing else. -/
theorem unresolved_counts_stored_ids (s : Serializer) (hr : ForwardRefReachable s) :
    s.unresolved_forward_refs_ = s.outstandingIds.length ∧
    0 ≤ s.unresolved_forward_refs_ ∧
    (∀ id, (ResolvePendingForwardReference s id).unresolved_forward_refs_ =
        s.unresolved_forward_refs_ - 1 ∧
      (ResolvePendingForwardReference s id).forward_refs_per_pending_object_ =
        s.forward_refs_per_pending_object_) ∧
    (∀ obj ids, s.findPending obj = some ids →
      RegisterObjectIsPending s obj = s ∧
      (RegisterObjectIsPending s obj).findPending obj = some ids) := by
  have hinv := hr.inv
  refine ⟨hinv.count, ?_, ?_, ?_⟩
  · rw [hinv.count]
    exact Int.natCast_nonneg _
  · intro id
    exact ⟨ResolvePendingForwardReference_unresolved s id,
      ResolvePendingForwardReference_table s id⟩
  · intro obj ids hl
    have e : RegisterObjectIsPending s obj = s := by
      unfold RegisterObjectIsPending
      rw [hl]
    rw [e]
    exact ⟨rfl, hl⟩

/-- Witness for C30 (amended): object 7 registered pending with one forward
reference outstanding. -/
theorem unresolved_counts_stored_ids_witness :
    (PutPendingForwardReferenceTo (RegisterObjectIsPending (Serializer.initial 8) 7)
      7).unresolved_forward_refs_ =
    (PutPendingForwardReferenceTo (RegisterObjectIsPending (Serializer.initial 8) 7)
      7).outstandingIds.length :=
  (unresolved_counts_stored_ids _
    (ForwardRefReachable.put _ 7
      (ForwardRefReachable.register _ 7 (ForwardRefReachable.initial 8)) (by decide))).1

/-! ## External strings, external references, alignment and partitions -/

/-- Counterexample for C23. With unknown external references allowed and an
address the table does not encode, a target of 4 bytes (not a multiple of the
object alignment 8) is not embedded verbatim: the run aborts. -/
theorem unknown_reference_unaligned_aborts :
    testingConfig.allow_unknown_external_references_for_testing = true ∧
    plainHeap.TryEncode 4096 = none ∧
    ObjectSerializer.OutputExternalReference testingConfig plainHeap
      { object_ := 1, bytes_processed_so_far_ := 8 } (Serializer.initial 8) 4096 4 false =
      .fatal := by
  decide

/-- C23, amended. `OutputExternalReference` embeds the raw address verbatim (the
opcode `FixedRawDataWithSize::Encode(target_size >> kTaggedSizeLog2)` followed by
the `target_size` bytes of the address) exactly when the table does not encode
the address, unknown external references are allowed, and `target_size` is a
multiple of `kObjectAlignment` not above `kFixedRawDataCount * kTaggedSize`; when
the table does not encode the address and one of the other conditions fails, the
run aborts. When the address is encodable it writes the api-reference or the
external-reference opcode (the sandboxed variant exactly when
`V8_HEAP_SANDBOX_BOOL && sandboxify`) followed by the reference index. In every
non-aborting case `bytes_processed_so_far_` advances by exactly `target_size`
and nothing but the sink changes. -/
theorem OutputExternalReference_spec (c : Config) (h : Heap) (os : ObjectSerializer)
    (s : Serializer) (target target_size : Nat) (sandboxify : Bool) :
    (h.TryEncode target = none →
      (c.allow_unknown_external_references_for_testing = true ∧
          target_size % c.kObjectAlignment = 0 ∧
          target_size ≤ c.kFixedRawDataCount * c.kTaggedSize →
        ObjectSerializer.OutputExternalReference c h os s target target_size sandboxify =
          .ok ({ os with bytes_processed_so_far_ := os.bytes_processed_so_far_ + target_size },
            { s with sink_ := s.sink_ ++
                [SinkEntry.Put (Bytecode.kFixedRawData (target_size >>> c.kTaggedSizeLog2)),
                  SinkEntry.PutRaw
                    ((List.range target_size).map (fun i => (target >>> (8 * i)) % 256))] })) ∧
      (¬ (c.allow_unknown_external_references_for_testing = true ∧
          target_size % c.kObjectAlignment = 0 ∧
          target_size ≤ c.kFixedRawDataCount * c.kTaggedSize) →
        ObjectSerializer.OutputExternalReference c h os s target target_size sandboxify =
          .fatal)) ∧
    (∀ reference, h.TryEncode target = some reference →
      ObjectSerializer.OutputExternalReference c h os s target target_size sandboxify =
        .ok ({ os with bytes_processed_so_far_ := os.bytes_processed_so_far_ + target_size },
          { s with sink_ := s.sink_ ++
              [SinkEntry.Put
                (if reference.is_from_api then
                  (if c.V8_HEAP_SANDBOX_BOOL && sandboxify then Bytecode.kSandboxedApiReference
                    else Bytecode.kApiReference)
                else
                  (if c.V8_HEAP_SANDBOX_BOOL && sandboxify
                    then Bytecode.kSandboxedExternalReference
                    else Bytecode.kExternalReference)),
                SinkEntry.PutInt reference.index] })) ∧
    (∀ r, ObjectSerializer.OutputExternalReference c h os s target target_size sandboxify =
        .ok r →
      r.1.bytes_processed_so_far_ = os.bytes_processed_so_far_ + target_size) := by
  have hsome : ∀ reference, h.TryEncode target = some reference →
      ObjectSerializer.OutputExternalReference c h os s target target_size sandboxify =
        .ok ({ os with bytes_processed_so_far_ := os.bytes_processed_so_far_ + target_size },
          { s with sink_ := s.sink_ ++
              [SinkEntry.Put
                (if reference.is_from_api then
                  (if c.V8_HEAP_SANDBOX_BOOL && sandboxify then Bytecode.kSandboxedApiReference
                    else Bytecode.kApiReference)
                else
                  (if c.V8_HEAP_SANDBOX_BOOL && sandboxify
                    then Bytecode.kSandboxedExternalReference
                    else Bytecode.kExternalReference)),
                SinkEntry.PutInt reference.index] }) := by
    intro reference hr
    unfold ObjectSerializer.OutputExternalReference
    simp only [hr]
    by_cases ha : reference.is_from_api = true <;>
      by_cases hs : (c.V8_HEAP_SANDBOX_BOOL && sandboxify) = true <;>
      simp [ha, hs, Serializer.Put, Serializer.PutInt]
  have hnone : h.TryEncode target = none →
      (c.allow_unknown_external_references_for_testing = true ∧
          target_size % c.kObjectAlignment = 0 ∧
          target_size ≤ c.kFixedRawDataCount * c.kTaggedSize →
        ObjectSerializer.OutputExternalReference c h os s target target_size sandboxify =
          .ok ({ os with bytes_processed_so_far_ := os.bytes_processed_so_far_ + target_size },
            { s with sink_ := s.sink_ ++
                [SinkEntry.Put (Bytecode.kFixedRawData (target_size >>> c.kTaggedSizeLog2)),
                  SinkEntry.PutRaw
                    ((List.range target_size).map (fun i => (target >>> (8 * i)) % 256))] })) ∧
      (¬ (c.allow_unknown_external_references_for_testing = true ∧
          target_size % c.kObjectAlignment = 0 ∧
          target_size ≤ c.kFixedRawDataCount * c.kTaggedSize) →
        ObjectSerializer.OutputExternalReference c h os s target target_size sandboxify =
          .fatal) := by
    intro hr
    constructor
    · rintro ⟨h1, h2, h3⟩
      unfold ObjectSerializer.OutputExternalReference
      simp [hr, h1, h2, h3, Serializer.Put, Serializer.PutRaw]
    · intro hn
      unfold ObjectSerializer.OutputExternalReference
      simp only [hr]
      by_cases h1 : c.allow_unknown_external_references_for_testing = false
      · simp [h1]
      · by_cases h2 : target_size % c.kObjectAlignment ≠ 0
        · simp [h1, h2]
        · by_cases h3 : ¬ target_size ≤ c.kFixedRawDataCount * c.kTaggedSize
          · simp [h1, h2, h3]
          · exact (hn ⟨by simpa using h1, by simpa using h2, by simpa using h3⟩).elim
  refine ⟨hnone, hsome, ?_⟩
  intro r hok
  cases hr : h.TryEncode target with
  | none =>
    by_cases hc : c.allow_unknown_external_references_for_testing = true ∧
        target_size % c.kObjectAlignment = 0 ∧
        target_size ≤ c.kFixedRawDataCount * c.kTaggedSize
    · rw [(hnone hr).1 hc] at hok
      cases hok
      rfl
    · rw [(hnone hr).2 hc] at hok
      cases hok
  | some reference =>
    rw [hsome reference hr] at hok
    cases hok
    rfl

/-- Witness for C23 (amended): an unknown address of 8 bytes in testing mode. -/
theorem OutputExternalReference_spec_witness :
    ObjectSerializer.OutputExternalReference testingConfig plainHeap
        { object_ := 1, bytes_processed_so_far_ := 8 } (Serializer.initial 8) 4096 8 false =
      .ok ({ ({ object_ := 1, bytes_processed_so_far_ := 8 } : ObjectSerializer) with
            bytes_processed_so_far_ := (8 : Int) + (8 : Nat) },
        { Serializer.initial 8 with sink_ := (Serializer.initial 8).sink_ ++
            [SinkEntry.Put (Bytecode.kFixedRawData (8 >>> testingConfig.kTaggedSizeLog2)),
              SinkEntry.PutRaw ((List.range 8).map (fun i => (4096 >>> (8 * i)) % 256))] }) :=
  ((OutputExternalReference_spec testingConfig plainHeap
    { object_ := 1, bytes_processed_so_far_ := 8 } (Serializer.initial 8) 4096 8 false).1
    rfl).1 ⟨rfl, by decide, by decide⟩

/-- Counterexample for C25. Object 1 of `alignedHeap` requires alignment class 1
(not word alignment). Its prologue for the large-object partition allocates it
without any alignment-prefix byte: the stream holds the new-object record and
the reference to the map only, and the object receives large-object index 0.
The same prologue for the old partition does write the prefix byte. -/
theorem large_object_allocated_without_alignment_prefix :
    alignedHeap.RequiredAlignment (alignedHeap.map 1) = 1 ∧
    Result.bind
      (ObjectSerializer.SerializePrologue (exampleConfig 32) alignedHeap 2
        (Serializer.initial 8) 1 SnapshotSpace.kLargeObject 8 0)
      (fun s => .ok s.sink_) =
      .ok [SinkEntry.Put (Bytecode.kNewObject SnapshotSpace.kLargeObject), SinkEntry.PutInt 1,
        SinkEntry.Put (Bytecode.kRootArrayConstants 5)] ∧
    Result.bind
      (ObjectSerializer.SerializePrologue (exampleConfig 32) alignedHeap 2
        (Serializer.initial 8) 1 SnapshotSpace.kOld 8 0)
      (fun s => .ok s.sink_) =
      .ok [SinkEntry.Put (Bytecode.kNewObject SnapshotSpace.kOld), SinkEntry.PutInt 1,
        SinkEntry.Put (Bytecode.kRootArrayConstants 5), SinkEntry.PutByte 21] := by
  decide!

/-- C25, amended. `PutAlignmentPrefix` on an object whose map requires a
non-default alignment writes the one byte `(kAlignmentPrefix - 1) + alignment`
and returns the maximum fill for that alignment; on a word-aligned object it
writes nothing and returns 0. The allocation step of `SerializePrologue` calls
it exactly for the partitions other than large-object and map: there the prefix
byte precedes the resolve records and the allocator is asked for the size plus
the fill; for the large-object and the map partition no prefix byte is written
and the allocator is asked for a large-object index or a map index. -/
theorem PutAlignmentPrefix_spec (c : Config) (h : Heap) (s : Serializer)
    (object_ : HeapObject) (space : SnapshotSpace) (size : Nat) :
    (h.RequiredAlignment (h.map object_) ≠ 0 →
      PutAlignmentPrefix c h s object_ =
        (h.GetMaximumFillToAlign (h.RequiredAlignment (h.map object_)),
          { s with sink_ := s.sink_ ++
            [SinkEntry.PutByte ((c.kAlignmentPrefix - 1) +
              h.RequiredAlignment (h.map object_))] })) ∧
    (h.RequiredAlignment (h.map object_) = 0 → PutAlignmentPrefix c h s object_ = (0, s)) ∧
    (space ≠ SnapshotSpace.kLargeObject → space ≠ SnapshotSpace.kMap →
      ∃ r, ObjectSerializer.AllocateAndResolve c h s object_ space size = .ok r ∧
        r.1 = (s.allocator_.Allocate space
          (size + (PutAlignmentPrefix c h s object_).1)).1 ∧
        r.2.sink_ = (PutAlignmentPrefix c h s object_).2.sink_ ++
          ((s.findPending object_).getD []).flatMap (fun id =>
            [SinkEntry.Put Bytecode.kResolvePendingForwardRef, SinkEntry.PutInt id])) ∧
    (space = SnapshotSpace.kLargeObject ∨ space = SnapshotSpace.kMap →
      ∀ r, ObjectSerializer.AllocateAndResolve c h s object_ space size = .ok r →
        r.1 = (if space = SnapshotSpace.kLargeObject
          then (s.allocator_.AllocateLargeObject).1 else (s.allocator_.AllocateMap).1) ∧
        r.2.sink_ = s.sink_ ++
          ((s.findPending object_).getD []).flatMap (fun id =>
            [SinkEntry.Put Bytecode.kResolvePendingForwardRef, SinkEntry.PutInt id])) := by
  refine ⟨?_, ?_, ?_, ?_⟩
  · intro ha
    unfold PutAlignmentPrefix
    simp [ha, Serializer.PutByte]
  · intro ha
    unfold PutAlignmentPrefix
    simp [ha]
  · intro h1 h2
    refine ⟨_, AllocateAndResolve_chunked c h s object_ space size h1 h2, ?_, ?_⟩
    · have e := PutAlignmentPrefix_eq c h s object_
      have ea : (PutAlignmentPrefix c h s object_).2.allocator_ = s.allocator_ := by rw [e]
      dsimp only
      rw [ea]
    · dsimp only
      rw [ResolvePendingObject_sink]
      have e := PutAlignmentPrefix_eq c h s object_
      have ef : (PutAlignmentPrefix c h s object_).2.forward_refs_per_pending_object_ =
          s.forward_refs_per_pending_object_ := by rw [e]
      simp [Serializer.findPending, ef]
  · intro hsp r hr
    have hs := AllocateAndResolve_spec c h s object_ space size r hr
    refine ⟨?_, ?_⟩
    · rw [hs.1]
      rcases hsp with hsp | hsp <;> subst hsp <;> rfl
    · rw [hs.2.1]
      simp [hsp]

/-- Witness for C25 (amended): the old partition on `alignedHeap`. -/
theorem PutAlignmentPrefix_spec_witness :
    PutAlignmentPrefix (exampleConfig 32) alignedHeap (Serializer.initial 8) 1 =
      (alignedHeap.GetMaximumFillToAlign (alignedHeap.RequiredAlignment (alignedHeap.map 1)),
        { Serializer.initial 8 with sink_ := (Serializer.initial 8).sink_ ++
          [SinkEntry.PutByte (((exampleConfig 32).kAlignmentPrefix - 1) +
            alignedHeap.RequiredAlignment (alignedHeap.map 1))] }) :=
  (PutAlignmentPrefix_spec (exampleConfig 32) alignedHeap (Serializer.initial 8) 1
    SnapshotSpace.kOld 8).1 (by decide)

/-- C26. `GetSnapshotSpace` depends on the object only through the heap metadata
(in-code-space, read-only, size, is-a-map, owner space). In third-party-heap
mode the first matching rule among in-code-space -> code, read-only ->
read-only, size > `kMaxRegularHeapObjectSize` -> large-object, is-a-map -> map
decides, and everything else is old. Otherwise read-only objects map to
read-only, `NEW_SPACE` to old, `NEW_LO_SPACE` to large-object, and any other
owner space to itself. The result is a member of
{read-only, old, map, large-object, code} for every object except one owned by
the large-code space outside third-party-heap mode and outside the read-only
heap. -/
theorem GetSnapshotSpace_spec (c : Config) (h : Heap) (object : HeapObject) :
    (∀ h2 : Heap, h2.InCodeSpace object = h.InCodeSpace object →
      h2.ReadOnlyHeapContains object = h.ReadOnlyHeapContains object →
      h2.Size object = h.Size object → h2.IsMap object = h.IsMap object →
      h2.owner_identity object = h.owner_identity object →
      GetSnapshotSpace c h2 object = GetSnapshotSpace c h object) ∧
    (c.V8_ENABLE_THIRD_PARTY_HEAP_BOOL = true →
      GetSnapshotSpace c h object = some
        (if h.InCodeSpace object then SnapshotSpace.kCode
         else if h.ReadOnlyHeapContains object then SnapshotSpace.kReadOnlyHeap
         else if h.Size object > c.kMaxRegularHeapObjectSize then SnapshotSpace.kLargeObject
         else if h.IsMap object then SnapshotSpace.kMap
         else SnapshotSpace.kOld)) ∧
    (c.V8_ENABLE_THIRD_PARTY_HEAP_BOOL = false →
      (h.ReadOnlyHeapContains object = true →
        GetSnapshotSpace c h object = some SnapshotSpace.kReadOnlyHeap) ∧
      (h.ReadOnlyHeapContains object = false →
        (h.owner_identity object = AllocationSpace.NEW_SPACE →
          GetSnapshotSpace c h object = some SnapshotSpace.kOld) ∧
        (h.owner_identity object = AllocationSpace.NEW_LO_SPACE →
          GetSnapshotSpace c h object = some SnapshotSpace.kLargeObject) ∧
        (h.owner_identity object = AllocationSpace.RO_SPACE →
          GetSnapshotSpace c h object = some SnapshotSpace.kReadOnlyHeap) ∧
        (h.owner_identity object = AllocationSpace.OLD_SPACE →
          GetSnapshotSpace c h object = some SnapshotSpace.kOld) ∧
        (h.owner_identity object = AllocationSpace.CODE_SPACE →
          GetSnapshotSpace c h object = some SnapshotSpace.kCode) ∧
        (h.owner_identity object = AllocationSpace.MAP_SPACE →
          GetSnapshotSpace c h object = some SnapshotSpace.kMap) ∧
        (h.owner_identity object = AllocationSpace.LO_SPACE →
          GetSnapshotSpace c h object = some SnapshotSpace.kLargeObject))) ∧
    (GetSnapshotSpace c h object = none ↔
      c.V8_ENABLE_THIRD_PARTY_HEAP_BOOL = false ∧ h.ReadOnlyHeapContains object = false ∧
        h.owner_identity object = AllocationSpace.CODE_LO_SPACE) := by
  refine ⟨?_, ?_, ?_, ?_⟩
  · intro h2 e1 e2 e3 e4 e5
    unfold GetSnapshotSpace
    rw [e1, e2, e3, e4, e5]
  · intro ht
    unfold GetSnapshotSpace
    simp only [ht, if_true]
    split_ifs <;> rfl
  · intro ht
    refine ⟨?_, ?_⟩
    · intro hro
      unfold GetSnapshotSpace
      simp [ht, hro]
    · intro hro
      refine ⟨?_, ?_, ?_, ?_, ?_, ?_, ?_⟩ <;>
      · intro ho
        unfold GetSnapshotSpace
        simp [ht, hro, ho, SnapshotSpace.ofAllocationSpace]
  · unfold GetSnapshotSpace
    cases ht : c.V8_ENABLE_THIRD_PARTY_HEAP_BOOL
    · cases hro : h.ReadOnlyHeapContains object
      · cases ho : h.owner_identity object <;>
          simp [SnapshotSpace.ofAllocationSpace]
      · simp
    · simp only [if_true]
      split_ifs <;> simp

/-- Witness for C26: an old-space object of the plain heap outside
third-party-heap mode. -/
theorem GetSnapshotSpace_spec_witness :
    GetSnapshotSpace { exampleConfig 32 with V8_ENABLE_THIRD_PARTY_HEAP_BOOL := false }
      plainHeap 1 = some SnapshotSpace.kOld :=
  (((GetSnapshotSpace_spec { exampleConfig 32 with V8_ENABLE_THIRD_PARTY_HEAP_BOOL := false }
    plainHeap 1).2.2.1 rfl).2 rfl).2.2.2.1 rfl

/-! ## The synthesized sequential string -/

theorem foldl_PutByte_sink (l : List Nat) (s : Serializer) :
    l.foldl Serializer.PutByte s = { s with sink_ := s.sink_ ++ l.map SinkEntry.PutByte } := by
  induction l generalizing s with
  | nil => simp
  | cons b l ih =>
    rw [List.foldl_cons, ih]
    simp [Serializer.PutByte]

theorem SeqStringSizeFor_bounds (c : Config) (content_size : Nat)
    (hA : 0 < c.kObjectAlignment) :
    c.kSeqStringHeaderSize + content_size ≤ SeqStringSizeFor c content_size ∧
    SeqStringSizeFor c content_size <
      c.kSeqStringHeaderSize + content_size + c.kObjectAlignment := by
  unfold SeqStringSizeFor
  have h1 := Nat.div_add_mod (c.kSeqStringHeaderSize + content_size + (c.kObjectAlignment - 1))
    c.kObjectAlignment
  have h2 := Nat.mod_lt (c.kSeqStringHeaderSize + content_size + (c.kObjectAlignment - 1)) hA
  rw [Nat.mul_comm] at h1
  constructor <;> omega

theorem OutputSequentialString_eq (c : Config) (h : Heap) (s : Serializer)
    (object_ : HeapObject) (info : ExternalStringInfo) :
    ObjectSerializer.OutputSequentialString c h s object_ (info.allocation_size c)
        info.content_size info.resource_data =
      { s with sink_ := s.sink_ ++
        [SinkEntry.Put Bytecode.kVariableRawData,
          SinkEntry.PutInt ((info.allocation_size c : Int) - c.kHeapObjectHeaderSize)] ++
        sequentialStringPayload c h object_ info } := by
  unfold ObjectSerializer.OutputSequentialString sequentialStringPayload
  simp only [foldl_PutByte_sink]
  simp [Serializer.Put, Serializer.PutInt, Serializer.PutRaw, List.map_replicate]

/-- C22. `SerializeExternalStringAsSequentialString` on an external string of
length L runs the prologue for the partition that is large-object exactly when
`allocation_size > kMaxRegularHeapObjectSize` and old otherwise, with
`allocation_size` the sequential-string size for L, and then writes one
variable raw-data record of declared length `allocation_size - kHeaderSize`
whose payload is the string header bytes after the map, then the
`L * character-size` content bytes of the resource, then `padding_size` zero
bytes. The payload has exactly the declared length, and
`0 <= padding_size < kObjectAlignment`. -/
theorem SerializeExternalStringAsSequentialString_spec (c : Config) (h : Heap) (fuel : Nat)
    (s : Serializer) (object_ : HeapObject) (info : ExternalStringInfo)
    (hA : 0 < c.kObjectAlignment)
    (hH : c.kHeapObjectHeaderSize ≤ c.kSeqStringHeaderSize)
    (hres : info.content_size ≤ info.resource_data.length) :
    ObjectSerializer.SerializeExternalStringAsSequentialString c h (fuel + 1) s object_ info =
      Result.bind
        (ObjectSerializer.SerializePrologue c h fuel s object_
          (if info.allocation_size c > c.kMaxRegularHeapObjectSize
            then SnapshotSpace.kLargeObject else SnapshotSpace.kOld)
          (info.allocation_size c) (SequentialStringMap h info))
        (fun s1 => .ok { s1 with sink_ := s1.sink_ ++
          [SinkEntry.Put Bytecode.kVariableRawData,
            SinkEntry.PutInt ((info.allocation_size c : Int) - c.kHeapObjectHeaderSize)] ++
          sequentialStringPayload c h object_ info }) ∧
    info.allocation_size c = SeqStringSizeFor c
      (info.length * (if info.IsExternalOneByteString then 1 else 2)) ∧
    (sequentialStringPayload c h object_ info).flatMap SinkEntry.dataBytes =
      (List.range (c.kSeqStringHeaderSize - c.kHeapObjectHeaderSize)).map
          (fun i => h.byteAt object_ (c.kHeapObjectHeaderSize + i)) ++
        info.resource_data.take info.content_size ++
        List.replicate (info.allocation_size c - c.kSeqStringHeaderSize - info.content_size)
          0 ∧
    ((sequentialStringPayload c h object_ info).flatMap SinkEntry.dataBytes).length =
      info.allocation_size c - c.kHeapObjectHeaderSize ∧
    (info.resource_data.take info.content_size).length =
      info.length * (if info.IsExternalOneByteString then 1 else 2) ∧
    info.allocation_size c - c.kSeqStringHeaderSize - info.content_size <
      c.kObjectAlignment ∧
    c.kSeqStringHeaderSize + info.content_size +
      (info.allocation_size c - c.kSeqStringHeaderSize - info.content_size) =
      info.allocation_size c := by
  have hb := SeqStringSizeFor_bounds c info.content_size hA
  have hcs : info.content_size =
      info.length * (if info.IsExternalOneByteString then 1 else 2) := by
    unfold ExternalStringInfo.content_size
    split <;> rfl
  have hflat : (sequentialStringPayload c h object_ info).flatMap SinkEntry.dataBytes =
      (List.range (c.kSeqStringHeaderSize - c.kHeapObjectHeaderSize)).map
          (fun i => h.byteAt object_ (c.kHeapObjectHeaderSize + i)) ++
        info.resource_data.take info.content_size ++
        List.replicate (info.allocation_size c - c.kSeqStringHeaderSize - info.content_size)
          0 := by
    unfold sequentialStringPayload
    have e1 : ∀ l : List Nat, (l.map SinkEntry.PutByte).flatMap SinkEntry.dataBytes = l := by
      intro l
      induction l with
      | nil => rfl
      | cons b l ih => simp [List.flatMap_cons, SinkEntry.dataBytes, ih]
    have e2 : ∀ n : Nat, (List.replicate n (SinkEntry.PutByte 0)).flatMap SinkEntry.dataBytes =
        List.replicate n 0 := by
      intro n
      have := e1 (List.replicate n 0)
      rwa [List.map_replicate] at this
    have e3 : (List.range (c.kSeqStringHeaderSize - c.kHeapObjectHeaderSize)).map
        (fun i => SinkEntry.PutByte (h.byteAt object_ (c.kHeapObjectHeaderSize + i))) =
        ((List.range (c.kSeqStringHeaderSize - c.kHeapObjectHeaderSize)).map
          (fun i => h.byteAt object_ (c.kHeapObjectHeaderSize + i))).map SinkEntry.PutByte := by
      rw [List.map_map]
      rfl
    rw [List.flatMap_append, List.flatMap_append, e3, e1, e2]
    simp [List.flatMap_cons, SinkEntry.dataBytes]
  refine ⟨?_, ?_, hflat, ?_, ?_, ?_, ?_⟩
  · rw [SerializeExternalStringAsSequentialString_succ]
    have e := fun s1 => OutputSequentialString_eq c h s1 object_ info
    unfold ExternalStringInfo.allocation_size ExternalStringInfo.content_size at e ⊢
    simp only [e]
  · unfold ExternalStringInfo.allocation_size
    rw [hcs]
  · rw [hflat]
    simp only [List.length_append, List.length_map, List.length_range, List.length_take,
      List.length_replicate]
    unfold ExternalStringInfo.allocation_size
    omega
  · rw [List.length_take, ← hcs]
    omega
  · unfold ExternalStringInfo.allocation_size
    omega
  · unfold ExternalStringInfo.allocation_size
    omega

/-- Witness for C22: a one-byte external string of three characters under the
example configuration (allocation size 24, padding 5). -/
theorem SerializeExternalStringAsSequentialString_spec_witness :
    ((sequentialStringPayload (exampleConfig 32) plainHeap 1 abcString).flatMap
        SinkEntry.dataBytes).length =
      abcString.allocation_size (exampleConfig 32) - (exampleConfig 32).kHeapObjectHeaderSize :=
  (SerializeExternalStringAsSequentialString_spec (exampleConfig 32) plainHeap 3
    (Serializer.initial 8) 1 abcString (by decide) (by decide) (by decide)).2.2.2.1

/-! ## Padding -/

theorem Position_append_nops (intSize : Int → Nat) (s : Serializer) (n : Nat) :
    Serializer.Position intSize
        { s with sink_ := s.sink_ ++ List.replicate n (SinkEntry.Put Bytecode.kNop) } =
      Serializer.Position intSize s + n := by
  unfold Serializer.Position
  simp [List.map_replicate, SinkEntry.byteSize]

theorem Pad_loop_nops (intSize : Int → Nat) (A : Nat) (k : Int) (m : Nat) :
    ∀ (fuel : Nat) (s : Serializer), m < fuel →
      ((Serializer.Position intSize s : Int) + m + k) % (A : Int) = 0 →
      (∀ j, j < m → ((Serializer.Position intSize s : Int) + j + k) % (A : Int) ≠ 0) →
      Pad.loop intSize A k fuel s =
        .ok { s with sink_ := s.sink_ ++ List.replicate m (SinkEntry.Put Bytecode.kNop) } := by
  induction m with
  | zero =>
    intro fuel s hf h0 _
    obtain ⟨f, rfl⟩ : ∃ f, fuel = f + 1 := ⟨fuel - 1, by omega⟩
    unfold Pad.loop
    have h0' : ((Serializer.Position intSize s : Int) + k) % (A : Int) = 0 := by
      simpa using h0
    rw [if_neg (by simpa using h0')]
    simp
  | succ m ih =>
    intro fuel s hf h0 hmin
    obtain ⟨f, rfl⟩ : ∃ f, fuel = f + 1 := ⟨fuel - 1, by omega⟩
    unfold Pad.loop
    have h1 : ((Serializer.Position intSize s : Int) + k) % (A : Int) ≠ 0 := by
      have := hmin 0 (by omega)
      simpa using this
    rw [if_pos h1]
    have hp : Serializer.Position intSize (s.Put Bytecode.kNop) =
        Serializer.Position intSize s + 1 := by
      have := Position_append_nops intSize s 1
      simpa [Serializer.Put] using this
    rw [ih f (s.Put Bytecode.kNop) (by omega)]
    · simp [Serializer.Put, List.replicate_succ]
    · rw [hp]
      have e : (((Serializer.Position intSize s + 1 : Nat) : Int) + (m : Int) + k) =
          (Serializer.Position intSize s : Int) + ((m + 1 : Nat) : Int) + k := by
        push_cast
        ring
      rw [e]
      exact h0
    · intro j hj
      rw [hp]
      have e : (((Serializer.Position intSize s + 1 : Nat) : Int) + (j : Int) + k) =
          (Serializer.Position intSize s : Int) + ((j + 1 : Nat) : Int) + k := by
        push_cast
        ring
      rw [e]
      exact hmin (j + 1) (by omega)

theorem aligned_offset_exists (x : Int) (A : Nat) (hA : 0 < A) :
    ∃ j : Nat, j < A ∧ (x + j) % (A : Int) = 0 := by
  have hA' : (A : Int) ≠ 0 := by omega
  have h1 : 0 ≤ (-x) % (A : Int) := Int.emod_nonneg _ hA'
  have h2 : (-x) % (A : Int) < A := Int.emod_lt_of_pos _ (by omega)
  refine ⟨((-x) % (A : Int)).toNat, by omega, ?_⟩
  have e : ((((-x) % (A : Int)).toNat : Nat) : Int) = (-x) % (A : Int) := Int.toNat_of_nonneg h1
  rw [e, Int.add_emod, Int.emod_emod_of_dvd _ (dvd_refl _), ← Int.add_emod]
  simp

/-- C24. For every sink position and padding offset `k`, `Pad(k)` returns (the
loop needs at most `kPointerAlignment` turns) and appends only nop bytes, at
least 3 of them and at most `3 + kPointerAlignment - 1`; afterwards
`Position() + k` is a multiple of `kPointerAlignment`, so with `k = 0` the final
length is pointer-aligned. -/
theorem Pad_spec (intSize : Int → Nat) (kPointerAlignment fuel : Nat) (s : Serializer)
    (padding_offset : Int) (hA : 0 < kPointerAlignment) (hf : kPointerAlignment ≤ fuel) :
    ∃ n r, 3 ≤ n ∧ n ≤ 3 + kPointerAlignment - 1 ∧
      Pad intSize kPointerAlignment fuel s padding_offset = .ok r ∧
      r = { s with sink_ := s.sink_ ++ List.replicate n (SinkEntry.Put Bytecode.kNop) } ∧
      Serializer.Position intSize r = Serializer.Position intSize s + n ∧
      ((Serializer.Position intSize r : Int) + padding_offset) % (kPointerAlignment : Int) = 0 ∧
      (padding_offset = 0 → Serializer.Position intSize r % kPointerAlignment = 0) := by
  have hs1 : (List.range (4 - 1)).foldl (fun s _ => s.Put Bytecode.kNop) s =
      { s with sink_ := s.sink_ ++ List.replicate 3 (SinkEntry.Put Bytecode.kNop) } := by
    simp [List.range_succ, Serializer.Put, List.replicate_succ]
  have hp1 := Position_append_nops intSize s 3
  have hex := aligned_offset_exists
    ((Serializer.Position intSize s : Int) + 3 + padding_offset) kPointerAlignment hA
  classical
  have hex2 : ∃ j : Nat,
      ((Serializer.Position intSize s : Int) + 3 + padding_offset + j) %
        (kPointerAlignment : Int) = 0 := by
    obtain ⟨j, _, hj⟩ := hex
    exact ⟨j, hj⟩
  have hspec := Nat.find_spec hex2
  have hle : Nat.find hex2 < kPointerAlignment := by
    obtain ⟨j, hj1, hj2⟩ := hex
    exact lt_of_le_of_lt (Nat.find_min' hex2 hj2) hj1
  have hmin : ∀ j, j < Nat.find hex2 →
      ((Serializer.Position intSize s : Int) + 3 + padding_offset + j) %
        (kPointerAlignment : Int) ≠ 0 := fun j hj => Nat.find_min hex2 hj
  generalize Nat.find hex2 = m at hspec hle hmin
  have hloop := Pad_loop_nops intSize kPointerAlignment padding_offset m fuel
    { s with sink_ := s.sink_ ++ List.replicate 3 (SinkEntry.Put Bytecode.kNop) }
    (by omega)
    (by
      rw [hp1]
      have e : (((Serializer.Position intSize s + 3 : Nat) : Int) + (m : Int) +
          padding_offset) =
          (Serializer.Position intSize s : Int) + 3 + padding_offset + m := by
        push_cast
        ring
      rw [e]
      exact hspec)
    (by
      intro j hj
      rw [hp1]
      have e : (((Serializer.Position intSize s + 3 : Nat) : Int) + (j : Int) +
          padding_offset) =
          (Serializer.Position intSize s : Int) + 3 + padding_offset + j := by
        push_cast
        ring
      rw [e]
      exact hmin j hj)
  have hpos := Position_append_nops intSize s (3 + m)
  have hal : ((Serializer.Position intSize
      { s with sink_ := s.sink_ ++ List.replicate (3 + m) (SinkEntry.Put Bytecode.kNop) } :
        Int) + padding_offset) % (kPointerAlignment : Int) = 0 := by
    rw [hpos]
    have e : (((Serializer.Position intSize s + (3 + m) : Nat) : Int) + padding_offset) =
        (Serializer.Position intSize s : Int) + 3 + padding_offset + m := by
      push_cast
      ring
    rw [e]
    exact hspec
  refine ⟨3 + m, _, by omega, by omega, ?_, rfl, hpos, hal, ?_⟩
  · unfold Pad
    dsimp only
    rw [hs1, hloop]
    simp [List.replicate_add]
  · intro hk
    rw [hk, add_zero] at hal
    exact_mod_cast hal

/-- Witness for C24: padding the empty sink to 8-byte alignment writes 8 nops. -/
theorem Pad_spec_witness :
    ∃ n r, 3 ≤ n ∧ n ≤ 3 + 8 - 1 ∧
      Pad (fun _ => 1) 8 8 (Serializer.initial 8) 0 = .ok r ∧
      r = { Serializer.initial 8 with
        sink_ := (Serializer.initial 8).sink_ ++ List.replicate n (SinkEntry.Put Bytecode.kNop) } ∧
      Serializer.Position (fun _ => 1) r = Serializer.Position (fun _ => 1)
        (Serializer.initial 8) + n ∧
      ((Serializer.Position (fun _ => 1) r : Int) + 0) % ((8 : Nat) : Int) = 0 ∧
      ((0 : Int) = 0 → Serializer.Position (fun _ => 1) r % 8 = 0) :=
  Pad_spec (fun _ => 1) 8 8 (Serializer.initial 8) 0 (by decide) (by decide)

/-! ## Raw data with a substituted field, byte by byte -/

theorem range_map_getD_eq_take (fv : List Nat) :
    ∀ n, n ≤ fv.length → (List.range n).map (fun i => fv.getD i 0) = fv.take n := by
  induction fv with
  | nil =>
    intro n hn
    have : n = 0 := by simpa using hn
    subst this
    rfl
  | cons x xs ih =>
    intro n hn
    cases n with
    | zero => rfl
    | succ n =>
      rw [List.range_succ_eq_map, List.map_cons, List.map_map, List.take_succ_cons]
      have := ih n (by simpa using hn)
      simp only [List.getD_cons_zero]
      congr 1

theorem customField_bytes (h : Heap) (obj : HeapObject) (w fo fs b : Nat)
    (fv : List Nat) (h1 : w ≤ fo) (h2 : fo + fs ≤ w + b) (hfv : fs ≤ fv.length) :
    h.ReadBytes obj w (fo - w) ++ fv.take fs ++
        h.ReadBytes obj (fo + fs) (w + b - (fo + fs)) =
      (List.range b).map (fun i =>
        if fo ≤ w + i ∧ w + i < fo + fs then fv.getD (w + i - fo) 0
        else h.byteAt obj (w + i)) := by
  have hb : b = (fo - w) + (fs + (w + b - (fo + fs))) := by omega
  conv_rhs => rw [hb]
  simp only [List.range_add, List.map_append, List.map_map, List.append_assoc]
  unfold Heap.ReadBytes
  congr 1
  · apply List.map_congr_left
    intro i hi
    have hi' := List.mem_range.1 hi
    rw [if_neg (by omega)]
  · congr 1
    · rw [← range_map_getD_eq_take fv fs hfv]
      apply List.map_congr_left
      intro i hi
      have hi' := List.mem_range.1 hi
      simp only [Function.comp]
      rw [if_pos (by omega)]
      congr 1
      omega
    · apply List.map_congr_left
      intro i hi
      have hi' := List.mem_range.1 hi
      simp only [Function.comp]
      rw [if_neg (by omega)]
      congr 1
      omega

theorem OutputRawWithCustomField_in_range (h : Heap) (s : Serializer) (obj : HeapObject)
    (written_so_far bytes_to_write : Int) (field_offset field_size : Nat)
    (field_value : List Nat) (h0 : 0 ≤ written_so_far)
    (h1 : written_so_far ≤ field_offset)
    (h2 : (field_offset : Int) < written_so_far + bytes_to_write) :
    OutputRawWithCustomField h s obj written_so_far bytes_to_write field_offset field_size
        field_value =
      { s with sink_ := s.sink_ ++
          [SinkEntry.PutRaw (h.ReadBytes obj written_so_far.toNat
              (field_offset - written_so_far.toNat)),
            SinkEntry.PutRaw (field_value.take field_size),
            SinkEntry.PutRaw (h.ReadBytes obj (field_offset + field_size)
              (written_so_far.toNat + bytes_to_write.toNat - (field_offset + field_size)))] } := by
  unfold OutputRawWithCustomField
  dsimp only
  rw [if_pos ⟨by omega, by omega⟩]
  have e1 : ((field_offset : Int) - written_so_far).toNat =
      field_offset - written_so_far.toNat := by omega
  have e2 : (written_so_far + ((field_offset : Int) - written_so_far + field_size)).toNat =
      field_offset + field_size := by omega
  have e3 : (bytes_to_write - ((field_offset : Int) - written_so_far + field_size)).toNat =
      written_so_far.toNat + bytes_to_write.toNat - (field_offset + field_size) := by omega
  rw [e1, e2, e3]
  simp [Serializer.PutRaw]

theorem OutputRawWithCustomField_out_of_range (h : Heap) (s : Serializer) (obj : HeapObject)
    (written_so_far bytes_to_write : Int) (field_offset field_size : Nat)
    (field_value : List Nat)
    (h1 : (field_offset : Int) < written_so_far ∨
      written_so_far + bytes_to_write ≤ field_offset) :
    OutputRawWithCustomField h s obj written_so_far bytes_to_write field_offset field_size
        field_value =
      { s with sink_ := s.sink_ ++
          [SinkEntry.PutRaw (h.ReadBytes obj written_so_far.toNat bytes_to_write.toNat)] } := by
  unfold OutputRawWithCustomField
  dsimp only
  rw [if_neg (by omega)]
  rfl

theorem OutputRawWithCustomField_payload (h : Heap) (s : Serializer) (obj : HeapObject)
    (written_so_far bytes_to_write : Int) (field_offset field_size : Nat)
    (field_value : List Nat) (h0 : 0 ≤ written_so_far) (hb : 0 ≤ bytes_to_write)
    (hfv : field_size ≤ field_value.length)
    (hD : written_so_far ≤ field_offset →
      (field_offset : Int) < written_so_far + bytes_to_write →
      (field_offset : Int) + field_size ≤ written_so_far + bytes_to_write) :
    ∃ t, OutputRawWithCustomField h s obj written_so_far bytes_to_write field_offset
          field_size field_value = { s with sink_ := s.sink_ ++ t } ∧
      (∀ e, e ∈ t → ∃ d, e = SinkEntry.PutRaw d) ∧
      (t.flatMap SinkEntry.dataBytes).length = bytes_to_write.toNat := by
  by_cases hin : written_so_far ≤ field_offset ∧
      (field_offset : Int) < written_so_far + bytes_to_write
  · have hd := hD hin.1 hin.2
    refine ⟨_, OutputRawWithCustomField_in_range h s obj written_so_far bytes_to_write
      field_offset field_size field_value h0 hin.1 hin.2, ?_, ?_⟩
    · intro e he
      simp only [List.mem_cons, List.mem_singleton, List.not_mem_nil, or_false] at he
      rcases he with rfl | rfl | rfl <;> exact ⟨_, rfl⟩
    · have hc := customField_bytes h obj written_so_far.toNat field_offset field_size
        bytes_to_write.toNat field_value (by omega) (by omega) hfv
      have : ([SinkEntry.PutRaw (h.ReadBytes obj written_so_far.toNat
              (field_offset - written_so_far.toNat)),
            SinkEntry.PutRaw (field_value.take field_size),
            SinkEntry.PutRaw (h.ReadBytes obj (field_offset + field_size)
              (written_so_far.toNat + bytes_to_write.toNat - (field_offset + field_size)))]
          ).flatMap SinkEntry.dataBytes =
          h.ReadBytes obj written_so_far.toNat (field_offset - written_so_far.toNat) ++
            field_value.take field_size ++
            h.ReadBytes obj (field_offset + field_size)
              (written_so_far.toNat + bytes_to_write.toNat - (field_offset + field_size)) := by
        simp [List.flatMap_cons, SinkEntry.dataBytes]
      rw [this, hc]
      simp
  · refine ⟨_, OutputRawWithCustomField_out_of_range h s obj written_so_far bytes_to_write
      field_offset field_size field_value (by omega), ?_, ?_⟩
    · intro e he
      simp only [List.mem_singleton] at he
      exact ⟨_, he⟩
    · simp [List.flatMap_cons, SinkEntry.dataBytes, Heap.ReadBytes]

/-- C27. For a byte range `[written_so_far, written_so_far + bytes_to_write)` of
an object and a field of `field_size` bytes at `field_offset` that lies entirely
inside the range, `OutputRawWithCustomField` writes only raw bytes, exactly
`bytes_to_write` of them, equal to the object's byte at every position except
the field positions, where they are the bytes of `field_value`; when
`field_offset` lies outside the range the output is the object's bytes
unchanged. -/
theorem OutputRawWithCustomField_spec (h : Heap) (s : Serializer) (obj : HeapObject)
    (written_so_far bytes_to_write : Int) (field_offset field_size : Nat)
    (field_value : List Nat) (h0 : 0 ≤ written_so_far)
    (hfv : field_size ≤ field_value.length) :
    (written_so_far ≤ field_offset →
      (field_offset : Int) < written_so_far + bytes_to_write →
      (field_offset : Int) + field_size ≤ written_so_far + bytes_to_write →
      ∃ t, OutputRawWithCustomField h s obj written_so_far bytes_to_write field_offset
            field_size field_value = { s with sink_ := s.sink_ ++ t } ∧
        (∀ e, e ∈ t → ∃ d, e = SinkEntry.PutRaw d) ∧
        t.flatMap SinkEntry.dataBytes =
          (List.range bytes_to_write.toNat).map (fun i =>
            if field_offset ≤ written_so_far.toNat + i ∧
                written_so_far.toNat + i < field_offset + field_size then
              field_value.getD (written_so_far.toNat + i - field_offset) 0
            else h.byteAt obj (written_so_far.toNat + i)) ∧
        (t.flatMap SinkEntry.dataBytes).length = bytes_to_write.toNat) ∧
    ((field_offset : Int) < written_so_far ∨
        written_so_far + bytes_to_write ≤ field_offset →
      OutputRawWithCustomField h s obj written_so_far bytes_to_write field_offset
          field_size field_value =
        { s with sink_ := s.sink_ ++
          [SinkEntry.PutRaw ((List.range bytes_to_write.toNat).map
            (fun i => h.byteAt obj (written_so_far.toNat + i)))] }) := by
  constructor
  · intro h1 h2 h3
    have hc := customField_bytes h obj written_so_far.toNat field_offset field_size
      bytes_to_write.toNat field_value (by omega) (by omega) hfv
    have hflat : ([SinkEntry.PutRaw (h.ReadBytes obj written_so_far.toNat
            (field_offset - written_so_far.toNat)),
          SinkEntry.PutRaw (field_value.take field_size),
          SinkEntry.PutRaw (h.ReadBytes obj (field_offset + field_size)
            (written_so_far.toNat + bytes_to_write.toNat - (field_offset + field_size)))]
        ).flatMap SinkEntry.dataBytes =
        h.ReadBytes obj written_so_far.toNat (field_offset - written_so_far.toNat) ++
          field_value.take field_size ++
          h.ReadBytes obj (field_offset + field_size)
            (written_so_far.toNat + bytes_to_write.toNat - (field_offset + field_size)) := by
      simp [List.flatMap_cons, SinkEntry.dataBytes]
    refine ⟨_, OutputRawWithCustomField_in_range h s obj written_so_far bytes_to_write
      field_offset field_size field_value h0 h1 h2, ?_, ?_, ?_⟩
    · intro e he
      simp only [List.mem_cons, List.mem_singleton, List.not_mem_nil, or_false] at he
      rcases he with rfl | rfl | rfl <;> exact ⟨_, rfl⟩
    · rw [hflat, hc]
    · rw [hflat, hc]
      simp
  · intro h1
    exact OutputRawWithCustomField_out_of_range h s obj written_so_far bytes_to_write
      field_offset field_size field_value h1

/-- Witness for C27: bytes 48..63 of a bytecode array with the age byte at 53
replaced by 0. -/
theorem OutputRawWithCustomField_spec_witness :
    ∃ t, OutputRawWithCustomField (agedHeap 7) (Serializer.initial 8) 1 48 16 53 1 [0] =
          { Serializer.initial 8 with sink_ := (Serializer.initial 8).sink_ ++ t } ∧
      (∀ e, e ∈ t → ∃ d, e = SinkEntry.PutRaw d) ∧
      t.flatMap SinkEntry.dataBytes =
        (List.range (16 : Int).toNat).map (fun i =>
          if 53 ≤ (48 : Int).toNat + i ∧ (48 : Int).toNat + i < 53 + 1 then
            [0].getD ((48 : Int).toNat + i - 53) 0
          else (agedHeap 7).byteAt 1 ((48 : Int).toNat + i)) ∧
      (t.flatMap SinkEntry.dataBytes).length = (16 : Int).toNat :=
  (OutputRawWithCustomField_spec (agedHeap 7) (Serializer.initial 8) 1 48 16 53 1 [0]
    (by decide) (by decide)).1 (by decide) (by decide) (by decide)

/-! ## One raw-data record per flush -/

/-- Counterexample for C28. For a descriptor array with `bytes_processed_so_far_`
8 and `up_to` at offset 15, in the middle of the two-byte field at offset 14,
`OutputRawData` declares `n = 7` bytes (variable form) and writes 8: the six
object bytes in front of the field and the two bytes of the field value. -/
theorem descriptor_field_straddling_record_end :
    (ObjectSerializer.OutputRawData (exampleConfig 32) descriptorHeap
        { object_ := 1, bytes_processed_so_far_ := 8 } (Serializer.initial 8) 15).2.sink_ =
      [SinkEntry.Put Bytecode.kVariableRawData, SinkEntry.PutInt 7,
        SinkEntry.PutRaw [8, 9, 10, 11, 12, 13], SinkEntry.PutRaw [0, 0],
        SinkEntry.PutRaw []] ∧
    (((ObjectSerializer.OutputRawData (exampleConfig 32) descriptorHeap
        { object_ := 1, bytes_processed_so_far_ := 8 } (Serializer.initial 8) 15).2.sink_
      ).flatMap SinkEntry.dataBytes).length = 8 := by
  decide

/-- C28, amended. Let `n = up_to_offset - bytes_processed_so_far_` with `up_to` at or
after the current position. `OutputRawData` leaves the sink as it is when
`n = 0`; otherwise it writes exactly one raw-data record: the header, which is
the fixed form `FixedRawDataWithSize(n / kTaggedSize)` (declaring `n` bytes)
exactly when `n` is a multiple of `kObjectAlignment` and
`n <= kFixedRawDataCount * kTaggedSize`, and the variable form
`(kVariableRawData, n)` otherwise, followed by raw bytes only, `n` of them.
Afterwards `bytes_processed_so_far_` equals `up_to_offset`. The substituted
two-byte field of a descriptor array must not straddle the end of the range
(the `DCHECK_GE` of `OutputRawWithCustomField`). -/
theorem OutputRawData_spec (c : Config) (h : Heap) (os : ObjectSerializer) (s : Serializer)
    (up_to_offset : Int) (h0 : 0 ≤ os.bytes_processed_so_far_)
    (hle : os.bytes_processed_so_far_ ≤ up_to_offset)
    (hT : c.kTaggedSize = 2 ^ c.kTaggedSizeLog2)
    (hAT : c.kTaggedSize ∣ c.kObjectAlignment)
    (hD : h.kind os.object_ = InstanceKind.descriptorArray →
      os.bytes_processed_so_far_ ≤ c.kRawNumberOfMarkedDescriptorsOffset →
      (c.kRawNumberOfMarkedDescriptorsOffset : Int) < up_to_offset →
      (c.kRawNumberOfMarkedDescriptorsOffset : Int) + 2 ≤ up_to_offset) :
    (ObjectSerializer.OutputRawData c h os s up_to_offset).1 =
      { os with bytes_processed_so_far_ := up_to_offset } ∧
    (up_to_offset = os.bytes_processed_so_far_ →
      (ObjectSerializer.OutputRawData c h os s up_to_offset).2 = s) ∧
    (up_to_offset ≠ os.bytes_processed_so_far_ →
      ∃ payload, (ObjectSerializer.OutputRawData c h os s up_to_offset).2 =
          { s with sink_ := s.sink_ ++
            rawDataHeader c (up_to_offset - os.bytes_processed_so_far_) ++ payload } ∧
        (∀ e, e ∈ payload → ∃ d, e = SinkEntry.PutRaw d) ∧
        (payload.flatMap SinkEntry.dataBytes).length =
          (up_to_offset - os.bytes_processed_so_far_).toNat) ∧
    ((up_to_offset - os.bytes_processed_so_far_) % c.kObjectAlignment = 0 ∧
        up_to_offset - os.bytes_processed_so_far_ ≤ c.kFixedRawDataCount * c.kTaggedSize →
      rawDataHeader c (up_to_offset - os.bytes_processed_so_far_) =
        [SinkEntry.Put (Bytecode.kFixedRawData
          ((up_to_offset - os.bytes_processed_so_far_).toNat / c.kTaggedSize))] ∧
      (up_to_offset - os.bytes_processed_so_far_).toNat / c.kTaggedSize * c.kTaggedSize =
        (up_to_offset - os.bytes_processed_so_far_).toNat) ∧
    (¬ ((up_to_offset - os.bytes_processed_so_far_) % c.kObjectAlignment = 0 ∧
        up_to_offset - os.bytes_processed_so_far_ ≤ c.kFixedRawDataCount * c.kTaggedSize) →
      rawDataHeader c (up_to_offset - os.bytes_processed_so_far_) =
        [SinkEntry.Put Bytecode.kVariableRawData,
          SinkEntry.PutInt (up_to_offset - os.bytes_processed_so_far_)]) := by
  have hsum : os.bytes_processed_so_far_ + (up_to_offset - os.bytes_processed_so_far_) =
      up_to_offset := by omega
  refine ⟨?_, ?_, ?_, ?_, ?_⟩
  · unfold ObjectSerializer.OutputRawData
    dsimp only
    rw [hsum]
    split
    · split <;> rfl
    · rfl
  · intro he
    unfold ObjectSerializer.OutputRawData
    dsimp only
    rw [if_neg (by omega)]
  · intro hne
    have hn : up_to_offset - os.bytes_processed_so_far_ ≠ 0 := by omega
    have hs1 : (if (up_to_offset - os.bytes_processed_so_far_) % c.kObjectAlignment = 0 ∧
          up_to_offset - os.bytes_processed_so_far_ ≤ c.kFixedRawDataCount * c.kTaggedSize then
          s.Put (Bytecode.kFixedRawData
            ((up_to_offset - os.bytes_processed_so_far_).toNat >>> c.kTaggedSizeLog2))
        else
          (s.Put Bytecode.kVariableRawData).PutInt
            (up_to_offset - os.bytes_processed_so_far_)) =
        { s with sink_ := s.sink_ ++
          rawDataHeader c (up_to_offset - os.bytes_processed_so_far_) } := by
      unfold rawDataHeader
      split <;> simp [Serializer.Put, Serializer.PutInt]
    unfold ObjectSerializer.OutputRawData
    dsimp only
    rw [if_pos hn, hs1]
    cases hk : h.kind os.object_ with
    | bytecodeArray =>
      dsimp only
      obtain ⟨t, ht, hraw, hlen⟩ := OutputRawWithCustomField_payload h
        { s with sink_ := s.sink_ ++
          rawDataHeader c (up_to_offset - os.bytes_processed_so_far_) }
        os.object_ os.bytes_processed_so_far_ (up_to_offset - os.bytes_processed_so_far_)
        c.kBytecodeAgeOffset 1 [c.kNoAgeBytecodeAge] h0 (by omega) (by simp)
        (by intro a b; omega)
      exact ⟨t, by rw [ht], hraw, hlen⟩
    | descriptorArray =>
      dsimp only
      obtain ⟨t, ht, hraw, hlen⟩ := OutputRawWithCustomField_payload h
        { s with sink_ := s.sink_ ++
          rawDataHeader c (up_to_offset - os.bytes_processed_so_far_) }
        os.object_ os.bytes_processed_so_far_ (up_to_offset - os.bytes_processed_so_far_)
        c.kRawNumberOfMarkedDescriptorsOffset 2 [0, 0] h0 (by omega) (by simp)
        (by
          intro a b
          have := hD hk a (by omega)
          omega)
      exact ⟨t, by rw [ht], hraw, hlen⟩
    | _ =>
      dsimp only
      refine ⟨[SinkEntry.PutRaw (h.ReadBytes os.object_ os.bytes_processed_so_far_.toNat
        (up_to_offset - os.bytes_processed_so_far_).toNat)], ?_, ?_, ?_⟩
      · simp [Serializer.PutRaw]
      · intro e he
        simp only [List.mem_singleton] at he
        exact ⟨_, he⟩
      · simp [List.flatMap_cons, SinkEntry.dataBytes, Heap.ReadBytes]
  · rintro ⟨hc1, hc2⟩
    constructor
    · unfold rawDataHeader
      rw [if_pos ⟨hc1, hc2⟩, Nat.shiftRight_eq_div_pow, ← hT]
    · apply Nat.div_mul_cancel
      have hdv : (c.kObjectAlignment : Int) ∣ up_to_offset - os.bytes_processed_so_far_ :=
        Int.dvd_of_emod_eq_zero hc1
      have hdv2 : (c.kTaggedSize : Int) ∣ up_to_offset - os.bytes_processed_so_far_ :=
        dvd_trans (Int.natCast_dvd_natCast.2 hAT) hdv
      have he : up_to_offset - os.bytes_processed_so_far_ =
          (((up_to_offset - os.bytes_processed_so_far_).toNat : Nat) : Int) :=
        (Int.toNat_of_nonneg (by omega)).symm
      rw [he] at hdv2
      exact Int.natCast_dvd_natCast.1 hdv2
  · intro hc
    unfold rawDataHeader
    rw [if_neg hc]

/-- Witness for C28 (amended): sixteen bytes of a plain object are one fixed record of two
tagged words. -/
theorem OutputRawData_spec_witness :
    (ObjectSerializer.OutputRawData (exampleConfig 32) plainHeap
        { object_ := 1, bytes_processed_so_far_ := 8 } (Serializer.initial 8) 24).1 =
      { ({ object_ := 1, bytes_processed_so_far_ := 8 } : ObjectSerializer) with
        bytes_processed_so_far_ := 24 } :=
  (OutputRawData_spec (exampleConfig 32) plainHeap
    { object_ := 1, bytes_processed_so_far_ := 8 } (Serializer.initial 8) 24
    (by decide) (by decide) (by decide) (by decide) (by decide)).1

/-! ## Slot accounting of `VisitPointers` -/

theorem OutputRawData_fst (c : Config) (h : Heap) (os : ObjectSerializer) (s : Serializer)
    (up_to_offset : Int) :
    (ObjectSerializer.OutputRawData c h os s up_to_offset).1 =
      { os with bytes_processed_so_far_ := up_to_offset } := by
  have hsum : os.bytes_processed_so_far_ + (up_to_offset - os.bytes_processed_so_far_) =
      up_to_offset := by omega
  unfold ObjectSerializer.OutputRawData
  dsimp only
  rw [hsum]
  split
  · split <;> rfl
  · rfl

theorem OutputRawData_noop (c : Config) (h : Heap) (os : ObjectSerializer) (s : Serializer)
    (offset : Nat) (hb : os.bytes_processed_so_far_ = offset) :
    ObjectSerializer.OutputRawData c h os s offset = (os, s) := by
  have h1 := OutputRawData_fst c h os s offset
  have h2 : (ObjectSerializer.OutputRawData c h os s offset).2 = s := by
    unfold ObjectSerializer.OutputRawData
    dsimp only
    rw [if_neg (by omega)]
  have h3 : ({ os with bytes_processed_so_far_ := (offset : Int) } : ObjectSerializer) = os := by
    cases os
    simp only [ObjectSerializer.mk.injEq, true_and]
    exact hb.symm
  rw [h3] at h1
  exact Prod.ext h1 h2

theorem VisitRun.unflush {c : Config} {h : Heap} {os : ObjectSerializer} {s : Serializer}
    {offset : Nat} {x : MaybeObject} {rest : List MaybeObject} {evs : List SlotEvent}
    {os2 : ObjectSerializer} {s2 : Serializer} (hx : x.IsSmi = false)
    (hr : VisitRun c h (ObjectSerializer.OutputRawData c h os s offset).1
      (ObjectSerializer.OutputRawData c h os s offset).2 offset (x :: rest) evs os2 s2) :
    VisitRun c h os s offset (x :: rest) evs os2 s2 := by
  have hb : (ObjectSerializer.OutputRawData c h os s offset).1.bytes_processed_so_far_ =
      offset := by rw [OutputRawData_fst]
  have hn := OutputRawData_noop c h (ObjectSerializer.OutputRawData c h os s offset).1
    (ObjectSerializer.OutputRawData c h os s offset).2 offset hb
  cases hr with
  | smi hrun => cases hx
  | cleared hrun =>
    rw [hn] at hrun
    exact VisitRun.cleared hrun
  | pending hcur hp hrun =>
    rw [hn] at hp hrun
    exact VisitRun.pending hcur hp hrun
  | repeated hcur hp hc hdispatch hrun =>
    rw [hn] at hp hdispatch hrun
    exact VisitRun.repeated hcur hp hc hdispatch hrun
  | single hcur hp hc hdispatch hrun =>
    rw [hn] at hp hdispatch hrun
    exact VisitRun.single hcur hp hc hdispatch hrun

theorem visitRun_of_ok (c : Config) (h : Heap) (fuel : Nat) :
    (∀ os s offset slots r,
      ObjectSerializer.VisitPointers c h fuel os s offset slots = .ok r →
      ∃ evs, VisitRun c h os s offset slots evs r.1 r.2) ∧
    (∀ (os : ObjectSerializer) s (offset : Nat) slots r,
      os.bytes_processed_so_far_ = (offset : Int) →
      ObjectSerializer.VisitPointers.cleared c h fuel os s offset slots = .ok r →
      ∃ evs, VisitRun c h os s offset slots evs r.1 r.2) ∧
    (∀ (os : ObjectSerializer) s (offset : Nat) slots r,
      os.bytes_processed_so_far_ = (offset : Int) →
      ObjectSerializer.VisitPointers.heapObjects c h fuel os s offset slots = .ok r →
      ∃ evs, VisitRun c h os s offset slots evs r.1 r.2) ∧
    (∀ (os : ObjectSerializer) s (offset : Nat) weak target rest r,
      os.bytes_processed_so_far_ = (offset : Int) →
      ObjectSerializer.VisitPointers.reference c h fuel os (afterWeakPrefix weak s) offset
        target (referenceSlot weak target) rest = .ok r →
      ∃ evs, VisitRun c h os s offset (referenceSlot weak target :: rest) evs r.1 r.2) := by
  induction fuel with
  | zero =>
    refine ⟨?_, ?_, ?_, ?_⟩
    · intro os s offset slots r hok
      rw [ObjectSerializer.VisitPointers] at hok
      cases hok
    · intro os s offset slots r _ hok
      rw [ObjectSerializer.VisitPointers.cleared] at hok
      cases hok
    · intro os s offset slots r _ hok
      rw [ObjectSerializer.VisitPointers.heapObjects] at hok
      cases hok
    · intro os s offset weak target rest r _ hok
      rw [ObjectSerializer.VisitPointers.reference] at hok
      cases hok
  | succ n ih =>
    obtain ⟨ih1, ih2, ih3, ih4⟩ := ih
    refine ⟨?_, ?_, ?_, ?_⟩
    · intro os s offset slots r hok
      cases slots with
      | nil =>
        rw [VisitPointers_nil] at hok
        cases hok
        exact ⟨[], VisitRun.done⟩
      | cons x rest =>
        rw [VisitPointers_cons] at hok
        have hb : (ObjectSerializer.OutputRawData c h os s offset).1.bytes_processed_so_far_ =
            offset := by rw [OutputRawData_fst]
        cases x with
        | Smi v =>
          obtain ⟨evs, he⟩ := ih1 _ _ _ _ _ hok
          exact ⟨_, VisitRun.smi he⟩
        | Cleared =>
          obtain ⟨evs, he⟩ := ih2 _ _ _ _ _ hb hok
          exact ⟨_, VisitRun.unflush rfl he⟩
        | Strong t =>
          obtain ⟨evs, he⟩ := ih2 _ _ _ _ _ hb hok
          exact ⟨_, VisitRun.unflush rfl he⟩
        | Weak t =>
          obtain ⟨evs, he⟩ := ih2 _ _ _ _ _ hb hok
          exact ⟨_, VisitRun.unflush rfl he⟩
    · intro os s offset slots r hinv hok
      rw [VisitPointers_cleared_succ] at hok
      have hn := OutputRawData_noop c h os s offset hinv
      have hstep : ∀ r, ObjectSerializer.VisitPointers.heapObjects c h n os s offset slots =
          .ok r → ∃ evs, VisitRun c h os s offset slots evs r.1 r.2 :=
        fun r hr => ih3 _ _ _ _ _ hinv hr
      cases slots with
      | nil => exact hstep r hok
      | cons x rest =>
        cases x with
        | Cleared =>
          obtain ⟨evs, he⟩ := ih2 _ _ _ _ _
            (by show os.bytes_processed_so_far_ + (c.kTaggedSize : Int) =
                  ((offset + c.kTaggedSize : Nat) : Int)
                rw [hinv]; push_cast; rfl) hok
          refine ⟨SlotEvent.clearedWeak :: evs, VisitRun.cleared ?_⟩
          rw [hn]
          exact he
        | Smi v => exact hstep r hok
        | Strong t => exact hstep r hok
        | Weak t => exact hstep r hok
    · intro os s offset slots r hinv hok
      cases slots with
      | nil =>
        rw [VisitPointers_heapObjects_succ] at hok
        cases hok
        exact ⟨[], VisitRun.done⟩
      | cons x rest =>
        cases x with
        | Smi v =>
          rw [VisitPointers_heapObjects_succ] at hok
          exact ih1 _ _ _ _ _ hok
        | Cleared =>
          rw [VisitPointers_heapObjects_succ] at hok
          exact ih1 _ _ _ _ _ hok
        | Strong t =>
          have e : MaybeObject.Strong t = referenceSlot false t := rfl
          rw [e, heapObjects_reference] at hok
          exact ih4 _ _ _ _ _ _ _ hinv hok
        | Weak t =>
          have e : MaybeObject.Weak t = referenceSlot true t := rfl
          rw [e, heapObjects_reference] at hok
          exact ih4 _ _ _ _ _ _ _ hinv hok
    · intro os s offset weak target rest r hinv hok
      rw [VisitPointers_reference_succ] at hok
      have hn := OutputRawData_noop c h os s offset hinv
      have hk : os.bytes_processed_so_far_ + (c.kTaggedSize : Int) =
          ((offset + c.kTaggedSize : Nat) : Int) := by
        rw [hinv]; push_cast; rfl
      by_cases hp : (SerializePendingObject (afterWeakPrefix weak s) target).1 = true
      · rw [if_pos hp] at hok
        obtain ⟨evs, he⟩ := ih3 _ _ _ _ _ hk hok
        refine ⟨SlotEvent.pendingForwardRef weak target :: evs, VisitRun.pending rfl ?_ ?_⟩
        · rw [hn]; exact hp
        · rw [hn]; exact he
      · rw [if_neg hp] at hok
        have hp2 : (SerializePendingObject (afterWeakPrefix weak s) target).1 = false := by
          simpa using hp
        by_cases hc : rest ≠ [] ∧ IsImmortalImmovableRoot h target = true ∧
            rest.head? = some (referenceSlot weak target)
        · rw [if_pos (by exact hc)] at hok
          obtain ⟨s1, hd, hrest⟩ := (Result.bind_eq_ok _ _ _).1 hok
          obtain ⟨evs, he⟩ := ih3 _ _ _ _ _
            (by show os.bytes_processed_so_far_ +
                  (1 + countLeading (referenceSlot weak target) rest) * (c.kTaggedSize : Int) =
                  ((offset + (1 + countLeading (referenceSlot weak target) rest) *
                    c.kTaggedSize : Nat) : Int)
                rw [hinv]; push_cast; rfl) hrest
          refine ⟨SlotEvent.repeatRecord weak target
            (1 + countLeading (referenceSlot weak target) rest) :: evs,
            @VisitRun.repeated c h os s offset weak target _ rest evs r.1 r.2 n s1 rfl ?_ hc ?_ ?_⟩
          · rw [hn]; exact hp2
          · rw [hn]; exact hd
          · rw [hn]; exact he
        · rw [if_neg (by exact hc)] at hok
          obtain ⟨s1, hd, hrest⟩ := (Result.bind_eq_ok _ _ _).1 hok
          obtain ⟨evs, he⟩ := ih3 _ _ _ _ _ hk hrest
          refine ⟨SlotEvent.singleDispatch weak target :: evs,
            @VisitRun.single c h os s offset weak target _ rest evs r.1 r.2 n s1 rfl ?_ hc ?_ ?_⟩
          · rw [hn]; exact hp2
          · rw [hn]; exact hd
          · rw [hn]; exact he

theorem countLeading_append_drop (v : MaybeObject) (rest : List MaybeObject) :
    List.replicate (countLeading v rest) v ++ rest.drop (countLeading v rest) = rest := by
  induction rest with
  | nil => rfl
  | cons x xs ih =>
    by_cases hx : x = v
    · subst hx
      simp only [countLeading, if_true, List.replicate_succ, List.drop_succ_cons,
        List.cons_append]
      rw [ih]
    · simp [countLeading, hx]

theorem VisitRun.covers {c : Config} {h : Heap} {os : ObjectSerializer} {s : Serializer}
    {offset : Nat} {slots : List MaybeObject} {evs : List SlotEvent}
    {os2 : ObjectSerializer} {s2 : Serializer}
    (hr : VisitRun c h os s offset slots evs os2 s2) :
    evs.flatMap SlotEvent.slots = slots ∧
    (∀ weak target count, SlotEvent.repeatRecord weak target count ∈ evs → 2 ≤ count) := by
  induction hr with
  | done => exact ⟨rfl, by simp⟩
  | smi hrun ih =>
    refine ⟨by rw [List.flatMap_cons, ih.1]; rfl, ?_⟩
    intro weak target count hm
    simp only [List.mem_cons] at hm
    rcases hm with hm | hm
    · cases hm
    · exact ih.2 _ _ _ hm
  | cleared hrun ih =>
    refine ⟨by rw [List.flatMap_cons, ih.1]; rfl, ?_⟩
    intro weak target count hm
    simp only [List.mem_cons] at hm
    rcases hm with hm | hm
    · cases hm
    · exact ih.2 _ _ _ hm
  | pending hcur hp hrun ih =>
    refine ⟨by rw [List.flatMap_cons, ih.1, hcur]; rfl, ?_⟩
    intro weak target count hm
    simp only [List.mem_cons] at hm
    rcases hm with hm | hm
    · cases hm
    · exact ih.2 _ _ _ hm
  | @repeated os s offset weak target cur rest evs os2 s2 fuel s1 hcur hp hc hdispatch hrun ih =>
    constructor
    · rw [List.flatMap_cons, ih.1]
      show List.replicate (1 + countLeading cur rest) (referenceSlot weak target) ++
        rest.drop (1 + countLeading cur rest - 1) = cur :: rest
      rw [← hcur]
      have e1 : 1 + countLeading cur rest = countLeading cur rest + 1 := by omega
      have e2 : countLeading cur rest + 1 - 1 = countLeading cur rest := by omega
      rw [e1, e2, List.replicate_succ, List.cons_append, countLeading_append_drop]
    · intro weak2 target2 count hm
      simp only [List.mem_cons] at hm
      rcases hm with hm | hm
      · have := countLeading_pos cur rest hc.2.2
        cases hm
        omega
      · exact ih.2 _ _ _ hm
  | single hcur hp hc hdispatch hrun ih =>
    refine ⟨by rw [List.flatMap_cons, ih.1, hcur]; rfl, ?_⟩
    intro weak target count hm
    simp only [List.mem_cons] at hm
    rcases hm with hm | hm
    · cases hm
    · exact ih.2 _ _ _ hm

theorem bytesProcessedAfter_cons (k : Nat) (b : Int) (off : Nat) (x : MaybeObject)
    (rest : List MaybeObject) (hx : x.IsSmi = false) :
    bytesProcessedAfter k b off (x :: rest) =
      bytesProcessedAfter k ((off + k : Nat) : Int) (off + k) rest := by
  cases x with
  | Smi v => cases hx
  | Cleared => rfl
  | Strong t => rfl
  | Weak t => rfl

theorem bytesProcessedAfter_replicate (k : Nat) (v : MaybeObject) (hv : v.IsSmi = false)
    (tail : List MaybeObject) :
    ∀ (m : Nat) (off : Nat),
      bytesProcessedAfter k (off : Int) off (List.replicate m v ++ tail) =
        bytesProcessedAfter k ((off + m * k : Nat) : Int) (off + m * k) tail := by
  intro m
  induction m with
  | zero =>
    intro off
    simp
  | succ m ih =>
    intro off
    rw [List.replicate_succ, List.cons_append, bytesProcessedAfter_cons k _ off v _ hv, ih]
    have e : off + k + m * k = off + (m + 1) * k := by
      rw [Nat.add_mul, Nat.one_mul]
      omega
    rw [e]

theorem referenceSlot_not_smi (weak : Bool) (target : HeapObject) :
    (referenceSlot weak target).IsSmi = false := by
  cases weak <;> rfl

theorem VisitRun.bytes {c : Config} {h : Heap} {os : ObjectSerializer} {s : Serializer}
    {offset : Nat} {slots : List MaybeObject} {evs : List SlotEvent}
    {os2 : ObjectSerializer} {s2 : Serializer}
    (hr : VisitRun c h os s offset slots evs os2 s2) :
    os2.bytes_processed_so_far_ =
      bytesProcessedAfter c.kTaggedSize os.bytes_processed_so_far_ offset slots := by
  induction hr with
  | done => rfl
  | smi hrun ih => rw [ih]; rfl
  | @cleared os s offset rest evs os2 s2 hrun ih =>
    rw [ih, bytesProcessedAfter_cons _ _ _ MaybeObject.Cleared _ rfl]
    congr 1
    show (ObjectSerializer.OutputRawData c h os s offset).1.bytes_processed_so_far_ +
      (c.kTaggedSize : Int) = _
    rw [OutputRawData_fst]
    push_cast
    rfl
  | @pending os s offset weak target cur rest evs os2 s2 hcur hp hrun ih =>
    rw [ih, bytesProcessedAfter_cons _ _ _ _ _ (by rw [hcur]; exact referenceSlot_not_smi _ _)]
    congr 1
    show (ObjectSerializer.OutputRawData c h os s offset).1.bytes_processed_so_far_ +
      (c.kTaggedSize : Int) = _
    rw [OutputRawData_fst]
    push_cast
    rfl
  | @repeated os s offset weak target cur rest evs os2 s2 fuel s1 hcur hp hc hdispatch hrun ih =>
    have hv : cur.IsSmi = false := by rw [hcur]; exact referenceSlot_not_smi _ _
    rw [ih, bytesProcessedAfter_cons _ _ _ _ _ hv]
    have e2 : 1 + countLeading cur rest - 1 = countLeading cur rest := by omega
    have hsplit := countLeading_append_drop cur rest
    have hrep := bytesProcessedAfter_replicate c.kTaggedSize cur hv
      (rest.drop (countLeading cur rest)) (countLeading cur rest) (offset + c.kTaggedSize)
    rw [hsplit] at hrep
    rw [hrep, e2]
    have e3 : offset + c.kTaggedSize + countLeading cur rest * c.kTaggedSize =
        offset + (1 + countLeading cur rest) * c.kTaggedSize := by
      rw [Nat.add_mul, Nat.one_mul]
      omega
    rw [e3]
    congr 1
    show (ObjectSerializer.OutputRawData c h os s offset).1.bytes_processed_so_far_ +
      (1 + (countLeading cur rest : Int)) * (c.kTaggedSize : Int) = _
    rw [OutputRawData_fst]
    push_cast
    rfl
  | @single os s offset weak target cur rest evs os2 s2 fuel s1 hcur hp hc hdispatch hrun ih =>
    rw [ih, bytesProcessedAfter_cons _ _ _ _ _ (by rw [hcur]; exact referenceSlot_not_smi _ _)]
    congr 1
    show (ObjectSerializer.OutputRawData c h os s offset).1.bytes_processed_so_far_ +
      (c.kTaggedSize : Int) = _
    rw [OutputRawData_fst]
    push_cast
    rfl

theorem bytesProcessedAfter_all_smi (k : Nat) (b : Int) (slots : List MaybeObject) :
    ∀ off, (∀ y, y ∈ slots → y.IsSmi = true) → bytesProcessedAfter k b off slots = b := by
  induction slots with
  | nil =>
    intro off _
    rfl
  | cons x rest ih =>
    intro off hall
    have hx := hall x (List.mem_cons_self _ _)
    cases x with
    | Smi v =>
      show bytesProcessedAfter k b (off + k) rest = b
      exact ih _ (fun y hy => hall y (List.mem_cons_of_mem _ hy))
    | Cleared => cases hx
    | Strong t => cases hx
    | Weak t => cases hx

theorem bytesProcessedAfter_last (k : Nat) (x : MaybeObject) (post : List MaybeObject)
    (hx : x.IsSmi = false) (hpost : ∀ y, y ∈ post → y.IsSmi = true) (pre : List MaybeObject) :
    ∀ (b : Int) (off : Nat),
      bytesProcessedAfter k b off (pre ++ x :: post) =
        ((off + (pre.length + 1) * k : Nat) : Int) := by
  induction pre with
  | nil =>
    intro b off
    rw [List.nil_append, bytesProcessedAfter_cons k b off x post hx,
      bytesProcessedAfter_all_smi k _ post _ hpost]
    simp
  | cons y pre ih =>
    intro b off
    have e : off + k + (pre.length + 1) * k = off + ((y :: pre).length + 1) * k := by
      simp only [List.length_cons]
      rw [Nat.add_mul (pre.length + 1) 1 k, Nat.one_mul]
      omega
    cases hy : y.IsSmi with
    | true =>
      cases y with
      | Smi v =>
        show bytesProcessedAfter k b (off + k) (pre ++ x :: post) = _
        rw [ih, e]
      | Cleared => cases hy
      | Strong t => cases hy
      | Weak t => cases hy
    | false =>
      rw [List.cons_append, bytesProcessedAfter_cons k b off y _ hy, ih, e]

/-! ## `VisitPointers` returns when the nested calls do -/

theorem VisitReturns.mono_returns {c : Config} {h : Heap} {g g2 : Nat} {slots : List MaybeObject}
    (hr : VisitReturns c h g slots) (hg : g ≤ g2) : VisitReturns c h g2 slots :=
  fun fuel hf os s offset => hr fuel (le_trans hg hf) os s offset

theorem VisitReturns.nil_returns (c : Config) (h : Heap) (g : Nat) (hg : 2 ≤ g) :
    VisitReturns c h g [] := by
  intro fuel hf os s offset
  obtain ⟨j, rfl⟩ : ∃ j, fuel = j + 2 := ⟨fuel - 2, by omega⟩
  refine ⟨⟨_, VisitPointers_nil c h (j + 1) os s offset⟩, ?_, ⟨(os, s), ?_⟩⟩
  · rw [VisitPointers_cleared_succ]
    exact ⟨(os, s), by rw [VisitPointers_heapObjects_succ]⟩
  · rw [VisitPointers_heapObjects_succ]

theorem reference_returns (c : Config) (h : Heap) (f g : Nat) (hfg : f ≤ g)
    (target : HeapObject) (rest : List MaybeObject)
    (hS : ∀ n s, f ≤ n → ∃ s2, SerializeObject c h n s target = .ok s2)
    (hdrop : ∀ j, VisitReturns c h g (rest.drop j)) :
    ∀ fuel, g + 1 ≤ fuel → ∀ (os : ObjectSerializer) (s : Serializer) (offset : Nat)
      (cur : MaybeObject),
      ∃ r, ObjectSerializer.VisitPointers.reference c h fuel os s offset target cur rest =
        .ok r := by
  intro fuel hf os s offset cur
  obtain ⟨j, rfl⟩ : ∃ j, fuel = j + 1 := ⟨fuel - 1, by omega⟩
  have hrest : VisitReturns c h g rest := hdrop 0
  rw [VisitPointers_reference_succ]
  by_cases hp : (SerializePendingObject s target).1 = true
  · rw [if_pos hp]
    exact (hrest j (by omega) _ _ _).2.2
  · rw [if_neg hp]
    split
    · obtain ⟨s2, hs2⟩ := hS j (PutRepeat c s (1 + countLeading cur rest)) (by omega)
      rw [hs2]
      exact (hdrop _ j (by omega) _ _ _).2.2
    · obtain ⟨s2, hs2⟩ := hS j s (by omega)
      rw [hs2]
      exact (hrest j (by omega) _ _ _).2.2

theorem VisitReturns.cons_returns (c : Config) (h : Heap) (f g : Nat) (hfg : f ≤ g)
    (x : MaybeObject) (rest : List MaybeObject)
    (hS : ∀ target, x = MaybeObject.Strong target ∨ x = MaybeObject.Weak target →
      ∀ n s, f ≤ n → ∃ s2, SerializeObject c h n s target = .ok s2)
    (hdrop : ∀ j, VisitReturns c h g (rest.drop j)) :
    VisitReturns c h (g + 5) (x :: rest) := by
  have hrest : VisitReturns c h g rest := hdrop 0
  cases x with
  | Smi v =>
    have V : ∀ fuel, g + 1 ≤ fuel → ∀ (os : ObjectSerializer) (s : Serializer) (offset : Nat),
        ∃ r, ObjectSerializer.VisitPointers c h fuel os s offset (MaybeObject.Smi v :: rest) =
          .ok r := by
      intro fuel hf os s offset
      obtain ⟨j, rfl⟩ : ∃ j, fuel = j + 1 := ⟨fuel - 1, by omega⟩
      rw [VisitPointers_cons]
      exact (hrest j (by omega) _ _ _).1
    have H : ∀ fuel, g + 2 ≤ fuel → ∀ (os : ObjectSerializer) (s : Serializer) (offset : Nat),
        ∃ r, ObjectSerializer.VisitPointers.heapObjects c h fuel os s offset
          (MaybeObject.Smi v :: rest) = .ok r := by
      intro fuel hf os s offset
      obtain ⟨j, rfl⟩ : ∃ j, fuel = j + 1 := ⟨fuel - 1, by omega⟩
      rw [VisitPointers_heapObjects_succ]
      exact V j (by omega) _ _ _
    intro fuel hf os s offset
    refine ⟨V fuel (by omega) _ _ _, ?_, H fuel (by omega) _ _ _⟩
    obtain ⟨j, rfl⟩ : ∃ j, fuel = j + 1 := ⟨fuel - 1, by omega⟩
    rw [VisitPointers_cleared_succ]
    exact H j (by omega) _ _ _
  | Cleared =>
    have C : ∀ fuel, g + 1 ≤ fuel → ∀ (os : ObjectSerializer) (s : Serializer) (offset : Nat),
        ∃ r, ObjectSerializer.VisitPointers.cleared c h fuel os s offset
          (MaybeObject.Cleared :: rest) = .ok r := by
      intro fuel hf os s offset
      obtain ⟨j, rfl⟩ : ∃ j, fuel = j + 1 := ⟨fuel - 1, by omega⟩
      rw [VisitPointers_cleared_succ]
      exact (hrest j (by omega) _ _ _).2.1
    have V : ∀ fuel, g + 2 ≤ fuel → ∀ (os : ObjectSerializer) (s : Serializer) (offset : Nat),
        ∃ r, ObjectSerializer.VisitPointers c h fuel os s offset (MaybeObject.Cleared :: rest) =
          .ok r := by
      intro fuel hf os s offset
      obtain ⟨j, rfl⟩ : ∃ j, fuel = j + 1 := ⟨fuel - 1, by omega⟩
      rw [VisitPointers_cons]
      exact C j (by omega) _ _ _
    intro fuel hf os s offset
    refine ⟨V fuel (by omega) _ _ _, C fuel (by omega) _ _ _, ?_⟩
    obtain ⟨j, rfl⟩ : ∃ j, fuel = j + 1 := ⟨fuel - 1, by omega⟩
    rw [VisitPointers_heapObjects_succ]
    exact V j (by omega) _ _ _
  | Strong t =>
    have R := reference_returns c h f g hfg t rest (hS t (Or.inl rfl)) hdrop
    have H : ∀ fuel, g + 2 ≤ fuel → ∀ (os : ObjectSerializer) (s : Serializer) (offset : Nat),
        ∃ r, ObjectSerializer.VisitPointers.heapObjects c h fuel os s offset
          (MaybeObject.Strong t :: rest) = .ok r := by
      intro fuel hf os s offset
      obtain ⟨j, rfl⟩ : ∃ j, fuel = j + 1 := ⟨fuel - 1, by omega⟩
      rw [VisitPointers_heapObjects_succ]
      exact R j (by omega) _ _ _ _
    have C : ∀ fuel, g + 3 ≤ fuel → ∀ (os : ObjectSerializer) (s : Serializer) (offset : Nat),
        ∃ r, ObjectSerializer.VisitPointers.cleared c h fuel os s offset
          (MaybeObject.Strong t :: rest) = .ok r := by
      intro fuel hf os s offset
      obtain ⟨j, rfl⟩ : ∃ j, fuel = j + 1 := ⟨fuel - 1, by omega⟩
      rw [VisitPointers_cleared_succ]
      exact H j (by omega) _ _ _
    intro fuel hf os s offset
    refine ⟨?_, C fuel (by omega) _ _ _, H fuel (by omega) _ _ _⟩
    obtain ⟨j, rfl⟩ : ∃ j, fuel = j + 1 := ⟨fuel - 1, by omega⟩
    rw [VisitPointers_cons]
    exact C j (by omega) _ _ _
  | Weak t =>
    have R := reference_returns c h f g hfg t rest (hS t (Or.inr rfl)) hdrop
    have H : ∀ fuel, g + 2 ≤ fuel → ∀ (os : ObjectSerializer) (s : Serializer) (offset : Nat),
        ∃ r, ObjectSerializer.VisitPointers.heapObjects c h fuel os s offset
          (MaybeObject.Weak t :: rest) = .ok r := by
      intro fuel hf os s offset
      obtain ⟨j, rfl⟩ : ∃ j, fuel = j + 1 := ⟨fuel - 1, by omega⟩
      rw [VisitPointers_heapObjects_succ]
      exact R j (by omega) _ _ _ _
    have C : ∀ fuel, g + 3 ≤ fuel → ∀ (os : ObjectSerializer) (s : Serializer) (offset : Nat),
        ∃ r, ObjectSerializer.VisitPointers.cleared c h fuel os s offset
          (MaybeObject.Weak t :: rest) = .ok r := by
      intro fuel hf os s offset
      obtain ⟨j, rfl⟩ : ∃ j, fuel = j + 1 := ⟨fuel - 1, by omega⟩
      rw [VisitPointers_cleared_succ]
      exact H j (by omega) _ _ _
    intro fuel hf os s offset
    refine ⟨?_, C fuel (by omega) _ _ _, H fuel (by omega) _ _ _⟩
    obtain ⟨j, rfl⟩ : ∃ j, fuel = j + 1 := ⟨fuel - 1, by omega⟩
    rw [VisitPointers_cons]
    exact C j (by omega) _ _ _

theorem visitPointers_returns (c : Config) (h : Heap) (f : Nat) (T : HeapObject → Prop)
    (hS : ∀ n s x, f ≤ n → T x → ∃ s2, SerializeObject c h n s x = .ok s2) :
    ∀ (N : Nat) (slots : List MaybeObject), slots.length ≤ N →
      (∀ x, MaybeObject.Strong x ∈ slots ∨ MaybeObject.Weak x ∈ slots → T x) →
      VisitReturns c h (f + 5 * N + 5) slots := by
  intro N
  induction N with
  | zero =>
    intro slots hl _
    have : slots = [] := List.length_eq_zero.1 (by omega)
    subst this
    exact VisitReturns.nil_returns c h _ (by omega)
  | succ N ih =>
    intro slots hl hT
    cases slots with
    | nil => exact VisitReturns.nil_returns c h _ (by omega)
    | cons x rest =>
      have hlen : rest.length ≤ N := by simpa using hl
      have hdrop : ∀ j, VisitReturns c h (f + 5 * N + 5) (rest.drop j) := by
        intro j
        apply ih
        · rw [List.length_drop]
          omega
        · intro y hy
          apply hT
          rcases hy with hy | hy
          · exact Or.inl (List.mem_cons_of_mem _ (List.mem_of_mem_drop hy))
          · exact Or.inr (List.mem_cons_of_mem _ (List.mem_of_mem_drop hy))
      have hc := VisitReturns.cons_returns c h f (f + 5 * N + 5) (by omega) x rest
        (by
          intro target hx n s hn
          apply hS n s target hn
          apply hT
          rcases hx with hx | hx
          · exact Or.inl (by rw [hx]; exact List.mem_cons_self _ _)
          · exact Or.inr (by rw [hx]; exact List.mem_cons_self _ _))
        hdrop
      exact hc.mono_returns (by omega)

theorem plainHeap_root_returns (c : Config) (n : Nat) (s : Serializer) (hn : 1 ≤ n) :
    ∃ s2, SerializeObject c plainHeap n s 0 = .ok s2 := by
  obtain ⟨j, rfl⟩ : ∃ j, n = j + 1 := ⟨n - 1, by omega⟩
  rw [SerializeObject_succ]
  have hr : (SerializeRoot c plainHeap s 0).1 = true := rfl
  rw [if_pos hr]
  exact ⟨_, rfl⟩

/-- C29. For every finite slot range, `VisitPointers` returns once every nested
`SerializeObject` call returns (with fuel `f` for the nested calls,
`f + 5 * length + 5` suffices), and a run that returns accounts for every slot
exactly once: the range is the concatenation of the slots covered by the events
of the run, each event being a Smi slot left to the next raw-data record, a
cleared-weak marker, a pending forward reference, a repeat record (covering at
least two slots) or a single dispatch. On return `bytes_processed_so_far_` is
the offset just past the last slot that is not a Smi, and is unchanged when
every slot is a Smi. -/
theorem VisitPointers_accounts_each_slot (c : Config) (h : Heap) (os : ObjectSerializer)
    (s : Serializer) (offset : Nat) (slots : List MaybeObject) :
    (∀ f, (∀ n s1 x, f ≤ n →
        (MaybeObject.Strong x ∈ slots ∨ MaybeObject.Weak x ∈ slots) →
        ∃ s2, SerializeObject c h n s1 x = .ok s2) →
      ∀ fuel, f + 5 * slots.length + 5 ≤ fuel →
        ∃ r, ObjectSerializer.VisitPointers c h fuel os s offset slots = .ok r) ∧
    (∀ fuel r, ObjectSerializer.VisitPointers c h fuel os s offset slots = .ok r →
      (∃ evs, VisitRun c h os s offset slots evs r.1 r.2 ∧
        evs.flatMap SlotEvent.slots = slots ∧
        (∀ weak target count, SlotEvent.repeatRecord weak target count ∈ evs → 2 ≤ count)) ∧
      (∀ pre x post, slots = pre ++ x :: post → x.IsSmi = false →
        (∀ y, y ∈ post → y.IsSmi = true) →
        r.1.bytes_processed_so_far_ =
          ((offset + (pre.length + 1) * c.kTaggedSize : Nat) : Int)) ∧
      ((∀ y, y ∈ slots → y.IsSmi = true) →
        r.1.bytes_processed_so_far_ = os.bytes_processed_so_far_)) := by
  constructor
  · intro f hS fuel hf
    exact (visitPointers_returns c h f
      (fun x => MaybeObject.Strong x ∈ slots ∨ MaybeObject.Weak x ∈ slots)
      (fun n s1 x hn hx => hS n s1 x hn hx) slots.length slots (le_refl _)
      (fun x hx => hx) fuel hf os s offset).1
  · intro fuel r hok
    obtain ⟨evs, hrun⟩ := (visitRun_of_ok c h fuel).1 os s offset slots r hok
    have hb := hrun.bytes
    refine ⟨⟨evs, hrun, hrun.covers.1, hrun.covers.2⟩, ?_, ?_⟩
    · intro pre x post hs hx hpost
      rw [hb, hs]
      exact bytesProcessedAfter_last c.kTaggedSize x post hx hpost pre _ _
    · intro hall
      rw [hb]
      exact bytesProcessedAfter_all_smi c.kTaggedSize _ slots _ hall

/-- Witness for C29: a Smi, two identical strong references to the root object 0
of the plain heap, and a trailing Smi. -/
theorem VisitPointers_accounts_each_slot_witness :
    ∃ r, ObjectSerializer.VisitPointers (exampleConfig 32) plainHeap 30
      { object_ := 1, bytes_processed_so_far_ := 8 } (Serializer.initial 8) 8
      [MaybeObject.Smi 1, MaybeObject.Strong 0, MaybeObject.Strong 0, MaybeObject.Smi 2] =
        .ok r :=
  (VisitPointers_accounts_each_slot (exampleConfig 32) plainHeap
    { object_ := 1, bytes_processed_so_far_ := 8 } (Serializer.initial 8) 8
    [MaybeObject.Smi 1, MaybeObject.Strong 0, MaybeObject.Strong 0, MaybeObject.Smi 2]).1 1
    (fun n s1 x hn hx => by
      have hx0 : x = 0 := by simpa using hx
      subst hx0
      exact plainHeap_root_returns _ n s1 hn)
    30 (by decide)

/-! ## Field writes on live objects -/

theorem fieldBytes_length (size value : Nat) : (fieldBytes size value).length = size := by
  simp [fieldBytes]

theorem Heap.WriteField_byteAt (h : Heap) (obj : HeapObject) (offset : Nat)
    (bytes : List Nat) (o : HeapObject) (i : Nat) :
    (h.WriteField obj offset bytes).byteAt o i =
      if o = obj ∧ offset ≤ i ∧ i < offset + bytes.length then bytes.getD (i - offset) 0
      else h.byteAt o i :=
  rfl

theorem Heap.SameShape.eq_of_byteAt {h1 h : Heap} (e : h1.SameShape h)
    (hb : ∀ o i, h1.byteAt o i = h.byteAt o i) : h1 = h := by
  have e1 : { h1 with byteAt := h.byteAt } = h := e
  have e2 : h1.byteAt = h.byteAt := funext (fun o => funext (fun i => hb o i))
  rw [← e2] at e1
  cases h1
  exact e1

theorem Heap.WriteField_readBytes (h : Heap) (obj : HeapObject) (offset : Nat)
    (bytes : List Nat) :
    (h.WriteField obj offset bytes).ReadBytes obj offset bytes.length = bytes := by
  apply List.ext_getElem
  · simp [Heap.ReadBytes]
  · intro i h1 h2
    simp only [Heap.ReadBytes, List.getElem_map, List.getElem_range]
    rw [Heap.WriteField_byteAt, if_pos ⟨rfl, Nat.le_add_right _ _, by omega⟩]
    simp [List.getD_eq_getElem?_getD, List.getElem?_eq_getElem h2]

theorem Heap.WriteField_overwrite (h : Heap) (obj : HeapObject) (offset : Nat)
    (b1 b2 : List Nat) (hl : b1.length = b2.length) :
    (h.WriteField obj offset b1).WriteField obj offset b2 = h.WriteField obj offset b2 := by
  apply Heap.SameShape.eq_of_byteAt
  · exact Heap.SameShape.trans_shape (Heap.WriteField_sameShape _ obj offset b2)
      (Heap.SameShape.trans_shape (Heap.WriteField_sameShape h obj offset b1)
        (by
          have e := Heap.WriteField_sameShape h obj offset b2
          unfold Heap.SameShape at e ⊢
          cases h
          rfl))
  · intro o i
    rw [Heap.WriteField_byteAt, Heap.WriteField_byteAt, Heap.WriteField_byteAt]
    by_cases hc : o = obj ∧ offset ≤ i ∧ i < offset + b2.length
    · rw [if_pos hc, if_pos hc]
    · rw [if_neg hc, if_neg hc, if_neg (by rw [hl]; exact hc)]

theorem Heap.WriteField_self (h : Heap) (obj : HeapObject) (offset n : Nat) :
    h.WriteField obj offset (h.ReadBytes obj offset n) = h := by
  apply Heap.SameShape.eq_of_byteAt (Heap.WriteField_sameShape h obj offset _)
  intro o i
  rw [Heap.WriteField_byteAt]
  by_cases hc : o = obj ∧ offset ≤ i ∧ i < offset + (h.ReadBytes obj offset n).length
  · rw [if_pos hc]
    obtain ⟨h1, h2, h3⟩ := hc
    have h4 : i - offset < n := by
      simp [Heap.ReadBytes] at h3
      omega
    simp [List.getD_eq_getElem?_getD, Heap.ReadBytes, h4, h1, Nat.add_sub_cancel' h2]
  · rw [if_neg hc]

theorem Heap.WriteField_elsewhere (h : Heap) (obj : HeapObject) (offset : Nat)
    (bytes : List Nat) (o : HeapObject) (i : Nat)
    (hne : ¬ (o = obj ∧ offset ≤ i ∧ i < offset + bytes.length)) :
    (h.WriteField obj offset bytes).byteAt o i = h.byteAt o i := by
  rw [Heap.WriteField_byteAt, if_neg hne]

theorem fieldBytes_fieldValue (bytes : List Nat) (hb : ∀ b ∈ bytes, b < 256) :
    fieldBytes bytes.length (fieldValue bytes) = bytes := by
  induction bytes with
  | nil => rfl
  | cons b t ih =>
    have hb0 : b < 256 := hb b (List.mem_cons_self _ _)
    have ht := ih (fun x hx => hb x (List.mem_cons_of_mem _ hx))
    have hv : fieldValue (b :: t) = b + 256 * fieldValue t := rfl
    unfold fieldBytes at ht ⊢
    rw [List.length_cons, List.range_succ_eq_map, List.map_cons, List.map_map, hv]
    congr 1
    · simp [Nat.add_mul_mod_self_left, Nat.mod_eq_of_lt hb0]
    · conv_rhs => rw [← ht]
      apply List.map_congr_left
      intro i _
      simp only [Function.comp, Nat.shiftRight_eq_div_pow]
      have e : 2 ^ (8 * (i + 1)) = 256 * 2 ^ (8 * i) := by
        rw [Nat.mul_add, Nat.pow_add, Nat.mul_comm]
      rw [e, ← Nat.div_div_eq_div_mul]
      have e2 : (b + 256 * fieldValue t) / 256 = fieldValue t := by omega
      rw [e2]

/-! ## External strings -/

/-- C21. For an external string whose resource address the external-reference
encoder resolves, `SerializeExternalString` is `SerializeObject()` run on the
heap in which the resource field of the live string holds the reference index
(and nothing else differs); when it returns, the field has been written back:
the live heap is the original heap with the resource field holding the raw
address (the saved table entry under `V8_HEAP_SANDBOX`), which is the original
heap itself when the field held that value before the call. For a string whose
address is not resolvable, no field is written at any time: the function is
`SerializeExternalStringAsSequentialString` on the unchanged heap, which encodes
a synthesized sequential string, and the heap it returns is the original one. -/
theorem SerializeExternalString_spec (c : Config) (h : Heap) (fuel : Nat) (s : Serializer)
    (object_ : HeapObject) (info : ExternalStringInfo) :
    (∀ reference, h.TryEncode info.resource_as_address = some reference →
      ObjectSerializer.SerializeExternalString c h (fuel + 1) s object_ info =
        Result.bind
          (ObjectSerializer.SerializeObject c
            (SetResourceRefForSerialization c h object_ reference.index) fuel s object_)
          (fun s1 => .ok (restoredString c h
            (SetResourceRefForSerialization c h object_ reference.index) object_ info, s1)) ∧
      (SetResourceRefForSerialization c h object_ reference.index).ReadBytes object_
          c.kResourceOffset c.kExternalPointerSize =
        fieldBytes c.kExternalPointerSize reference.index ∧
      (SetResourceRefForSerialization c h object_ reference.index).SameShape h ∧
      (∀ o i, ¬ (o = object_ ∧ c.kResourceOffset ≤ i ∧
          i < c.kResourceOffset + c.kExternalPointerSize) →
        (SetResourceRefForSerialization c h object_ reference.index).byteAt o i =
          h.byteAt o i) ∧
      ∀ r, ObjectSerializer.SerializeExternalString c h (fuel + 1) s object_ info = .ok r →
        r.1 = h.WriteField object_ c.kResourceOffset
          (fieldBytes c.kExternalPointerSize
            (if c.V8_HEAP_SANDBOX_BOOL then GetResourceRefForDeserialization c h object_
              else info.resource_as_address)) ∧
        r.1.ReadBytes object_ c.kResourceOffset c.kExternalPointerSize =
          fieldBytes c.kExternalPointerSize
            (if c.V8_HEAP_SANDBOX_BOOL then GetResourceRefForDeserialization c h object_
              else info.resource_as_address) ∧
        (c.V8_HEAP_SANDBOX_BOOL = false →
          h.ReadBytes object_ c.kResourceOffset c.kExternalPointerSize =
            fieldBytes c.kExternalPointerSize info.resource_as_address → r.1 = h) ∧
        (c.V8_HEAP_SANDBOX_BOOL = true → (∀ i, h.byteAt object_ i < 256) → r.1 = h)) ∧
    (h.TryEncode info.resource_as_address = none →
      ObjectSerializer.SerializeExternalString c h (fuel + 1) s object_ info =
        Result.bind
          (ObjectSerializer.SerializeExternalStringAsSequentialString c h fuel s object_ info)
          (fun s1 => .ok (h, s1)) ∧
      ∀ r, ObjectSerializer.SerializeExternalString c h (fuel + 1) s object_ info = .ok r →
        r.1 = h) := by
  constructor
  · intro reference hr
    have heq : ObjectSerializer.SerializeExternalString c h (fuel + 1) s object_ info =
        Result.bind
          (ObjectSerializer.SerializeObject c
            (SetResourceRefForSerialization c h object_ reference.index) fuel s object_)
          (fun s1 => .ok (restoredString c h
            (SetResourceRefForSerialization c h object_ reference.index) object_ info, s1)) := by
      rw [SerializeExternalString_succ, hr]
    have hlen := fieldBytes_length c.kExternalPointerSize reference.index
    refine ⟨heq, ?_, SetResourceRefForSerialization_sameShape c h object_ _, ?_, ?_⟩
    · have e := Heap.WriteField_readBytes h object_ c.kResourceOffset
        (fieldBytes c.kExternalPointerSize reference.index)
      rw [hlen] at e
      exact e
    · intro o i hne
      exact Heap.WriteField_elsewhere h object_ c.kResourceOffset _ o i
        (by rw [hlen]; exact hne)
    · intro r hok
      rw [heq] at hok
      obtain ⟨s1, -, he⟩ := (Result.bind_eq_ok _ _ _).1 hok
      cases he
      have hres : restoredString c h
          (SetResourceRefForSerialization c h object_ reference.index) object_ info =
          h.WriteField object_ c.kResourceOffset
            (fieldBytes c.kExternalPointerSize
              (if c.V8_HEAP_SANDBOX_BOOL then GetResourceRefForDeserialization c h object_
                else info.resource_as_address)) := by
        unfold restoredString SetResourceRefForSerialization set_address_as_resource
        split
        · exact Heap.WriteField_overwrite h object_ _ _ _
            (by rw [fieldBytes_length, fieldBytes_length])
        · exact Heap.WriteField_overwrite h object_ _ _ _
            (by rw [fieldBytes_length, fieldBytes_length])
      refine ⟨hres, ?_, ?_, ?_⟩
      · show (restoredString c h _ object_ info).ReadBytes _ _ _ = _
        rw [hres]
        have e := Heap.WriteField_readBytes h object_ c.kResourceOffset
          (fieldBytes c.kExternalPointerSize
            (if c.V8_HEAP_SANDBOX_BOOL then GetResourceRefForDeserialization c h object_
              else info.resource_as_address))
        rw [fieldBytes_length] at e
        exact e
      · intro hsb hfield
        show restoredString c h _ object_ info = h
        rw [hres, hsb, if_neg (by simp), ← hfield]
        exact Heap.WriteField_self h object_ _ _
      · intro hsb hbytes
        show restoredString c h _ object_ info = h
        rw [hres, hsb, if_pos rfl]
        unfold GetResourceRefForDeserialization
        have e := fieldBytes_fieldValue
          (h.ReadBytes object_ c.kResourceOffset c.kExternalPointerSize)
          (by
            intro b hb
            simp only [Heap.ReadBytes, List.mem_map] at hb
            obtain ⟨i, -, rfl⟩ := hb
            exact hbytes _)
        have hl : (h.ReadBytes object_ c.kResourceOffset c.kExternalPointerSize).length =
            c.kExternalPointerSize := by
          simp [Heap.ReadBytes]
        rw [hl] at e
        rw [e]
        exact Heap.WriteField_self h object_ _ _
  · intro hr
    have heq : ObjectSerializer.SerializeExternalString c h (fuel + 1) s object_ info =
        Result.bind
          (ObjectSerializer.SerializeExternalStringAsSequentialString c h fuel s object_ info)
          (fun s1 => .ok (h, s1)) := by
      rw [SerializeExternalString_succ, hr]
    refine ⟨heq, ?_⟩
    intro r hok
    rw [heq] at hok
    obtain ⟨s1, -, he⟩ := (Result.bind_eq_ok _ _ _).1 hok
    cases he
    rfl

/-- Witness for C21: the external string of `fieldHeap`, whose address 4096 is
api reference 7. The record written for it carries the bytes of 7 in the
resource field (offset 16, the second half of the raw data that starts at
offset 8), and the live field holds the bytes of 4096 when the function has
returned. -/
theorem SerializeExternalString_spec_witness :
    Result.bind
      (ObjectSerializer.SerializeExternalString (exampleConfig 32) fieldHeap (7 + 1)
        (Serializer.initial 8) 1
        { resource_as_address := 4096, IsExternalOneByteString := true,
          IsInternalizedString := false, length := 3, resource_data := [97, 98, 99] })
      (fun r => .ok (r.2.sink_, r.1.ReadBytes 1 16 8)) =
    .ok ([SinkEntry.Put (Bytecode.kNewObject SnapshotSpace.kOld), SinkEntry.PutInt 3,
        SinkEntry.Put (Bytecode.kRootArrayConstants 5),
        SinkEntry.Put (Bytecode.kFixedRawData 2),
        SinkEntry.PutRaw [0, 0, 0, 0, 0, 0, 0, 0, 7, 0, 0, 0, 0, 0, 0, 0]],
      [0, 16, 0, 0, 0, 0, 0, 0]) ∧
    fieldHeap.ReadBytes 1 16 8 = fieldBytes 8 4096 ∧
    ∀ r, ObjectSerializer.SerializeExternalString (exampleConfig 32) fieldHeap (7 + 1)
        (Serializer.initial 8) 1
        { resource_as_address := 4096, IsExternalOneByteString := true,
          IsInternalizedString := false, length := 3, resource_data := [97, 98, 99] } =
        .ok r → r.1 = fieldHeap :=
  ⟨by decide!, by decide, fun r hok =>
    ((((SerializeExternalString_spec (exampleConfig 32) fieldHeap 7 (Serializer.initial 8) 1
      { resource_as_address := 4096, IsExternalOneByteString := true,
        IsInternalizedString := false, length := 3, resource_data := [97, 98, 99] }).1
      { index := 7, is_from_api := true } (by decide)).2.2.2.2 r hok).2.2.1 rfl (by decide))⟩

/-! ## The live fields of an array buffer -/

/-- C19. Evaluation of `SerializeJSArrayBuffer` on `fieldHeap`. Object 2 is an
array buffer without backing store whose live extension field holds the pointer
7: the record written for it carries the bytes of 7 in the extension field
(offset 40, the last eight bytes of the raw data that starts at offset 8), so
the object is not encoded with the extension set to null. Object 3, the same
buffer with a backing store, is encoded with the extension field zeroed (and
the backing-store reference 1 in the backing-store field, offset 32). In both
cases the two live fields hold their original bytes when the function has
returned. -/
theorem extension_not_nulled_without_backing_store :
    fieldHeap.kind 2 =
      .jsArrayBuffer { backing_store := none, byte_length := 0, extension := 7 } ∧
    fieldHeap.ReadBytes 2 40 8 = fieldBytes 8 7 ∧
    Result.bind
      (ObjectSerializer.SerializeJSArrayBuffer (exampleConfig 32) fieldHeap 8
        (Serializer.initial 8) 2 { backing_store := none, byte_length := 0, extension := 7 })
      (fun r => .ok (r.2.sink_, r.1.ReadBytes 2 32 16)) =
    .ok ([SinkEntry.Put (Bytecode.kNewObject SnapshotSpace.kOld), SinkEntry.PutInt 6,
        SinkEntry.Put (Bytecode.kRootArrayConstants 5),
        SinkEntry.Put (Bytecode.kFixedRawData 5),
        SinkEntry.PutRaw
          ([0, 0, 0, 0, 0, 0, 0, 0] ++ [0, 0, 0, 0, 0, 0, 0, 0] ++ [0, 0, 0, 0, 0, 0, 0, 0] ++
            [0, 0, 0, 0, 0, 0, 0, 0] ++ [7, 0, 0, 0, 0, 0, 0, 0])],
      fieldHeap.ReadBytes 2 32 16) ∧
    Result.bind
      (ObjectSerializer.SerializeJSArrayBuffer (exampleConfig 32) fieldHeap 8
        (Serializer.initial 8) 3
        { backing_store := some 100, byte_length := 4, extension := 7 })
      (fun r => .ok (r.2.sink_, r.1.ReadBytes 3 32 16)) =
    .ok ([SinkEntry.Put Bytecode.kOffHeapBackingStore, SinkEntry.PutInt 4,
        SinkEntry.PutRaw [100, 101, 102, 103],
        SinkEntry.Put (Bytecode.kNewObject SnapshotSpace.kOld), SinkEntry.PutInt 6,
        SinkEntry.Put (Bytecode.kRootArrayConstants 5),
        SinkEntry.Put (Bytecode.kFixedRawData 5),
        SinkEntry.PutRaw
          ([0, 0, 0, 0, 0, 0, 0, 0] ++ [0, 0, 0, 0, 0, 0, 0, 0] ++ [0, 0, 0, 0, 0, 0, 0, 0] ++
            [1, 0, 0, 0, 0, 0, 0, 0] ++ [0, 0, 0, 0, 0, 0, 0, 0])],
      fieldHeap.ReadBytes 3 32 16) := by
  refine ⟨by decide, by decide, by decide!, by decide!⟩

/-! ## Counting the events of one node -/

theorem edgesTo_append (x : HeapObject) (a b : List WalkEvent) :
    edgesTo x (a ++ b) = edgesTo x a + edgesTo x b := by
  simp [edgesTo, List.count_append]

theorem referenceRecordsFor_append (x : HeapObject) (a b : List WalkEvent) :
    referenceRecordsFor x (a ++ b) = referenceRecordsFor x a + referenceRecordsFor x b := by
  simp [referenceRecordsFor, List.count_append]

theorem freshEncodingsOf_append (x : HeapObject) (a b : List WalkEvent) :
    freshEncodingsOf x (a ++ b) = freshEncodingsOf x a + freshEncodingsOf x b := by
  simp [freshEncodingsOf, List.count_append]

theorem deferralsOf_append (x : HeapObject) (a b : List WalkEvent) :
    deferralsOf x (a ++ b) = deferralsOf x a + deferralsOf x b := by
  simp [deferralsOf, List.count_append]

/-- The events say nothing of `x`. -/
theorem NodeInv.congr_events {x : HeapObject} {s : Serializer} {E E' : List WalkEvent}
    (hi : NodeInv x s E) (h1 : edgesTo x E' = edgesTo x E)
    (h2 : referenceRecordsFor x E' = referenceRecordsFor x E)
    (h3 : freshEncodingsOf x E' = freshEncodingsOf x E)
    (h4 : deferralsOf x E' = deferralsOf x E) : NodeInv x s E' := by
  refine ⟨hi.hot, ?_⟩
  rw [h1, h2, h3, h4]
  exact hi.phase
/-! ## The hot-object window and the tables of one node -/

theorem indexOf_lt_length_iff_mem {α : Type} [BEq α] [LawfulBEq α] (a : α) (l : List α) :
    l.indexOf a < l.length ↔ a ∈ l := by
  induction l with
  | nil => simp [List.indexOf, List.findIdx, List.findIdx.go]
  | cons b t ih =>
    rw [List.indexOf_cons]
    by_cases hb : b = a
    · subst hb
      simp
    · have hb2 : (b == a) = false := by simpa using hb
      have hb3 : a ≠ b := fun e => hb e.symm
      simp [hb2, ih, hb3]

theorem HotObjectsList.Find_ne_none (l : HotObjectsList) (x : HeapObject) :
    l.Find x ≠ none ↔ some x ∈ l.circular_queue_ := by
  unfold HotObjectsList.Find
  simp only
  split
  · rename_i hlt
    simp only [ne_eq, reduceCtorEq, not_false_eq_true, true_iff]
    exact (indexOf_lt_length_iff_mem _ _).1 hlt
  · rename_i hlt
    simp only [ne_eq, not_true_eq_false, false_iff]
    exact fun hm => hlt ((indexOf_lt_length_iff_mem _ _).2 hm)

theorem HotObjectsList.Find_Add (l : HotObjectsList) (x y : HeapObject)
    (hf : (l.Add y).Find x ≠ none) : x = y ∨ l.Find x ≠ none := by
  rw [HotObjectsList.Find_ne_none] at hf ⊢
  unfold HotObjectsList.Add at hf
  simp only at hf
  rcases List.mem_or_eq_of_mem_set hf with hm | he
  · exact Or.inr hm
  · exact Or.inl (Option.some.inj he)

theorem SameFor.refl_for (x : HeapObject) (s : Serializer) : SameFor x s s :=
  ⟨rfl, Iff.rfl, rfl, fun hh => Or.inl hh⟩

theorem SameFor.located {x : HeapObject} {s s' : Serializer} (hs : SameFor x s s') :
    s'.Located x ↔ s.Located x := by
  unfold Serializer.Located
  rw [hs.loc]

theorem SameFor.trans_for {x : HeapObject} {s1 s2 s3 : Serializer} (h12 : SameFor x s1 s2)
    (h23 : SameFor x s2 s3) : SameFor x s1 s3 := by
  refine ⟨h23.loc.trans h12.loc, h23.pend.trans h12.pend, h23.queue.trans h12.queue, ?_⟩
  intro hh
  rcases h23.hot hh with h1 | h1
  · rcases h12.hot h1 with h2 | h2
    · exact Or.inl h2
    · exact Or.inr (h23.located.2 h2)
  · exact Or.inr h1

theorem SameFor.of_tables {x : HeapObject} {s s' : Serializer}
    (h1 : s'.reference_map_ = s.reference_map_)
    (h2 : s'.forward_refs_per_pending_object_ = s.forward_refs_per_pending_object_)
    (h3 : s'.deferred_objects_ = s.deferred_objects_)
    (h4 : s'.hot_objects_ = s.hot_objects_) : SameFor x s s' := by
  refine ⟨LookupReference_of_map_eq s s' _ h1, ?_, ?_, ?_⟩
  · rw [findPending_of_table_eq s s' x h2]
  · rw [h3]
  · rw [h4]
    exact fun hh => Or.inl hh

theorem SameFor.of_sinkOnly_for {x : HeapObject} {s s' : Serializer} (hs : SinkOnly s s')
    (hh : s'.hot_objects_ = s.hot_objects_) : SameFor x s s' :=
  SameFor.of_tables hs.1 hs.2.1 hs.2.2.2.2.1 hh

theorem SameFor.opened {x : HeapObject} {s s' : Serializer} (hs : SameFor x s s') :
    s.Opened x ↔ s'.Opened x := by
  unfold Serializer.Opened
  rw [hs.located, hs.pend, hs.queue]

theorem NodeInv.of_sameFor_inv {x : HeapObject} {s s' : Serializer} {E : List WalkEvent}
    (hi : NodeInv x s E) (hs : SameFor x s s') : NodeInv x s' E := by
  refine ⟨?_, ?_⟩
  · intro hh
    rcases hs.hot hh with h1 | h1
    · exact hs.located.2 (hi.hot h1)
    · exact h1
  · have hp : s'.findPending x = none ↔ s.findPending x = none := by
      have := hs.pend
      constructor
      · intro h1
        by_contra h2
        exact (this.2 h2) h1
      · intro h1
        by_contra h2
        exact (this.1 h2) h1
    rw [hs.located, hs.pend, hs.queue, hp]
    exact hi.phase

theorem Awaiting.of_sameFor_await {x : HeapObject} {s s' : Serializer} {E : List WalkEvent}
    (ha : Awaiting x s E) (hs : SameFor x s s') : Awaiting x s' E := by
  obtain ⟨a1, a2, a3, a4⟩ := ha
  refine ⟨?_, fun hl => a2 (hs.located.1 hl), hs.queue.trans a3, a4⟩
  by_contra hh
  rcases hs.hot hh with h1 | h1
  · exact h1 a1
  · exact a2 (hs.located.1 h1)

/-! ### Helpers that leave the hot-object window alone -/

theorem hot_foldl_PutByte (l : List Nat) (s : Serializer) :
    (l.foldl Serializer.PutByte s).hot_objects_ = s.hot_objects_ := by
  induction l generalizing s with
  | nil => rfl
  | cons b rest ih =>
    rw [List.foldl_cons, ih]
    rfl

theorem hot_PutAlignmentPrefix (c : Config) (h : Heap) (s : Serializer) (o : HeapObject) :
    (PutAlignmentPrefix c h s o).2.hot_objects_ = s.hot_objects_ := by
  unfold V8Snapshot.PutAlignmentPrefix
  dsimp only
  split <;> rfl

theorem hot_PutRepeat (c : Config) (s : Serializer) (n : Nat) :
    (PutRepeat c s n).hot_objects_ = s.hot_objects_ := by
  unfold V8Snapshot.PutRepeat
  split <;> rfl

theorem hot_OutputRawWithCustomField (h : Heap) (s : Serializer) (o : HeapObject)
    (a b f : Int) (n : Nat) (v : List Nat) :
    (OutputRawWithCustomField h s o a b f n v).hot_objects_ = s.hot_objects_ := by
  unfold V8Snapshot.OutputRawWithCustomField
  simp only
  split <;> rfl

theorem hot_OutputRawData (c : Config) (h : Heap) (os : ObjectSerializer) (s : Serializer)
    (up_to : Int) :
    (ObjectSerializer.OutputRawData c h os s up_to).2.hot_objects_ = s.hot_objects_ := by
  unfold ObjectSerializer.OutputRawData
  simp only
  split
  · split
    · rw [hot_OutputRawWithCustomField]
      split <;> rfl
    · rw [hot_OutputRawWithCustomField]
      split <;> rfl
    · split <;> rfl
  · rfl

theorem hot_OutputExternalReference (c : Config) (h : Heap) (os : ObjectSerializer)
    (s : Serializer) (target size : Nat) (sandboxify : Bool)
    (r : ObjectSerializer × Serializer)
    (hr : ObjectSerializer.OutputExternalReference c h os s target size sandboxify = .ok r) :
    r.2.hot_objects_ = s.hot_objects_ := by
  unfold ObjectSerializer.OutputExternalReference at hr
  simp only at hr
  split at hr
  · split at hr
    · cases hr
    · split at hr
      · cases hr
      · split at hr
        · cases hr
        · cases hr
          rfl
  · split at hr
    · cases hr
      simp only [Serializer.PutInt]
      split <;> rfl
    · cases hr
      simp only [Serializer.PutInt]
      split <;> rfl

theorem hot_OutputSequentialString (c : Config) (h : Heap) (s : Serializer)
    (o : HeapObject) (a b : Nat) (res : List Nat) :
    (ObjectSerializer.OutputSequentialString c h s o a b res).hot_objects_ =
      s.hot_objects_ := by
  unfold ObjectSerializer.OutputSequentialString
  simp only
  rw [hot_foldl_PutByte]
  show (List.foldl Serializer.PutByte _ _).hot_objects_ = _
  rw [hot_foldl_PutByte]
  rfl

theorem hot_RegisterObjectIsPending (s : Serializer) (x : HeapObject) :
    (RegisterObjectIsPending s x).hot_objects_ = s.hot_objects_ := by
  unfold RegisterObjectIsPending
  split <;> rfl

theorem hot_SerializeBackingStore (h : Heap) (s : Serializer) (b n : Nat) :
    (SerializeBackingStore h s b n).2.hot_objects_ = s.hot_objects_ := by
  unfold V8Snapshot.SerializeBackingStore
  simp only
  split <;> rfl

/-! ### Steps that say nothing new of `x` -/

theorem SameFor.OutputRawData_for (x : HeapObject) (c : Config) (h : Heap)
    (os : ObjectSerializer) (s : Serializer) (up_to : Int) :
    SameFor x s (ObjectSerializer.OutputRawData c h os s up_to).2 :=
  SameFor.of_sinkOnly_for (SinkOnly.OutputRawData c h os s up_to)
    (hot_OutputRawData c h os s up_to)

theorem SameFor.Put_for (x : HeapObject) (s : Serializer) (b : Bytecode) :
    SameFor x s (s.Put b) :=
  SameFor.of_tables rfl rfl rfl rfl

theorem SameFor.PutInt_for (x : HeapObject) (s : Serializer) (v : Int) :
    SameFor x s (s.PutInt v) :=
  SameFor.of_tables rfl rfl rfl rfl

theorem SameFor.enter_for (x : HeapObject) (s : Serializer) :
    SameFor x s (RecursionScope.enter s) :=
  SameFor.of_tables rfl rfl rfl rfl

theorem SameFor.leave_for (x : HeapObject) (s : Serializer) :
    SameFor x s (RecursionScope.leave s) :=
  SameFor.of_tables rfl rfl rfl rfl

theorem SameFor.PutRepeat_for (x : HeapObject) (c : Config) (s : Serializer) (n : Nat) :
    SameFor x s (PutRepeat c s n) :=
  SameFor.of_sinkOnly_for (SinkOnly.PutRepeat c s n) (hot_PutRepeat c s n)

theorem SameFor.OutputCode_for (x : HeapObject) (c : Config) (h : Heap) (s : Serializer)
    (o : HeapObject) (size : Nat) : SameFor x s (ObjectSerializer.OutputCode c h s o size) :=
  SameFor.of_tables rfl rfl rfl rfl

theorem SameFor.OutputSequentialString_for (x : HeapObject) (c : Config) (h : Heap)
    (s : Serializer) (o : HeapObject) (a b : Nat) (res : List Nat) :
    SameFor x s (ObjectSerializer.OutputSequentialString c h s o a b res) :=
  SameFor.of_sinkOnly_for (SinkOnly.OutputSequentialString c h s o a b res)
    (hot_OutputSequentialString c h s o a b res)

theorem SameFor.OutputExternalReference_for (x : HeapObject) (c : Config) (h : Heap)
    (os : ObjectSerializer) (s : Serializer) (target size : Nat) (sandboxify : Bool)
    (r : ObjectSerializer × Serializer)
    (hr : ObjectSerializer.OutputExternalReference c h os s target size sandboxify = .ok r) :
    SameFor x s r.2 :=
  SameFor.of_sinkOnly_for (SinkOnly.OutputExternalReference c h os s target size sandboxify r hr)
    (hot_OutputExternalReference c h os s target size sandboxify r hr)

theorem SameFor.PutSmiRoot_for (x : HeapObject) (c : Config) (s : Serializer) (v : Nat) :
    SameFor x s (PutSmiRoot c s v) :=
  SameFor.of_tables rfl rfl rfl rfl

theorem SameFor.SerializeBackingStore_for (x : HeapObject) (h : Heap) (s : Serializer)
    (b n : Nat) : SameFor x s (SerializeBackingStore h s b n).2 := by
  refine ⟨?_, ?_, ?_, ?_⟩
  · unfold V8Snapshot.SerializeBackingStore
    simp only
    split
    · exact LookupReference_add_other _ _ _ _ (by simp)
    · rfl
  · have e : (SerializeBackingStore h s b n).2.forward_refs_per_pending_object_ =
        s.forward_refs_per_pending_object_ := by
      unfold V8Snapshot.SerializeBackingStore
      simp only
      split <;> rfl
    rw [findPending_of_table_eq _ _ x e]
  · have e : (SerializeBackingStore h s b n).2.deferred_objects_ = s.deferred_objects_ := by
      unfold V8Snapshot.SerializeBackingStore
      simp only
      split <;> rfl
    rw [e]
  · rw [hot_SerializeBackingStore]
    exact fun hh => Or.inl hh

theorem SameFor.SerializeRoot_for (x : HeapObject) (c : Config) (h : Heap) (s : Serializer)
    (y : HeapObject) (hxy : y ≠ x) : SameFor x s (SerializeRoot c h s y).2 := by
  have hs := SinkOnly.SerializeRoot c h s y
  refine ⟨LookupReference_of_map_eq _ _ _ hs.1, ?_, ?_, ?_⟩
  · rw [findPending_of_table_eq _ _ x hs.2.1]
  · rw [hs.2.2.2.2.1]
  · intro hh
    left
    unfold V8Snapshot.SerializeRoot at hh
    split at hh
    · unfold V8Snapshot.PutRoot at hh
      dsimp only at hh
      split at hh
      · exact hh
      · rcases HotObjectsList.Find_Add _ x y hh with h1 | h1
        · exact absurd h1.symm hxy
        · exact h1
    · exact hh

theorem SameFor.SerializeHotObject_for (x : HeapObject) (s : Serializer) (y : HeapObject) :
    SameFor x s (SerializeHotObject s y).2 := by
  unfold V8Snapshot.SerializeHotObject
  split
  · exact SameFor.refl_for x s
  · exact SameFor.Put_for x s _

theorem hot_PutBackReference (s : Serializer) (o : HeapObject) (r : SerializerReference) :
    (PutBackReference s o r).hot_objects_ = s.hot_objects_.Add o := by
  unfold V8Snapshot.PutBackReference
  cases r <;> rfl

theorem hot_PutAttachedReference (s : Serializer) (r : SerializerReference) :
    (PutAttachedReference s r).hot_objects_ = s.hot_objects_ := by
  unfold V8Snapshot.PutAttachedReference
  split <;> rfl

theorem hot_SerializeBackReference (c : Config) (h : Heap) (s : Serializer) (y : HeapObject) :
    (SerializeBackReference c h s y).2.hot_objects_ = s.hot_objects_ ∨
    ((SerializeBackReference c h s y).2.hot_objects_ = s.hot_objects_.Add y ∧
      s.Located y) := by
  unfold V8Snapshot.SerializeBackReference
  simp only
  split
  · exact Or.inl rfl
  · rename_i hv
    split
    · exact Or.inl (hot_PutAttachedReference s _)
    · right
      refine ⟨?_, by simpa [Serializer.Located] using hv⟩
      rw [hot_PutBackReference]
      show (PutAlignmentPrefix c h s y).2.hot_objects_.Add y = _
      rw [hot_PutAlignmentPrefix]

theorem SameFor.SerializeBackReference_for (x : HeapObject) (c : Config) (h : Heap)
    (s : Serializer) (y : HeapObject) : SameFor x s (SerializeBackReference c h s y).2 := by
  have hs := SinkOnly.SerializeBackReference c h s y
  have hl := LookupReference_of_map_eq _ _ (RefKey.object x) hs.1
  refine ⟨hl, ?_, ?_, ?_⟩
  · rw [findPending_of_table_eq _ _ x hs.2.1]
  · rw [hs.2.2.2.2.1]
  · intro hh
    rcases hot_SerializeBackReference c h s y with e | ⟨e, hy⟩
    · rw [e] at hh
      exact Or.inl hh
    · rw [e] at hh
      rcases HotObjectsList.Find_Add _ x y hh with h1 | h1
      · right
        subst h1
        unfold Serializer.Located
        rw [hl]
        exact hy
      · exact Or.inl h1

theorem SameFor.PutPendingForwardReferenceTo_for (x : HeapObject) (s : Serializer)
    (y : HeapObject) : SameFor x s (PutPendingForwardReferenceTo s y) :=
  ⟨rfl, findPending_put s y x, rfl, fun hh => Or.inl hh⟩

theorem SameFor.SerializePendingObject_for (x : HeapObject) (s : Serializer)
    (y : HeapObject) : SameFor x s (SerializePendingObject s y).2 := by
  unfold V8Snapshot.SerializePendingObject
  split
  · exact SameFor.refl_for x s
  · exact SameFor.PutPendingForwardReferenceTo_for x s y

theorem SameFor.RegisterObjectIsPending_for (x : HeapObject) (s : Serializer)
    (y : HeapObject) (hxy : y ≠ x) : SameFor x s (RegisterObjectIsPending s y) := by
  obtain ⟨g1, g2, -⟩ := register_frame s y
  refine ⟨LookupReference_of_map_eq _ _ _ g1, ?_, ?_, ?_⟩
  · rw [findPending_register]
    constructor
    · rintro (h1 | h1)
      · exact absurd h1.symm hxy
      · exact h1
    · exact fun h1 => Or.inr h1
  · rw [g2]
  · rw [hot_RegisterObjectIsPending]
    exact fun hh => Or.inl hh

theorem SameFor.QueueDeferredObject_for (x : HeapObject) (s : Serializer)
    (y : HeapObject) (hxy : y ≠ x) : SameFor x s (QueueDeferredObject s y) := by
  refine ⟨rfl, Iff.rfl, ?_, fun hh => Or.inl hh⟩
  show (s.deferred_objects_ ++ [y]).count x = _
  rw [List.count_append, List.count_singleton]
  simp [hxy]

theorem SameFor.ResolvePendingObject_for (x : HeapObject) (s : Serializer)
    (y : HeapObject) (hxy : y ≠ x) : SameFor x s (ResolvePendingObject s y) := by
  obtain ⟨g1, g2, -⟩ := resolve_frame s y
  refine ⟨LookupReference_of_map_eq _ _ _ g1, ?_, ?_, ?_⟩
  · rw [findPending_resolve_other s y x (fun e => hxy e.symm)]
  · rw [g2]
  · have e : (ResolvePendingObject s y).hot_objects_ = s.hot_objects_ := by
      obtain ⟨-, -, f3, -, -⟩ := foldl_Resolve_frame ((s.findPending y).getD []) s
      simpa [ResolvePendingObject] using f3
    rw [e]
    exact fun hh => Or.inl hh

theorem SameFor.AddReference_for (x : HeapObject) (s : Serializer) (key : RefKey)
    (r : SerializerReference) (hk : RefKey.object x ≠ key) :
    SameFor x s (s.AddReference key r) :=
  ⟨LookupReference_add_other s key _ r hk, Iff.rfl, rfl, fun hh => Or.inl hh⟩
/-! ## How the events of one node fit its tables -/

theorem counts_singleton_other (x : HeapObject) (e : WalkEvent) (he : e.node ≠ x) :
    edgesTo x [e] = 0 ∧ referenceRecordsFor x [e] = 0 ∧ freshEncodingsOf x [e] = 0 ∧
    deferralsOf x [e] = 0 := by
  cases e <;>
    simp_all [edgesTo, referenceRecordsFor, freshEncodingsOf, deferralsOf, WalkEvent.node,
      List.count_singleton]

theorem NodeInv.append_other {x : HeapObject} {s : Serializer} {E : List WalkEvent}
    (e : WalkEvent) (he : e.node ≠ x) : NodeInv x s (E ++ [e]) ↔ NodeInv x s E := by
  obtain ⟨h1, h2, h3, h4⟩ := counts_singleton_other x e he
  constructor
  · intro hi
    exact hi.congr_events (by rw [edgesTo_append, h1]; rfl)
      (by rw [referenceRecordsFor_append, h2]; rfl)
      (by rw [freshEncodingsOf_append, h3]; rfl) (by rw [deferralsOf_append, h4]; rfl)
  · intro hi
    exact hi.congr_events (by rw [edgesTo_append, h1]; rfl)
      (by rw [referenceRecordsFor_append, h2]; rfl)
      (by rw [freshEncodingsOf_append, h3]; rfl) (by rw [deferralsOf_append, h4]; rfl)

theorem Keep.of_sameFor_keep {x : HeapObject} {s s' : Serializer} {E : List WalkEvent}
    (hs : SameFor x s s') : Keep x s E s' E :=
  fun hi => ⟨hi.of_sameFor_inv hs, hs.opened⟩

theorem Keep.trans_keep {x : HeapObject} {s1 s2 s3 : Serializer} {E1 E2 E3 : List WalkEvent}
    (h12 : Keep x s1 E1 s2 E2) (h23 : Keep x s2 E2 s3 E3) : Keep x s1 E1 s3 E3 := by
  intro hi
  obtain ⟨i2, o2⟩ := h12 hi
  obtain ⟨i3, o3⟩ := h23 i2
  exact ⟨i3, o2.trans o3⟩

theorem Keep.skip_pre {x : HeapObject} {s s' : Serializer} {E E' : List WalkEvent}
    (e : WalkEvent) (he : e.node ≠ x) (hk : Keep x s (E ++ [e]) s' E') : Keep x s E s' E' :=
  fun hi => hk ((NodeInv.append_other e he).2 hi)

theorem Keep.skip_post {x : HeapObject} {s s' : Serializer} {E E' : List WalkEvent}
    (e : WalkEvent) (he : e.node ≠ x) (hk : Keep x s E s' E') : Keep x s E s' (E' ++ [e]) :=
  fun hi => ⟨(NodeInv.append_other e he).2 (hk hi).1, (hk hi).2⟩

theorem Enc.pre_sameFor_enc {x : HeapObject} {s s1 s' : Serializer} {E E' : List WalkEvent}
    (hs : SameFor x s s1) (he : Enc x s1 E s' E') : Enc x s E s' E' :=
  fun ha => he (ha.of_sameFor_await hs)

theorem Enc.then_keep_enc {x : HeapObject} {s s1 s' : Serializer} {E E1 E' : List WalkEvent}
    (he : Enc x s E s1 E1) (hk : Keep x s1 E1 s' E') : Enc x s E s' E' := by
  intro ha
  obtain ⟨i1, o1⟩ := he ha
  obtain ⟨i2, o2⟩ := hk i1
  exact ⟨i2, fun ho => o1 (o2.2 ho)⟩

theorem Obj.pre_sameFor_obj {x y : HeapObject} {s s1 s' : Serializer} {E E' : List WalkEvent}
    (hs : SameFor x s s1) (ho : Obj x y s1 E s' E') : Obj x y s E s' E' :=
  ⟨fun hne => (Keep.of_sameFor_keep hs).trans_keep (ho.1 hne), fun he => (ho.2 he).pre_sameFor_enc hs⟩

theorem Obj.then_keep_obj {x y : HeapObject} {s s1 s' : Serializer} {E E1 E' : List WalkEvent}
    (ho : Obj x y s E s1 E1) (hk : Keep x s1 E1 s' E') : Obj x y s E s' E' :=
  ⟨fun hne => (ho.1 hne).trans_keep hk, fun he => (ho.2 he).then_keep_enc hk⟩

/-- An edge to `x` while `x` has a Location or is pending is answered by a
reference record: one more edge, one more reference record. -/
theorem Keep.reference_edge {x : HeapObject} {s s' : Serializer} {E : List WalkEvent}
    (hs : SameFor x s s') (ht : s.Located x ∨ s.findPending x ≠ none) :
    Keep x s E s' (E ++ [WalkEvent.edge x, WalkEvent.referenceRecord x]) := by
  intro hi
  refine ⟨?_, hs.opened⟩
  have hi2 := hi.of_sameFor_inv hs
  have hl := hs.located
  have hp := hs.pend
  refine ⟨hi2.hot, ?_⟩
  have c1 : edgesTo x (E ++ [WalkEvent.edge x, WalkEvent.referenceRecord x]) =
      edgesTo x E + 1 := by
    simp [edgesTo, List.count_append, List.count_cons]
  have c2 : referenceRecordsFor x (E ++ [WalkEvent.edge x, WalkEvent.referenceRecord x]) =
      referenceRecordsFor x E + 1 := by
    simp [referenceRecordsFor, List.count_append, List.count_cons]
  have c3 : freshEncodingsOf x (E ++ [WalkEvent.edge x, WalkEvent.referenceRecord x]) =
      freshEncodingsOf x E := by
    simp [freshEncodingsOf, List.count_append, List.count_cons]
  have c4 : deferralsOf x (E ++ [WalkEvent.edge x, WalkEvent.referenceRecord x]) =
      deferralsOf x E := by
    simp [deferralsOf, List.count_append, List.count_cons]
  rw [c1, c2, c3, c4]
  rcases hi2.phase with p | p | p | p
  · obtain ⟨p1, p2, -⟩ := p
    rcases ht with t | t
    · exact absurd (hl.2 t) p1
    · exact absurd p2 (hp.2 t)
  · obtain ⟨p1, p2, p3, p4, p5, p6, p7⟩ := p
    exact Or.inr (Or.inl ⟨p1, p2, p3, p4, p5, by omega, by omega⟩)
  · obtain ⟨p1, p2, p3, p4, p5, p6, p7⟩ := p
    exact Or.inr (Or.inr (Or.inl ⟨p1, p2, p3, p4, p5, by omega, by omega⟩))
  · obtain ⟨p1, p3, p4, p5, p6, p7⟩ := p
    exact Or.inr (Or.inr (Or.inr ⟨p1, p3, p4, p5, by omega, by omega⟩))

/-- The first edge to `x`: `x` has no Location and is not pending, so no event
names it yet, and it awaits its encoding. -/
theorem Awaiting.of_first_edge {x : HeapObject} {s : Serializer} {E : List WalkEvent}
    (hi : NodeInv x s E) (hl : ¬ s.Located x) (hp : s.findPending x = none) :
    Awaiting x s (E ++ [WalkEvent.edge x]) ∧ deferralsOf x (E ++ [WalkEvent.edge x]) = 0 ∧
    ¬ s.Opened x := by
  have c1 : edgesTo x (E ++ [WalkEvent.edge x]) = edgesTo x E + 1 := by
    simp [edgesTo, List.count_append, List.count_cons]
  have c2 : referenceRecordsFor x (E ++ [WalkEvent.edge x]) = referenceRecordsFor x E := by
    simp [referenceRecordsFor, List.count_append, List.count_cons]
  have c3 : freshEncodingsOf x (E ++ [WalkEvent.edge x]) = freshEncodingsOf x E := by
    simp [freshEncodingsOf, List.count_append, List.count_cons]
  have c4 : deferralsOf x (E ++ [WalkEvent.edge x]) = deferralsOf x E := by
    simp [deferralsOf, List.count_append, List.count_cons]
  have hh : s.hot_objects_.Find x = none := by
    by_contra hc
    exact hl (hi.hot hc)
  unfold Awaiting
  rw [c1, c2, c3, c4]
  rcases hi.phase with p | p | p | p
  · obtain ⟨p1, p2, p3, p4, p5, p6, p7⟩ := p
    exact ⟨⟨hh, hl, p3, p6, by omega, by omega, by omega⟩, p7, fun ho => ho.2.1 hp⟩
  · exact absurd hp p.2.1
  · exact absurd hp p.2.1
  · exact absurd p.1 hl

/-- The deferral of `x`: it becomes pending and is queued, and a
forward-reference record answers the edge. -/
theorem NodeInv.of_defer {x : HeapObject} {s : Serializer} {E : List WalkEvent}
    (ha : Awaiting x s E) (hd : deferralsOf x E = 0) :
    NodeInv x (RecursionScope.leave (ObjectSerializer.Defer (RecursionScope.enter s) x))
      (E ++ [WalkEvent.deferral x, WalkEvent.referenceRecord x]) ∧
    ¬ (RecursionScope.leave
      (ObjectSerializer.Defer (RecursionScope.enter s) x)).Opened x := by
  obtain ⟨a1, a2, a3, a4, a5, a6, a7⟩ := ha
  have c1 : edgesTo x (E ++ [WalkEvent.deferral x, WalkEvent.referenceRecord x]) =
      edgesTo x E := by
    simp [edgesTo, List.count_append, List.count_cons]
  have c2 : referenceRecordsFor x (E ++ [WalkEvent.deferral x, WalkEvent.referenceRecord x]) =
      referenceRecordsFor x E + 1 := by
    simp [referenceRecordsFor, List.count_append, List.count_cons]
  have c3 : freshEncodingsOf x (E ++ [WalkEvent.deferral x, WalkEvent.referenceRecord x]) =
      freshEncodingsOf x E := by
    simp [freshEncodingsOf, List.count_append, List.count_cons]
  have c4 : deferralsOf x (E ++ [WalkEvent.deferral x, WalkEvent.referenceRecord x]) =
      deferralsOf x E + 1 := by
    simp [deferralsOf, List.count_append, List.count_cons]
  have hloc : ¬ (RecursionScope.leave
      (ObjectSerializer.Defer (RecursionScope.enter s) x)).Located x := by
    have e : (RecursionScope.leave
        (ObjectSerializer.Defer (RecursionScope.enter s) x)).reference_map_ =
        s.reference_map_ := by
      show (RegisterObjectIsPending (RecursionScope.enter s) x).reference_map_ = _
      exact (register_frame _ x).1
    unfold Serializer.Located
    rw [LookupReference_of_map_eq _ _ _ e]
    exact a2
  have hpend : (RecursionScope.leave
      (ObjectSerializer.Defer (RecursionScope.enter s) x)).findPending x ≠ none := by
    show (PutPendingForwardReferenceTo (RegisterObjectIsPending (RecursionScope.enter s) x)
      x).findPending x ≠ none
    rw [findPending_put, findPending_register]
    exact Or.inl rfl
  have hq : (RecursionScope.leave
      (ObjectSerializer.Defer (RecursionScope.enter s) x)).deferred_objects_.count x = 1 := by
    show ((RegisterObjectIsPending (RecursionScope.enter s) x).deferred_objects_ ++
      [x]).count x = 1
    rw [(register_frame _ x).2.1, List.count_append, List.count_singleton]
    show s.deferred_objects_.count x + _ = 1
    rw [a3]
    simp
  have hhot : (RecursionScope.leave
      (ObjectSerializer.Defer (RecursionScope.enter s) x)).hot_objects_ = s.hot_objects_ := by
    show (RegisterObjectIsPending (RecursionScope.enter s) x).hot_objects_ = _
    rw [hot_RegisterObjectIsPending]
    rfl
  refine ⟨⟨?_, ?_⟩, fun ho => ?_⟩
  · rw [hhot]
    exact fun hc => absurd a1 hc
  · rw [c1, c2, c3, c4]
    exact Or.inr (Or.inl ⟨hloc, hpend, hq, a4, by omega, by omega, by omega⟩)
  · have := ho.2.2
    omega

/-- The new-object record of `x`: `x` is registered pending and its prologue is
under way. -/
theorem NodeInv.of_open {x : HeapObject} {s s1 : Serializer} {E : List WalkEvent}
    (ha : Awaiting x s E) (hs : SameFor x s s1) :
    NodeInv x (RegisterObjectIsPending s1 x) (E ++ [WalkEvent.freshEncoding x]) ∧
    (RegisterObjectIsPending s1 x).Opened x := by
  obtain ⟨a1, a2, a3, a4, a5, a6, a7⟩ := ha.of_sameFor_await hs
  have c1 : edgesTo x (E ++ [WalkEvent.freshEncoding x]) = edgesTo x E := by
    simp [edgesTo, List.count_append, List.count_cons]
  have c2 : referenceRecordsFor x (E ++ [WalkEvent.freshEncoding x]) =
      referenceRecordsFor x E := by
    simp [referenceRecordsFor, List.count_append, List.count_cons]
  have c3 : freshEncodingsOf x (E ++ [WalkEvent.freshEncoding x]) =
      freshEncodingsOf x E + 1 := by
    simp [freshEncodingsOf, List.count_append, List.count_cons]
  have c4 : deferralsOf x (E ++ [WalkEvent.freshEncoding x]) = deferralsOf x E := by
    simp [deferralsOf, List.count_append, List.count_cons]
  obtain ⟨g1, g2, -⟩ := register_frame s1 x
  have hloc : ¬ (RegisterObjectIsPending s1 x).Located x := by
    unfold Serializer.Located
    rw [LookupReference_of_map_eq _ _ _ g1]
    exact a2
  have hpend : (RegisterObjectIsPending s1 x).findPending x ≠ none := by
    rw [findPending_register]
    exact Or.inl rfl
  have hq : (RegisterObjectIsPending s1 x).deferred_objects_.count x = 0 := by
    rw [g2]
    exact a3
  refine ⟨⟨?_, ?_⟩, hloc, hpend, hq⟩
  · rw [hot_RegisterObjectIsPending]
    exact fun hc => absurd a1 hc
  · rw [c1, c2, c3, c4]
    exact Or.inr (Or.inr (Or.inl ⟨hloc, hpend, hq, by omega, a5, a6, a7⟩))

/-- The end of the prologue of `x`: it gets its Location. -/
theorem NodeInv.of_close {x : HeapObject} {s s' : Serializer} {E : List WalkEvent}
    (hi : NodeInv x s E) (ho : s.Opened x) (hl : s'.Located x)
    (hq : s'.deferred_objects_ = s.deferred_objects_) :
    NodeInv x s' E ∧ ¬ s'.Opened x := by
  refine ⟨⟨fun _ => hl, ?_⟩, fun hc => hc.1 hl⟩
  obtain ⟨o1, o2, o3⟩ := ho
  rcases hi.phase with p | p | p | p
  · exact absurd p.2.1 o2
  · have := p.2.2.1
    omega
  · obtain ⟨-, -, p3, p4, p5, p6, p7⟩ := p
    exact Or.inr (Or.inr (Or.inr ⟨hl, by rw [hq]; exact p3, p4, p5, p6, p7⟩))
  · exact absurd p.1 o1

/-- The new-meta-map record of `x`: `x` gets its Location at once. -/
theorem NodeInv.of_meta {x : HeapObject} {s s' : Serializer} {E : List WalkEvent}
    (ha : Awaiting x s E) (hl : s'.Located x)
    (hq : s'.deferred_objects_ = s.deferred_objects_) :
    NodeInv x s' (E ++ [WalkEvent.freshEncoding x]) ∧ ¬ s'.Opened x := by
  obtain ⟨a1, a2, a3, a4, a5, a6, a7⟩ := ha
  have c1 : edgesTo x (E ++ [WalkEvent.freshEncoding x]) = edgesTo x E := by
    simp [edgesTo, List.count_append, List.count_cons]
  have c2 : referenceRecordsFor x (E ++ [WalkEvent.freshEncoding x]) =
      referenceRecordsFor x E := by
    simp [referenceRecordsFor, List.count_append, List.count_cons]
  have c3 : freshEncodingsOf x (E ++ [WalkEvent.freshEncoding x]) =
      freshEncodingsOf x E + 1 := by
    simp [freshEncodingsOf, List.count_append, List.count_cons]
  have c4 : deferralsOf x (E ++ [WalkEvent.freshEncoding x]) = deferralsOf x E := by
    simp [deferralsOf, List.count_append, List.count_cons]
  refine ⟨⟨fun _ => hl, ?_⟩, fun hc => hc.1 hl⟩
  rw [c1, c2, c3, c4]
  exact Or.inr (Or.inr (Or.inr ⟨hl, by rw [hq]; exact a3, by omega, a5, a6, a7⟩))
/-! ## The effect of the walk on the tally of one node -/

theorem SerializeRoot_fst (c : Config) (h : Heap) (s : Serializer) (y : HeapObject)
    (hr : (SerializeRoot c h s y).1 = true) : h.root_index_map y ≠ none := by
  unfold V8Snapshot.SerializeRoot at hr
  split at hr
  · rename_i e
    rw [e]
    simp
  · cases hr

theorem SerializeRoot_fst_of_none (c : Config) (h : Heap) (s : Serializer) (y : HeapObject)
    (hr : h.root_index_map y = none) : (SerializeRoot c h s y).1 = false := by
  unfold V8Snapshot.SerializeRoot
  rw [hr]

theorem SerializeHotObject_fst (s : Serializer) (y : HeapObject)
    (hr : (SerializeHotObject s y).1 = true) : s.hot_objects_.Find y ≠ none := by
  unfold V8Snapshot.SerializeHotObject at hr
  split at hr
  · cases hr
  · rename_i e
    rw [e]
    simp

theorem SerializeBackReference_fst (c : Config) (h : Heap) (s : Serializer) (y : HeapObject) :
    (SerializeBackReference c h s y).1 = true ↔ s.Located y := by
  unfold V8Snapshot.SerializeBackReference Serializer.Located
  simp only
  split
  · rename_i e
    simp [e]
  · rename_i e
    split <;> simpa using e

theorem SerializePendingObject_fst (s : Serializer) (y : HeapObject) :
    (SerializePendingObject s y).1 = true ↔ s.findPending y ≠ none := by
  unfold V8Snapshot.SerializePendingObject
  split
  · rename_i e
    simp [e]
  · rename_i e
    simp [e]

theorem WalkTally.tally_serializeObject {c : Config} {h : Heap} {x : HeapObject} {fuel : Nat}
    (ih : WalkTally c h x fuel) (hx : h.root_index_map x = none) (s : Serializer)
    (y : HeapObject) (s' : Serializer) (E : List WalkEvent)
    (hok : SerializeObject c h (fuel + 1) s y = .ok s') :
    Keep x s E s' (E ++ SerializeObject.events c h (fuel + 1) s y) := by
  rw [SerializeObject_succ] at hok
  rw [SerializeObject.events]
  by_cases hxy : y = x
  · subst hxy
    have hr := SerializeRoot_fst_of_none c h s y hx
    rw [hr] at hok
    rw [hr]
    simp only [Bool.false_eq_true, if_false] at hok ⊢
    split at hok
    · rename_i hh
      cases hok
      rw [if_pos hh]
      intro hi
      exact Keep.reference_edge (SameFor.SerializeHotObject_for y s y)
        (Or.inl (hi.hot (SerializeHotObject_fst s y hh))) hi
    · rename_i hh
      rw [if_neg hh]
      split at hok
      · rename_i hb
        cases hok
        rw [if_pos hb]
        exact Keep.reference_edge (SameFor.SerializeBackReference_for y c h s y)
          (Or.inl ((SerializeBackReference_fst c h s y).1 hb))
      · rename_i hb
        rw [if_neg hb]
        split at hok
        · rename_i hp
          cases hok
          rw [if_pos hp]
          exact Keep.reference_edge (SameFor.SerializePendingObject_for y s y)
            (Or.inr ((SerializePendingObject_fst s y).1 hp))
        · rename_i hp
          rw [if_neg hp, List.append_cons]
          intro hi
          have hl : ¬ s.Located y := fun hc => hb ((SerializeBackReference_fst c h s y).2 hc)
          have hpn : s.findPending y = none := by
            by_contra hc
            exact hp ((SerializePendingObject_fst s y).2 hc)
          obtain ⟨ha, hd, hno⟩ := Awaiting.of_first_edge hi hl hpn
          obtain ⟨i1, o1⟩ := (ih.serialize s y s' _ hok).2 rfl
            (fun hd1 => by rw [hd] at hd1; cases hd1) ha
          exact ⟨i1, ⟨fun ho => absurd ho hno, fun ho => absurd ho o1⟩⟩
  · have he : (WalkEvent.edge y).node ≠ x := hxy
    rw [List.append_cons]
    refine Keep.skip_pre _ he ?_
    split at hok
    · rename_i hr
      cases hok
      rw [if_pos hr, List.append_nil]
      exact Keep.of_sameFor_keep (SameFor.SerializeRoot_for x c h s y hxy)
    · rename_i hr
      rw [if_neg hr]
      split at hok
      · rename_i hh
        cases hok
        rw [if_pos hh]
        exact Keep.skip_post _ (show (WalkEvent.referenceRecord y).node ≠ x from hxy)
          (Keep.of_sameFor_keep (SameFor.SerializeHotObject_for x s y))
      · rename_i hh
        rw [if_neg hh]
        split at hok
        · rename_i hb
          cases hok
          rw [if_pos hb]
          exact Keep.skip_post _ (show (WalkEvent.referenceRecord y).node ≠ x from hxy)
            (Keep.of_sameFor_keep (SameFor.SerializeBackReference_for x c h s y))
        · rename_i hb
          rw [if_neg hb]
          split at hok
          · rename_i hp
            cases hok
            rw [if_pos hp]
            exact Keep.skip_post _ (show (WalkEvent.referenceRecord y).node ≠ x from hxy)
              (Keep.of_sameFor_keep (SameFor.SerializePendingObject_for x s y))
          · rename_i hp
            rw [if_neg hp]
            exact (ih.serialize s y s' _ hok).1 hxy
theorem WalkTally.tally_serialize {c : Config} {h : Heap} {x : HeapObject} {fuel : Nat}
    (ih : WalkTally c h x fuel) (s : Serializer) (y : HeapObject) (s' : Serializer)
    (E : List WalkEvent) (hok : ObjectSerializer.Serialize c h (fuel + 1) s y = .ok s') :
    (y ≠ x → Keep x s E s' (E ++ ObjectSerializer.Serialize.events c h (fuel + 1) s y)) ∧
    (y = x →
      (deferralsOf x E = 1 →
        ObjectSerializer.ShouldDefer c h (RecursionScope.enter s) x = false) →
      Enc x s E s' (E ++ ObjectSerializer.Serialize.events c h (fuel + 1) s y)) := by
  rw [Serialize_succ] at hok
  rw [ObjectSerializer.Serialize.events]
  by_cases hd : ObjectSerializer.ShouldDefer c h (RecursionScope.enter s) y = true
  · rw [if_pos hd] at hok ⊢
    cases hok
    constructor
    · intro hxy
      rw [List.append_cons]
      refine Keep.skip_post _ (show (WalkEvent.referenceRecord y).node ≠ x from hxy)
        (Keep.skip_post _ (show (WalkEvent.deferral y).node ≠ x from hxy)
          (Keep.of_sameFor_keep ?_))
      exact ((((SameFor.enter_for x s).trans_for
        (SameFor.RegisterObjectIsPending_for x _ y hxy)).trans_for
        (SameFor.PutPendingForwardReferenceTo_for x _ y)).trans_for
        (SameFor.QueueDeferredObject_for x _ y hxy)).trans_for (SameFor.leave_for x _)
    · intro hxy hpre ha
      subst hxy
      have d0 : deferralsOf y E = 0 := by
        have h1 := ha.2.2.2.2.1
        by_contra hc
        have h2 := hpre (by omega)
        rw [h2] at hd
        cases hd
      exact NodeInv.of_defer ha d0
  · rw [if_neg hd] at hok ⊢
    obtain ⟨s2, h1, h2⟩ := (Result.bind_eq_ok _ _ _).1 hok
    cases h2
    have key : Obj x y (RecursionScope.enter s) E s2
        (E ++ (match h.kind y with
          | .externalString info =>
            ObjectSerializer.SerializeExternalString.events c h fuel (RecursionScope.enter s)
              y info
          | .jsTypedArray info =>
            ObjectSerializer.SerializeJSTypedArray.events c h fuel (RecursionScope.enter s)
              y info
          | .jsArrayBuffer info =>
            ObjectSerializer.SerializeJSArrayBuffer.events c h fuel (RecursionScope.enter s)
              y info
          | _ => ObjectSerializer.SerializeObject.events c h fuel (RecursionScope.enter s)
              y)) := by
      generalize h.kind y = k at h1 ⊢
      cases k
      · exact ih.object _ _ _ _ h1
      · exact ih.object _ _ _ _ h1
      · exact ih.object _ _ _ _ h1
      · exact ih.object _ _ _ _ h1
      · obtain ⟨r, hr, he⟩ := (Result.bind_eq_ok _ _ _).1 h1
        cases he
        exact ih.externalString _ _ _ r _ hr
      · exact ih.typedArray _ _ _ _ _ h1
      · obtain ⟨r, hr, he⟩ := (Result.bind_eq_ok _ _ _).1 h1
        cases he
        exact ih.arrayBuffer _ _ _ r _ hr
    have key2 := (key.pre_sameFor_obj (SameFor.enter_for x s)).then_keep_obj
      (Keep.of_sameFor_keep (SameFor.leave_for x s2))
    exact ⟨key2.1, fun hxy _ => key2.2 hxy⟩

theorem Heap.SameShape.root_index_map_eq {h1 h : Heap} (e : h1.SameShape h) :
    h1.root_index_map = h.root_index_map := by
  have e1 : { h1 with byteAt := h.byteAt } = h := e
  have e2 := congrArg Heap.root_index_map e1
  exact e2

theorem WalkTally.tally_externalString {c : Config} {h : Heap} {x : HeapObject} {fuel : Nat}
    (ih : WalkTally c h x fuel) (ihw : ∀ h1 : Heap, h1.SameShape h → WalkTally c h1 x fuel)
    (s : Serializer) (y : HeapObject) (info : ExternalStringInfo) (s' : Heap × Serializer)
    (E : List WalkEvent)
    (hok : ObjectSerializer.SerializeExternalString c h (fuel + 1) s y info = .ok s') :
    Obj x y s E s'.2
      (E ++ ObjectSerializer.SerializeExternalString.events c h (fuel + 1) s y info) := by
  rw [SerializeExternalString_succ] at hok
  rw [ObjectSerializer.SerializeExternalString.events]
  cases ht : h.TryEncode info.resource_as_address with
  | some reference =>
    simp only [ht] at hok ⊢
    obtain ⟨s1, h1, he⟩ := (Result.bind_eq_ok _ _ _).1 hok
    cases he
    exact (ihw _ (SetResourceRefForSerialization_sameShape c h y _)).object _ _ _ _ h1
  | none =>
    simp only [ht] at hok ⊢
    obtain ⟨s1, h1, he⟩ := (Result.bind_eq_ok _ _ _).1 hok
    cases he
    exact ih.sequentialString _ _ _ _ _ h1

theorem WalkTally.tally_sequentialString {c : Config} {h : Heap} {x : HeapObject} {fuel : Nat}
    (ih : WalkTally c h x fuel) (s : Serializer) (y : HeapObject) (info : ExternalStringInfo)
    (s' : Serializer) (E : List WalkEvent)
    (hok : ObjectSerializer.SerializeExternalStringAsSequentialString c h (fuel + 1) s y info =
      .ok s') :
    Obj x y s E s'
      (E ++ ObjectSerializer.SerializeExternalStringAsSequentialString.events c h (fuel + 1)
        s y info) := by
  rw [SerializeExternalStringAsSequentialString_succ] at hok
  rw [ObjectSerializer.SerializeExternalStringAsSequentialString.events]
  obtain ⟨s1, h1, he⟩ := (Result.bind_eq_ok _ _ _).1 hok
  cases he
  exact (ih.prologue _ _ _ _ _ _ _ h1).then_keep_obj
    (Keep.of_sameFor_keep (SameFor.OutputSequentialString_for x c h s1 y _ _ _))

theorem WalkTally.tally_typedArray {c : Config} {h : Heap} {x : HeapObject} {fuel : Nat}
    (ih : WalkTally c h x fuel) (s : Serializer) (y : HeapObject) (info : JSTypedArrayInfo)
    (s' : Serializer) (E : List WalkEvent)
    (hok : ObjectSerializer.SerializeJSTypedArray c h (fuel + 1) s y info = .ok s') :
    Obj x y s E s'
      (E ++ ObjectSerializer.SerializeJSTypedArray.events c h (fuel + 1) s y info) := by
  rw [SerializeJSTypedArray_succ] at hok
  rw [ObjectSerializer.SerializeJSTypedArray.events]
  split at hok
  · rename_i h1
    rw [if_pos h1]
    exact ih.object _ _ _ _ hok
  · rename_i h1
    rw [if_neg h1]
    split at hok
    · rename_i h2
      rw [if_pos h2]
      split at hok
      · cases hok
      · rename_i h3
        rw [if_neg h3]
        exact (ih.object _ _ _ _ hok).pre_sameFor_obj
          (SameFor.SerializeBackingStore_for x h s _ _)
    · rename_i h2
      rw [if_neg h2]
      exact ih.object _ _ _ _ hok

theorem WalkTally.tally_arrayBuffer {c : Config} {h : Heap} {x : HeapObject} {fuel : Nat}
    (ihw : ∀ h1 : Heap, h1.SameShape h → WalkTally c h1 x fuel)
    (s : Serializer) (y : HeapObject) (info : JSArrayBufferInfo) (s' : Heap × Serializer)
    (E : List WalkEvent)
    (hok : ObjectSerializer.SerializeJSArrayBuffer c h (fuel + 1) s y info = .ok s') :
    Obj x y s E s'.2
      (E ++ ObjectSerializer.SerializeJSArrayBuffer.events c h (fuel + 1) s y info) := by
  rw [SerializeJSArrayBuffer_succ] at hok
  rw [ObjectSerializer.SerializeJSArrayBuffer.events]
  split at hok
  · cases hok
  · rename_i h1
    rw [if_neg h1]
    cases hb : info.backing_store with
    | some backing_store =>
      simp only [hb] at hok ⊢
      obtain ⟨s1, h2, he⟩ := (Result.bind_eq_ok _ _ _).1 hok
      cases he
      exact ((ihw _ (duringBuffer_sameShape c h y _)).object _ _ _ _ h2).pre_sameFor_obj
        (SameFor.SerializeBackingStore_for x h s _ _)
    | none =>
      simp only [hb] at hok ⊢
      obtain ⟨s1, h2, he⟩ := (Result.bind_eq_ok _ _ _).1 hok
      cases he
      exact (ihw _ (SetBackingStoreRefForSerialization_sameShape c h y _)).object _ _ _ _ h2

theorem WalkTally.tally_object {c : Config} {h : Heap} {x : HeapObject} {fuel : Nat}
    (ih : WalkTally c h x fuel) (s : Serializer) (y : HeapObject) (s' : Serializer)
    (E : List WalkEvent)
    (hok : ObjectSerializer.SerializeObject c h (fuel + 1) s y = .ok s') :
    Obj x y s E s' (E ++ ObjectSerializer.SerializeObject.events c h (fuel + 1) s y) := by
  rw [ObjectSerializer_SerializeObject_succ] at hok
  rw [ObjectSerializer.SerializeObject.events]
  cases hg : GetSnapshotSpace c h y with
  | none =>
    simp only [hg] at hok
    cases hok
  | some space =>
    simp only [hg] at hok ⊢
    obtain ⟨s1, h1, h2⟩ := (Result.bind_eq_ok _ _ _).1 hok
    obtain ⟨r, h3, h4⟩ := (Result.bind_eq_ok _ _ _).1 h2
    cases h4
    rw [h1]
    simp only
    rw [← List.append_assoc]
    exact (ih.prologue _ _ _ _ _ _ _ h1).then_keep_obj (ih.content _ _ _ _ _ h3)
/-! ### Unfolding the events of the slot visits -/

theorem IterateBody_events_cons (c : Config) (h : Heap) (fuel : Nat) (os : ObjectSerializer)
    (s : Serializer) (v : BodyVisit) (rest : List BodyVisit) :
    ObjectSerializer.IterateBody.events c h (fuel + 1) os s (v :: rest) =
      (match v with
        | .VisitPointers start_offset slots =>
          ObjectSerializer.VisitPointers.events c h fuel os s start_offset slots
        | .VisitEmbeddedPointer target _ => SerializeObject.events c h fuel s target
        | .VisitForeignExternalReference _ => []
        | .VisitCodeExternalReference _ _ => []
        | .VisitInternalReference _ => []
        | .VisitRuntimeEntry => []
        | .VisitOffHeapTarget _ _ => []
        | .VisitCodeTarget target _ => SerializeObject.events c h fuel s target) ++
      (match ObjectSerializer.IterateBody c h (fuel + 1) os s [v] with
        | .ok r => ObjectSerializer.IterateBody.events c h fuel r.1 r.2 rest
        | _ => []) := by
  rfl

theorem VisitPointers_events_cons (c : Config) (h : Heap) (fuel : Nat) (os : ObjectSerializer)
    (s : Serializer) (offset : Nat) (slot : MaybeObject) (slots : List MaybeObject) :
    ObjectSerializer.VisitPointers.events c h (fuel + 1) os s offset (slot :: slots) =
      match slot with
      | .Smi _ =>
        ObjectSerializer.VisitPointers.events c h fuel os s (offset + c.kTaggedSize) slots
      | _ =>
        ObjectSerializer.VisitPointers.cleared.events c h fuel
          (ObjectSerializer.OutputRawData c h os s offset).1
          (ObjectSerializer.OutputRawData c h os s offset).2 offset (slot :: slots) := by
  rfl

theorem VisitPointers_cleared_events_succ (c : Config) (h : Heap) (fuel : Nat)
    (os : ObjectSerializer) (s : Serializer) (offset : Nat) (slots : List MaybeObject) :
    ObjectSerializer.VisitPointers.cleared.events c h (fuel + 1) os s offset slots =
      match slots with
      | .Cleared :: rest =>
        ObjectSerializer.VisitPointers.cleared.events c h fuel
          { os with bytes_processed_so_far_ := os.bytes_processed_so_far_ + c.kTaggedSize }
          (s.Put Bytecode.kClearedWeakReference) (offset + c.kTaggedSize) rest
      | _ => ObjectSerializer.VisitPointers.heapObjects.events c h fuel os s offset slots := by
  rfl

theorem VisitPointers_heapObjects_events_succ (c : Config) (h : Heap) (fuel : Nat)
    (os : ObjectSerializer) (s : Serializer) (offset : Nat) (slots : List MaybeObject) :
    ObjectSerializer.VisitPointers.heapObjects.events c h (fuel + 1) os s offset slots =
      match slots with
      | [] => []
      | .Smi v :: rest =>
        ObjectSerializer.VisitPointers.events c h fuel os s offset (.Smi v :: rest)
      | .Cleared :: rest =>
        ObjectSerializer.VisitPointers.events c h fuel os s offset (.Cleared :: rest)
      | .Strong current_contents :: rest =>
        ObjectSerializer.VisitPointers.reference.events c h fuel os s offset current_contents
          (.Strong current_contents) rest
      | .Weak current_contents :: rest =>
        ObjectSerializer.VisitPointers.reference.events c h fuel os
          (s.Put Bytecode.kWeakPrefix) offset current_contents (.Weak current_contents)
          rest := by
  rfl
theorem SameFor.AllocateAndResolve_for (x : HeapObject) (c : Config) (h : Heap)
    (s : Serializer) (y : HeapObject) (space : SnapshotSpace) (size : Nat)
    (r : SerializerReference × Serializer) (hxy : y ≠ x)
    (hr : ObjectSerializer.AllocateAndResolve c h s y space size = .ok r) :
    SameFor x s r.2 := by
  have ha : ∀ (t : Serializer) (a : SerializerAllocator),
      SameFor x t { t with allocator_ := a } := fun t a => SameFor.of_tables rfl rfl rfl rfl
  have hp : SameFor x s (PutAlignmentPrefix c h s y).2 :=
    SameFor.of_sinkOnly_for (SinkOnly.PutAlignmentPrefix c h s y)
      (hot_PutAlignmentPrefix c h s y)
  unfold ObjectSerializer.AllocateAndResolve at hr
  split at hr
  · split at hr
    · cases hr
    · cases hr
      exact (ha s _).trans_for (SameFor.ResolvePendingObject_for x _ y hxy)
  · cases hr
    exact (ha s _).trans_for (SameFor.ResolvePendingObject_for x _ y hxy)
  · cases hr
    exact (hp.trans_for (ha _ _)).trans_for (SameFor.ResolvePendingObject_for x _ y hxy)

theorem AllocateAndResolve_queue (c : Config) (h : Heap) (s : Serializer) (y : HeapObject)
    (space : SnapshotSpace) (size : Nat) (r : SerializerReference × Serializer)
    (hr : ObjectSerializer.AllocateAndResolve c h s y space size = .ok r) :
    r.2.deferred_objects_ = s.deferred_objects_ := by
  obtain ⟨-, s1, hs, e⟩ := AllocateAndResolve_ok c h s y space size r hr
  rw [e, (resolve_frame s1 y).2.1]
  exact hs.2.2.2.2.1

theorem WalkTally.tally_prologue {c : Config} {h : Heap} {x : HeapObject} {fuel : Nat}
    (ih : WalkTally c h x fuel) (s : Serializer) (y : HeapObject) (space : SnapshotSpace)
    (size : Nat) (map : HeapObject) (s' : Serializer) (E : List WalkEvent)
    (hok : ObjectSerializer.SerializePrologue c h (fuel + 1) s y space size map = .ok s') :
    Obj x y s E s'
      (E ++ ObjectSerializer.SerializePrologue.events c h (fuel + 1) s y space size map) := by
  rw [SerializePrologue_succ] at hok
  rw [ObjectSerializer.SerializePrologue.events]
  by_cases hm : map = y
  · rw [if_pos hm] at hok ⊢
    cases hok
    constructor
    · intro hxy
      refine Keep.skip_post _ (show (WalkEvent.freshEncoding y).node ≠ x from hxy)
        (Keep.of_sameFor_keep ⟨?_, Iff.rfl, rfl, fun hh => Or.inl hh⟩)
      exact LookupReference_add_other _ _ _ _ (by
        intro e
        exact hxy (RefKey.object.inj e).symm)
    · intro hxy ha
      subst hxy
      refine NodeInv.of_meta ha ?_ rfl
      unfold Serializer.Located
      rw [LookupReference_add_self]
      exact Allocate_valid _ _ _
  · rw [if_neg hm] at hok ⊢
    obtain ⟨s3, h1, h2⟩ := (Result.bind_eq_ok _ _ _).1 hok
    obtain ⟨r, h3, h4⟩ := (Result.bind_eq_ok _ _ _).1 h2
    cases h4
    rw [List.append_cons]
    constructor
    · intro hxy
      refine Keep.skip_pre _ (show (WalkEvent.freshEncoding y).node ≠ x from hxy) ?_
      refine ((Keep.of_sameFor_keep ?_).trans_keep (ih.serializeObject _ _ _ _ h1)).trans_keep
        (Keep.of_sameFor_keep ?_)
      · exact ((SameFor.Put_for x s _).trans_for (SameFor.PutInt_for x _ _)).trans_for
          (SameFor.RegisterObjectIsPending_for x _ y hxy)
      · exact (SameFor.AllocateAndResolve_for x c h s3 y space size r hxy h3).trans_for
          (SameFor.AddReference_for x _ _ _ (by
            intro e
            exact hxy (RefKey.object.inj e).symm))
    · intro hxy ha
      subst hxy
      obtain ⟨i2, o2⟩ := NodeInv.of_open ha
        ((SameFor.Put_for y s (Bytecode.kNewObject space)).trans_for
          (SameFor.PutInt_for y _ (size >>> c.kObjectAlignmentBits)))
      obtain ⟨i3, o3⟩ := ih.serializeObject _ _ _ _ h1 i2
      refine NodeInv.of_close i3 (o3.1 o2) ?_ ?_
      · unfold Serializer.Located
        rw [LookupReference_add_self]
        exact (AllocateAndResolve_ok c h s3 y space size r h3).1
      · exact AllocateAndResolve_queue c h s3 y space size r h3

theorem WalkTally.tally_content {c : Config} {h : Heap} {x : HeapObject} {fuel : Nat}
    (ih : WalkTally c h x fuel) (os : ObjectSerializer) (s : Serializer) (size : Nat)
    (r : ObjectSerializer × Serializer) (E : List WalkEvent)
    (hok : ObjectSerializer.SerializeContent c h (fuel + 1) os s size = .ok r) :
    Keep x s E r.2 (E ++ ObjectSerializer.SerializeContent.events c h (fuel + 1) os s size) := by
  rw [SerializeContent_succ] at hok
  rw [ObjectSerializer.SerializeContent.events]
  by_cases hk : h.kind os.object_ = InstanceKind.code
  · rw [if_pos hk] at hok ⊢
    exact (Keep.of_sameFor_keep (SameFor.OutputCode_for x c h s os.object_ size)).trans_keep
      (ih.iterateBody _ _ _ _ _ hok)
  · rw [if_neg hk] at hok ⊢
    obtain ⟨r1, h1, h2⟩ := (Result.bind_eq_ok _ _ _).1 hok
    cases h2
    exact (ih.iterateBody _ _ _ _ _ h1).trans_keep
      (Keep.of_sameFor_keep (SameFor.OutputRawData_for x c h r1.1 r1.2 size))

theorem IterateBody_zero (c : Config) (h : Heap) (os : ObjectSerializer) (s : Serializer)
    (vs : List BodyVisit) : ObjectSerializer.IterateBody c h 0 os s vs = .outOfFuel := by
  rw [ObjectSerializer.IterateBody]

theorem WalkTally.tally_iterateBody {c : Config} {h : Heap} {x : HeapObject} {fuel : Nat}
    (ih : WalkTally c h x fuel) (os : ObjectSerializer) (s : Serializer)
    (vs : List BodyVisit) (r : ObjectSerializer × Serializer) (E : List WalkEvent)
    (hok : ObjectSerializer.IterateBody c h (fuel + 1) os s vs = .ok r) :
    Keep x s E r.2 (E ++ ObjectSerializer.IterateBody.events c h (fuel + 1) os s vs) := by
  cases vs with
  | nil =>
    rw [IterateBody_nil] at hok
    cases hok
    rw [ObjectSerializer.IterateBody.events, List.append_nil]
    exact Keep.of_sameFor_keep (SameFor.refl_for x s)
  | cons v rest =>
    have hcons := hok
    rw [IterateBody_cons] at hok
    obtain ⟨r1, h1, h2⟩ := (Result.bind_eq_ok _ _ _).1 hok
    have hsingle : ObjectSerializer.IterateBody c h (fuel + 1) os s [v] = .ok r1 := by
      rw [IterateBody_cons, h1]
      cases fuel with
      | zero =>
        rw [IterateBody_zero] at h2
        cases h2
      | succ k => rfl
    have hrest := fun E1 => ih.iterateBody _ _ _ _ E1 h2
    cases v with
    | VisitPointers start_offset slots =>
      rw [IterateBody_events_cons, hsingle]
      dsimp only
      rw [← List.append_assoc]
      exact (ih.visitPointers _ _ _ _ _ _ h1).trans_keep (hrest _)
    | VisitEmbeddedPointer target target_address_size =>
      rw [IterateBody_events_cons, hsingle]
      dsimp only
      rw [← List.append_assoc]
      obtain ⟨s1, h3, h4⟩ := (Result.bind_eq_ok _ _ _).1 h1
      cases h4
      exact (ih.serializeObject _ _ _ _ h3).trans_keep (hrest _)
    | VisitForeignExternalReference foreign_address =>
      rw [IterateBody_events_cons, hsingle]
      dsimp only
      rw [List.nil_append]
      exact (Keep.of_sameFor_keep
        (SameFor.OutputExternalReference_for x c h os s _ _ _ r1 h1)).trans_keep (hrest _)
    | VisitCodeExternalReference target target_address_size =>
      rw [IterateBody_events_cons, hsingle]
      dsimp only
      rw [List.nil_append]
      exact (Keep.of_sameFor_keep
        (SameFor.OutputExternalReference_for x c h os s _ _ _ r1 h1)).trans_keep (hrest _)
    | VisitInternalReference target_offset =>
      rw [IterateBody_events_cons, hsingle]
      dsimp only
      rw [List.nil_append]
      refine Keep.trans_keep (Keep.of_sameFor_keep ?_) (hrest _)
      cases h1
      exact SameFor.of_tables rfl rfl rfl rfl
    | VisitRuntimeEntry => cases h1
    | VisitOffHeapTarget addr target_address_size =>
      rw [IterateBody_events_cons, hsingle]
      dsimp only
      rw [List.nil_append]
      refine Keep.trans_keep (Keep.of_sameFor_keep ?_) (hrest _)
      dsimp only at h1
      split at h1
      · cases h1
      · split at h1
        · cases h1
        · cases h1
          exact SameFor.of_tables rfl rfl rfl rfl
    | VisitCodeTarget target target_address_size =>
      rw [IterateBody_events_cons, hsingle]
      dsimp only
      rw [← List.append_assoc]
      obtain ⟨s1, h3, h4⟩ := (Result.bind_eq_ok _ _ _).1 h1
      cases h4
      exact (ih.serializeObject _ _ _ _ h3).trans_keep (hrest _)

theorem WalkTally.tally_visitPointers {c : Config} {h : Heap} {x : HeapObject} {fuel : Nat}
    (ih : WalkTally c h x fuel) (os : ObjectSerializer) (s : Serializer) (offset : Nat)
    (slots : List MaybeObject) (r : ObjectSerializer × Serializer) (E : List WalkEvent)
    (hok : ObjectSerializer.VisitPointers c h (fuel + 1) os s offset slots = .ok r) :
    Keep x s E r.2
      (E ++ ObjectSerializer.VisitPointers.events c h (fuel + 1) os s offset slots) := by
  cases slots with
  | nil =>
    rw [VisitPointers_nil] at hok
    cases hok
    rw [ObjectSerializer.VisitPointers.events, List.append_nil]
    exact Keep.of_sameFor_keep (SameFor.refl_for x s)
  | cons slot slots =>
    rw [VisitPointers_cons] at hok
    rw [VisitPointers_events_cons]
    cases slot with
    | Smi v => exact ih.visitPointers _ _ _ _ _ _ hok
    | Cleared =>
      exact (Keep.of_sameFor_keep (SameFor.OutputRawData_for x c h os s offset)).trans_keep
        (ih.cleared _ _ _ _ _ _ hok)
    | Strong t =>
      exact (Keep.of_sameFor_keep (SameFor.OutputRawData_for x c h os s offset)).trans_keep
        (ih.cleared _ _ _ _ _ _ hok)
    | Weak t =>
      exact (Keep.of_sameFor_keep (SameFor.OutputRawData_for x c h os s offset)).trans_keep
        (ih.cleared _ _ _ _ _ _ hok)

theorem WalkTally.tally_cleared {c : Config} {h : Heap} {x : HeapObject} {fuel : Nat}
    (ih : WalkTally c h x fuel) (os : ObjectSerializer) (s : Serializer) (offset : Nat)
    (slots : List MaybeObject) (r : ObjectSerializer × Serializer) (E : List WalkEvent)
    (hok : ObjectSerializer.VisitPointers.cleared c h (fuel + 1) os s offset slots = .ok r) :
    Keep x s E r.2
      (E ++ ObjectSerializer.VisitPointers.cleared.events c h (fuel + 1) os s offset slots) := by
  rw [VisitPointers_cleared_succ] at hok
  rw [VisitPointers_cleared_events_succ]
  cases slots with
  | nil => exact ih.heapObjects _ _ _ _ _ _ hok
  | cons slot rest =>
    cases slot with
    | Smi v => exact ih.heapObjects _ _ _ _ _ _ hok
    | Cleared =>
      exact (Keep.of_sameFor_keep (SameFor.Put_for x s _)).trans_keep (ih.cleared _ _ _ _ _ _ hok)
    | Strong t => exact ih.heapObjects _ _ _ _ _ _ hok
    | Weak t => exact ih.heapObjects _ _ _ _ _ _ hok

theorem WalkTally.tally_heapObjects {c : Config} {h : Heap} {x : HeapObject} {fuel : Nat}
    (ih : WalkTally c h x fuel) (os : ObjectSerializer) (s : Serializer) (offset : Nat)
    (slots : List MaybeObject) (r : ObjectSerializer × Serializer) (E : List WalkEvent)
    (hok : ObjectSerializer.VisitPointers.heapObjects c h (fuel + 1) os s offset slots =
      .ok r) :
    Keep x s E r.2
      (E ++ ObjectSerializer.VisitPointers.heapObjects.events c h (fuel + 1) os s offset
        slots) := by
  rw [VisitPointers_heapObjects_succ] at hok
  rw [VisitPointers_heapObjects_events_succ]
  cases slots with
  | nil =>
    cases hok
    rw [List.append_nil]
    exact Keep.of_sameFor_keep (SameFor.refl_for x s)
  | cons slot rest =>
    cases slot with
    | Smi v => exact ih.visitPointers _ _ _ _ _ _ hok
    | Cleared => exact ih.visitPointers _ _ _ _ _ _ hok
    | Strong t => exact ih.reference _ _ _ _ _ _ _ _ hok
    | Weak t =>
      exact (Keep.of_sameFor_keep (SameFor.Put_for x s _)).trans_keep
        (ih.reference _ _ _ _ _ _ _ _ hok)

theorem WalkTally.tally_reference {c : Config} {h : Heap} {x : HeapObject} {fuel : Nat}
    (ih : WalkTally c h x fuel) (os : ObjectSerializer) (s : Serializer) (offset : Nat)
    (cc : HeapObject) (cur : MaybeObject) (rest : List MaybeObject)
    (r : ObjectSerializer × Serializer) (E : List WalkEvent)
    (hok : ObjectSerializer.VisitPointers.reference c h (fuel + 1) os s offset cc cur rest =
      .ok r) :
    Keep x s E r.2
      (E ++ ObjectSerializer.VisitPointers.reference.events c h (fuel + 1) os s offset cc cur
        rest) := by
  rw [VisitPointers_reference_succ] at hok
  rw [ObjectSerializer.VisitPointers.reference.events]
  split at hok
  · rename_i hp
    rw [if_pos hp]
    have e : E ++ WalkEvent.edge cc :: WalkEvent.referenceRecord cc ::
        ObjectSerializer.VisitPointers.heapObjects.events c h fuel
          { os with bytes_processed_so_far_ := os.bytes_processed_so_far_ + c.kTaggedSize }
          (SerializePendingObject s cc).2 (offset + c.kTaggedSize) rest =
        (E ++ [WalkEvent.edge cc, WalkEvent.referenceRecord cc]) ++
        ObjectSerializer.VisitPointers.heapObjects.events c h fuel
          { os with bytes_processed_so_far_ := os.bytes_processed_so_far_ + c.kTaggedSize }
          (SerializePendingObject s cc).2 (offset + c.kTaggedSize) rest := by
      simp
    rw [e]
    refine Keep.trans_keep ?_ (ih.heapObjects _ _ _ _ _ _ hok)
    by_cases hxy : cc = x
    · subst hxy
      exact Keep.reference_edge (SameFor.SerializePendingObject_for cc s cc)
        (Or.inr ((SerializePendingObject_fst s cc).1 hp))
    · have e2 : E ++ [WalkEvent.edge cc, WalkEvent.referenceRecord cc] =
          (E ++ [WalkEvent.edge cc]) ++ [WalkEvent.referenceRecord cc] := by
        simp
      rw [e2]
      exact Keep.skip_post _ (show (WalkEvent.referenceRecord cc).node ≠ x from hxy)
        (Keep.skip_post _ (show (WalkEvent.edge cc).node ≠ x from hxy)
          (Keep.of_sameFor_keep (SameFor.SerializePendingObject_for x s cc)))
  · rename_i hp
    rw [if_neg hp]
    split at hok
    · rename_i hrep
      rw [if_pos hrep]
      obtain ⟨s1, h1, h2⟩ := (Result.bind_eq_ok _ _ _).1 hok
      simp only [h1]
      rw [← List.append_assoc]
      exact ((Keep.of_sameFor_keep (SameFor.PutRepeat_for x c s _)).trans_keep
        (ih.serializeObject _ _ _ _ h1)).trans_keep (ih.heapObjects _ _ _ _ _ _ h2)
    · rename_i hrep
      rw [if_neg hrep]
      obtain ⟨s1, h1, h2⟩ := (Result.bind_eq_ok _ _ _).1 hok
      simp only [h1]
      rw [← List.append_assoc]
      exact (ih.serializeObject _ _ _ _ h1).trans_keep (ih.heapObjects _ _ _ _ _ _ h2)
theorem WalkTally.zero_tally (c : Config) (h : Heap) (x : HeapObject) : WalkTally c h x 0 := by
  constructor
  · intro s y s' E hok
    cases hok
  · intro s y s' E hok
    cases hok
  · intro s y info s' E hok
    cases hok
  · intro s y info s' E hok
    cases hok
  · intro s y info s' E hok
    cases hok
  · intro s y info s' E hok
    cases hok
  · intro s y s' E hok
    cases hok
  · intro s y space size map s' E hok
    cases hok
  · intro os s size r E hok
    cases hok
  · intro os s vs r E hok
    cases hok
  · intro os s offset slots r E hok
    cases hok
  · intro os s offset slots r E hok
    cases hok
  · intro os s offset slots r E hok
    cases hok
  · intro os s offset cc cur rest r E hok
    cases hok

/-- Every function of the graph walk, whatever the fuel, keeps the events of a
node that is not in the root table in step with its tables. -/
theorem walkTally (c : Config) (x : HeapObject) (fuel : Nat) :
    ∀ h : Heap, h.root_index_map x = none → WalkTally c h x fuel := by
  induction fuel with
  | zero => exact fun h _ => WalkTally.zero_tally c h x
  | succ n ih =>
    intro h hx
    have ihh := ih h hx
    have ihw : ∀ h1 : Heap, h1.SameShape h → WalkTally c h1 x n :=
      fun h1 e => ih h1 (by rw [e.root_index_map_eq]; exact hx)
    exact
      { serializeObject := fun s y s' E hok => ihh.tally_serializeObject hx s y s' E hok
        serialize := fun s y s' E hok => ihh.tally_serialize s y s' E hok
        externalString := fun s y info s' E hok =>
          ihh.tally_externalString ihw s y info s' E hok
        sequentialString := fun s y info s' E hok =>
          ihh.tally_sequentialString s y info s' E hok
        typedArray := fun s y info s' E hok => ihh.tally_typedArray s y info s' E hok
        arrayBuffer := fun s y info s' E hok =>
          WalkTally.tally_arrayBuffer ihw s y info s' E hok
        object := fun s y s' E hok => ihh.tally_object s y s' E hok
        prologue := fun s y space size map s' E hok =>
          ihh.tally_prologue s y space size map s' E hok
        content := fun os s size r E hok => ihh.tally_content os s size r E hok
        iterateBody := fun os s vs r E hok => ihh.tally_iterateBody os s vs r E hok
        visitPointers := fun os s offset slots r E hok =>
          ihh.tally_visitPointers os s offset slots r E hok
        cleared := fun os s offset slots r E hok =>
          ihh.tally_cleared os s offset slots r E hok
        heapObjects := fun os s offset slots r E hok =>
          ihh.tally_heapObjects os s offset slots r E hok
        reference := fun os s offset cc cur rest r E hok =>
          ihh.tally_reference os s offset cc cur rest r E hok }

/-! ## The tally of one node over a complete run -/

theorem VisitRootPointers_tally (c : Config) (h : Heap) (x : HeapObject)
    (hx : h.root_index_map x = none) (fuel : Nat) (roots : List Object) (s s' : Serializer)
    (E : List WalkEvent) (hok : VisitRootPointers c h fuel s roots = .ok s') :
    Keep x s E s' (E ++ VisitRootPointers.events c h fuel s roots) := by
  induction roots generalizing s E with
  | nil =>
    simp only [VisitRootPointers] at hok
    cases hok
    simp only [VisitRootPointers.events, List.append_nil]
    exact Keep.of_sameFor_keep (SameFor.refl_for x _)
  | cons o rest ih =>
    simp only [VisitRootPointers] at hok
    obtain ⟨s1, h1, h2⟩ := (Result.bind_eq_ok _ _ _).1 hok
    simp only [VisitRootPointers.events, h1]
    rw [← List.append_assoc]
    refine Keep.trans_keep ?_ (ih s1 _ h2)
    cases o with
    | Smi raw_value =>
      simp only [SerializeRootObject] at h1
      cases h1
      simp only [SerializeRootObject.events, List.append_nil]
      exact Keep.of_sameFor_keep (SameFor.PutSmiRoot_for x c s raw_value)
    | HeapObject obj =>
      simp only [SerializeRootObject] at h1
      simp only [SerializeRootObject.events]
      exact (walkTally c x fuel h hx).serializeObject _ _ _ _ h1

theorem RegisterObjectIsPending_depth (s : Serializer) (x : HeapObject) :
    (RegisterObjectIsPending s x).recursion_depth_ = s.recursion_depth_ := by
  unfold RegisterObjectIsPending
  split <;> rfl

theorem ShouldDefer_of_depth (c : Config) (h : Heap) (y : HeapObject) (t s : Serializer)
    (e : t.recursion_depth_ = s.recursion_depth_) :
    ObjectSerializer.ShouldDefer c h (RecursionScope.enter t) y =
      ObjectSerializer.ShouldDefer c h (RecursionScope.enter s) y := by
  unfold ObjectSerializer.ShouldDefer ExceedsMaximum RecursionScope.enter
  dsimp only
  rw [e]

/-- A deferred object that `Serialize` defers again when it is popped keeps the
deferred pass from returning: it is pushed back and popped next, in the same
circumstances. -/
theorem SerializeDeferredObjects_stuck (c : Config) (h : Heap) (y : HeapObject) (fuel : Nat) :
    ∀ s : Serializer, s.deferred_objects_.getLast? = some y →
      (s.LookupReference (RefKey.object y)).is_valid = false →
      ObjectSerializer.ShouldDefer c h (RecursionScope.enter s) y = true →
      ∀ s', SerializeDeferredObjects c h fuel s ≠ .ok s' := by
  induction fuel with
  | zero =>
    intro s _ _ _ s' hc
    cases hc
  | succ k ih =>
    intro s hl hv hd s' hc
    rw [SerializeDeferredObjects_succ, hl] at hc
    simp only at hc
    obtain ⟨s1, h1, h2⟩ := (Result.bind_eq_ok _ _ _).1 hc
    unfold ObjectSerializer.SerializeDeferred at h1
    dsimp only at h1
    have hv0 : (({ s with deferred_objects_ := s.deferred_objects_.dropLast } :
        Serializer).LookupReference (RefKey.object y)).is_valid = false := hv
    rw [hv0] at h1
    simp only [Bool.false_eq_true, if_false] at h1
    cases k with
    | zero => cases h1
    | succ m =>
      rw [Serialize_succ] at h1
      have hd0 : ObjectSerializer.ShouldDefer c h
          (RecursionScope.enter { s with deferred_objects_ := s.deferred_objects_.dropLast })
          y = true := hd
      rw [if_pos hd0] at h1
      cases h1
      refine ih _ ?_ ?_ ?_ s' h2
      · show ((RegisterObjectIsPending _ y).deferred_objects_ ++ [y]).getLast? = some y
        simp
      · have e : (RecursionScope.leave (ObjectSerializer.Defer
            (RecursionScope.enter { s with deferred_objects_ := s.deferred_objects_.dropLast })
            y)).reference_map_ = s.reference_map_ := by
          show (RegisterObjectIsPending _ y).reference_map_ = _
          rw [(register_frame _ y).1]
          rfl
        rw [LookupReference_of_map_eq _ _ _ e]
        exact hv
      · have e : (RecursionScope.leave (ObjectSerializer.Defer
            (RecursionScope.enter { s with deferred_objects_ := s.deferred_objects_.dropLast })
            y)).recursion_depth_ = s.recursion_depth_ := by
          show (RegisterObjectIsPending _ y).recursion_depth_ - 1 = _
          rw [RegisterObjectIsPending_depth]
          show s.recursion_depth_ + 1 - 1 = _
          omega
        rw [ShouldDefer_of_depth c h y _ s e]
        exact hd

theorem SerializeDeferredObjects_events_succ (c : Config) (h : Heap) (fuel : Nat)
    (s : Serializer) :
    SerializeDeferredObjects.events c h (fuel + 1) s =
      match s.deferred_objects_.getLast? with
      | none => []
      | some obj =>
        ObjectSerializer.SerializeDeferred.events c h fuel
            { s with deferred_objects_ := s.deferred_objects_.dropLast } obj ++
          (match ObjectSerializer.SerializeDeferred c h fuel
              { s with deferred_objects_ := s.deferred_objects_.dropLast } obj with
            | .ok s1 => SerializeDeferredObjects.events c h fuel s1
            | _ => []) := by
  rfl

theorem count_dropLast_of_getLast (l : List HeapObject) (x y : HeapObject)
    (hl : l.getLast? = some y) :
    l.count x = l.dropLast.count x + (if y = x then 1 else 0) := by
  have e : l = l.dropLast ++ [y] := by
    exact (List.dropLast_append_getLast? y (Option.mem_def.2 hl)).symm
  conv_lhs => rw [e]
  rw [List.count_append, List.count_singleton]
  simp

theorem SerializeDeferredObjects_tally (c : Config) (h : Heap) (x : HeapObject)
    (hx : h.root_index_map x = none) (fuel : Nat) :
    ∀ (s s' : Serializer) (E : List WalkEvent),
      SerializeDeferredObjects c h fuel s = .ok s' → NodeInv x s E → ¬ s.Opened x →
      NodeInv x s' (E ++ SerializeDeferredObjects.events c h fuel s) ∧ ¬ s'.Opened x ∧
      s'.deferred_objects_ = [] := by
  induction fuel with
  | zero =>
    intro s s' E hok
    cases hok
  | succ k ih =>
    intro s s' E hok hi hno
    have hok0 := hok
    rw [SerializeDeferredObjects_succ] at hok
    rw [SerializeDeferredObjects_events_succ]
    cases hl : s.deferred_objects_.getLast? with
    | none =>
      simp only [hl] at hok ⊢
      cases hok
      rw [List.append_nil]
      have hs := SameFor.Put_for x s Bytecode.kSynchronize
      refine ⟨hi.of_sameFor_inv hs, fun ho => hno (hs.opened.2 ho), ?_⟩
      exact List.getLast?_eq_none_iff.1 hl
    | some y =>
      simp only [hl] at hok ⊢
      obtain ⟨s1, h1, h2⟩ := (Result.bind_eq_ok _ _ _).1 hok
      rw [h1]
      simp only
      rw [← List.append_assoc]
      have hcount := count_dropLast_of_getLast s.deferred_objects_ x y hl
      have key : NodeInv x s1 (E ++ ObjectSerializer.SerializeDeferred.events c h k
          { s with deferred_objects_ := s.deferred_objects_.dropLast } y) ∧
          ¬ s1.Opened x := by
        unfold ObjectSerializer.SerializeDeferred at h1
        unfold ObjectSerializer.SerializeDeferred.events
        dsimp only at h1
        by_cases hxy : y = x
        · subst hxy
          have hq : s.deferred_objects_.count y ≠ 0 := by
            rw [hcount]
            simp
          obtain ⟨q1, q2, q3, q4, q5, q6, q7⟩ : ¬ s.Located y ∧ s.findPending y ≠ none ∧
              s.deferred_objects_.count y = 1 ∧ freshEncodingsOf y E = 0 ∧
              deferralsOf y E = 1 ∧
              referenceRecordsFor y E + 1 = edgesTo y E + deferralsOf y E ∧
              deferralsOf y E ≤ edgesTo y E := by
            rcases hi.phase with p | p | p | p
            · exact absurd p.2.2.1 hq
            · exact p
            · exact absurd p.2.2.1 hq
            · exact absurd p.2.1 hq
          have hv : (({ s with deferred_objects_ := s.deferred_objects_.dropLast } :
              Serializer).LookupReference (RefKey.object y)).is_valid = false := by
            have : ¬ (s.LookupReference (RefKey.object y)).is_valid = true := q1
            simpa using this
          rw [hv] at h1 ⊢
          simp only [Bool.false_eq_true, if_false] at h1 ⊢
          have hnd : ObjectSerializer.ShouldDefer c h
              (RecursionScope.enter { s with deferred_objects_ := s.deferred_objects_.dropLast })
              y = false := by
            by_contra hc
            exact SerializeDeferredObjects_stuck c h y (k + 1) s hl hv
              (by simpa using hc) s' hok0
          have ha : Awaiting y { s with deferred_objects_ := s.deferred_objects_.dropLast }
              E := by
            refine ⟨?_, q1, ?_, q4, by omega, q6, q7⟩
            · by_contra hc
              exact q1 (hi.hot hc)
            · show s.deferred_objects_.dropLast.count y = 0
              rw [q3] at hcount
              simp at hcount
              omega
          exact ((walkTally c y k h hx).serialize _ _ _ _ h1).2 rfl (fun _ => hnd) ha
        · have hs : SameFor x s { s with deferred_objects_ := s.deferred_objects_.dropLast } := by
            refine ⟨rfl, Iff.rfl, ?_, fun hh => Or.inl hh⟩
            show s.deferred_objects_.dropLast.count x = _
            rw [hcount, if_neg hxy]
            rfl
          split at h1
          · rename_i hv
            cases h1
            rw [if_pos hv, List.append_nil]
            exact ⟨hi.of_sameFor_inv hs, fun ho => hno (hs.opened.2 ho)⟩
          · rename_i hv
            rw [if_neg hv]
            obtain ⟨i1, o1⟩ := ((walkTally c x k h hx).serialize _ _ _ _ h1).1 hxy
              (hi.of_sameFor_inv hs)
            exact ⟨i1, fun ho => hno (hs.opened.2 (o1.2 ho))⟩
      exact ih s1 s' _ h2 key.1 key.2

theorem NodeInv.initial_node (x : HeapObject) (n : Nat) :
    NodeInv x (Serializer.initial n) [] ∧ ¬ (Serializer.initial n).Opened x := by
  have hl : ¬ (Serializer.initial n).Located x := by
    unfold Serializer.Located Serializer.LookupReference Serializer.initial
    simp [SerializerReference.is_valid]
  refine ⟨⟨?_, Or.inl ⟨hl, rfl, rfl, rfl, rfl, rfl, rfl⟩⟩, fun ho => ho.2.1 rfl⟩
  intro hh
  exfalso
  rw [HotObjectsList.Find_ne_none] at hh
  simp [Serializer.initial] at hh

/-- The tally of a node that is not in the root table, at the end of a complete
run that returns: no event at all, or one fresh encoding, at most one deferral,
one reference record fewer than edges and deferrals together, and at least as
many edges as deferrals. -/
theorem SerializeRun_tally (c : Config) (h : Heap) (fuel : Nat) (roots : List Object)
    (s' : Serializer) (hrun : SerializeRun c h fuel roots = .ok s') (x : HeapObject)
    (hx : h.root_index_map x = none) :
    (edgesTo x (SerializeRun.events c h fuel roots) = 0 ∧
      referenceRecordsFor x (SerializeRun.events c h fuel roots) = 0 ∧
      freshEncodingsOf x (SerializeRun.events c h fuel roots) = 0 ∧
      deferralsOf x (SerializeRun.events c h fuel roots) = 0) ∨
    (freshEncodingsOf x (SerializeRun.events c h fuel roots) = 1 ∧
      deferralsOf x (SerializeRun.events c h fuel roots) ≤ 1 ∧
      referenceRecordsFor x (SerializeRun.events c h fuel roots) + 1 =
        edgesTo x (SerializeRun.events c h fuel roots) +
          deferralsOf x (SerializeRun.events c h fuel roots) ∧
      deferralsOf x (SerializeRun.events c h fuel roots) ≤
        edgesTo x (SerializeRun.events c h fuel roots)) := by
  unfold SerializeRun at hrun
  obtain ⟨s1, h1, h2⟩ := (Result.bind_eq_ok _ _ _).1 hrun
  unfold SerializeRun.events
  rw [h1]
  simp only
  obtain ⟨i0, o0⟩ := NodeInv.initial_node x c.kHotObjectCount
  obtain ⟨i1, o1⟩ := VisitRootPointers_tally c h x hx fuel roots _ s1 [] h1 i0
  rw [List.nil_append] at i1
  obtain ⟨i2, o2, q2⟩ := SerializeDeferredObjects_tally c h x hx fuel s1 s' _ h2 i1
    (fun ho => o0 (o1.2 ho))
  rcases i2.phase with p | p | p | p
  · exact Or.inl ⟨p.2.2.2.1, p.2.2.2.2.1, p.2.2.2.2.2.1, p.2.2.2.2.2.2⟩
  · have := p.2.2.1
    rw [q2] at this
    simp at this
  · exact absurd ⟨p.1, p.2.1, p.2.2.1⟩ o2
  · exact Or.inr ⟨p.2.2.1, p.2.2.2.1, p.2.2.2.2.1, p.2.2.2.2.2⟩

/-! ## The records of the stream are the records of the events -/

theorem recordsOf_append (a b : List SinkEntry) :
    recordsOf (a ++ b) = recordsOf a ++ recordsOf b := by
  simp [recordsOf, List.filterMap_append]

theorem recordedBy_append (a b : List WalkEvent) :
    recordedBy (a ++ b) = recordedBy a ++ recordedBy b := by
  simp [recordedBy, List.filterMap_append]

theorem Records.refl_records (s : Serializer) : Records s s [] := by
  simp [Records, recordedBy]

theorem Records.trans_records {s1 s2 s3 : Serializer} {e1 e2 : List WalkEvent}
    (h12 : Records s1 s2 e1) (h23 : Records s2 s3 e2) : Records s1 s3 (e1 ++ e2) := by
  unfold Records at *
  rw [h23, h12, recordedBy_append, List.append_assoc]

theorem Records.of_plain {s s' : Serializer} (hs : recordsOf s'.sink_ = recordsOf s.sink_) :
    Records s s' [] := by
  simp [Records, recordedBy, hs]

theorem Records.pre_plain {s s1 s' : Serializer} {ev : List WalkEvent}
    (hs : recordsOf s1.sink_ = recordsOf s.sink_) (hr : Records s1 s' ev) :
    Records s s' ev := by
  unfold Records at *
  rw [hr, hs]

theorem Records.post_plain {s s1 s' : Serializer} {ev : List WalkEvent}
    (hr : Records s s1 ev) (hs : recordsOf s'.sink_ = recordsOf s1.sink_) :
    Records s s' ev := by
  unfold Records at *
  rw [hs, hr]

theorem plain_PutInt (s : Serializer) (v : Int) :
    recordsOf (s.PutInt v).sink_ = recordsOf s.sink_ := by
  simp [Serializer.PutInt, recordsOf, List.filterMap_append, SinkEntry.recordKind]

theorem plain_PutByte (s : Serializer) (v : Nat) :
    recordsOf (s.PutByte v).sink_ = recordsOf s.sink_ := by
  simp [Serializer.PutByte, recordsOf, List.filterMap_append, SinkEntry.recordKind]

theorem plain_PutRaw (s : Serializer) (v : List Nat) :
    recordsOf (s.PutRaw v).sink_ = recordsOf s.sink_ := by
  simp [Serializer.PutRaw, recordsOf, List.filterMap_append, SinkEntry.recordKind]

theorem plain_Put (s : Serializer) (b : Bytecode)
    (hb : (SinkEntry.Put b).recordKind = none) :
    recordsOf (s.Put b).sink_ = recordsOf s.sink_ := by
  simp [Serializer.Put, recordsOf, List.filterMap_append, hb]

theorem record_Put (s : Serializer) (b : Bytecode) (k : RecordKind)
    (hb : (SinkEntry.Put b).recordKind = some k) :
    recordsOf (s.Put b).sink_ = recordsOf s.sink_ ++ [k] := by
  simp [Serializer.Put, recordsOf, List.filterMap_append, hb]

theorem plain_foldl_PutByte (l : List Nat) (s : Serializer) :
    recordsOf (l.foldl Serializer.PutByte s).sink_ = recordsOf s.sink_ := by
  induction l generalizing s with
  | nil => rfl
  | cons b rest ih => rw [List.foldl_cons, ih, plain_PutByte]

theorem plain_PutAlignmentPrefix (c : Config) (h : Heap) (s : Serializer) (o : HeapObject) :
    recordsOf (PutAlignmentPrefix c h s o).2.sink_ = recordsOf s.sink_ := by
  unfold V8Snapshot.PutAlignmentPrefix
  dsimp only
  split
  · exact plain_PutByte s _
  · rfl

theorem plain_SerializeRoot (c : Config) (h : Heap) (s : Serializer) (o : HeapObject) :
    recordsOf (SerializeRoot c h s o).2.sink_ = recordsOf s.sink_ := by
  unfold V8Snapshot.SerializeRoot
  split
  · unfold V8Snapshot.PutRoot
    dsimp only
    split
    · exact plain_Put s _ rfl
    · show recordsOf ((s.Put Bytecode.kRootArray).PutInt _).sink_ = _
      rw [plain_PutInt, plain_Put s _ (by rfl)]
  · rfl

theorem record_SerializeHotObject (s : Serializer) (o : HeapObject)
    (hh : (SerializeHotObject s o).1 = true) :
    recordsOf (SerializeHotObject s o).2.sink_ =
      recordsOf s.sink_ ++ [RecordKind.referenceRecord] := by
  unfold V8Snapshot.SerializeHotObject at hh ⊢
  split
  · rename_i e
    rw [e] at hh
    cases hh
  · exact record_Put s _ _ rfl

theorem plain_PutBackReference (s : Serializer) (o : HeapObject) (r : SerializerReference) :
    recordsOf (PutBackReference s o r).sink_ = recordsOf s.sink_ := by
  unfold V8Snapshot.PutBackReference
  cases r
  · rfl
  · show recordsOf ((s.PutInt _).PutInt _).sink_ = _
    rw [plain_PutInt, plain_PutInt]
  · exact plain_PutInt s _
  · exact plain_PutInt s _
  · rfl
  · rfl

theorem record_PutAttachedReference (s : Serializer) (r : SerializerReference) :
    recordsOf (PutAttachedReference s r).sink_ =
      recordsOf s.sink_ ++ [RecordKind.referenceRecord] := by
  unfold V8Snapshot.PutAttachedReference
  split
  · rw [plain_PutInt]
    exact record_Put s _ _ rfl
  · exact record_Put s _ _ rfl

theorem record_SerializeBackReference (c : Config) (h : Heap) (s : Serializer)
    (o : HeapObject) (hb : (SerializeBackReference c h s o).1 = true) :
    recordsOf (SerializeBackReference c h s o).2.sink_ =
      recordsOf s.sink_ ++ [RecordKind.referenceRecord] := by
  unfold V8Snapshot.SerializeBackReference at hb ⊢
  simp only at hb ⊢
  split
  · rename_i e
    rw [if_pos e] at hb
    cases hb
  · split
    · exact record_PutAttachedReference s _
    · rw [plain_PutBackReference, record_Put _ _ _ (by rfl), plain_PutAlignmentPrefix]

theorem record_PutPendingForwardReferenceTo (s : Serializer) (o : HeapObject) :
    recordsOf (PutPendingForwardReferenceTo s o).sink_ =
      recordsOf s.sink_ ++ [RecordKind.referenceRecord] :=
  record_Put s _ _ rfl

theorem record_SerializePendingObject (s : Serializer) (o : HeapObject)
    (hp : (SerializePendingObject s o).1 = true) :
    recordsOf (SerializePendingObject s o).2.sink_ =
      recordsOf s.sink_ ++ [RecordKind.referenceRecord] := by
  unfold V8Snapshot.SerializePendingObject at hp ⊢
  split
  · rename_i e
    rw [e] at hp
    cases hp
  · exact record_PutPendingForwardReferenceTo s o

theorem plain_PutRepeat (c : Config) (s : Serializer) (n : Nat) :
    recordsOf (PutRepeat c s n).sink_ = recordsOf s.sink_ := by
  unfold V8Snapshot.PutRepeat
  split
  · exact plain_Put s _ rfl
  · rw [plain_PutInt, plain_Put s _ (by rfl)]

theorem plain_OutputRawWithCustomField (h : Heap) (s : Serializer) (o : HeapObject)
    (a b f : Int) (n : Nat) (v : List Nat) :
    recordsOf (OutputRawWithCustomField h s o a b f n v).sink_ = recordsOf s.sink_ := by
  unfold V8Snapshot.OutputRawWithCustomField
  simp only
  split
  · rw [plain_PutRaw, plain_PutRaw, plain_PutRaw]
  · exact plain_PutRaw s _

theorem plain_OutputRawData (c : Config) (h : Heap) (os : ObjectSerializer) (s : Serializer)
    (up_to : Int) :
    recordsOf (ObjectSerializer.OutputRawData c h os s up_to).2.sink_ = recordsOf s.sink_ := by
  unfold ObjectSerializer.OutputRawData
  simp only
  have h1 : recordsOf
      (if (up_to - os.bytes_processed_so_far_) % (c.kObjectAlignment : Int) = 0 ∧
          up_to - os.bytes_processed_so_far_ ≤ (c.kFixedRawDataCount : Int) * c.kTaggedSize then
        s.Put (Bytecode.kFixedRawData
          ((up_to - os.bytes_processed_so_far_).toNat >>> c.kTaggedSizeLog2))
      else (s.Put Bytecode.kVariableRawData).PutInt (up_to - os.bytes_processed_so_far_)).sink_ =
      recordsOf s.sink_ := by
    split
    · exact plain_Put s _ rfl
    · rw [plain_PutInt, plain_Put s _ (by rfl)]
  split
  · split
    · rw [plain_OutputRawWithCustomField, h1]
    · rw [plain_OutputRawWithCustomField, h1]
    · rw [plain_PutRaw, h1]
  · rfl

theorem plain_SerializeBackingStore (h : Heap) (s : Serializer) (b n : Nat) :
    recordsOf (SerializeBackingStore h s b n).2.sink_ = recordsOf s.sink_ := by
  unfold V8Snapshot.SerializeBackingStore
  simp only
  split
  · show recordsOf (((s.Put Bytecode.kOffHeapBackingStore).PutInt _).PutRaw _).sink_ = _
    rw [plain_PutRaw, plain_PutInt, plain_Put s _ (by rfl)]
  · rfl

theorem plain_OutputExternalReference (c : Config) (h : Heap) (os : ObjectSerializer)
    (s : Serializer) (target size : Nat) (sandboxify : Bool)
    (r : ObjectSerializer × Serializer)
    (hr : ObjectSerializer.OutputExternalReference c h os s target size sandboxify = .ok r) :
    recordsOf r.2.sink_ = recordsOf s.sink_ := by
  unfold ObjectSerializer.OutputExternalReference at hr
  simp only at hr
  split at hr
  · split at hr
    · cases hr
    · split at hr
      · cases hr
      · split at hr
        · cases hr
        · cases hr
          rw [plain_PutRaw, plain_Put s _ (by rfl)]
  · split at hr
    · cases hr
      rw [plain_PutInt]
      split
      · exact plain_Put s _ rfl
      · exact plain_Put s _ rfl
    · cases hr
      rw [plain_PutInt]
      split
      · exact plain_Put s _ rfl
      · exact plain_Put s _ rfl

theorem plain_OutputSequentialString (c : Config) (h : Heap) (s : Serializer)
    (o : HeapObject) (a b : Nat) (res : List Nat) :
    recordsOf (ObjectSerializer.OutputSequentialString c h s o a b res).sink_ =
      recordsOf s.sink_ := by
  unfold ObjectSerializer.OutputSequentialString
  simp only
  rw [plain_foldl_PutByte, plain_PutRaw, plain_foldl_PutByte, plain_PutInt,
    plain_Put s _ (by rfl)]

theorem plain_OutputCode (c : Config) (h : Heap) (s : Serializer) (o : HeapObject)
    (size : Nat) : recordsOf (ObjectSerializer.OutputCode c h s o size).sink_ =
      recordsOf s.sink_ := by
  unfold ObjectSerializer.OutputCode
  simp only
  rw [plain_PutRaw, plain_PutInt, plain_Put s _ (by rfl)]

theorem plain_PutSmiRoot (c : Config) (s : Serializer) (v : Nat) :
    recordsOf (PutSmiRoot c s v).sink_ = recordsOf s.sink_ := by
  unfold V8Snapshot.PutSmiRoot
  simp only
  rw [plain_PutRaw, plain_Put s _ (by rfl)]

theorem plain_ResolvePendingForwardReference (s : Serializer) (id : Int) :
    recordsOf (ResolvePendingForwardReference s id).sink_ = recordsOf s.sink_ := by
  rw [ResolvePendingForwardReference_sink, recordsOf_append]
  simp [recordsOf, SinkEntry.recordKind]

theorem plain_ResolvePendingObject (s : Serializer) (x : HeapObject) :
    recordsOf (ResolvePendingObject s x).sink_ = recordsOf s.sink_ := by
  have e : ∀ (ids : List Int) (t : Serializer),
      recordsOf (ids.foldl ResolvePendingForwardReference t).sink_ = recordsOf t.sink_ := by
    intro ids
    induction ids with
    | nil => exact fun t => rfl
    | cons id rest ih =>
      intro t
      rw [List.foldl_cons, ih, plain_ResolvePendingForwardReference]
  exact e _ s

theorem plain_RegisterObjectIsPending (s : Serializer) (x : HeapObject) :
    recordsOf (RegisterObjectIsPending s x).sink_ = recordsOf s.sink_ := by
  rw [(register_frame s x).2.2.1]

theorem plain_AllocateAndResolve (c : Config) (h : Heap) (s : Serializer) (y : HeapObject)
    (space : SnapshotSpace) (size : Nat) (r : SerializerReference × Serializer)
    (hr : ObjectSerializer.AllocateAndResolve c h s y space size = .ok r) :
    recordsOf r.2.sink_ = recordsOf s.sink_ := by
  unfold ObjectSerializer.AllocateAndResolve at hr
  split at hr
  · split at hr
    · cases hr
    · cases hr
      exact plain_ResolvePendingObject _ y
  · cases hr
    exact plain_ResolvePendingObject _ y
  · cases hr
    rw [plain_ResolvePendingObject]
    exact plain_PutAlignmentPrefix c h s y

theorem WalkRecords.zero_records (c : Config) (h : Heap) : WalkRecords c h 0 := by
  constructor
  · intro s y s' hok
    cases hok
  · intro s y s' hok
    cases hok
  · intro s y info s' hok
    cases hok
  · intro s y info s' hok
    cases hok
  · intro s y info s' hok
    cases hok
  · intro s y info s' hok
    cases hok
  · intro s y s' hok
    cases hok
  · intro s y space size map s' hok
    cases hok
  · intro os s size r hok
    cases hok
  · intro os s vs r hok
    cases hok
  · intro os s offset slots r hok
    cases hok
  · intro os s offset slots r hok
    cases hok
  · intro os s offset slots r hok
    cases hok
  · intro os s offset cc cur rest r hok
    cases hok

theorem Records.of_record {s s' : Serializer} (e : WalkEvent)
    (hs : recordsOf s'.sink_ = recordsOf s.sink_ ++ [RecordKind.referenceRecord])
    (he : e.recordKind = some RecordKind.referenceRecord) : Records s s' [e] := by
  simp [Records, recordedBy, hs, he]

theorem Records.cons_silent {s s' : Serializer} {ev : List WalkEvent} (e : WalkEvent)
    (he : e.recordKind = none) (hr : Records s s' ev) : Records s s' (e :: ev) := by
  unfold Records at *
  rw [hr]
  simp [recordedBy, he]

theorem WalkRecords.records_serializeObject {c : Config} {h : Heap} {fuel : Nat}
    (ih : WalkRecords c h fuel) (s : Serializer) (y : HeapObject) (s' : Serializer)
    (hok : SerializeObject c h (fuel + 1) s y = .ok s') :
    Records s s' (SerializeObject.events c h (fuel + 1) s y) := by
  rw [SerializeObject_succ] at hok
  rw [SerializeObject.events]
  refine Records.cons_silent _ rfl ?_
  split at hok
  · rename_i hr
    cases hok
    rw [if_pos hr]
    exact Records.of_plain (plain_SerializeRoot c h s y)
  · rename_i hr
    rw [if_neg hr]
    split at hok
    · rename_i hh
      cases hok
      rw [if_pos hh]
      exact Records.of_record _ (record_SerializeHotObject s y hh) rfl
    · rename_i hh
      rw [if_neg hh]
      split at hok
      · rename_i hb
        cases hok
        rw [if_pos hb]
        exact Records.of_record _ (record_SerializeBackReference c h s y hb) rfl
      · rename_i hb
        rw [if_neg hb]
        split at hok
        · rename_i hp
          cases hok
          rw [if_pos hp]
          exact Records.of_record _ (record_SerializePendingObject s y hp) rfl
        · rename_i hp
          rw [if_neg hp]
          exact ih.serialize s y s' hok

theorem WalkRecords.records_serialize {c : Config} {h : Heap} {fuel : Nat}
    (ih : WalkRecords c h fuel) (s : Serializer) (y : HeapObject) (s' : Serializer)
    (hok : ObjectSerializer.Serialize c h (fuel + 1) s y = .ok s') :
    Records s s' (ObjectSerializer.Serialize.events c h (fuel + 1) s y) := by
  rw [Serialize_succ] at hok
  rw [ObjectSerializer.Serialize.events]
  by_cases hd : ObjectSerializer.ShouldDefer c h (RecursionScope.enter s) y = true
  · rw [if_pos hd] at hok ⊢
    cases hok
    refine Records.cons_silent _ rfl (Records.of_record _ ?_ rfl)
    show recordsOf (PutPendingForwardReferenceTo
      (RegisterObjectIsPending (RecursionScope.enter s) y) y).sink_ = _
    rw [record_PutPendingForwardReferenceTo, plain_RegisterObjectIsPending]
    rfl
  · rw [if_neg hd] at hok ⊢
    obtain ⟨s2, h1, h2⟩ := (Result.bind_eq_ok _ _ _).1 hok
    cases h2
    have key : Records (RecursionScope.enter s) s2
        (match h.kind y with
          | .externalString info =>
            ObjectSerializer.SerializeExternalString.events c h fuel (RecursionScope.enter s)
              y info
          | .jsTypedArray info =>
            ObjectSerializer.SerializeJSTypedArray.events c h fuel (RecursionScope.enter s)
              y info
          | .jsArrayBuffer info =>
            ObjectSerializer.SerializeJSArrayBuffer.events c h fuel (RecursionScope.enter s)
              y info
          | _ => ObjectSerializer.SerializeObject.events c h fuel (RecursionScope.enter s)
              y) := by
      generalize h.kind y = k at h1 ⊢
      cases k
      · exact ih.object _ _ _ h1
      · exact ih.object _ _ _ h1
      · exact ih.object _ _ _ h1
      · exact ih.object _ _ _ h1
      · obtain ⟨r, hr, he⟩ := (Result.bind_eq_ok _ _ _).1 h1
        cases he
        exact ih.externalString _ _ _ r hr
      · exact ih.typedArray _ _ _ _ h1
      · obtain ⟨r, hr, he⟩ := (Result.bind_eq_ok _ _ _).1 h1
        cases he
        exact ih.arrayBuffer _ _ _ r hr
    exact key

theorem WalkRecords.records_externalString {c : Config} {h : Heap} {fuel : Nat}
    (ih : WalkRecords c h fuel) (ihw : ∀ h1 : Heap, WalkRecords c h1 fuel)
    (s : Serializer) (y : HeapObject) (info : ExternalStringInfo) (s' : Heap × Serializer)
    (hok : ObjectSerializer.SerializeExternalString c h (fuel + 1) s y info = .ok s') :
    Records s s'.2
      (ObjectSerializer.SerializeExternalString.events c h (fuel + 1) s y info) := by
  rw [SerializeExternalString_succ] at hok
  rw [ObjectSerializer.SerializeExternalString.events]
  cases ht : h.TryEncode info.resource_as_address with
  | some reference =>
    simp only [ht] at hok ⊢
    obtain ⟨s1, h1, he⟩ := (Result.bind_eq_ok _ _ _).1 hok
    cases he
    exact (ihw _).object _ _ _ h1
  | none =>
    simp only [ht] at hok ⊢
    obtain ⟨s1, h1, he⟩ := (Result.bind_eq_ok _ _ _).1 hok
    cases he
    exact ih.sequentialString _ _ _ _ h1

theorem WalkRecords.records_sequentialString {c : Config} {h : Heap} {fuel : Nat}
    (ih : WalkRecords c h fuel) (s : Serializer) (y : HeapObject) (info : ExternalStringInfo)
    (s' : Serializer)
    (hok : ObjectSerializer.SerializeExternalStringAsSequentialString c h (fuel + 1) s y info =
      .ok s') :
    Records s s'
      (ObjectSerializer.SerializeExternalStringAsSequentialString.events c h (fuel + 1)
        s y info) := by
  rw [SerializeExternalStringAsSequentialString_succ] at hok
  rw [ObjectSerializer.SerializeExternalStringAsSequentialString.events]
  obtain ⟨s1, h1, he⟩ := (Result.bind_eq_ok _ _ _).1 hok
  cases he
  exact (ih.prologue _ _ _ _ _ _ h1).post_plain (plain_OutputSequentialString c h s1 y _ _ _)

theorem WalkRecords.records_typedArray {c : Config} {h : Heap} {fuel : Nat}
    (ih : WalkRecords c h fuel) (s : Serializer) (y : HeapObject) (info : JSTypedArrayInfo)
    (s' : Serializer)
    (hok : ObjectSerializer.SerializeJSTypedArray c h (fuel + 1) s y info = .ok s') :
    Records s s' (ObjectSerializer.SerializeJSTypedArray.events c h (fuel + 1) s y info) := by
  rw [SerializeJSTypedArray_succ] at hok
  rw [ObjectSerializer.SerializeJSTypedArray.events]
  split at hok
  · rename_i h1
    rw [if_pos h1]
    exact ih.object _ _ _ hok
  · rename_i h1
    rw [if_neg h1]
    split at hok
    · rename_i h2
      rw [if_pos h2]
      split at hok
      · cases hok
      · rename_i h3
        rw [if_neg h3]
        exact (ih.object _ _ _ hok).pre_plain (plain_SerializeBackingStore h s _ _)
    · rename_i h2
      rw [if_neg h2]
      exact ih.object _ _ _ hok

theorem WalkRecords.records_arrayBuffer {c : Config} {h : Heap} {fuel : Nat}
    (ihw : ∀ h1 : Heap, WalkRecords c h1 fuel)
    (s : Serializer) (y : HeapObject) (info : JSArrayBufferInfo) (s' : Heap × Serializer)
    (hok : ObjectSerializer.SerializeJSArrayBuffer c h (fuel + 1) s y info = .ok s') :
    Records s s'.2
      (ObjectSerializer.SerializeJSArrayBuffer.events c h (fuel + 1) s y info) := by
  rw [SerializeJSArrayBuffer_succ] at hok
  rw [ObjectSerializer.SerializeJSArrayBuffer.events]
  split at hok
  · cases hok
  · rename_i h1
    rw [if_neg h1]
    cases hb : info.backing_store with
    | some backing_store =>
      simp only [hb] at hok ⊢
      obtain ⟨s1, h2, he⟩ := (Result.bind_eq_ok _ _ _).1 hok
      cases he
      exact ((ihw _).object _ _ _ h2).pre_plain (plain_SerializeBackingStore h s _ _)
    | none =>
      simp only [hb] at hok ⊢
      obtain ⟨s1, h2, he⟩ := (Result.bind_eq_ok _ _ _).1 hok
      cases he
      exact (ihw _).object _ _ _ h2

theorem WalkRecords.records_object {c : Config} {h : Heap} {fuel : Nat}
    (ih : WalkRecords c h fuel) (s : Serializer) (y : HeapObject) (s' : Serializer)
    (hok : ObjectSerializer.SerializeObject c h (fuel + 1) s y = .ok s') :
    Records s s' (ObjectSerializer.SerializeObject.events c h (fuel + 1) s y) := by
  rw [ObjectSerializer_SerializeObject_succ] at hok
  rw [ObjectSerializer.SerializeObject.events]
  cases hg : GetSnapshotSpace c h y with
  | none =>
    simp only [hg] at hok
    cases hok
  | some space =>
    simp only [hg] at hok ⊢
    obtain ⟨s1, h1, h2⟩ := (Result.bind_eq_ok _ _ _).1 hok
    obtain ⟨r, h3, h4⟩ := (Result.bind_eq_ok _ _ _).1 h2
    cases h4
    rw [h1]
    exact (ih.prologue _ _ _ _ _ _ h1).trans_records (ih.content _ _ _ _ h3)

theorem Records.of_fresh {s s' : Serializer} {ev : List WalkEvent} (y : HeapObject)
    (s1 : Serializer)
    (hs : recordsOf s1.sink_ = recordsOf s.sink_ ++ [RecordKind.freshEncoding])
    (hr : Records s1 s' ev) : Records s s' (WalkEvent.freshEncoding y :: ev) := by
  unfold Records at *
  rw [hr, hs]
  simp [recordedBy, WalkEvent.recordKind]

theorem WalkRecords.records_prologue {c : Config} {h : Heap} {fuel : Nat}
    (ih : WalkRecords c h fuel) (s : Serializer) (y : HeapObject) (space : SnapshotSpace)
    (size : Nat) (map : HeapObject) (s' : Serializer)
    (hok : ObjectSerializer.SerializePrologue c h (fuel + 1) s y space size map = .ok s') :
    Records s s'
      (ObjectSerializer.SerializePrologue.events c h (fuel + 1) s y space size map) := by
  rw [SerializePrologue_succ] at hok
  rw [ObjectSerializer.SerializePrologue.events]
  by_cases hm : map = y
  · rw [if_pos hm] at hok ⊢
    cases hok
    exact Records.of_fresh y (s.Put Bytecode.kNewMetaMap) (record_Put s _ _ rfl)
      (Records.of_plain rfl)
  · rw [if_neg hm] at hok ⊢
    obtain ⟨s3, h1, h2⟩ := (Result.bind_eq_ok _ _ _).1 hok
    obtain ⟨r, h3, h4⟩ := (Result.bind_eq_ok _ _ _).1 h2
    cases h4
    refine Records.of_fresh y _ ?_
      ((ih.serializeObject _ _ _ h1).post_plain
        (show recordsOf (r.2.AddReference (RefKey.object y) r.1).sink_ = recordsOf s3.sink_
          from plain_AllocateAndResolve c h s3 y space size r h3))
    rw [plain_RegisterObjectIsPending, plain_PutInt]
    exact record_Put s _ _ rfl

theorem WalkRecords.records_content {c : Config} {h : Heap} {fuel : Nat}
    (ih : WalkRecords c h fuel) (os : ObjectSerializer) (s : Serializer) (size : Nat)
    (r : ObjectSerializer × Serializer)
    (hok : ObjectSerializer.SerializeContent c h (fuel + 1) os s size = .ok r) :
    Records s r.2 (ObjectSerializer.SerializeContent.events c h (fuel + 1) os s size) := by
  rw [SerializeContent_succ] at hok
  rw [ObjectSerializer.SerializeContent.events]
  by_cases hk : h.kind os.object_ = InstanceKind.code
  · rw [if_pos hk] at hok ⊢
    exact (ih.iterateBody _ _ _ _ hok).pre_plain (plain_OutputCode c h s os.object_ size)
  · rw [if_neg hk] at hok ⊢
    obtain ⟨r1, h1, h2⟩ := (Result.bind_eq_ok _ _ _).1 hok
    cases h2
    exact (ih.iterateBody _ _ _ _ h1).post_plain (plain_OutputRawData c h r1.1 r1.2 size)

theorem WalkRecords.records_iterateBody {c : Config} {h : Heap} {fuel : Nat}
    (ih : WalkRecords c h fuel) (os : ObjectSerializer) (s : Serializer)
    (vs : List BodyVisit) (r : ObjectSerializer × Serializer)
    (hok : ObjectSerializer.IterateBody c h (fuel + 1) os s vs = .ok r) :
    Records s r.2 (ObjectSerializer.IterateBody.events c h (fuel + 1) os s vs) := by
  cases vs with
  | nil =>
    rw [IterateBody_nil] at hok
    cases hok
    rw [ObjectSerializer.IterateBody.events]
    exact Records.refl_records s
  | cons v rest =>
    rw [IterateBody_cons] at hok
    obtain ⟨r1, h1, h2⟩ := (Result.bind_eq_ok _ _ _).1 hok
    have hsingle : ObjectSerializer.IterateBody c h (fuel + 1) os s [v] = .ok r1 := by
      rw [IterateBody_cons, h1]
      cases fuel with
      | zero =>
        rw [IterateBody_zero] at h2
        cases h2
      | succ k => rfl
    have hrest := ih.iterateBody _ _ _ _ h2
    rw [IterateBody_events_cons, hsingle]
    dsimp only
    refine Records.trans_records ?_ hrest
    cases v with
    | VisitPointers start_offset slots => exact ih.visitPointers _ _ _ _ _ h1
    | VisitEmbeddedPointer target target_address_size =>
      obtain ⟨s1, h3, h4⟩ := (Result.bind_eq_ok _ _ _).1 h1
      cases h4
      exact ih.serializeObject _ _ _ h3
    | VisitForeignExternalReference foreign_address =>
      exact Records.of_plain (plain_OutputExternalReference c h os s _ _ _ r1 h1)
    | VisitCodeExternalReference target target_address_size =>
      exact Records.of_plain (plain_OutputExternalReference c h os s _ _ _ r1 h1)
    | VisitInternalReference target_offset =>
      cases h1
      refine Records.of_plain ?_
      show recordsOf ((s.Put Bytecode.kInternalReference).PutInt _).sink_ = _
      rw [plain_PutInt, plain_Put s _ (by rfl)]
    | VisitRuntimeEntry => cases h1
    | VisitOffHeapTarget addr target_address_size =>
      dsimp only at h1
      split at h1
      · cases h1
      · split at h1
        · cases h1
        · cases h1
          refine Records.of_plain ?_
          show recordsOf ((s.Put Bytecode.kOffHeapTarget).PutInt _).sink_ = _
          rw [plain_PutInt, plain_Put s _ (by rfl)]
    | VisitCodeTarget target target_address_size =>
      obtain ⟨s1, h3, h4⟩ := (Result.bind_eq_ok _ _ _).1 h1
      cases h4
      exact ih.serializeObject _ _ _ h3

theorem WalkRecords.records_visitPointers {c : Config} {h : Heap} {fuel : Nat}
    (ih : WalkRecords c h fuel) (os : ObjectSerializer) (s : Serializer) (offset : Nat)
    (slots : List MaybeObject) (r : ObjectSerializer × Serializer)
    (hok : ObjectSerializer.VisitPointers c h (fuel + 1) os s offset slots = .ok r) :
    Records s r.2 (ObjectSerializer.VisitPointers.events c h (fuel + 1) os s offset slots) := by
  cases slots with
  | nil =>
    rw [VisitPointers_nil] at hok
    cases hok
    rw [ObjectSerializer.VisitPointers.events]
    exact Records.refl_records s
  | cons slot slots =>
    rw [VisitPointers_cons] at hok
    rw [VisitPointers_events_cons]
    cases slot with
    | Smi v => exact ih.visitPointers _ _ _ _ _ hok
    | Cleared =>
      exact (ih.cleared _ _ _ _ _ hok).pre_plain (plain_OutputRawData c h os s offset)
    | Strong t =>
      exact (ih.cleared _ _ _ _ _ hok).pre_plain (plain_OutputRawData c h os s offset)
    | Weak t =>
      exact (ih.cleared _ _ _ _ _ hok).pre_plain (plain_OutputRawData c h os s offset)

theorem WalkRecords.records_cleared {c : Config} {h : Heap} {fuel : Nat}
    (ih : WalkRecords c h fuel) (os : ObjectSerializer) (s : Serializer) (offset : Nat)
    (slots : List MaybeObject) (r : ObjectSerializer × Serializer)
    (hok : ObjectSerializer.VisitPointers.cleared c h (fuel + 1) os s offset slots = .ok r) :
    Records s r.2
      (ObjectSerializer.VisitPointers.cleared.events c h (fuel + 1) os s offset slots) := by
  rw [VisitPointers_cleared_succ] at hok
  rw [VisitPointers_cleared_events_succ]
  cases slots with
  | nil => exact ih.heapObjects _ _ _ _ _ hok
  | cons slot rest =>
    cases slot with
    | Smi v => exact ih.heapObjects _ _ _ _ _ hok
    | Cleared =>
      exact (ih.cleared _ _ _ _ _ hok).pre_plain (plain_Put s Bytecode.kClearedWeakReference rfl)
    | Strong t => exact ih.heapObjects _ _ _ _ _ hok
    | Weak t => exact ih.heapObjects _ _ _ _ _ hok

theorem WalkRecords.records_heapObjects {c : Config} {h : Heap} {fuel : Nat}
    (ih : WalkRecords c h fuel) (os : ObjectSerializer) (s : Serializer) (offset : Nat)
    (slots : List MaybeObject) (r : ObjectSerializer × Serializer)
    (hok : ObjectSerializer.VisitPointers.heapObjects c h (fuel + 1) os s offset slots =
      .ok r) :
    Records s r.2
      (ObjectSerializer.VisitPointers.heapObjects.events c h (fuel + 1) os s offset
        slots) := by
  rw [VisitPointers_heapObjects_succ] at hok
  rw [VisitPointers_heapObjects_events_succ]
  cases slots with
  | nil =>
    cases hok
    exact Records.refl_records s
  | cons slot rest =>
    cases slot with
    | Smi v => exact ih.visitPointers _ _ _ _ _ hok
    | Cleared => exact ih.visitPointers _ _ _ _ _ hok
    | Strong t => exact ih.reference _ _ _ _ _ _ _ hok
    | Weak t =>
      exact (ih.reference _ _ _ _ _ _ _ hok).pre_plain (plain_Put s Bytecode.kWeakPrefix rfl)

theorem WalkRecords.records_reference {c : Config} {h : Heap} {fuel : Nat}
    (ih : WalkRecords c h fuel) (os : ObjectSerializer) (s : Serializer) (offset : Nat)
    (cc : HeapObject) (cur : MaybeObject) (rest : List MaybeObject)
    (r : ObjectSerializer × Serializer)
    (hok : ObjectSerializer.VisitPointers.reference c h (fuel + 1) os s offset cc cur rest =
      .ok r) :
    Records s r.2
      (ObjectSerializer.VisitPointers.reference.events c h (fuel + 1) os s offset cc cur
        rest) := by
  rw [VisitPointers_reference_succ] at hok
  rw [ObjectSerializer.VisitPointers.reference.events]
  split at hok
  · rename_i hp
    rw [if_pos hp]
    have hrest := ih.heapObjects _ _ _ _ _ hok
    have h1 : Records s (SerializePendingObject s cc).2
        [WalkEvent.edge cc, WalkEvent.referenceRecord cc] :=
      Records.cons_silent _ rfl (Records.of_record _ (record_SerializePendingObject s cc hp) rfl)
    exact h1.trans_records hrest
  · rename_i hp
    rw [if_neg hp]
    split at hok
    · rename_i hrep
      rw [if_pos hrep]
      obtain ⟨s1, h1, h2⟩ := (Result.bind_eq_ok _ _ _).1 hok
      simp only [h1]
      exact ((ih.serializeObject _ _ _ h1).pre_plain (plain_PutRepeat c s _)).trans_records
        (ih.heapObjects _ _ _ _ _ h2)
    · rename_i hrep
      rw [if_neg hrep]
      obtain ⟨s1, h1, h2⟩ := (Result.bind_eq_ok _ _ _).1 hok
      simp only [h1]
      exact (ih.serializeObject _ _ _ h1).trans_records (ih.heapObjects _ _ _ _ _ h2)

/-- Every function of the graph walk, whatever the fuel, writes the records of
its events, in the order of the events. -/
theorem walkRecords (c : Config) (fuel : Nat) : ∀ h : Heap, WalkRecords c h fuel := by
  induction fuel with
  | zero => exact fun h => WalkRecords.zero_records c h
  | succ n ih =>
    intro h
    have ihh := ih h
    exact
      { serializeObject := fun s y s' hok => ihh.records_serializeObject s y s' hok
        serialize := fun s y s' hok => ihh.records_serialize s y s' hok
        externalString := fun s y info s' hok => ihh.records_externalString ih s y info s' hok
        sequentialString := fun s y info s' hok =>
          ihh.records_sequentialString s y info s' hok
        typedArray := fun s y info s' hok => ihh.records_typedArray s y info s' hok
        arrayBuffer := fun s y info s' hok =>
          WalkRecords.records_arrayBuffer ih s y info s' hok
        object := fun s y s' hok => ihh.records_object s y s' hok
        prologue := fun s y space size map s' hok =>
          ihh.records_prologue s y space size map s' hok
        content := fun os s size r hok => ihh.records_content os s size r hok
        iterateBody := fun os s vs r hok => ihh.records_iterateBody os s vs r hok
        visitPointers := fun os s offset slots r hok =>
          ihh.records_visitPointers os s offset slots r hok
        cleared := fun os s offset slots r hok => ihh.records_cleared os s offset slots r hok
        heapObjects := fun os s offset slots r hok =>
          ihh.records_heapObjects os s offset slots r hok
        reference := fun os s offset cc cur rest r hok =>
          ihh.records_reference os s offset cc cur rest r hok }

theorem VisitRootPointers_records (c : Config) (h : Heap) (fuel : Nat) (roots : List Object)
    (s s' : Serializer) (hok : VisitRootPointers c h fuel s roots = .ok s') :
    Records s s' (VisitRootPointers.events c h fuel s roots) := by
  induction roots generalizing s with
  | nil =>
    simp only [VisitRootPointers] at hok
    cases hok
    simp only [VisitRootPointers.events]
    exact Records.refl_records _
  | cons o rest ih =>
    simp only [VisitRootPointers] at hok
    obtain ⟨s1, h1, h2⟩ := (Result.bind_eq_ok _ _ _).1 hok
    simp only [VisitRootPointers.events, h1]
    refine Records.trans_records ?_ (ih s1 h2)
    cases o with
    | Smi raw_value =>
      simp only [SerializeRootObject] at h1
      cases h1
      simp only [SerializeRootObject.events]
      exact Records.of_plain (plain_PutSmiRoot c s raw_value)
    | HeapObject obj =>
      simp only [SerializeRootObject] at h1
      simp only [SerializeRootObject.events]
      exact (walkRecords c fuel h).serializeObject _ _ _ h1

theorem SerializeDeferredObjects_records (c : Config) (h : Heap) (fuel : Nat) :
    ∀ (s s' : Serializer), SerializeDeferredObjects c h fuel s = .ok s' →
      Records s s' (SerializeDeferredObjects.events c h fuel s) := by
  induction fuel with
  | zero =>
    intro s s' hok
    cases hok
  | succ k ih =>
    intro s s' hok
    rw [SerializeDeferredObjects_succ] at hok
    rw [SerializeDeferredObjects_events_succ]
    cases hl : s.deferred_objects_.getLast? with
    | none =>
      simp only [hl] at hok ⊢
      cases hok
      exact Records.of_plain (plain_Put s _ rfl)
    | some y =>
      simp only [hl] at hok ⊢
      obtain ⟨s1, h1, h2⟩ := (Result.bind_eq_ok _ _ _).1 hok
      rw [h1]
      simp only
      refine Records.trans_records ?_ (ih s1 s' h2)
      unfold ObjectSerializer.SerializeDeferred at h1
      unfold ObjectSerializer.SerializeDeferred.events
      dsimp only at h1
      split at h1
      · rename_i hv
        cases h1
        rw [if_pos hv]
        exact Records.of_plain rfl
      · rename_i hv
        rw [if_neg hv]
        exact ((walkRecords c k h).serialize _ _ _ h1).pre_plain rfl

/-- The fresh encodings and reference records in the stream of a complete run
that returns are, in stream order, those of the events of the run. -/
theorem SerializeRun_records (c : Config) (h : Heap) (fuel : Nat) (roots : List Object)
    (s' : Serializer) (hrun : SerializeRun c h fuel roots = .ok s') :
    recordsOf s'.sink_ = recordedBy (SerializeRun.events c h fuel roots) := by
  unfold SerializeRun at hrun
  obtain ⟨s1, h1, h2⟩ := (Result.bind_eq_ok _ _ _).1 hrun
  unfold SerializeRun.events
  rw [h1]
  simp only
  have r1 := VisitRootPointers_records c h fuel roots _ s1 h1
  have r2 := SerializeDeferredObjects_records c h fuel s1 s' h2
  have r3 := r1.trans_records r2
  unfold Records at r3
  rw [r3]
  simp [Serializer.initial, recordsOf]

/-! ## Dedup, node by node -/

/-- Counterexample for C4. Over `chainHeap` (object 1 references object 2, and
nothing else does) with recursion bound 1, the complete run from root object 1
defers object 2, which is not in the root table: one edge targets it, and the
stream holds its fresh encoding (the second new-object record) and one
reference record for it, the forward-reference record of the deferral, not
zero reference records; in stream order the records are the fresh encoding of
object 1, the reference record for object 2 and the fresh encoding of
object 2. -/
theorem deferred_node_one_edge_one_reference :
    SerializeRun (exampleConfig 1) chainHeap 16 [Object.HeapObject 1] = .ok chainRunResult ∧
    chainHeap.root_index_map 2 = none ∧
    chainHeap.body 1 = [BodyVisit.VisitPointers 8 [MaybeObject.Strong 2]] ∧
    chainHeap.body 2 = [] ∧
    SerializeRun.events (exampleConfig 1) chainHeap 16 [Object.HeapObject 1] =
      [WalkEvent.edge 1, WalkEvent.freshEncoding 1, WalkEvent.edge 0, WalkEvent.edge 2,
        WalkEvent.deferral 2, WalkEvent.referenceRecord 2, WalkEvent.freshEncoding 2,
        WalkEvent.edge 0] ∧
    edgesTo 2 (SerializeRun.events (exampleConfig 1) chainHeap 16 [Object.HeapObject 1]) = 1 ∧
    freshEncodingsOf 2
      (SerializeRun.events (exampleConfig 1) chainHeap 16 [Object.HeapObject 1]) = 1 ∧
    referenceRecordsFor 2
      (SerializeRun.events (exampleConfig 1) chainHeap 16 [Object.HeapObject 1]) = 1 ∧
    chainRunResult.sink_.count (SinkEntry.Put (Bytecode.kNewObject SnapshotSpace.kOld)) = 2 ∧
    chainRunResult.sink_.count (SinkEntry.Put Bytecode.kRegisterPendingForwardRef) = 1 ∧
    recordsOf chainRunResult.sink_ =
      [RecordKind.freshEncoding, RecordKind.referenceRecord, RecordKind.freshEncoding] := by
  refine ⟨by decide!, by decide, by decide, by decide, by decide!, by decide!, by decide!,
    by decide!, by decide, by decide, by decide⟩

/-- C4, amended. Dedup, node by node. In every complete run that returns, for
every node `x` that is not in the root table: if at least one edge to `x` is
followed (N edges), exactly one fresh encoding of `x` is written, and the
reference records written for `x` are N - 1 when `x` is not deferred and N when
it is deferred, which happens at most once (the deferral answers an edge with a
forward-reference record, and the fresh encoding comes in the deferred pass);
if no edge to `x` is followed, nothing is written for `x`. The fresh encodings
and reference records counted here are those of the stream: the new-object and
new-meta-map records and the hot-object, back-reference, attached-reference and
forward-reference records of the stream are, one for one and in stream order,
the fresh encodings and reference records of the run. In the scenario with
root A and edges A -> B, A -> C, B -> D, C -> D (A, B, C, D being objects 1, 2,
3, 4) two edges target D, D is encoded afresh once and gets one reference
record: the stream holds four new-object records (A, B, D, C) and exactly one
back-reference record, which carries the Location of D. -/
theorem dedup_per_node (c : Config) (h : Heap) (fuel : Nat) (roots : List Object)
    (s' : Serializer) (hrun : SerializeRun c h fuel roots = .ok s') (x : HeapObject)
    (hx : h.root_index_map x = none) :
    (0 < edgesTo x (SerializeRun.events c h fuel roots) →
      freshEncodingsOf x (SerializeRun.events c h fuel roots) = 1 ∧
      ((deferralsOf x (SerializeRun.events c h fuel roots) = 0 ∧
          referenceRecordsFor x (SerializeRun.events c h fuel roots) =
            edgesTo x (SerializeRun.events c h fuel roots) - 1) ∨
        (deferralsOf x (SerializeRun.events c h fuel roots) = 1 ∧
          referenceRecordsFor x (SerializeRun.events c h fuel roots) =
            edgesTo x (SerializeRun.events c h fuel roots)))) ∧
    (edgesTo x (SerializeRun.events c h fuel roots) = 0 →
      freshEncodingsOf x (SerializeRun.events c h fuel roots) = 0 ∧
      referenceRecordsFor x (SerializeRun.events c h fuel roots) = 0 ∧
      deferralsOf x (SerializeRun.events c h fuel roots) = 0) ∧
    recordsOf s'.sink_ = recordedBy (SerializeRun.events c h fuel roots) ∧
    (SerializeRun (exampleConfig 32) diamondHeap 30 [Object.HeapObject 1] =
        .ok diamondRunResult ∧
      SerializeRun.events (exampleConfig 32) diamondHeap 30 [Object.HeapObject 1] =
        [WalkEvent.edge 1, WalkEvent.freshEncoding 1, WalkEvent.edge 0,
          WalkEvent.edge 2, WalkEvent.freshEncoding 2, WalkEvent.edge 0,
          WalkEvent.edge 4, WalkEvent.freshEncoding 4, WalkEvent.edge 0,
          WalkEvent.edge 3, WalkEvent.freshEncoding 3, WalkEvent.edge 0,
          WalkEvent.edge 4, WalkEvent.referenceRecord 4] ∧
      diamondRunResult.sink_.count (SinkEntry.Put (Bytecode.kNewObject SnapshotSpace.kOld)) = 4 ∧
      freshCount diamondRunResult.sink_ = 4 ∧
      diamondRunResult.sink_.count (SinkEntry.Put (Bytecode.kBackref SnapshotSpace.kOld)) = 1 ∧
      diamondRunResult.LookupReference (RefKey.object 4) =
        SerializerReference.backReference SnapshotSpace.kOld 0 40 ∧
      diamondRunResult.sink_.drop 12 =
        [SinkEntry.Put (Bytecode.kBackref SnapshotSpace.kOld), SinkEntry.PutInt 0,
          SinkEntry.PutInt 40, SinkEntry.Put Bytecode.kSynchronize]) := by
  refine ⟨?_, ?_, SerializeRun_records c h fuel roots s' hrun, by decide!, by decide!,
    by decide, by decide, by decide, by decide, by decide⟩
  · intro he
    rcases SerializeRun_tally c h fuel roots s' hrun x hx with p | p
    · have := p.1
      omega
    · obtain ⟨p1, p2, p3, p4⟩ := p
      refine ⟨p1, ?_⟩
      by_cases hd : deferralsOf x (SerializeRun.events c h fuel roots) = 0
      · exact Or.inl ⟨hd, by omega⟩
      · exact Or.inr ⟨by omega, by omega⟩
  · intro he
    rcases SerializeRun_tally c h fuel roots s' hrun x hx with p | p
    · exact ⟨p.2.2.1, p.2.1, p.2.2.2⟩
    · obtain ⟨p1, p2, p3, p4⟩ := p
      omega

/-- Witness for C4 (amended): node D (object 4) of the diamond, with two edges,
one fresh encoding and one reference record; and object 2 of `tripleHeap`, the
target of three edges, which gets two reference records when it is encoded at
its first edge and three when it is deferred there. The stream of the diamond
holds four fresh encodings followed by one reference record. -/
theorem dedup_per_node_witness :
    (freshEncodingsOf 4
        (SerializeRun.events (exampleConfig 32) diamondHeap 30 [Object.HeapObject 1]) = 1 ∧
      ((deferralsOf 4
            (SerializeRun.events (exampleConfig 32) diamondHeap 30 [Object.HeapObject 1]) = 0 ∧
          referenceRecordsFor 4
            (SerializeRun.events (exampleConfig 32) diamondHeap 30 [Object.HeapObject 1]) =
              edgesTo 4 (SerializeRun.events (exampleConfig 32) diamondHeap 30
                [Object.HeapObject 1]) - 1) ∨
        (deferralsOf 4
            (SerializeRun.events (exampleConfig 32) diamondHeap 30 [Object.HeapObject 1]) = 1 ∧
          referenceRecordsFor 4
            (SerializeRun.events (exampleConfig 32) diamondHeap 30 [Object.HeapObject 1]) =
              edgesTo 4 (SerializeRun.events (exampleConfig 32) diamondHeap 30
                [Object.HeapObject 1])))) ∧
    edgesTo 4 (SerializeRun.events (exampleConfig 32) diamondHeap 30 [Object.HeapObject 1]) = 2 ∧
    recordsOf diamondRunResult.sink_ =
      [RecordKind.freshEncoding, RecordKind.freshEncoding, RecordKind.freshEncoding,
        RecordKind.freshEncoding, RecordKind.referenceRecord] ∧
    SerializeRun.events (exampleConfig 32) tripleHeap 30 [Object.HeapObject 1] =
      [WalkEvent.edge 1, WalkEvent.freshEncoding 1, WalkEvent.edge 0,
        WalkEvent.edge 2, WalkEvent.freshEncoding 2, WalkEvent.edge 0,
        WalkEvent.edge 2, WalkEvent.referenceRecord 2,
        WalkEvent.edge 2, WalkEvent.referenceRecord 2] ∧
    SerializeRun.events (exampleConfig 1) tripleHeap 30 [Object.HeapObject 1] =
      [WalkEvent.edge 1, WalkEvent.freshEncoding 1, WalkEvent.edge 0,
        WalkEvent.edge 2, WalkEvent.deferral 2, WalkEvent.referenceRecord 2,
        WalkEvent.edge 2, WalkEvent.referenceRecord 2,
        WalkEvent.edge 2, WalkEvent.referenceRecord 2,
        WalkEvent.freshEncoding 2, WalkEvent.edge 0] :=
  ⟨(dedup_per_node (exampleConfig 32) diamondHeap 30 [Object.HeapObject 1] diamondRunResult
      (by decide!) 4 (by decide)).1 (by decide!),
    by decide!, by decide, by decide!, by decide!⟩

end V8Snapshot
